import Mathlib

/-!
# ECE391 teaching kernel: process and I/O nucleus

A shallow embedding of `mp3/student-distrib` (system.c, pcb.c, paging.c,
scheduler.c, file_sys.c, term.c, rtc.c) and theorems about it.

Conventions of the embedding
* 32-bit machine words are `Nat` (unsigned) or `Int` (signed) with explicit
  reduction modulo `2^32` where the C code converts or may wrap.
* The kernel's global variables are the fields of one record, `Kernel`.
* A C function that may dereference a NULL pointer, index an array out of
  range, store through a pointer to an address that is not mapped, or wait for
  an interrupt that never arrives returns `Option`; `none` stands for "does not
  return normally" (a fault ends in `do_exc`, which halts the process).
  Interrupts arrive only where a definition lists them (`env`); the steps of a
  call between which a timer tick is followed are separate definitions
  (`return_remap`, `return_finish`).
* A `char*` string argument is given by the bytes stored from the pointer
  onwards (`List Nat`); every byte past the end of the list reads as NUL.
* Data buffers (`buf` of read/write/getargs, `screen_start` of vidmap, the
  program image) live in `Kernel.mem`, a byte store indexed by virtual address.
* The stores of `file_read`, `dir_read`, `system_getargs`, `system_vidmap` and
  of the program loader go through the page tables (`store_byte`): a store to
  an address without a mapping is a page fault. The PCBs, the page tables, the
  kernel stacks and the other kernel variables are fields of `Kernel` and not
  bytes of `mem`; they lie in the kernel's page. A store that lands in the
  first 8 MiB of physical memory may overwrite any of them, the state it leaves
  is not one this record describes, and no result is given for it: it is
  `none` as well. Every theorem about these calls names the page the buffer
  lies in. The terminal driver stores into `mem` directly.
-/

namespace ECE391

/-! ## Constants (file.h, pcb.h, paging.h, system.h, scheduler.h, file_sys.h, rtc.h) -/

/-- Modelled from the spec: types.h / lib.h are not in src; the spec fixes the
success value of every system call at 0. -/
def SUCCESS : Int := 0
/-- Modelled from the spec: types.h / lib.h are not in src; the spec fixes the
failure value of every system call at -1. -/
def FAILURE : Int := -1

def FD_ARRAY_SIZE : Nat := 8
def NOT_IN_USE : Nat := 0
def IN_USE : Nat := 1
def INIT_FILE_POS : Nat := 0

def MAX_PROCESS_GROUPS : Nat := 3
def NUM_OF_PROCESS_GROUPS : Nat := 3
def MAX_PID : Nat := 7
def PCB_BLK_SIZE : Nat := 0x2000
def TERM_BUFFER_SIZE : Nat := 128
def TAB_SIZE : Nat := 4

def NUM_PAGE_ENTRIES : Nat := 1024
def PAGE_SIZE : Nat := 4096
def PD_VIDEO_ENTRY : Nat := 0
def PT_VIDEO_ENTRY : Nat := 184
def PD_KERNEL : Nat := 1
def PDE_PAGE_SIZE : Nat := 0x80
def PDE_USER_SUPERVISOR : Nat := 0x4
def PDE_READ_WRITE : Nat := 0x2
def PDE_PRESENT : Nat := 0x1
def VIDEO_KERNEL : Nat := 0xB8000
def VIDEO_USER : Nat := 0xB9000
def VIDEO_GROUP_1 : Nat := 0xBA000
def VIDEO_GROUP_2 : Nat := 0xBB000
def VIDEO_GROUP_3 : Nat := 0xBC000
def KERNEL_LOC : Nat := 0x400000
def KERNEL_LOC_END : Nat := 0x800000
def PROG_PAGE_SIZE : Nat := 0x400000
def ALIGN_MB : Nat := 0xFFC00000
def FLAG_MASK : Nat := 0xFFFFF000
def BITS_TO_PD_IDX : Nat := 22
def BITS_TO_PT_IDX : Nat := 12
def PT_MASK : Nat := 0x03FF

def HALT_CODE_EXC : Nat := 256
def PROG_VIRT_ADDR : Nat := 0x08000000
def PROG_OFFSET : Nat := 0x48000
def PROG_EIP_OFF : Nat := 24
def SIZE_VARS_SCHEDULING : Nat := 24
def CHILD_EBP_OFF : Nat := 68
def EXEC_MAGIC_LEN : Nat := 4
def EXEC_MAGIC_STR : Nat := 0x464C457F
def MAX_NUM_ARGS : Nat := 3

def CPL_3 : Nat := 0x03
def CPL_MASK : Nat := 0x03
def ENTRY_SIZE : Nat := 4

def FILENAME_LEN : Nat := 32
def NUM_DIR_ENTRIES : Nat := 63
def NUM_DNODE_PER_INODE : Nat := 1023
def BLOCK_SIZE : Nat := 4096
def RTC_TYPE : Int := 0
def DIR_TYPE : Int := 1
def FILE_TYPE : Int := 2

def RTC_FREQ : Int := 1024
def RTC_OFFSET : Int := 4
def RTC_WAITING : Int := 1
def RTC_NOT_WAITING : Int := 0
def MAX_RTC_RATE : Int := 32768
def MIN_RTC_RATE : Int := 2

/-- Modelled from the spec: x86_desc.h is not in src; the kernel data segment
selector loaded into TSS.ss0 (its value plays no part in any property). -/
def KERNEL_DS : Nat := 0x18

/-- The address of the label `return_from_exec` inside `system_execute`, which
the parent's PCB keeps as its resume address. The label lies in the kernel
text; only its being one fixed address matters. -/
def return_from_exec : Nat := KERNEL_LOC

/-! ## Machine words -/

/-- Conversion of a C `int` to `uint32_t`. -/
def u32 (x : Int) : Nat := (x % 4294967296).toNat

/-- Conversion of a `uint32_t` bit pattern to `int32_t`. -/
def s32 (x : Nat) : Int :=
  if x % 4294967296 < 2147483648 then ((x % 4294967296 : Nat) : Int)
  else ((x % 4294967296 : Nat) : Int) - 4294967296

/-- Array store: `a[i] = v`. -/
def upd {α : Type} (a : Nat → α) (i : Nat) (v : α) : Nat → α :=
  fun j => if j = i then v else a j

/-! ## Data model (file.h, pcb.h, term.h, file_sys.h) -/

/-- The value of a `file_op_table_t*`: NULL or the address of one of the five
operation tables that exist in the kernel. -/
inductive file_ops_ptr where
  | NULL
  | stdin_op_table
  | stdout_op_table
  | rtc_type_op_table
  | dir_type_op_table
  | file_type_op_table
  deriving DecidableEq, Repr

/-- File descriptor entry (file.h). -/
@[ext]
structure file_t where
  file_ops : file_ops_ptr
  inode : Nat
  file_position : Nat
  flags : Nat

/-- Process control block (pcb.h). -/
@[ext]
structure pcb_t where
  pid : Int
  parent_pid : Int
  esp : Nat
  ebp : Nat
  eip : Nat
  kernel_esp : Nat
  kernel_ebp : Nat
  tss_esp0 : Nat
  fd_table : Nat → file_t
  args : Nat → Nat
  args_len : Nat
  vid_map_called : Nat

/-- Per-group terminal state (term.h). -/
structure term_struct_t where
  read_in_progress : Nat
  newline_seen : Nat
  term_buff : Nat → Nat
  term_buff_size : Nat
  cursor_x : Int
  cursor_y : Int

/-- Directory entry (file_sys.h); `filename` holds the 32 name bytes, a
shorter list being NUL padded. -/
structure dentry_t where
  filename : List Nat
  filetype : Int
  inode_num : Int

/-- Index node (file_sys.h): block `idx + 1` of the image. -/
structure inode_t where
  length : Int
  data_block_num : Nat → Int

/-- The filesystem image reached through `boot_blk`: the boot block, the inode
blocks that follow it (`inodes i` is block `i + 1`) and the data blocks after
the inodes (`dnodes b k` is byte `k` of data block `b`). -/
structure boot_block_t where
  dir_count : Int
  inode_count : Int
  data_count : Int
  dir_entries : Nat → dentry_t
  inodes : Nat → inode_t
  dnodes : Int → Nat → Nat

/-- The global variables of the kernel. `pid_array p` tells whether
`pid_array[p]` holds the pointer to the PCB of `p` (the only non-NULL value ever
stored there); `pcbs p` is the memory of that PCB. `screen` records, in order,
every character handed to the console output routine together with the video
page it was rendered into. -/
@[ext]
structure Kernel where
  page_directory : Nat → Nat
  page_table_0 : Nat → Nat
  pid_array : Nat → Bool
  pcbs : Nat → pcb_t
  active_pid : Nat → Int
  current_group : Nat
  visible_group : Nat
  tss_ss0 : Nat
  tss_esp0 : Nat
  terms : Nat → term_struct_t
  rtc_read_waiting : Nat → Int
  rtc_intr_count : Nat → Int
  rtc_freq_divider : Nat → Int
  boot_blk : boot_block_t
  mem : Nat → Nat
  screen : List (Nat × Nat)

/-- An interrupt that can arrive while a system call waits. -/
inductive Irq where
  | kbd (c : Nat)
  | rtc
  deriving DecidableEq, Repr

/-! ## Strings and memory (lib.c) -/

/-- Character `i` of a string argument. -/
def chr (str : List Nat) (i : Nat) : Nat := str.getD i 0

/-- Modelled from the spec: lib.c (strlen) is not in src; the C library
meaning is used: the number of bytes before the first NUL. -/
def strlen (str : List Nat) : Nat := (str.takeWhile (fun c => c != 0)).length

/-- Modelled from the spec: lib.c (strncmp) is not in src; the C library
meaning is used: compare at most `n` characters from index `i` on, stopping at
the first difference or at a NUL; the result is the difference there. -/
def strncmp_from (s1 s2 : List Nat) : Nat → Nat → Int
  | _, 0 => 0
  | i, n + 1 =>
    if chr s1 i ≠ chr s2 i ∨ chr s1 i = 0 then (chr s1 i : Int) - (chr s2 i : Int)
    else strncmp_from s1 s2 (i + 1) n

/-- The call `strncmp(s1, s2, n)`. -/
def strncmp (s1 s2 : List Nat) (n : Nat) : Int := strncmp_from s1 s2 0 n

/-- Modelled from the spec: lib.c (strncpy) is not in src; the C library
meaning is used: the `n` bytes written to the destination, the source up to its
NUL and NUL padding after it. -/
def strncpy_bytes (src : List Nat) (n : Nat) : List Nat :=
  (List.range n).map (fun i => if i < strlen src then chr src i else 0)

/-- Store a run of bytes at consecutive addresses (addresses are 32 bits). -/
def store_bytes (mem : Nat → Nat) (addr : Nat) : List Nat → Nat → Nat
  | [] => mem
  | b :: rest => store_bytes (upd mem (addr % 4294967296) b) (addr + 1) rest

/-- Little-endian 32-bit load. -/
def load32 (mem : Nat → Nat) (addr : Nat) : Nat :=
  mem addr + 256 * mem (addr + 1) + 65536 * mem (addr + 2) + 16777216 * mem (addr + 3)

/-- The four bytes of a little-endian 32-bit store. -/
def bytes32 (w : Nat) : List Nat :=
  [w % 256, w / 256 % 256, w / 65536 % 256, w / 16777216 % 256]

/-! ## Paging (paging.c) -/

/-- Source: `map_page` (paging.c). The TLB flush has no effect on the tables. -/
def map_page (s : Kernel) (virtual_loc phys_loc read_write user page_size : Nat) : Kernel :=
  let pd_num := (virtual_loc &&& FLAG_MASK) >>> BITS_TO_PD_IDX
  let pt_num := ((virtual_loc &&& FLAG_MASK) >>> BITS_TO_PT_IDX) &&& PT_MASK
  let entry := if page_size ≠ 0 then phys_loc &&& ALIGN_MB else phys_loc &&& FLAG_MASK
  let entry := entry ||| (if page_size ≠ 0 then PDE_PAGE_SIZE else 0)
  let entry := entry ||| (if read_write ≠ 0 then PDE_READ_WRITE else 0)
  let entry := entry ||| (if user ≠ 0 then PDE_USER_SUPERVISOR else 0)
  let entry := entry ||| PDE_PRESENT
  if page_size ≠ 0 then { s with page_directory := upd s.page_directory pd_num entry }
  else { s with page_table_0 := upd s.page_table_0 pt_num entry }

/-- Source: `unmap_page` (paging.c). -/
def unmap_page (s : Kernel) (virtual_loc page_size : Nat) : Kernel :=
  let pd_num := (virtual_loc &&& FLAG_MASK) >>> BITS_TO_PD_IDX
  let pt_num := ((virtual_loc &&& FLAG_MASK) >>> BITS_TO_PT_IDX) &&& PT_MASK
  if page_size ≠ 0 then { s with page_directory := upd s.page_directory pd_num 0 }
  else { s with page_table_0 := upd s.page_table_0 pt_num 0 }

/-- Source: `get_prog_phys_addr` (system.c); the sum is formed in C `int` and
returned as `uint32_t`. -/
def get_prog_phys_addr (pid : Int) : Nat :=
  u32 ((KERNEL_LOC_END : Int) + (pid - 1) * (PROG_PAGE_SIZE : Int))

/-- Source: `__validate_user_ptr` (system.c). -/
def __validate_user_ptr (ptr : Nat) : Int :=
  if ptr ≥ PROG_VIRT_ADDR ∧ ptr < PROG_VIRT_ADDR + PROG_PAGE_SIZE then SUCCESS else FAILURE

/-- The page walk of the processor for a 32-bit virtual address, with 4 MiB
pages enabled (CR4.PSE, as `paging_init` sets it): the physical address and the
final-level entry, or `none` when the directory entry or the table entry is
not present. `page_table_0` is the only page table of the kernel; a present
directory entry without the page-size bit is read as designating it. -/
def page_walk (s : Kernel) (v : Nat) : Option (Nat × Nat) :=
  let pde := s.page_directory (v >>> 22)
  if pde &&& PDE_PRESENT = 0 then none
  else if pde &&& PDE_PAGE_SIZE ≠ 0 then some ((pde &&& ALIGN_MB) + v % 0x400000, pde)
  else
    let pte := s.page_table_0 ((v >>> 12) &&& 0x3FF)
    if pte &&& PDE_PRESENT = 0 then none
    else some ((pte &&& FLAG_MASK) + v % 0x1000, pte)

/-- A one-byte store by kernel code to the virtual address `a`, as the
processor carries it out: a page fault when `page_walk` finds no mapping, the
byte in `mem` otherwise. The first 8 MiB of physical memory are the low
megabytes with the video pages and the kernel's page, which holds the variables
the other fields of `Kernel` stand for (PCBs, page tables, stacks); what a store
landing there overwrites is not followed, and the result is `none` too. -/
def store_byte (s : Kernel) (a b : Nat) : Option Kernel :=
  match page_walk s a with
  | none => none
  | some (phys, _) =>
    if phys < KERNEL_LOC_END then none else some { s with mem := upd s.mem a b }

/-- Store a run of bytes at consecutive virtual addresses (addresses are 32
bits), lowest first, each by `store_byte`. -/
def vstore_bytes : Kernel → Nat → List Nat → Option Kernel
  | s, _, [] => some s
  | s, addr, b :: rest =>
    match store_byte s (addr % 4294967296) b with
    | none => none
    | some s1 => vstore_bytes s1 (addr + 1) rest

/-! ## Process control blocks (pcb.c) -/

/-- An array index taken from a C `int`: the slot of `pid_array`, or `none`
when the index lies outside `0 .. MAX_PID - 1`. -/
def pid_slot (pid : Int) : Option Nat :=
  if 0 ≤ pid ∧ pid < (MAX_PID : Int) then some pid.toNat else none

/-- The result of `memset(pcb, 0, sizeof(pcb_t))`. -/
def file_zero : file_t :=
  { file_ops := file_ops_ptr.NULL, inode := 0, file_position := 0, flags := 0 }

/-- The result of `memset(pcb, 0, sizeof(pcb_t))`. -/
def pcb_zero : pcb_t :=
  { pid := 0, parent_pid := 0, esp := 0, ebp := 0, eip := 0, kernel_esp := 0,
    kernel_ebp := 0, tss_esp0 := 0, fd_table := fun _ => file_zero,
    args := fun _ => 0, args_len := 0, vid_map_called := 0 }

/-- Write the PCB of process `p`. -/
def set_pcb (s : Kernel) (p : Nat) (pcb : pcb_t) : Kernel :=
  { s with pcbs := upd s.pcbs p pcb }

/-- Write `fd_table[fd]` in the PCB of process `p`. -/
def set_fd (s : Kernel) (p fd : Nat) (f : file_t) : Kernel :=
  set_pcb s p { s.pcbs p with fd_table := upd (s.pcbs p).fd_table fd f }

/-- Source: `get_current_group` (scheduler.c). -/
def get_current_group (s : Kernel) : Nat := s.current_group

/-- Source: `get_current_pcb` (pcb.c): the process whose PCB the pointer
`pid_array[active_pid[current_group]]` designates, `none` for NULL (an index
outside the array is treated like NULL: every use dereferences the result). -/
def get_current_pcb (s : Kernel) : Option Nat :=
  match pid_slot (s.active_pid (get_current_group s)) with
  | none => none
  | some p => if s.pid_array p then some p else none

/-- Source: `get_pcb_addr` (pcb.c): NULL outside `0 .. MAX_PID - 1`, otherwise
the address of the PCB of `pid`, here named by `pid` itself. -/
def get_pcb_addr (pid : Int) : Option Nat := pid_slot pid

/-- Source: `get_kstack_addr` (pcb.c). -/
def get_kstack_addr (pid : Int) : Nat :=
  if pid < 0 ∨ pid ≥ (MAX_PID : Int) then 0
  else u32 ((KERNEL_LOC_END : Int) - (PCB_BLK_SIZE : Int) * pid - 4)

/-- Source: `get_new_pid` (pcb.c). -/
def get_new_pid (s : Kernel) : Int :=
  match (List.range MAX_PID).find? (fun pid => !s.pid_array pid) with
  | some pid => (pid : Int)
  | none => FAILURE

/-- Source: `get_new_fd` (pcb.c). -/
def get_new_fd (s : Kernel) : Option Int :=
  match get_current_pcb s with
  | none => none
  | some p =>
    match (List.range FD_ARRAY_SIZE).find?
        (fun fd => ((s.pcbs p).fd_table fd).flags == NOT_IN_USE) with
    | some fd => some (fd : Int)
    | none => some FAILURE

/-! ## Terminal (term.c) -/

/-- The string "stdin". -/
def stdin_name : List Nat := [115, 116, 100, 105, 110]
/-- The string "stdout". -/
def stdout_name : List Nat := [115, 116, 100, 111, 117, 116]

/-- Source: `term_open` (term.c). -/
def term_open (s : Kernel) (filename : List Nat) : Option (Int × Kernel) :=
  if strncmp filename stdin_name (strlen filename) = SUCCESS then
    match get_new_fd s, get_current_pcb s with
    | some fd, some p =>
      if fd = FAILURE then some (FAILURE, s)
      else some (fd, set_fd s p fd.toNat
        { file_ops := file_ops_ptr.stdin_op_table, inode := 0,
          file_position := INIT_FILE_POS, flags := IN_USE })
    | _, _ => none
  else if strncmp filename stdout_name (strlen filename) = SUCCESS then
    match get_new_fd s, get_current_pcb s with
    | some fd, some p =>
      if fd = FAILURE then some (FAILURE, s)
      else some (fd, set_fd s p fd.toNat
        { file_ops := file_ops_ptr.stdout_op_table, inode := 0,
          file_position := INIT_FILE_POS, flags := IN_USE })
    | _, _ => none
  else some (FAILURE, s)

/-- Source: `term_close` (term.c). The range test comes first, so the table
is read only for an index inside it. -/
def term_close (s : Kernel) (fd : Int) : Option (Int × Kernel) :=
  if fd < 0 ∨ fd ≥ (FD_ARRAY_SIZE : Int) then some (FAILURE, s)
  else
    match get_current_pcb s with
    | none => none
    | some p =>
      if ((s.pcbs p).fd_table fd.toNat).flags = NOT_IN_USE then some (FAILURE, s)
      else some (SUCCESS, set_fd s p fd.toNat
        { (s.pcbs p).fd_table fd.toNat with file_ops := file_ops_ptr.NULL, flags := NOT_IN_USE })

/-- Source: `get_video_save_page` (term.c). -/
def get_video_save_page (group_num : Nat) : Nat :=
  if group_num > MAX_PROCESS_GROUPS then u32 FAILURE
  else VIDEO_GROUP_1 + group_num * PAGE_SIZE

/-- Source: `__print_char` (term.c). Modelled from the spec: lib.c (printf,
putc, the cursor) is not in src; the characters handed to it are recorded in
order together with the video page in use, the cursor is left out. -/
def __print_char (s : Kernel) (page c : Nat) : Kernel :=
  if c = 8 then { s with screen := s.screen ++ [(page, 8), (page, 32), (page, 8)] }
  else { s with screen := s.screen ++ [(page, c)] }

/-- The loop `for (i = 0; i < nbytes; i++) __print_char(buff[i])`. -/
def term_write_loop (page buf : Nat) : Nat → Nat → Kernel → Kernel
  | 0, _, s => s
  | n + 1, i, s => term_write_loop page buf n (i + 1) (__print_char s page (s.mem (buf + i)))

/-- Source: `term_write` (term.c). The visible group is rendered into the
physical framebuffer, any other group into its save page. The cursor being
left out of `__print_char`, the saving and restoring of the cursor around the
loop for a hidden group is left out with it. -/
def term_write (s : Kernel) (_fd : Int) (buf : Nat) (nbytes : Int) : Option (Int × Kernel) :=
  if buf = 0 then some (-1, s)
  else
    let current_group := get_current_group s
    let page := if s.visible_group = current_group then VIDEO_KERNEL
      else get_video_save_page current_group
    some (((nbytes.toNat : Nat) : Int), term_write_loop page buf nbytes.toNat 0 s)

/-- Write the terminal state of group `g`. -/
def set_term (s : Kernel) (g : Nat) (t : term_struct_t) : Kernel :=
  { s with terms := upd s.terms g t }

/-- The tab loop of `__add_char_to_term`: up to `TAB_SIZE` spaces, stopping
when the buffer holds `TERM_BUFFER_SIZE - 1` bytes or a multiple of `TAB_SIZE`. -/
def add_tab_loop : Nat → Kernel → Kernel
  | 0, s => s
  | n + 1, s =>
    let t := s.terms s.visible_group
    let s1 := set_term s s.visible_group
      { t with term_buff := upd t.term_buff t.term_buff_size 32,
               term_buff_size := t.term_buff_size + 1 }
    let s2 := __print_char s1 VIDEO_KERNEL 32
    if t.term_buff_size + 1 = TERM_BUFFER_SIZE - 1 ∨ (t.term_buff_size + 1) % TAB_SIZE = 0 then s2
    else add_tab_loop n s2

/-- Source: `__add_char_to_term` (term.c). -/
def __add_char_to_term (s : Kernel) (c : Nat) : Int × Kernel :=
  let t := s.terms s.visible_group
  if t.term_buff_size < TERM_BUFFER_SIZE then
    if t.term_buff_size = TERM_BUFFER_SIZE - 1 ∧ c ≠ 10 then (-1, s)
    else
      let s1 :=
        if c = 9 then add_tab_loop TAB_SIZE s
        else __print_char (set_term s s.visible_group
          { t with term_buff := upd t.term_buff t.term_buff_size c,
                   term_buff_size := t.term_buff_size + 1 }) VIDEO_KERNEL c
      let t1 := s1.terms s1.visible_group
      let s2 :=
        if c = 10 then
          set_term s1 s1.visible_group
            { t1 with newline_seen := 1,
                      term_buff_size := if t1.read_in_progress = 0 then 0 else t1.term_buff_size }
        else s1
      (0, s2)
  else (-1, s)

/-- Source: `__backspace_term` (term.c). -/
def __backspace_term (s : Kernel) : Kernel :=
  let t := s.terms s.visible_group
  if t.term_buff_size > 0 then
    __print_char (set_term s s.visible_group { t with term_buff_size := t.term_buff_size - 1 })
      VIDEO_KERNEL 8
  else s

/-- Source: `add_char_term` (term.c). -/
def add_char_term (s : Kernel) (c : Nat) : Int × Kernel :=
  if c = 8 then (0, __backspace_term s) else __add_char_to_term s c

/-! ## Real-time clock (rtc.c) -/

/-- The counting loop of `rtc_wrapper` for one group. A division by a zero
divider does not return. -/
def rtc_wrapper_group (s : Kernel) (group : Nat) : Option Kernel :=
  if s.rtc_read_waiting group = 1 then
    let count := s.rtc_intr_count group + 1
    let s1 := { s with rtc_intr_count := upd s.rtc_intr_count group count }
    if s.rtc_freq_divider group = 0 then none
    else if count ≥ Int.tdiv RTC_FREQ (s.rtc_freq_divider group) then
      some { s1 with rtc_read_waiting := upd s1.rtc_read_waiting group RTC_NOT_WAITING }
    else some s1
  else some s

/-- Source: `rtc_wrapper` (rtc.c). The interrupt-controller and port accesses
around the loop do not touch the kernel variables kept here. -/
def rtc_wrapper (s : Kernel) : Option Kernel :=
  (rtc_wrapper_group s 0).bind (fun s1 =>
    (rtc_wrapper_group s1 1).bind (fun s2 => rtc_wrapper_group s2 2))

/-- The effect of one interrupt on the kernel variables: a key press reaches
`add_char_term`, an RTC interrupt runs `rtc_wrapper`. -/
def deliver (s : Kernel) : Irq → Option Kernel
  | Irq.kbd c => some (add_char_term s c).2
  | Irq.rtc => rtc_wrapper s

/-- A busy-wait loop `while (!cond) {}` with interrupts enabled: the pending
interrupts are handled one by one until the condition holds; the wait never
ends when they run out first. -/
def wait_until (cond : Kernel → Bool) : Kernel → List Irq → Option (Kernel × List Irq)
  | s, [] => if cond s then some (s, []) else none
  | s, e :: rest =>
    if cond s then some (s, e :: rest)
    else match deliver s e with
      | none => none
      | some s1 => wait_until cond s1 rest

/-- Source: `term_read` (term.c). `env` lists the interrupts that arrive
while the call waits. -/
def term_read (s : Kernel) (_fd : Int) (buf : Nat) (nbytes : Int) (env : List Irq) :
    Option (Int × Kernel) :=
  if buf = 0 then some (-1, s)
  else
    let g := get_current_group s
    match wait_until (fun k => (k.terms g).read_in_progress == 0) s env with
    | none => none
    | some (s1, env1) =>
      let s2 := set_term s1 g { s1.terms g with read_in_progress := 1 }
      let s3 := set_term s2 g { s2.terms g with newline_seen := 0 }
      match wait_until (fun k => (k.terms g).newline_seen != 0) s3 env1 with
      | none => none
      | some (s4, _) =>
        let t := s4.terms g
        let bytes_to_read : Int :=
          s32 (if u32 nbytes < t.term_buff_size then u32 nbytes else t.term_buff_size)
        let copied := (List.range (u32 bytes_to_read)).map t.term_buff
        let s5 := { s4 with mem := store_bytes s4.mem buf copied }
        let s6 := set_term s5 g { s5.terms g with term_buff_size := 0 }
        let s7 := set_term s6 g { s6.terms g with read_in_progress := 0 }
        some (bytes_to_read, s7)

/-- Source: `rtc_read` (rtc.c). `env` lists the interrupts that arrive while
the call waits. -/
def rtc_read (s : Kernel) (_fd : Int) (_buf : Nat) (_nbytes : Int) (env : List Irq) :
    Option (Int × Kernel) :=
  let group := get_current_group s
  let s1 := { s with rtc_read_waiting := upd s.rtc_read_waiting group RTC_WAITING }
  let s2 := { s1 with rtc_intr_count := upd s1.rtc_intr_count group 0 }
  match wait_until (fun k => k.rtc_read_waiting group == RTC_NOT_WAITING) s2 env with
  | none => none
  | some (s3, _) => some (SUCCESS, s3)

/-- Source: `rtc_write` (rtc.c). -/
def rtc_write (s : Kernel) (_fd : Int) (buf : Nat) (_nbytes : Int) : Option (Int × Kernel) :=
  let input : Int := s32 (load32 s.mem buf)
  if Int.land input (input - 1) = 0 ∧ input ≥ MIN_RTC_RATE ∧ input ≤ MAX_RTC_RATE then
    let group := get_current_group s
    some (SUCCESS, { s with rtc_freq_divider := upd s.rtc_freq_divider group (input * RTC_OFFSET) })
  else some (FAILURE, s)

/-- Source: `rtc_open` (rtc.c). The port writes that reprogram the chip do
not touch the kernel variables kept here. -/
def rtc_open (s : Kernel) (_filename : List Nat) : Option (Int × Kernel) :=
  let group := get_current_group s
  some (SUCCESS,
    { s with rtc_freq_divider := upd s.rtc_freq_divider group 2,
             rtc_read_waiting := upd s.rtc_read_waiting group 0,
             rtc_intr_count := upd s.rtc_intr_count group 0 })

/-- Source: `rtc_close` (rtc.c). -/
def rtc_close (s : Kernel) (fd : Int) : Option (Int × Kernel) :=
  if fd < 0 ∨ fd ≥ (FD_ARRAY_SIZE : Int) then some (FAILURE, s)
  else
    match get_current_pcb s with
    | none => none
    | some p =>
      some (SUCCESS, set_fd s p fd.toNat
        { (s.pcbs p).fd_table fd.toNat with file_ops := file_ops_ptr.NULL, flags := NOT_IN_USE })

/-! ## Filesystem (file_sys.c) -/

/-- The 32-byte name field of a directory entry. -/
def name32 (d : dentry_t) : List Nat := d.filename.take FILENAME_LEN

/-- The search loop of `read_dentry_by_name`, from entry `i` on, for `n` more
entries. -/
def read_dentry_loop (bb : boot_block_t) (fname : List Nat) (name_len : Nat) :
    Nat → Nat → Option dentry_t
  | 0, _ => none
  | n + 1, i =>
    let d := bb.dir_entries i
    let entry_length := strlen (name32 d)
    let entry_length := if entry_length > FILENAME_LEN then FILENAME_LEN else entry_length
    if d.inode_num < bb.inode_count ∧ strncmp fname (name32 d) name_len = 0 ∧
        strncmp fname (name32 d) entry_length = 0 then some d
    else read_dentry_loop bb fname name_len n (i + 1)

/-- Source: `read_dentry_by_name` (file_sys.c): `some d` for SUCCESS with the
entry copied out, `none` for FAILURE. -/
def read_dentry_by_name (bb : boot_block_t) (fname : List Nat) : Option dentry_t :=
  let name_len := strlen fname
  if name_len > FILENAME_LEN then none
  else read_dentry_loop bb fname name_len bb.dir_count.toNat 0

/-- The copy loop of `read_data`: the bytes placed in `buf[buf_idx ..]`, for at
most `n` more bytes. -/
def read_data_loop (bb : boot_block_t) (ino : inode_t) (offset : Nat) :
    Nat → Nat → Nat → Nat → Int → List Nat
  | 0, _, _, _, _ => []
  | n + 1, buf_idx, dnode_num, pos_in_dnode, dnode_idx =>
    if (offset + buf_idx) % 4294967296 < u32 ino.length then
      let dnode_num1 := if pos_in_dnode ≥ BLOCK_SIZE then dnode_num + 1 else dnode_num
      let dnode_idx1 :=
        if pos_in_dnode ≥ BLOCK_SIZE then ino.data_block_num (dnode_num + 1) else dnode_idx
      let pos1 := if pos_in_dnode ≥ BLOCK_SIZE then 0 else pos_in_dnode
      bb.dnodes dnode_idx1 pos1 ::
        read_data_loop bb ino offset n (buf_idx + 1) dnode_num1 (pos1 + 1) dnode_idx1
    else []

/-- Source: `read_data` (file_sys.c): the return value and the bytes written
to `buf[0 ..]`. -/
def read_data (bb : boot_block_t) (inode_idx offset length : Nat) : Int × List Nat :=
  if length = 0 then (0, [])
  else if inode_idx ≥ u32 bb.inode_count then (FAILURE, [])
  else
    let inode := bb.inodes inode_idx
    if offset ≥ u32 inode.length then (0, [])
    else
      let dnode_num := offset / BLOCK_SIZE
      let pos_in_dnode := offset % BLOCK_SIZE
      let dnode_idx := inode.data_block_num dnode_num
      let bytes := read_data_loop bb inode offset length 0 dnode_num pos_in_dnode dnode_idx
      (s32 bytes.length, bytes)

/-- Source: `file_open` (file_sys.c). -/
def file_open (s : Kernel) (_filename : List Nat) : Option (Int × Kernel) := some (SUCCESS, s)

/-- Source: `file_read` (file_sys.c) as kernel code calls it with the address
of one of its own local variables for `buf` (`magic_num` in `__load_program`,
the arrays of the readers in tests.c): the buffer is not NULL, it is mapped, and
it shares no byte with a kernel variable. The bytes placed in the buffer are
the second component of the result. -/
def file_read_bytes (s : Kernel) (fd : Int) (nbytes : Int) :
    Option (Int × List Nat × Kernel) :=
  if fd < 0 ∨ fd ≥ (FD_ARRAY_SIZE : Int) then some (FAILURE, [], s)
  else
    match get_current_pcb s with
    | none => none
    | some p =>
      let f := (s.pcbs p).fd_table fd.toNat
      if f.flags = NOT_IN_USE ∨ nbytes < 0 then some (FAILURE, [], s)
      else
        let r := read_data s.boot_blk f.inode f.file_position (u32 nbytes)
        if r.1 = FAILURE then some (FAILURE, [], s)
        else some (r.1, r.2, set_fd s p fd.toNat
          { f with file_position := (f.file_position + u32 r.1) % 4294967296 })

/-- Source: `file_read` (file_sys.c) with any pointer for `buf`, as
`system_read` and the copy loop of `__load_program` call it. `read_data` stores
the bytes through `buf` one by one, lowest address first (`vstore_bytes`);
the cursor is advanced after that. -/
def file_read (s : Kernel) (fd : Int) (buf : Nat) (nbytes : Int) : Option (Int × Kernel) :=
  if fd < 0 ∨ fd ≥ (FD_ARRAY_SIZE : Int) then some (FAILURE, s)
  else
    match get_current_pcb s with
    | none => none
    | some p =>
      let f := (s.pcbs p).fd_table fd.toNat
      if f.flags = NOT_IN_USE ∨ buf = 0 ∨ nbytes < 0 then some (FAILURE, s)
      else
        let r := read_data s.boot_blk f.inode f.file_position (u32 nbytes)
        match vstore_bytes s buf r.2 with
        | none => none
        | some s1 =>
          if r.1 = FAILURE then some (FAILURE, s1)
          else some (r.1, set_fd s1 p fd.toNat
            { f with file_position := (f.file_position + u32 r.1) % 4294967296 })

/-- Source: `file_write` (file_sys.c). -/
def file_write (s : Kernel) (_fd : Int) (_buf : Nat) (_nbytes : Int) : Option (Int × Kernel) :=
  some (FAILURE, s)

/-- Source: `file_close` (file_sys.c). -/
def file_close (s : Kernel) (fd : Int) : Option (Int × Kernel) :=
  if fd < 0 ∨ fd ≥ (FD_ARRAY_SIZE : Int) then some (FAILURE, s)
  else
    match get_current_pcb s with
    | none => none
    | some p =>
      if ((s.pcbs p).fd_table fd.toNat).flags = NOT_IN_USE then some (FAILURE, s)
      else some (SUCCESS, set_fd s p fd.toNat
        { (s.pcbs p).fd_table fd.toNat with file_ops := file_ops_ptr.NULL, flags := NOT_IN_USE })

/-- Source: `dir_open` (file_sys.c). -/
def dir_open (s : Kernel) (_filename : List Nat) : Option (Int × Kernel) := some (SUCCESS, s)

/-- Source: `dir_read` (file_sys.c). -/
def dir_read (s : Kernel) (fd : Int) (buf : Nat) (nbytes : Int) : Option (Int × Kernel) :=
  if fd < 0 ∨ fd ≥ (FD_ARRAY_SIZE : Int) ∨ buf = 0 ∨ nbytes < 0 then some (FAILURE, s)
  else
    let num_bytes := if nbytes < (FILENAME_LEN : Int) then nbytes.toNat else FILENAME_LEN
    match get_current_pcb s with
    | none => none
    | some p =>
      let f := (s.pcbs p).fd_table fd.toNat
      let dentry_num := f.file_position
      if dentry_num ≥ u32 s.boot_blk.dir_count then some (0, s)
      else
        let name := strncpy_bytes (name32 (s.boot_blk.dir_entries dentry_num)) num_bytes
        match vstore_bytes s buf name with
        | none => none
        | some s1 =>
          some ((num_bytes : Int), set_fd s1 p fd.toNat
            { f with file_position := (f.file_position + 1) % 4294967296 })

/-- Source: `dir_write` (file_sys.c). -/
def dir_write (s : Kernel) (fd : Int) (buf : Nat) (nbytes : Int) : Option (Int × Kernel) :=
  file_write s fd buf nbytes

/-- Source: `dir_close` (file_sys.c). -/
def dir_close (s : Kernel) (fd : Int) : Option (Int × Kernel) := file_close s fd

/-! ## PCB set-up and tear-down (pcb.c) -/

/-- The call `file_ops->close(fd)` through an operations pointer; all five
tables hold a close function. Dereferencing NULL does not return. -/
def close_via (ops : file_ops_ptr) (s : Kernel) (fd : Int) : Option (Int × Kernel) :=
  match ops with
  | file_ops_ptr.NULL => none
  | file_ops_ptr.stdin_op_table => term_close s fd
  | file_ops_ptr.stdout_op_table => term_close s fd
  | file_ops_ptr.rtc_type_op_table => rtc_close s fd
  | file_ops_ptr.dir_type_op_table => dir_close s fd
  | file_ops_ptr.file_type_op_table => file_close s fd

/-- The loop `for (i = 2; i < FD_ARRAY_SIZE; ++i) fd_table[i].flags = NOT_IN_USE`. -/
def clear_fd_flags (pcb : pcb_t) : pcb_t :=
  { pcb with fd_table := fun i =>
      if 2 ≤ i ∧ i < FD_ARRAY_SIZE then { pcb.fd_table i with flags := NOT_IN_USE }
      else pcb.fd_table i }

/-- Source: `pcb_setup` (pcb.c): the returned pointer (`none` for NULL) and
the new state. -/
def pcb_setup (s : Kernel) (child_pid : Int) : Option (Option Nat × Kernel) :=
  let current_group := get_current_group s
  if child_pid = FAILURE then some (none, s)
  else
    match get_pcb_addr child_pid with
    | none => none
    | some c =>
      let s1 := { s with pid_array := upd s.pid_array c true }
      let parent_pid := s1.active_pid current_group
      let s2 := { s1 with active_pid := upd s1.active_pid current_group child_pid }
      let s3 := set_pcb s2 c pcb_zero
      let s4 := set_pcb s3 c { s3.pcbs c with pid := child_pid }
      let s5 := set_pcb s4 c { s4.pcbs c with parent_pid := parent_pid }
      match term_open s5 stdin_name with
      | none => none
      | some (_, s6) =>
        match term_open s6 stdout_name with
        | none => none
        | some (_, s7) =>
          let s8 := set_pcb s7 c (clear_fd_flags (s7.pcbs c))
          let s9 := set_pcb s8 c { s8.pcbs c with args_len := 0 }
          some (some c, s9)

/-- The closing loop of `pcb_teardown` over descriptors `i, i + 1, ...` of the
PCB `pcb`, for `n` more descriptors. -/
def teardown_close_loop (pcb : Nat) : Nat → Nat → Kernel → Option Kernel
  | 0, _, s => some s
  | n + 1, i, s =>
    let f := (s.pcbs pcb).fd_table i
    if f.flags = IN_USE then
      match close_via f.file_ops s (i : Int) with
      | none => none
      | some (_, s1) => teardown_close_loop pcb n (i + 1) s1
    else teardown_close_loop pcb n (i + 1) s

/-- Source: `pcb_teardown` (pcb.c). -/
def pcb_teardown (s : Kernel) : Option Kernel :=
  match get_current_pcb s with
  | none => none
  | some pcb =>
    match teardown_close_loop pcb FD_ARRAY_SIZE 0 s with
    | none => none
    | some s1 =>
      match pid_slot (s1.active_pid (get_current_group s1)) with
      | none => none
      | some a =>
        let s2 := { s1 with pid_array := upd s1.pid_array a false }
        let parent_pid := (s2.pcbs pcb).parent_pid
        let s3 := { s2 with active_pid := upd s2.active_pid (get_current_group s2) parent_pid }
        let s4 := { s3 with tss_esp0 := get_kstack_addr (s3.active_pid (get_current_group s3)) }
        some (set_pcb s4 pcb pcb_zero)

/-- Source: `pcb_init` (pcb.c). -/
def pcb_init (s : Kernel) : Option Kernel :=
  let s1 := { s with pid_array := fun i => if i < MAX_PID then false else s.pid_array i }
  let cleared : Nat → Int := fun i => if i < NUM_OF_PROCESS_GROUPS then 0 else s1.active_pid i
  let s2 := { s1 with active_pid := cleared }
  match get_pcb_addr (s2.active_pid (get_current_group s2)),
      pid_slot (s2.active_pid (get_current_group s2)) with
  | some pcb, some a =>
    let s3 := { s2 with pid_array := upd s2.pid_array a true }
    let s4 := set_pcb s3 pcb { s3.pcbs pcb with pid := s3.active_pid (get_current_group s3) }
    let s5 := set_pcb s4 pcb { s4.pcbs pcb with parent_pid := -1 }
    match term_open s5 stdin_name with
    | none => none
    | some (_, s6) =>
      match term_open s6 stdout_name with
      | none => none
      | some (_, s7) =>
        let s8 := set_pcb s7 pcb (clear_fd_flags (s7.pcbs pcb))
        some (set_pcb s8 pcb { s8.pcbs pcb with args_len := 0 })
  | _, _ => none

/-! ## System calls (system.c) -/

/-- Source: `system_read` (system.c). `env` lists the interrupts that arrive
while a blocking read waits. -/
def system_read (s : Kernel) (fd : Int) (buf : Nat) (nbytes : Int) (env : List Irq) :
    Option (Int × Kernel) :=
  if fd < 0 ∨ fd ≥ (FD_ARRAY_SIZE : Int) then some (FAILURE, s)
  else
    match get_current_pcb s with
    | none => none
    | some p =>
      let f := (s.pcbs p).fd_table fd.toNat
      if f.flags = NOT_IN_USE then some (FAILURE, s)
      else
        match f.file_ops with
        | file_ops_ptr.NULL => none
        | file_ops_ptr.stdin_op_table => term_read s fd buf nbytes env
        | file_ops_ptr.stdout_op_table => some (FAILURE, s)
        | file_ops_ptr.rtc_type_op_table => rtc_read s fd buf nbytes env
        | file_ops_ptr.dir_type_op_table => dir_read s fd buf nbytes
        | file_ops_ptr.file_type_op_table => file_read s fd buf nbytes

/-- Source: `system_write` (system.c). -/
def system_write (s : Kernel) (fd : Int) (buf : Nat) (nbytes : Int) : Option (Int × Kernel) :=
  if fd < 0 ∨ fd ≥ (FD_ARRAY_SIZE : Int) then some (FAILURE, s)
  else
    match get_current_pcb s with
    | none => none
    | some p =>
      let f := (s.pcbs p).fd_table fd.toNat
      if f.flags = NOT_IN_USE then some (FAILURE, s)
      else
        match f.file_ops with
        | file_ops_ptr.NULL => none
        | file_ops_ptr.stdin_op_table => some (FAILURE, s)
        | file_ops_ptr.stdout_op_table => term_write s fd buf nbytes
        | file_ops_ptr.rtc_type_op_table => rtc_write s fd buf nbytes
        | file_ops_ptr.dir_type_op_table => dir_write s fd buf nbytes
        | file_ops_ptr.file_type_op_table => file_write s fd buf nbytes

/-- The call `file_ops->open(filename)` and the test that follows it in
`system_open`; all tables hold an open function. -/
def open_via (ops : file_ops_ptr) (s : Kernel) (filename : List Nat) (fd : Int) :
    Option (Int × Kernel) :=
  let r :=
    match ops with
    | file_ops_ptr.NULL => none
    | file_ops_ptr.stdin_op_table => term_open s filename
    | file_ops_ptr.stdout_op_table => term_open s filename
    | file_ops_ptr.rtc_type_op_table => rtc_open s filename
    | file_ops_ptr.dir_type_op_table => dir_open s filename
    | file_ops_ptr.file_type_op_table => file_open s filename
  match r with
  | none => none
  | some (ret, s1) => if ret ≠ SUCCESS then some (FAILURE, s1) else some (fd, s1)

/-- Source: `system_open` (system.c). The pointer value of `filename` is never
inspected; the string is all that is used. -/
def system_open (s : Kernel) (filename : List Nat) : Option (Int × Kernel) :=
  match read_dentry_by_name s.boot_blk filename with
  | none => some (FAILURE, s)
  | some dentry =>
    match get_new_fd s, get_current_pcb s with
    | some fd, some p =>
      if fd = FAILURE then some (FAILURE, s)
      else
        let s1 := set_fd s p fd.toNat
          { (s.pcbs p).fd_table fd.toNat with inode := u32 dentry.inode_num }
        let s2 := set_fd s1 p fd.toNat
          { (s1.pcbs p).fd_table fd.toNat with file_position := INIT_FILE_POS }
        let s3 := set_fd s2 p fd.toNat { (s2.pcbs p).fd_table fd.toNat with flags := IN_USE }
        if dentry.filetype = RTC_TYPE then
          open_via file_ops_ptr.rtc_type_op_table
            (set_fd s3 p fd.toNat
              { (s3.pcbs p).fd_table fd.toNat with file_ops := file_ops_ptr.rtc_type_op_table })
            filename fd
        else if dentry.filetype = DIR_TYPE then
          open_via file_ops_ptr.dir_type_op_table
            (set_fd s3 p fd.toNat
              { (s3.pcbs p).fd_table fd.toNat with file_ops := file_ops_ptr.dir_type_op_table })
            filename fd
        else if dentry.filetype = FILE_TYPE then
          open_via file_ops_ptr.file_type_op_table
            (set_fd s3 p fd.toNat
              { (s3.pcbs p).fd_table fd.toNat with file_ops := file_ops_ptr.file_type_op_table })
            filename fd
        else some (FAILURE, s3)
    | _, _ => none

/-- Source: `system_close` (system.c). -/
def system_close (s : Kernel) (fd : Int) : Option (Int × Kernel) :=
  if fd < 2 ∨ fd ≥ (FD_ARRAY_SIZE : Int) then some (FAILURE, s)
  else
    match get_current_pcb s with
    | none => none
    | some p =>
      let f := (s.pcbs p).fd_table fd.toNat
      if f.flags = NOT_IN_USE then some (FAILURE, s)
      else close_via f.file_ops s fd

/-- Source: `system_getargs` (system.c). The copy loop stores `args[0]`,
`args[1]`, ... through `buf` in this order (`vstore_bytes`). -/
def system_getargs (s : Kernel) (buf : Nat) (nbytes : Int) : Option (Int × Kernel) :=
  match get_current_pcb s with
  | none => none
  | some curr_pcb =>
    let pcb := s.pcbs curr_pcb
    if (pcb.args_len : Int) > nbytes ∨ __validate_user_ptr buf = FAILURE ∨ pcb.args_len = 0 then
      some (FAILURE, s)
    else
      let copied := (List.range pcb.args_len).map pcb.args
      match vstore_bytes s buf copied with
      | none => none
      | some s1 => some (SUCCESS, s1)

/-- Source: `system_vidmap` (system.c). The statement `*screen_start = VIDEO_USER`
stores four bytes, after the flag and the mapping have been set. -/
def system_vidmap (s : Kernel) (screen_start : Nat) : Option (Int × Kernel) :=
  let current_group := get_current_group s
  if __validate_user_ptr screen_start = FAILURE then some (FAILURE, s)
  else
    match get_current_pcb s with
    | none => none
    | some p =>
      let s1 := set_pcb s p { s.pcbs p with vid_map_called := 1 }
      let s2 :=
        if s1.visible_group = current_group then map_page s1 VIDEO_USER VIDEO_KERNEL 1 1 0
        else map_page s1 VIDEO_USER (VIDEO_GROUP_1 + current_group * PAGE_SIZE) 1 1 0
      match vstore_bytes s2 screen_start (bytes32 VIDEO_USER) with
      | none => none
      | some s3 => some (SUCCESS, s3)

/-! ## Program loading and execute (system.c) -/

/-- The loop `while (command[cmd_idx] == ' ') ++cmd_idx;`, run for at most
`n` steps: the index it stops at. A string of `n` bytes ends it within `n`
steps, the byte after the string being NUL. -/
def skip_spaces (cmd : Nat → Nat) : Nat → Nat → Nat
  | 0, cmd_idx => cmd_idx
  | n + 1, cmd_idx => if cmd cmd_idx = 32 then skip_spaces cmd n (cmd_idx + 1) else cmd_idx

/-- The loop that copies the file name: `filename` collects the bytes stored
at `filename[0], filename[1], ...`; the result is the final `cmd_idx` and the
bytes stored. The bound `cmd_idx < TERM_BUFFER_SIZE - 1` ends it within 127
steps. -/
def copy_filename (cmd : Nat → Nat) : Nat → Nat → List Nat → Nat × List Nat
  | 0, cmd_idx, filename => (cmd_idx, filename)
  | n + 1, cmd_idx, filename =>
    if cmd_idx < TERM_BUFFER_SIZE - 1 ∧ cmd cmd_idx ≠ 32 ∧ cmd cmd_idx ≠ 0 then
      copy_filename cmd n (cmd_idx + 1) (filename ++ [cmd cmd_idx])
    else (cmd_idx, filename)

/-- The loop that copies one argument into `args`: the final `cmd_idx`,
`args_idx` and `args`. -/
def copy_arg (cmd : Nat → Nat) : Nat → Nat → Nat → (Nat → Nat) → Nat × Nat × (Nat → Nat)
  | 0, cmd_idx, args_idx, args => (cmd_idx, args_idx, args)
  | n + 1, cmd_idx, args_idx, args =>
    if cmd_idx < TERM_BUFFER_SIZE - 1 ∧ cmd cmd_idx ≠ 32 ∧ cmd cmd_idx ≠ 0 then
      copy_arg cmd n (cmd_idx + 1) (args_idx + 1) (upd args args_idx (cmd cmd_idx))
    else (cmd_idx, args_idx, args)

/-- The loop `for (arg_num = 0; arg_num < MAX_NUM_ARGS; ++arg_num)` of
`system_execute`, for `k` more arguments: the final `args_idx` and `args`.
`len` bounds the space-skipping loops. -/
def parse_args (cmd : Nat → Nat) (len : Nat) : Nat → Nat → Nat → (Nat → Nat) → Nat × (Nat → Nat)
  | 0, _, args_idx, args => (args_idx, args)
  | k + 1, cmd_idx, args_idx, args =>
    if cmd cmd_idx = 0 then (args_idx, upd args 0 0)
    else
      let r := copy_arg cmd (TERM_BUFFER_SIZE - 1) cmd_idx args_idx args
      let cmd_idx1 := skip_spaces cmd len r.1
      if cmd cmd_idx1 = 0 then (r.2.1 + 1, upd r.2.2 r.2.1 0)
      else parse_args cmd len k cmd_idx1 (r.2.1 + 1) (upd r.2.2 r.2.1 32)

/-- The command as `system_execute` sees it after `++command` has skipped the
leading spaces. -/
def command_view (command : List Nat) : Nat → Nat :=
  fun i => chr command (skip_spaces (chr command) command.length 0 + i)

/-- The file name `system_execute` copies out of the command: the final
`cmd_idx` and the name. -/
def execute_filename (command : List Nat) : Nat × List Nat :=
  copy_filename (command_view command) (TERM_BUFFER_SIZE - 1) 0 []

/-- Lines 142-188 of `system_execute`: the arguments parsed from the command
and saved in the child PCB `c` (`args_len` is a `uint8_t`). -/
def execute_save_args (s : Kernel) (c : Nat) (command : List Nat) : Kernel :=
  let cmd := command_view command
  let cmd_idx := skip_spaces cmd command.length (execute_filename command).1
  let r := parse_args cmd command.length MAX_NUM_ARGS cmd_idx 0 (s.pcbs c).args
  let s1 := set_pcb s c { s.pcbs c with args := r.2 }
  set_pcb s1 c { s1.pcbs c with args_len := r.1 % 256 }

/-- The copy loop of `__load_program`: `file_read(fd, prog_addr++, 1)` until it
returns 0; the flag tells whether a read failed. At most `n` reads. The loop
has no test on `prog_addr`: each byte is stored wherever the address has come
to, and the store faults (`none`) once it is past the mapped page. -/
def load_loop (fd : Int) : Nat → Nat → Kernel → Option (Bool × Kernel)
  | 0, _, _ => none
  | n + 1, prog_addr, s =>
    match file_read s fd prog_addr 1 with
    | none => none
    | some (ret, s1) =>
      if ret = 0 then some (true, s1)
      else if ret = FAILURE then some (false, s1)
      else load_loop fd n ((prog_addr + 1) % 4294967296) s1

/-- Source: `__load_program` (system.c). `magic_num` is a local variable, so
the first read places its bytes there and not in `mem` (`file_read_bytes`). A
file position is a `uint32_t`, so the copy loop ends within `2^32 + 1` reads.
The entry point is read at 0x08048018, in the 4 KiB page the loop has stored
the first bytes into. -/
def __load_program (s : Kernel) (filename : List Nat) : Option (Int × Kernel) :=
  match system_open s filename with
  | none => none
  | some (fd, s1) =>
    if fd = FAILURE then some (FAILURE, s1)
    else
      match file_read_bytes s1 fd (EXEC_MAGIC_LEN : Int) with
      | none => none
      | some (ret, magic, s2) =>
        if ret = FAILURE ∨ ret < (EXEC_MAGIC_LEN : Int) ∨
            load32 (chr magic) 0 ≠ EXEC_MAGIC_STR then some (FAILURE, s2)
        else
          match get_current_pcb s2 with
          | none => none
          | some p =>
            let s3 := set_fd s2 p fd.toNat { (s2.pcbs p).fd_table fd.toNat with file_position := 0 }
            match load_loop fd 4294967297 (PROG_VIRT_ADDR + PROG_OFFSET) s3 with
            | none => none
            | some (ok, s4) =>
              if ok = false then some (FAILURE, s4)
              else
                match file_close s4 fd with
                | none => none
                | some (_, s5) =>
                  some (s32 (load32 s5.mem (PROG_VIRT_ADDR + PROG_OFFSET + PROG_EIP_OFF)), s5)

/-- How a call of `system_execute` ends: it returns a value to its caller at
once, or it switches to the new program in user mode (and returns only when
that program halts). -/
inductive exec_result where
  | returned (ret : Int)
  | child_running
  deriving DecidableEq, Repr

/-- Source: `system_execute` (system.c), up to the `iret` into the child.
`command_ptr` is the pointer, `command` the string it points to; `esp`, `ebp`
are the stack registers saved in the parent's PCB. -/
def system_execute (s : Kernel) (command_ptr : Nat) (command : List Nat) (esp ebp : Nat) :
    Option (exec_result × Kernel) :=
  if command_ptr = 0 then some (exec_result.returned FAILURE, s)
  else
    let filename := (execute_filename command).2
    let child_pid := get_new_pid s
    let parent_pcb := get_current_pcb s
    match pcb_setup s child_pid with
    | none => none
    | some (none, s1) => some (exec_result.returned FAILURE, s1)
    | some (some child_pcb, s1) =>
      let s2 := execute_save_args s1 child_pcb command
      let s3 := map_page s2 PROG_VIRT_ADDR (get_prog_phys_addr (s2.pcbs child_pcb).pid) 1 1 1
      match __load_program s3 filename with
      | none => none
      | some (program_eip, s4) =>
        if u32 program_eip = u32 FAILURE then
          match parent_pcb with
          | none => none
          | some parent =>
            let s5 := map_page s4 PROG_VIRT_ADDR (get_prog_phys_addr (s4.pcbs parent).pid) 1 1 1
            match pcb_teardown s5 with
            | none => none
            | some s6 => some (exec_result.returned FAILURE, s6)
        else
          let s5 := { s4 with tss_ss0 := KERNEL_DS }
          let s6 := { s5 with tss_esp0 := get_kstack_addr child_pid }
          let s7 := set_pcb s6 child_pcb { s6.pcbs child_pcb with eip := u32 program_eip }
          let user_esp := PROG_VIRT_ADDR + PROG_PAGE_SIZE - 4
          let s8 := set_pcb s7 child_pcb { s7.pcbs child_pcb with esp := user_esp }
          match parent_pcb with
          | none => none
          | some parent =>
            let s9 := set_pcb s8 parent { s8.pcbs parent with esp := esp }
            let s10 := set_pcb s9 parent { s9.pcbs parent with ebp := ebp }
            let s11 := set_pcb s10 parent { s10.pcbs parent with eip := return_from_exec }
            some (exec_result.child_running, s11)

/-- Source: `system_execute` (system.c) from the label `return_from_exec` on:
the parent, whose PCB is `parent_pcb`, resumes with the halt status in EAX. -/
def execute_return (s : Kernel) (parent_pcb : Nat) (ret : Int) : Option (Int × Kernel) :=
  let s1 := map_page s PROG_VIRT_ADDR (get_prog_phys_addr (s.pcbs parent_pcb).pid) 1 1 1
  let s2 := if (s1.pcbs parent_pcb).vid_map_called = 0 then unmap_page s1 VIDEO_USER 0 else s1
  match pcb_teardown s2 with
  | none => none
  | some s3 => some (ret, s3)

/-- Source: `system_execute` (system.c) at the label `return_from_exec`, up to
and including its first `map_page`: the program page goes back to the frame of
the parent. -/
def return_remap (s : Kernel) (parent_pcb : Nat) : Kernel :=
  map_page s PROG_VIRT_ADDR (get_prog_phys_addr (s.pcbs parent_pcb).pid) 1 1 1

/-- Source: `system_execute` (system.c), the statements after that `map_page`:
the user video page is unmapped unless the parent has called vidmap, the child
is torn down, the halt status is returned. `execute_return` is `return_remap`
followed by `return_finish`; the two are apart because the code runs with
interrupts enabled and a timer tick can fall between them. -/
def return_finish (s : Kernel) (parent_pcb : Nat) (ret : Int) : Option (Int × Kernel) :=
  let s2 := if (s.pcbs parent_pcb).vid_map_called = 0 then unmap_page s VIDEO_USER 0 else s
  match pcb_teardown s2 with
  | none => none
  | some s3 => some (ret, s3)

/-- Source: `system_halt` (system.c) followed by the code it jumps to. The
`iret` goes to the parent's saved `eip`, which for a process that has spawned
a child is `return_from_exec`; the result is the value the parent's
`system_execute` returns. -/
def system_halt (s : Kernel) (status : Nat) : Option (Int × Kernel) :=
  match get_current_pcb s with
  | none => none
  | some p =>
    match get_pcb_addr (s.pcbs p).parent_pid with
    | none => none
    | some parent_pcb => execute_return s parent_pcb (s32 status)

/-- Source: `static_start_shell` (system.c). The interrupt frame it fabricates
on the child's kernel stack is not kept. -/
def static_start_shell (s : Kernel) (pid : Int) : Option (Int × Kernel) :=
  let filename : List Nat := [115, 104, 101, 108, 108]
  if pid < 2 ∨ pid > 3 then some (FAILURE, s)
  else
    match pcb_setup s pid with
    | none => none
    | some (child_pcb, s1) =>
      let s2 := { s1 with active_pid := upd s1.active_pid 0 0 }
      match child_pcb with
      | none => some (FAILURE, s2)
      | some c =>
        let s3 := set_pcb s2 c { s2.pcbs c with parent_pid := 0 }
        let s4 := set_pcb s3 c { s3.pcbs c with args := upd (s3.pcbs c).args 0 0 }
        let s5 := set_pcb s4 c { s4.pcbs c with args_len := 0 }
        let s6 := map_page s5 PROG_VIRT_ADDR (get_prog_phys_addr (s5.pcbs c).pid) 1 1 1
        match __load_program s6 filename with
        | none => none
        | some (program_eip, s7) =>
          if u32 program_eip = u32 FAILURE then
            let s8 := map_page s7 PROG_VIRT_ADDR
              (get_prog_phys_addr (s7.pcbs c).parent_pid) 1 1 1
            match pcb_teardown s8 with
            | none => none
            | some s9 => some (FAILURE, s9)
          else
            let s8 := { s7 with active_pid := upd s7.active_pid (pid - 1).toNat pid }
            let s9 := set_pcb s8 c { s8.pcbs c with eip := u32 program_eip }
            let user_esp := PROG_VIRT_ADDR + PROG_PAGE_SIZE - 4
            let s10 := set_pcb s9 c { s9.pcbs c with esp := user_esp }
            let kstack := get_kstack_addr (s10.pcbs c).pid
            let s11 := set_pcb s10 c { s10.pcbs c with tss_esp0 := kstack }
            let kebp := u32 ((s11.pcbs c).tss_esp0 - (CHILD_EBP_OFF : Int))
            let s12 := set_pcb s11 c { s11.pcbs c with kernel_ebp := kebp }
            let kesp := u32 ((s12.pcbs c).kernel_ebp - (SIZE_VARS_SCHEDULING : Int))
            let s13 := set_pcb s12 c { s12.pcbs c with kernel_esp := kesp }
            some (SUCCESS, s13)

/-! ## Scheduler (scheduler.c) -/

/-- Source: `scheduler_init` (scheduler.c). -/
def scheduler_init (s : Kernel) : Kernel := { s with current_group := 0 }

/-- Source: `schedule_next` (scheduler.c). `esp`, `ebp` are the stack
registers of the interrupted context, saved in the outgoing PCB. -/
def schedule_next (s : Kernel) (proc_push_top pushed_cs esp ebp : Nat) : Option Kernel :=
  let old_group := s.current_group
  let next := if s.current_group + 1 ≥ NUM_OF_PROCESS_GROUPS then 0 else s.current_group + 1
  let s1 := { s with current_group := next }
  match get_pcb_addr (s1.active_pid old_group), get_pcb_addr (s1.active_pid s1.current_group) with
  | some pcb_old, some pcb_new =>
    let saved :=
      if pushed_cs &&& CPL_MASK = CPL_3 then (proc_push_top + 5 * ENTRY_SIZE) % 4294967296
      else (proc_push_top + 3 * ENTRY_SIZE) % 4294967296
    let s2 := set_pcb s1 pcb_old { s1.pcbs pcb_old with tss_esp0 := saved }
    let s3 := set_pcb s2 pcb_old { s2.pcbs pcb_old with kernel_esp := esp }
    let s4 := set_pcb s3 pcb_old { s3.pcbs pcb_old with kernel_ebp := ebp }
    let s5 :=
      if (s4.pcbs pcb_new).vid_map_called ≠ 0 then
        if s4.visible_group = s4.current_group then map_page s4 VIDEO_USER VIDEO_KERNEL 1 1 0
        else map_page s4 VIDEO_USER (VIDEO_GROUP_1 + s4.current_group * PAGE_SIZE) 1 1 0
      else unmap_page s4 VIDEO_USER 0
    let s6 := map_page s5 PROG_VIRT_ADDR (get_prog_phys_addr (s5.pcbs pcb_new).pid) 1 1 1
    let s7 := { s6 with tss_ss0 := KERNEL_DS }
    some { s7 with tss_esp0 := (s7.pcbs pcb_new).tss_esp0 }
  | _, _ => none

/-! ## Initialisation (paging.c, term.c) and the boot sequence -/

/-- Source: `paging_init` (paging.c). `page_table_0_addr` is the link-time
address of `page_table_0`; the control-register writes are left out. The save
pages are filled with the word `0x07200720`. -/
def paging_init (s : Kernel) (page_table_0_addr : Nat) : Kernel :=
  let pd0 : Nat → Nat := fun i => if i < NUM_PAGE_ENTRIES then 0 else s.page_directory i
  let pd1 := upd pd0 PD_VIDEO_ENTRY (page_table_0_addr &&& FLAG_MASK)
  let pd2 := upd pd1 PD_VIDEO_ENTRY
    (pd1 PD_VIDEO_ENTRY ||| (PDE_READ_WRITE ||| PDE_USER_SUPERVISOR ||| PDE_PRESENT))
  let pd3 := upd pd2 PD_KERNEL (KERNEL_LOC &&& FLAG_MASK)
  let pd4 := upd pd3 PD_KERNEL (pd3 PD_KERNEL ||| (PDE_PAGE_SIZE ||| PDE_READ_WRITE ||| PDE_PRESENT))
  let pt0 : Nat → Nat := fun i => if i < NUM_PAGE_ENTRIES then 0 else s.page_table_0 i
  let pt1 := upd pt0 PT_VIDEO_ENTRY (VIDEO_KERNEL &&& FLAG_MASK)
  let pt2 := upd pt1 PT_VIDEO_ENTRY (pt1 PT_VIDEO_ENTRY ||| (PDE_READ_WRITE ||| PDE_PRESENT))
  let s1 := { s with page_directory := pd4, page_table_0 := pt2 }
  let s2 := map_page s1 VIDEO_GROUP_1 VIDEO_GROUP_1 1 0 0
  let s3 := map_page s2 VIDEO_GROUP_2 VIDEO_GROUP_2 1 0 0
  let s4 := map_page s3 VIDEO_GROUP_3 VIDEO_GROUP_3 1 0 0
  let cleared : Nat → Nat := fun a =>
    if VIDEO_GROUP_1 ≤ a ∧ a < VIDEO_GROUP_3 + PAGE_SIZE then (if a % 2 = 0 then 0x20 else 0x07)
    else s4.mem a
  { s4 with mem := cleared }

/-- Source: `term_init` (term.c). -/
def term_init (s : Kernel) : Kernel :=
  let terms : Nat → term_struct_t := fun i =>
    if i < MAX_PROCESS_GROUPS then
      { s.terms i with read_in_progress := 0, newline_seen := 0, term_buff_size := 0,
                       cursor_x := 0, cursor_y := 0 }
    else s.terms i
  { s with terms := terms, visible_group := 0 }

/-- The kernel variables before any initialiser runs: C statics are zero;
`bb` is the filesystem image, `mem` the byte store and `pcbs` the contents of
the PCB area at that time. -/
def reset_state (bb : boot_block_t) (mem : Nat → Nat) (pcbs : Nat → pcb_t) : Kernel :=
  { page_directory := fun _ => 0, page_table_0 := fun _ => 0, pid_array := fun _ => false,
    pcbs := pcbs, active_pid := fun _ => 0, current_group := 0, visible_group := 0,
    tss_ss0 := 0, tss_esp0 := 0,
    terms := fun _ => { read_in_progress := 0, newline_seen := 0, term_buff := fun _ => 0,
                        term_buff_size := 0, cursor_x := 0, cursor_y := 0 },
    rtc_read_waiting := fun _ => 0, rtc_intr_count := fun _ => 0, rtc_freq_divider := fun _ => 0,
    boot_blk := bb, mem := mem, screen := [] }

/-- The kernel after its initialisers have run and before a shell is started. -/
def init_state (bb : boot_block_t) (mem : Nat → Nat) (pcbs : Nat → pcb_t) (pt0 : Nat) :
    Option Kernel :=
  pcb_init (scheduler_init (term_init (paging_init (reset_state bb mem pcbs) pt0)))

/-- Modelled from the spec: the kernel entry (kernel.c) is not in src. After
the initialisers, "three shells are statically launched, one per group":
`static_start_shell` serves groups 1 and 2 and the shell of group 0 is entered
through `system_execute`. The boot is complete when all three have started. -/
def boot (bb : boot_block_t) (mem : Nat → Nat) (pcbs : Nat → pcb_t) (pt0 esp ebp : Nat) :
    Option Kernel :=
  match init_state bb mem pcbs pt0 with
  | none => none
  | some s0 =>
    match static_start_shell s0 2 with
    | some (0, s1) =>
      match static_start_shell s1 3 with
      | some (0, s2) =>
        match system_execute s2 1 [115, 104, 101, 108, 108] esp ebp with
        | some (exec_result.child_running, s3) => some s3
        | _ => none
      | _ => none
    | _ => none

/-! ## Reading page-table entries -/

/-- Bit 0 of a page-table or directory entry. -/
def entry_present (e : Nat) : Bool := e &&& PDE_PRESENT != 0
/-- Bit 1 of a page-table or directory entry. -/
def entry_writable (e : Nat) : Bool := e &&& PDE_READ_WRITE != 0
/-- Bit 2 of a page-table or directory entry. -/
def entry_user (e : Nat) : Bool := e &&& PDE_USER_SUPERVISOR != 0
/-- The 4 KiB frame a page-table entry maps. -/
def entry_frame (e : Nat) : Nat := e &&& FLAG_MASK
/-- The 4 MiB frame a directory entry maps. -/
def entry_frame_4mb (e : Nat) : Nat := e &&& ALIGN_MB

/-- The entry `map_page` composes for a writable, user-accessible 4 KiB page
at `phys`. -/
def video_entry (phys : Nat) : Nat :=
  ((((phys &&& FLAG_MASK) ||| 0) ||| PDE_READ_WRITE) ||| PDE_USER_SUPERVISOR) ||| PDE_PRESENT

/-- The entry `map_page` composes for a writable, user-accessible 4 MiB page
at `phys`. -/
def prog_entry (phys : Nat) : Nat :=
  ((((phys &&& ALIGN_MB) ||| PDE_PAGE_SIZE) ||| PDE_READ_WRITE) ||| PDE_USER_SUPERVISOR) |||
    PDE_PRESENT

/-- The pointer test of the system calls: `ptr` lies in the program page. -/
def in_user_page (ptr : Nat) : Prop :=
  PROG_VIRT_ADDR ≤ ptr ∧ ptr < PROG_VIRT_ADDR + PROG_PAGE_SIZE

instance (ptr : Nat) : Decidable (in_user_page ptr) := by
  unfold in_user_page; exact inferInstance

/-- The program page is mapped the way `system_execute` and `schedule_next` map
it for a user process: directory entry 32 is present, it is a 4 MiB page, and
its frame starts at 8 MiB or above. -/
def prog_page_mapped (s : Kernel) : Prop :=
  s.page_directory 32 &&& PDE_PRESENT ≠ 0 ∧ s.page_directory 32 &&& PDE_PAGE_SIZE ≠ 0 ∧
  KERNEL_LOC_END ≤ s.page_directory 32 &&& ALIGN_MB

instance (s : Kernel) : Decidable (prog_page_mapped s) := by
  unfold prog_page_mapped; exact inferInstance

/-- Nothing is mapped behind the program page: directory entry 33 (virtual
0x08400000 to 0x087FFFFF) is not present. `paging_init` clears it and no code
of the kernel writes it. -/
def past_prog_unmapped (s : Kernel) : Prop := s.page_directory 33 &&& PDE_PRESENT = 0

instance (s : Kernel) : Decidable (past_prog_unmapped s) := by
  unfold past_prog_unmapped; exact inferInstance

/-! ## A small filesystem image and the states used as concrete inputs -/

/-- A 28-byte executable: the magic, 20 zero bytes, entry point 0x08048100. -/
def demo_shell_bytes : List Nat :=
  [0x7F, 0x45, 0x4C, 0x46, 0, 0, 0, 0, 0, 0, 0, 0, 0, 0, 0, 0, 0, 0, 0, 0, 0, 0, 0, 0,
   0x00, 0x81, 0x04, 0x08]

/-- A directory with ".", "rtc", "shell" (28 bytes), "tiny" (4 bytes: the
magic and nothing else), "text" (not an executable) and "odd" (file type 3). -/
def demo_fs : boot_block_t :=
  { dir_count := 6, inode_count := 4, data_count := 3,
    dir_entries := fun i =>
      match i with
      | 0 => { filename := [46], filetype := 1, inode_num := 0 }
      | 1 => { filename := [114, 116, 99], filetype := 0, inode_num := 0 }
      | 2 => { filename := [115, 104, 101, 108, 108], filetype := 2, inode_num := 1 }
      | 3 => { filename := [116, 105, 110, 121], filetype := 2, inode_num := 2 }
      | 4 => { filename := [116, 101, 120, 116], filetype := 2, inode_num := 3 }
      | 5 => { filename := [111, 100, 100], filetype := 3, inode_num := 3 }
      | _ => { filename := [], filetype := 0, inode_num := 0 },
    inodes := fun i =>
      match i with
      | 1 => { length := 28, data_block_num := fun _ => 0 }
      | 2 => { length := 4, data_block_num := fun _ => 2 }
      | 3 => { length := 5, data_block_num := fun _ => 1 }
      | _ => { length := 0, data_block_num := fun _ => 0 },
    dnodes := fun b k =>
      if b = 0 then demo_shell_bytes.getD k 0
      else if b = 1 then [104, 101, 108, 108, 111].getD k 0
      else if b = 2 then [0x7F, 0x45, 0x4C, 0x46].getD k 0
      else 0 }

/-- The state after the initialisers on `demo_fs` with zeroed memory. -/
def demo_init : Kernel :=
  match init_state demo_fs (fun _ => 0) (fun _ => pcb_zero) 0x500000 with
  | some s => s
  | none => reset_state demo_fs (fun _ => 0) (fun _ => pcb_zero)

/-- The state after boot on `demo_fs` with zeroed memory: three shells run. -/
def demo_boot : Kernel :=
  match boot demo_fs (fun _ => 0) (fun _ => pcb_zero) 0x500000 0x7FDF00 0x7FDF80 with
  | some s => s
  | none => reset_state demo_fs (fun _ => 0) (fun _ => pcb_zero)

/-- The state right after `pcb_setup` has built the PCB of the first process on
`demo_fs`. -/
def demo_fresh : Kernel :=
  match pcb_setup demo_init (get_new_pid demo_init) with
  | some (_, s) => s
  | none => demo_init

/-- The booted state with the argument string "ab" saved in the PCB of the
running shell, as `system_execute` saves it for the command "shell ab". -/
def demo_args : Kernel := execute_save_args demo_boot 1 [115, 104, 101, 108, 108, 32, 97, 98]

/-- The descriptor `term_open` fills in for stdin. -/
def stdin_file : file_t :=
  { file_ops := file_ops_ptr.stdin_op_table, inode := 0, file_position := INIT_FILE_POS,
    flags := IN_USE }

/-- The descriptor `term_open` fills in for stdout. -/
def stdout_file : file_t :=
  { file_ops := file_ops_ptr.stdout_op_table, inode := 0, file_position := INIT_FILE_POS,
    flags := IN_USE }

/-- The descriptor table of a PCB as `pcb_setup` leaves it: stdin, stdout and
six free slots. -/
def fresh_fd_table : Nat → file_t :=
  fun i => if i = 0 then stdin_file else if i = 1 then stdout_file else file_zero

/-- The PCB as `pcb_setup` leaves it for process `pid` with parent `parent_pid`. -/
def fresh_pcb (pid parent_pid : Int) : pcb_t :=
  { pcb_zero with pid := pid, parent_pid := parent_pid, fd_table := fresh_fd_table }

/-- The state `pcb_teardown` leaves when the current process is `c`: the slot
of `c` is freed, its parent becomes the active process of the group, TSS.esp0
points to the parent's kernel stack and the PCB of `c` is zeroed. -/
def teardown_state (s : Kernel) (c : Nat) : Kernel :=
  { s with pid_array := upd s.pid_array c false,
           active_pid := upd s.active_pid s.current_group (s.pcbs c).parent_pid,
           tss_esp0 := get_kstack_addr (s.pcbs c).parent_pid,
           pcbs := upd s.pcbs c pcb_zero }

/-- Every descriptor of PCB `c` that is in use has an operations table. -/
def fds_have_ops (s : Kernel) (c : Nat) : Prop :=
  ∀ i, i < FD_ARRAY_SIZE → ((s.pcbs c).fd_table i).flags = IN_USE →
    ((s.pcbs c).fd_table i).file_ops ≠ file_ops_ptr.NULL

instance (s : Kernel) (c : Nat) : Decidable (fds_have_ops s c) := by
  unfold fds_have_ops; exact inferInstance

/-- The state `s'` differs from `s` at most in the descriptor table of PCB `c`,
in the byte store and in the RTC variables. -/
def io_frame (c : Nat) (s s' : Kernel) : Prop :=
  s'.page_directory = s.page_directory ∧ s'.page_table_0 = s.page_table_0 ∧
  s'.pid_array = s.pid_array ∧ s'.active_pid = s.active_pid ∧
  s'.current_group = s.current_group ∧ s'.visible_group = s.visible_group ∧
  s'.tss_ss0 = s.tss_ss0 ∧ s'.tss_esp0 = s.tss_esp0 ∧ s'.boot_blk = s.boot_blk ∧
  s'.terms = s.terms ∧ s'.screen = s.screen ∧
  (∀ q, q ≠ c → s'.pcbs q = s.pcbs q) ∧
  (∃ T, s'.pcbs c = { s.pcbs c with fd_table := T })

/-- The state after `system_open("odd")` has failed in the booted shell. -/
def demo_leak : Kernel :=
  match system_open demo_boot [111, 100, 100] with
  | some (_, s) => s
  | none => demo_boot

/-- The state after `system_execute("no")` has failed in the booted shell: no
file of that name exists. -/
def demo_exec_fail : Kernel :=
  match system_execute demo_boot 1 [110, 111] 0x7FBF00 0x7FBF80 with
  | some (_, s) => s
  | none => demo_boot

/-- A file name or an argument: a non-empty run of bytes other than space
and NUL. -/
def is_token (w : List Nat) : Prop := w ≠ [] ∧ ∀ c, c ∈ w → c ≠ 32 ∧ c ≠ 0

instance (w : List Nat) : Decidable (is_token w) := by
  unfold is_token; exact inferInstance

/-- What follows the file name in a command: each argument preceded by a run
of one or more spaces (`n + 1` of them), and `t` spaces at the end. -/
def spaced_args (t : Nat) : List (Nat × List Nat) → List Nat
  | [] => List.replicate t 32
  | (n, a) :: rest => List.replicate (n + 1) 32 ++ (a ++ spaced_args t rest)

/-- A command: the file name, the arguments with their separating spaces, and
`t` trailing spaces. -/
def build_command (name : List Nat) (argv : List (Nat × List Nat)) (t : Nat) : List Nat :=
  name ++ spaced_args t argv

/-- The arguments joined by exactly one space each. -/
def joined_args : List (List Nat) → List Nat
  | [] => []
  | [a] => a
  | a :: b :: rest => a ++ 32 :: joined_args (b :: rest)

/-- The command bytes from position `p` on are the argument `a`, then the
remaining arguments with their spaces, then `t` spaces and the terminating
NUL, all within the first `len` bytes. -/
def arg_layout (cmd : Nat → Nat) (len t : Nat) : List (Nat × List Nat) → List Nat → Nat → Prop
  | [], a, p =>
    is_token a ∧ (∀ i, i < a.length → cmd (p + i) = a.getD i 0) ∧
    (∀ i, i < t → cmd (p + a.length + i) = 32) ∧ cmd (p + a.length + t) = 0 ∧
    p + a.length + t ≤ len
  | (n, b) :: rest, a, p =>
    is_token a ∧ (∀ i, i < a.length → cmd (p + i) = a.getD i 0) ∧
    (∀ i, i < n + 1 → cmd (p + a.length + i) = 32) ∧
    arg_layout cmd len t rest b (p + a.length + (n + 1))

/-- The state after the booted shell has executed "shell ab": a second shell
(PID 4) runs in group 0 with the argument "ab". -/
def demo_child : Kernel :=
  match system_execute demo_boot 1
      (build_command [115, 104, 101, 108, 108] [(0, [97, 98])] 0) 0x7FBF00 0x7FBF80 with
  | some (_, s) => s
  | none => demo_boot

/-- Byte `k` of the file with index node `ino`: byte `k mod 4096` of the data
block listed at position `k div 4096`. -/
def file_byte (bb : boot_block_t) (ino : inode_t) (k : Nat) : Nat :=
  bb.dnodes (ino.data_block_num (k / BLOCK_SIZE)) (k % BLOCK_SIZE)

/-- The little-endian 32-bit word formed by file bytes `k .. k + 3`. -/
def file_word (bb : boot_block_t) (ino : inode_t) (k : Nat) : Nat :=
  load32 (file_byte bb ino) k

/-- The booted state with the program page cleared. -/
def demo_boot_blank : Kernel := { demo_boot with mem := fun _ => 0 }

/-- The image `demo_fs` with a seventh entry "big": a regular file of 0x3B8001
bytes (952 data blocks and one byte more, blocks 3 .. 955), one byte longer than
the room between 0x08048000 and the end of the program page. It starts with
7F 45 4C 46 and is zero from there on. -/
def demo_big_fs : boot_block_t :=
  { dir_count := 7, inode_count := 5, data_count := 956,
    dir_entries := fun i =>
      if i = 6 then { filename := [98, 105, 103], filetype := 2, inode_num := 4 }
      else demo_fs.dir_entries i,
    inodes := fun i =>
      if i = 4 then { length := 0x3B8001, data_block_num := fun k => 3 + (k : Int) }
      else demo_fs.inodes i,
    dnodes := fun b k =>
      if b = 3 then [0x7F, 0x45, 0x4C, 0x46].getD k 0 else demo_fs.dnodes b k }

/-- The state after boot on `demo_big_fs` with zeroed memory: three shells run. -/
def demo_big : Kernel :=
  match boot demo_big_fs (fun _ => 0) (fun _ => pcb_zero) 0x500000 0x7FDF00 0x7FDF80 with
  | some s => s
  | none => reset_state demo_big_fs (fun _ => 0) (fun _ => pcb_zero)

/-- Descriptor `fd` of the current process `p` is in use on index node `I` at
file position `j`. -/
def fd_at (s : Kernel) (p fd I j : Nat) : Prop :=
  get_current_pcb s = some p ∧ ((s.pcbs p).fd_table fd).flags = IN_USE ∧
  ((s.pcbs p).fd_table fd).inode = I ∧ ((s.pcbs p).fd_table fd).file_position = j

/-- The file with index node `ino` starts with the bytes 7F 45 4C 46. -/
def has_magic (bb : boot_block_t) (ino : inode_t) : Prop :=
  file_byte bb ino 0 = 0x7F ∧ file_byte bb ino 1 = 0x45 ∧ file_byte bb ino 2 = 0x4C ∧
  file_byte bb ino 3 = 0x46

instance (bb : boot_block_t) (ino : inode_t) : Decidable (has_magic bb ino) := by
  unfold has_magic; infer_instance

/-- The file operations table `system_open` selects for a file type. -/
def ops_of_filetype (t : Int) : file_ops_ptr :=
  if t = RTC_TYPE then file_ops_ptr.rtc_type_op_table
  else if t = DIR_TYPE then file_ops_ptr.dir_type_op_table
  else file_ops_ptr.file_type_op_table

/-- The state after `system_open("shell")` in a fresh process. -/
def demo_opened : Kernel :=
  match system_open demo_fresh [115, 104, 101, 108, 108] with
  | some (_, s) => s
  | none => demo_fresh

/-- The state after `system_open("shell")` in the booted shell: descriptor 2
is open on the file, the program page of the shell is mapped. -/
def demo_reader : Kernel :=
  match system_open demo_boot [115, 104, 101, 108, 108] with
  | some (_, s) => s
  | none => demo_boot

/-- The string a NUL-terminated byte sequence holds: its bytes before the first
NUL. -/
def c_string (a : List Nat) : List Nat := a.takeWhile (fun c => c != 0)

/-- The name a directory entry stores: the bytes of its 32-byte field up to the
first NUL, or all 32 bytes when the field has no NUL. -/
def stored_name (d : dentry_t) : List Nat := c_string (name32 d)

/-- Directory entry `i` has an inode number below `inode_count` and stores
exactly the name `fname`. -/
def entry_matches (bb : boot_block_t) (fname : List Nat) (i : Nat) : Prop :=
  (bb.dir_entries i).inode_num < bb.inode_count ∧ stored_name (bb.dir_entries i) = c_string fname

instance (bb : boot_block_t) (fname : List Nat) (i : Nat) :
    Decidable (entry_matches bb fname i) := by
  unfold entry_matches; infer_instance

/-- A directory with "shell", "hello", a name of 32 letters 'a', and "lost",
whose inode number 3 is not below `inode_count`. -/
def demo_names : boot_block_t :=
  { dir_count := 4, inode_count := 3, data_count := 0,
    dir_entries := fun i =>
      match i with
      | 0 => { filename := [115, 104, 101, 108, 108], filetype := 2, inode_num := 1 }
      | 1 => { filename := [104, 101, 108, 108, 111], filetype := 2, inode_num := 2 }
      | 2 => { filename := List.replicate 32 97, filetype := 2, inode_num := 0 }
      | 3 => { filename := [108, 111, 115, 116], filetype := 2, inode_num := 3 }
      | _ => { filename := [], filetype := 0, inode_num := 0 },
    inodes := fun _ => { length := 0, data_block_num := fun _ => 0 },
    dnodes := fun _ _ => 0 }

/-- Read a file in chunks, as the loop of `test_read_all_files` does: call
`file_read(fd, read_buf, n)` on a local array `read_buf` of `n` bytes until it
returns 0, collecting the bytes delivered. `none` when a read fails or the
reads allowed are used up. -/
def read_chunks (fd : Int) (n : Int) : Nat → Kernel → Option (List Nat × Kernel)
  | 0, _ => none
  | fuel + 1, s =>
    match file_read_bytes s fd n with
    | none => none
    | some (r, bytes, s1) =>
      if r = 0 then some ([], s1)
      else if r = FAILURE then none
      else
        match read_chunks fd n fuel s1 with
        | none => none
        | some (rest, s2) => some (bytes ++ rest, s2)

/-- The booted state with the 4-byte value 2048 stored at 0x08000100. -/
def demo_rate_2048 : Kernel :=
  { demo_boot with mem := store_bytes demo_boot.mem 0x08000100 (bytes32 2048) }

/-- The RTC interrupt handler run `k` times in a row. -/
def rtc_ticks : Nat → Kernel → Option Kernel
  | 0, s => some s
  | k + 1, s => (rtc_wrapper s).bind (rtc_ticks k)

/-- The state `rtc_read` busy-waits in: the waiting flag of the calling group is
set and its interrupt counter is cleared. -/
def rtc_read_start (s : Kernel) : Kernel :=
  { s with rtc_read_waiting := upd s.rtc_read_waiting s.current_group RTC_WAITING,
           rtc_intr_count := upd s.rtc_intr_count s.current_group 0 }

/-- The number of `rtc_wrapper` calls after which a waiting flag is cleared when
the group's rate variable holds `d`: `1024 / d`, and 1 when that is 0. -/
def rtc_wait_ticks (d : Int) : Nat := max 1 (Int.tdiv RTC_FREQ d).toNat

/-- Every group whose waiting flag is set has a non-zero rate variable, so the
division in `rtc_wrapper` is defined. -/
def rtc_rates_set (s : Kernel) : Prop :=
  ∀ g, g < 3 → s.rtc_read_waiting g = 1 → s.rtc_freq_divider g ≠ 0

/-- An `rtc_read` started in state `s` waits for exactly `N` calls of
`rtc_wrapper`: the waiting flag of the calling group is still set after every
smaller number of calls and is clear after `N` calls; the read does not return
while fewer than `N` RTC interrupts have arrived and returns 0 with `N`. -/
def rtc_read_waits (s : Kernel) (N : Nat) : Prop :=
  (∀ k, k < N →
    ∃ s', rtc_ticks k (rtc_read_start s) = some s' ∧ s'.rtc_read_waiting s.current_group = 1) ∧
  (∃ s', rtc_ticks N (rtc_read_start s) = some s' ∧ s'.rtc_read_waiting s.current_group = 0) ∧
  (∀ (fd : Int) (buf : Nat) (nbytes : Int) (k : Nat), k < N →
    rtc_read s fd buf nbytes (List.replicate k Irq.rtc) = none) ∧
  (∀ (fd : Int) (buf : Nat) (nbytes : Int),
    ∃ s', rtc_read s fd buf nbytes (List.replicate N Irq.rtc) = some (0, s'))

/-- The booted state with the 4-byte value 2 stored at 0x08000100. -/
def demo_rate_2 : Kernel :=
  { demo_boot with mem := store_bytes demo_boot.mem 0x08000100 (bytes32 2) }

/-- The state after `rtc_write` has accepted the rate 2 in `demo_rate_2`. -/
def demo_rate_2_set : Kernel :=
  match rtc_write demo_rate_2 2 0x08000100 4 with
  | some (_, s) => s
  | none => demo_rate_2

/-- The booted state after `rtc_open`, which sets the rate its header calls
2 Hz. -/
def demo_rate_open : Kernel :=
  match rtc_open demo_boot [114, 116, 99] with
  | some (_, s) => s
  | none => demo_boot

/-- Modelled from the spec: lib.c (memcpy) is not in src; the C library meaning
is used: the `n` bytes at `src` are copied to `dst` (the two regions do not
overlap). -/
def memcpy_mem (mem : Nat → Nat) (dst src n : Nat) : Nat → Nat :=
  fun a => if dst ≤ a ∧ a < dst + n then mem (src + (a - dst)) else mem a

/-- Source: `switch_term` (term.c). Modelled from the spec: lib.c (get_cursor,
set_cursor) is not in src; the hardware cursor position is the pair `cursor`,
which `get_cursor` reads and `set_cursor` writes. The result holds the return
value, the kernel state and the hardware cursor. -/
def switch_term (s : Kernel) (cursor : Int × Int) (group_num : Int) :
    Int × Kernel × (Int × Int) :=
  if group_num < 0 ∨ group_num ≥ (MAX_PROCESS_GROUPS : Int) then (FAILURE, s, cursor)
  else
    let s1 := set_term s s.visible_group { s.terms s.visible_group with cursor_x := cursor.1, cursor_y := cursor.2 }
    let s2 := { s1 with mem := memcpy_mem s1.mem (get_video_save_page s1.visible_group) VIDEO_KERNEL PAGE_SIZE }
    let s3 := { s2 with visible_group := group_num.toNat }
    let cursor1 := ((s3.terms s3.visible_group).cursor_x, (s3.terms s3.visible_group).cursor_y)
    let s4 := { s3 with mem := memcpy_mem s3.mem VIDEO_KERNEL (get_video_save_page s3.visible_group) PAGE_SIZE }
    ((s4.visible_group : Int), s4, cursor1)

/-- The states reachable from `term_init` (run on `s0`) by key events (any
character handed to `add_char_term`: printable, tab, backspace, Enter), terminal
switches and `term_read` calls that return. -/
inductive TermReach (s0 : Kernel) : Kernel → Prop
  | init : TermReach s0 (term_init s0)
  | key (s : Kernel) (c : Nat) : TermReach s0 s → TermReach s0 (add_char_term s c).2
  | switch (s : Kernel) (cursor : Int × Int) (g : Int) : TermReach s0 s →
      TermReach s0 (switch_term s cursor g).2.1
  | read (s s' : Kernel) (fd : Int) (buf : Nat) (nbytes r : Int) (env : List Irq) :
      TermReach s0 s → term_read s fd buf nbytes env = some (r, s') → TermReach s0 s'

/-- The line-buffer invariant: a group is visible, each group's buffer holds at
most 128 bytes, and no byte at index 128 or above differs from what `s0` held. -/
def term_inv (s0 s : Kernel) : Prop :=
  s.visible_group < 3 ∧ (∀ g, g < 3 → (s.terms g).term_buff_size ≤ 128) ∧
  (∀ g i, 128 ≤ i → (s.terms g).term_buff i = (s0.terms g).term_buff i)

/-- The state `term_init` builds on zeroed memory. -/
def demo_term : Kernel := term_init (reset_state demo_fs (fun _ => 0) (fun _ => pcb_zero))

/-- A character the keyboard hands to the line buffer as itself: not a
backspace, a tab or a newline. -/
def printable (c : Nat) : Prop := c ≠ 8 ∧ c ≠ 9 ∧ c ≠ 10

instance (c : Nat) : Decidable (printable c) := by
  unfold printable; infer_instance

/-- A typed line of 129 characters: 126 letters 'a', then 'P', 'Q', 'R'. -/
def demo_line : List Nat := List.replicate 126 97 ++ [80, 81, 82]

/-- Process `q` is live and on the parent chain of the active process of group
`g`: the active process itself, its parent, the parent of that, and so on. -/
inductive InGroup (s : Kernel) (g : Nat) : Nat → Prop
  | active (p : Nat) : p < MAX_PID → s.active_pid g = (p : Int) → s.pid_array p = true →
      InGroup s g p
  | parent (p q : Nat) : InGroup s g p → q < MAX_PID → (s.pcbs p).parent_pid = (q : Int) →
      s.pid_array q = true → InGroup s g q

/-- The booted state after the first shell has called vidmap. -/
def demo_vid : Kernel :=
  match system_vidmap demo_boot 0x08000100 with
  | some (_, s) => s
  | none => demo_boot

/-- The state after that shell has started a child "shell". -/
def demo_vid_child : Kernel :=
  match system_execute demo_vid 1 [115, 104, 101, 108, 108] 0x7FBF00 0x7FBF80 with
  | some (_, s) => s
  | none => demo_vid

/-- One timer tick: `schedule_next` from an interrupt taken in user mode. -/
def demo_tick (s : Kernel) : Kernel :=
  match schedule_next s 0x7FBFE0 0x23 0x7FBFC0 0x7FBFD0 with
  | some s1 => s1
  | none => s

/-- The state after three timer ticks: group 0 runs again. -/
def demo_vid_round : Kernel := demo_tick (demo_tick (demo_tick demo_vid_child))

/-- The child of `demo_child` (PID 4, parent PID 1, group 0) has called halt:
`return_from_exec` has mapped the program page back to the frame of the parent
when a timer tick arrives, in kernel mode; two more ticks bring the scheduler
back to group 0. -/
def demo_halt_round : Kernel :=
  match schedule_next (return_remap demo_child 1) 0x7FBEE0 0x10 0x7FBEC0 0x7FBF80 with
  | some s => demo_tick (demo_tick s)
  | none => demo_child

/-- That state after `return_from_exec` has run on to its end. -/
def demo_halt_raced : Kernel :=
  match return_finish demo_halt_round 1 0 with
  | some (_, s) => s
  | none => demo_halt_round

/-- The state after the same halt with no tick inside it. -/
def demo_halt_plain : Kernel :=
  match system_halt demo_child 0 with
  | some (_, s) => s
  | none => demo_child

/-- The process-tree invariant of the scheduler and the PCB area: the current
group exists; every group's active process is a live process; PCB 0 is live,
holds PID 0 and has no parent; every other live process holds its own PID and
has a live parent; two groups share an active process only if it is process 0;
a process other than 0 has at most one live child; and an active process other
than 0 has no live child. -/
def tree_inv (s : Kernel) : Prop :=
  s.current_group < 3 ∧
  (∀ g, g < 3 → ∃ p : Nat, p < 7 ∧ s.active_pid g = (p : Int) ∧ s.pid_array p = true) ∧
  (s.pid_array 0 = true ∧ (s.pcbs 0).pid = 0 ∧ (s.pcbs 0).parent_pid = -1) ∧
  (∀ p, 0 < p → p < 7 → s.pid_array p = true →
    (s.pcbs p).pid = (p : Int) ∧
      ∃ q : Nat, q < 7 ∧ (s.pcbs p).parent_pid = (q : Int) ∧ s.pid_array q = true) ∧
  (∀ g h, g < 3 → h < 3 → g ≠ h → s.active_pid g = s.active_pid h → s.active_pid g = 0) ∧
  (∀ p1 p2, 0 < p1 → p1 < 7 → s.pid_array p1 = true → 0 < p2 → p2 < 7 →
    s.pid_array p2 = true → (s.pcbs p1).parent_pid = (s.pcbs p2).parent_pid →
    (s.pcbs p1).parent_pid ≠ 0 → p1 = p2) ∧
  (∀ p g, 0 < p → p < 7 → s.pid_array p = true → g < 3 → s.active_pid g ≠ 0 →
    (s.pcbs p).parent_pid ≠ s.active_pid g)

/-- The page-table invariant: if the user-video entry is present, some live
process on the parent chain of the current group's active process has called
vidmap; and the directory entry for 128 MiB is the one `map_page` composes for
the frame of the current group's active process. -/
def pages_inv (s : Kernel) : Prop :=
  (entry_present (s.page_table_0 0xB9) = true →
    ∃ q, InGroup s s.current_group q ∧ (s.pcbs q).vid_map_called ≠ 0) ∧
  s.page_directory 32 = prog_entry (get_prog_phys_addr (s.active_pid s.current_group))

/-- The state after boot on `demo_fs` when the PCB area held, before boot, the
byte 5 in the `vid_map_called` field of every PCB (the area is not part of the
zeroed kernel data; `pcb_init` does not clear the PCB of process 0). -/
def demo_stale_boot : Kernel :=
  match boot demo_fs (fun _ => 0) (fun _ => { pcb_zero with vid_map_called := 5 })
      0x500000 0x7FDF00 0x7FDF80 with
  | some s => s
  | none => reset_state demo_fs (fun _ => 0) (fun _ => pcb_zero)

/-- That state after the shell of group 0 has halted and three timer ticks have
brought the scheduler back to group 0, whose active process is then process 0. -/
def demo_stale_round : Kernel :=
  match system_halt demo_stale_boot 0 with
  | some (_, s) => demo_tick (demo_tick (demo_tick s))
  | none => demo_stale_boot

/-- Source: pit.h. -/
def CH_0_DATA_PORT : Nat := 0x40
/-- Source: pit.h. -/
def MODE_COMMAND_PORT : Nat := 0x43
/-- Source: pit.h. -/
def RELOAD_VAL : Nat := 40
/-- Source: pit.h, `#define MODE_COMMAND 00010110`: a C integer literal that
begins with 0 is octal. -/
def MODE_COMMAND : Nat := 0o10110
/-- Source: scheduler.h. -/
def IRQ_0 : Nat := 0
/-- Modelled from the spec: i8259.h is not in src; the data port of the master
PIC is 0x21. -/
def MASTER_8259_PORT_2 : Nat := 0x21

/-- Modelled from the spec: lib.h (outb) is not in src; `outb(data, port)`
writes the low byte of `data` to `port`. The writes are recorded in order as
pairs (port, byte). -/
def outb (ports : List (Nat × Nat)) (data port : Nat) : List (Nat × Nat) :=
  ports ++ [(port, data % 256)]

/-- Source: `enable_irq` (i8259.c) for a line of the master PIC
(`irq_num < 8`): the mask bit is cleared and the mask written out. The result
is the port writes and the new `master_mask`. -/
def enable_irq_master (ports : List (Nat × Nat)) (master_mask irq_num : Nat) :
    List (Nat × Nat) × Nat :=
  let mask := master_mask &&& (0xFF ^^^ (1 <<< irq_num))
  (outb ports mask MASTER_8259_PORT_2, mask)

/-- Source: `pit_init` (pit.c): the port writes in order and the new
`master_mask`. -/
def pit_init (master_mask : Nat) : List (Nat × Nat) × Nat :=
  let p1 := outb [] RELOAD_VAL CH_0_DATA_PORT
  let p2 := outb p1 MODE_COMMAND MODE_COMMAND_PORT
  enable_irq_master p2 master_mask IRQ_0

/-- The command "shell a b c d": a file name and four arguments. -/
def demo_four_args : List Nat :=
  [115, 104, 101, 108, 108, 32, 97, 32, 98, 32, 99, 32, 100]

/-- The same command cut off after its third argument: "shell a b c". -/
def demo_three_args : List Nat := [115, 104, 101, 108, 108, 32, 97, 32, 98, 32, 99]

/-- The booted state after the shell of group 0 (PID 1, parent PID 0) has
halted. -/
def demo_root_halt : Kernel :=
  match system_halt demo_boot 0 with
  | some (_, s) => s
  | none => demo_boot

/-- A virtual address in one of the three regions `paging_init` maps: the
framebuffer page, the three save pages, the kernel page. -/
def boot_mapped (v : Nat) : Prop :=
  (0xB8000 ≤ v ∧ v < 0xB9000) ∨ (0xBA000 ≤ v ∧ v < 0xBD000) ∨ (0x400000 ≤ v ∧ v < 0x800000)

instance (v : Nat) : Decidable (boot_mapped v) := by
  unfold boot_mapped; infer_instance

/-- Repeated calls `system_open(name)`: the results in order and the final
state. -/
def open_repeat (name : List Nat) : Nat → Kernel → Option (List Int × Kernel)
  | 0, s => some ([], s)
  | n + 1, s =>
    match system_open s name with
    | none => none
    | some (r, s1) =>
      match open_repeat name n s1 with
      | none => none
      | some (rs, s2) => some (r :: rs, s2)

/-- The file types `system_open` knows: RTC, directory, regular file. -/
def known_filetype (t : Int) : Prop := t = RTC_TYPE ∨ t = DIR_TYPE ∨ t = FILE_TYPE

/-! ## Theorems -/

theorem upd_same {α : Type} (a : Nat → α) (i : Nat) (v : α) : upd a i v i = v := by
  simp [upd]

theorem upd_other {α : Type} (a : Nat → α) (i j : Nat) (v : α) (h : j ≠ i) :
    upd a i v j = a j := by
  simp [upd, h]

theorem store_bytes_outside (l : List Nat) :
    ∀ (mem : Nat → Nat) (a x : Nat), a + l.length ≤ 4294967296 →
      (x < a ∨ a + l.length ≤ x) → store_bytes mem a l x = mem x := by
  induction l with
  | nil => intro mem a x _ _; rfl
  | cons b rest ih =>
    intro mem a x hlen hx
    simp only [List.length_cons] at hlen hx
    simp only [store_bytes]
    rw [ih _ _ _ (by omega) (by omega)]
    have ha : a % 4294967296 = a := Nat.mod_eq_of_lt (by omega)
    rw [ha]
    exact upd_other _ _ _ _ (by omega)

theorem store_bytes_get (l : List Nat) :
    ∀ (mem : Nat → Nat) (a i : Nat), a + l.length ≤ 4294967296 → i < l.length →
      store_bytes mem a l (a + i) = l.getD i 0 := by
  induction l with
  | nil => intro mem a i _ hi; simp at hi
  | cons b rest ih =>
    intro mem a i hlen hi
    simp only [List.length_cons] at hlen hi
    simp only [store_bytes]
    cases i with
    | zero =>
      rw [store_bytes_outside _ _ _ _ (by omega) (by omega)]
      have ha : a % 4294967296 = a := Nat.mod_eq_of_lt (by omega)
      rw [ha, Nat.add_zero, upd_same]
      rfl
    | succ j =>
      have h1 : a + (j + 1) = (a + 1) + j := by omega
      rw [h1, ih _ _ _ (by omega) (by omega)]
      rfl

theorem getD_map_range (f : Nat → Nat) (n i : Nat) (h : i < n) :
    ((List.range n).map f).getD i 0 = f i := by
  simp [List.getD, h]

theorem page_walk_congr (s s' : Kernel) (hd : s'.page_directory = s.page_directory)
    (ht : s'.page_table_0 = s.page_table_0) (v : Nat) : page_walk s' v = page_walk s v := by
  unfold page_walk
  rw [hd, ht]

theorem store_byte_congr (s s' : Kernel) (hd : s'.page_directory = s.page_directory)
    (ht : s'.page_table_0 = s.page_table_0) (a b : Nat) :
    (store_byte s' a b).isSome = (store_byte s a b).isSome := by
  unfold store_byte
  rw [page_walk_congr s s' hd ht]
  cases page_walk s a with
  | none => rfl
  | some r => by_cases h : r.1 < KERNEL_LOC_END <;> simp [h]

theorem prog_page_mapped_congr (s s' : Kernel) (hd : s'.page_directory = s.page_directory)
    (h : prog_page_mapped s) : prog_page_mapped s' := by
  unfold prog_page_mapped at h ⊢
  rw [hd]
  exact h

theorem past_prog_unmapped_congr (s s' : Kernel) (hd : s'.page_directory = s.page_directory)
    (h : past_prog_unmapped s) : past_prog_unmapped s' := by
  unfold past_prog_unmapped at h ⊢
  rw [hd]
  exact h

theorem shift22_user (a : Nat) (h : in_user_page a) : a >>> 22 = 32 := by
  unfold in_user_page PROG_VIRT_ADDR PROG_PAGE_SIZE at h
  rw [Nat.shiftRight_eq_div_pow]
  omega

/-- A store into the mapped program page goes through. -/
theorem store_byte_user (s : Kernel) (a b : Nat) (hm : prog_page_mapped s)
    (ha : in_user_page a) : store_byte s a b = some { s with mem := upd s.mem a b } := by
  obtain ⟨h1, h2, h3⟩ := hm
  have hlt : ¬ ((s.page_directory 32 &&& ALIGN_MB) + a % 0x400000 < KERNEL_LOC_END) := by
    omega
  unfold store_byte page_walk
  simp only [shift22_user a ha, if_neg h1, h2, ne_eq, not_false_eq_true, if_true, if_neg hlt]

/-- A store at the first address behind the program page faults. -/
theorem store_byte_past (s : Kernel) (b : Nat) (h : past_prog_unmapped s) :
    store_byte s 0x08400000 b = none := by
  unfold past_prog_unmapped at h
  have e : (0x08400000 : Nat) >>> 22 = 33 := by decide
  unfold store_byte page_walk
  simp only [e, h, if_true]

theorem vstore_bytes_user (l : List Nat) :
    ∀ (s : Kernel) (a : Nat), prog_page_mapped s → PROG_VIRT_ADDR ≤ a →
      a + l.length ≤ PROG_VIRT_ADDR + PROG_PAGE_SIZE →
      vstore_bytes s a l = some { s with mem := store_bytes s.mem a l } := by
  induction l with
  | nil => intro s a _ _ _; rfl
  | cons b rest ih =>
    intro s a hm ha hlen
    simp only [List.length_cons] at hlen
    have hin : in_user_page a := ⟨ha, by omega⟩
    have hmod : a % 4294967296 = a := by
      unfold PROG_VIRT_ADDR PROG_PAGE_SIZE at hlen
      exact Nat.mod_eq_of_lt (by omega)
    simp only [vstore_bytes, store_bytes, hmod, store_byte_user s a b hm hin]
    rw [ih { s with mem := upd s.mem a b } (a + 1) (prog_page_mapped_congr s _ rfl hm)
      (by omega) (by omega)]

theorem vstore_bytes_past (l : List Nat) :
    ∀ (s : Kernel) (a : Nat), prog_page_mapped s → past_prog_unmapped s → PROG_VIRT_ADDR ≤ a →
      a ≤ PROG_VIRT_ADDR + PROG_PAGE_SIZE → PROG_VIRT_ADDR + PROG_PAGE_SIZE < a + l.length →
      vstore_bytes s a l = none := by
  induction l with
  | nil => intro s a _ _ _ h1 h2; simp only [List.length_nil] at h2; omega
  | cons b rest ih =>
    intro s a hm hu ha hle hlen
    simp only [List.length_cons] at hlen
    have hmod : a % 4294967296 = a := by
      unfold PROG_VIRT_ADDR PROG_PAGE_SIZE at hle
      exact Nat.mod_eq_of_lt (by omega)
    by_cases hend : a = PROG_VIRT_ADDR + PROG_PAGE_SIZE
    · have e : a = 0x08400000 := by rw [hend]; decide
      simp only [vstore_bytes, hmod]
      rw [e, store_byte_past s b hu]
    · have hin : in_user_page a := ⟨ha, by omega⟩
      simp only [vstore_bytes, hmod, store_byte_user s a b hm hin]
      exact ih { s with mem := upd s.mem a b } (a + 1) (prog_page_mapped_congr s _ rfl hm)
        (past_prog_unmapped_congr s _ rfl hu) (by omega) (by omega) (by omega)

/-- A run of stores that returns changes the byte store and nothing else. -/
theorem vstore_bytes_frame (l : List Nat) :
    ∀ (s s' : Kernel) (a : Nat), vstore_bytes s a l = some s' → s' = { s with mem := s'.mem } := by
  induction l with
  | nil =>
    intro s s' a h
    simp only [vstore_bytes, Option.some.injEq] at h
    rw [← h]
  | cons b rest ih =>
    intro s s' a h
    simp only [vstore_bytes] at h
    cases hs : store_byte s (a % 4294967296) b with
    | none => rw [hs] at h; exact absurd h (by simp)
    | some s1 =>
      rw [hs] at h
      have h1 := ih s1 s' (a + 1) h
      unfold store_byte at hs
      cases hw : page_walk s (a % 4294967296) with
      | none => rw [hw] at hs; exact absurd hs (by simp)
      | some r =>
        rw [hw] at hs
        by_cases hk : r.1 < KERNEL_LOC_END
        · simp only [hk, if_true] at hs
          exact absurd hs (by simp)
        · simp only [hk, if_false, Option.some.injEq] at hs
          rw [h1, ← hs]

/-- C10: for every fd that is negative, at least 8, or whose slot is not in
use, system_read, system_write and system_close return -1 and leave the whole
kernel state (hence the descriptor table) unchanged; system_close also returns
-1 for fd 0 and fd 1, whatever their state, so stdin and stdout stay open. -/
theorem C10_invalid_fd_rejected (s : Kernel) (fd : Int) (buf : Nat) (nbytes : Int)
    (env : List Irq)
    (h : fd < 0 ∨ fd ≥ 8 ∨
      ∃ p, get_current_pcb s = some p ∧ ((s.pcbs p).fd_table fd.toNat).flags = NOT_IN_USE) :
    system_read s fd buf nbytes env = some (FAILURE, s) ∧
    system_write s fd buf nbytes = some (FAILURE, s) ∧
    system_close s fd = some (FAILURE, s) ∧
    system_close s 0 = some (FAILURE, s) ∧
    system_close s 1 = some (FAILURE, s) := by
  have h0 : system_close s 0 = some (FAILURE, s) := by simp [system_close]
  have h1 : system_close s 1 = some (FAILURE, s) := by simp [system_close]
  refine ⟨?_, ?_, ?_, h0, h1⟩
  · by_cases hr : fd < 0 ∨ fd ≥ (FD_ARRAY_SIZE : Int)
    · simp [system_read, hr]
    · rcases h with h | h | ⟨p, hp, hf⟩
      · exact absurd (Or.inl h) hr
      · exact absurd (Or.inr (by simpa [FD_ARRAY_SIZE] using h)) hr
      · simp [system_read, hr, hp, hf]
  · by_cases hr : fd < 0 ∨ fd ≥ (FD_ARRAY_SIZE : Int)
    · simp [system_write, hr]
    · rcases h with h | h | ⟨p, hp, hf⟩
      · exact absurd (Or.inl h) hr
      · exact absurd (Or.inr (by simpa [FD_ARRAY_SIZE] using h)) hr
      · simp [system_write, hr, hp, hf]
  · by_cases hr : fd < 2 ∨ fd ≥ (FD_ARRAY_SIZE : Int)
    · simp [system_close, hr]
    · rcases h with h | h | ⟨p, hp, hf⟩
      · exact absurd (Or.inl (by omega)) hr
      · exact absurd (Or.inr (by simpa [FD_ARRAY_SIZE] using h)) hr
      · simp [system_close, hr, hp, hf]

/-- Witness for C10: descriptor 6 of the freshly booted shell is not in use. -/
theorem C10_invalid_fd_rejected_witness :
    (get_current_pcb demo_boot = some 1 ∧
      ((demo_boot.pcbs 1).fd_table (6 : Int).toNat).flags = NOT_IN_USE) ∧
    (system_read demo_boot 6 0x08000100 4 [] = some (FAILURE, demo_boot) ∧
     system_write demo_boot 6 0x08000100 4 = some (FAILURE, demo_boot) ∧
     system_close demo_boot 6 = some (FAILURE, demo_boot) ∧
     system_close demo_boot 0 = some (FAILURE, demo_boot) ∧
     system_close demo_boot 1 = some (FAILURE, demo_boot)) :=
  ⟨⟨by decide, by decide⟩,
   C10_invalid_fd_rejected demo_boot 6 0x08000100 4 []
     (Or.inr (Or.inr ⟨1, by decide, by decide⟩))⟩

theorem map_page_video (s : Kernel) (phys : Nat) :
    map_page s VIDEO_USER phys 1 1 0 =
      { s with page_table_0 := upd s.page_table_0 0xB9 (video_entry phys) } := by
  have h : ((VIDEO_USER &&& FLAG_MASK) >>> BITS_TO_PT_IDX) &&& PT_MASK = 0xB9 := by decide
  simp only [map_page, h, video_entry]
  simp

theorem map_page_prog (s : Kernel) (phys : Nat) :
    map_page s PROG_VIRT_ADDR phys 1 1 1 =
      { s with page_directory := upd s.page_directory 32 (prog_entry phys) } := by
  have h : (PROG_VIRT_ADDR &&& FLAG_MASK) >>> BITS_TO_PD_IDX = 32 := by decide
  simp only [map_page, h, prog_entry]
  simp

theorem unmap_page_video (s : Kernel) :
    unmap_page s VIDEO_USER 0 = { s with page_table_0 := upd s.page_table_0 0xB9 0 } := by
  have h : ((VIDEO_USER &&& FLAG_MASK) >>> BITS_TO_PT_IDX) &&& PT_MASK = 0xB9 := by decide
  simp only [unmap_page, h]
  simp

theorem validate_user_ptr_in (ptr : Nat) (h : in_user_page ptr) :
    __validate_user_ptr ptr = SUCCESS := by
  unfold in_user_page at h
  simp [__validate_user_ptr, h]

theorem validate_user_ptr_out (ptr : Nat) (h : ¬ in_user_page ptr) :
    __validate_user_ptr ptr = FAILURE := by
  unfold in_user_page at h
  simp only [__validate_user_ptr, ge_iff_le]
  rw [if_neg h]

theorem load32_store_video (mem : Nat → Nat) (a : Nat) (h : a + 4 ≤ 4294967296) :
    load32 (store_bytes mem a (bytes32 VIDEO_USER)) a = 0xB9000 := by
  have h0 := store_bytes_get (bytes32 VIDEO_USER) mem a 0 (by simpa [bytes32] using h) (by simp [bytes32])
  have h1 := store_bytes_get (bytes32 VIDEO_USER) mem a 1 (by simpa [bytes32] using h) (by simp [bytes32])
  have h2 := store_bytes_get (bytes32 VIDEO_USER) mem a 2 (by simpa [bytes32] using h) (by simp [bytes32])
  have h3 := store_bytes_get (bytes32 VIDEO_USER) mem a 3 (by simpa [bytes32] using h) (by simp [bytes32])
  rw [Nat.add_zero] at h0
  simp only [load32, h0, h1, h2, h3]
  decide

/-- C7 (refuted at the last three bytes of the page): `system_vidmap` tests
the pointer and not the four bytes it stores through it. In a state whose
program page is mapped, with nothing mapped behind it: for every out pointer
whose four bytes lie inside the program page system_vidmap returns 0, stores
0xB9000 through the pointer, sets the caller's vid_map_called to 1 and sets
page_table_0[0xB9] to a present, writable, user entry whose frame is 0xB8000
when the caller's group is visible and 0xBA000 + group * 4096 otherwise, every
other page-table entry and the directory staying as they were; for the out
pointers 0x083FFFFD .. 0x083FFFFF, which the pointer test accepts, the store
runs over the end of the page, faults, and the call does not return; for every
pointer outside the page it returns -1 and changes nothing. -/
theorem C7_vidmap (s : Kernel) (screen_start p : Nat)
    (hp : get_current_pcb s = some p) (hg : s.current_group < 3)
    (hm : prog_page_mapped s) (hu : past_prog_unmapped s) :
    (in_user_page screen_start → screen_start + 4 ≤ PROG_VIRT_ADDR + PROG_PAGE_SIZE →
      ∃ s', system_vidmap s screen_start = some (0, s') ∧
        load32 s'.mem screen_start = 0xB9000 ∧
        (s'.pcbs p).vid_map_called = 1 ∧
        entry_present (s'.page_table_0 0xB9) = true ∧
        entry_writable (s'.page_table_0 0xB9) = true ∧
        entry_user (s'.page_table_0 0xB9) = true ∧
        entry_frame (s'.page_table_0 0xB9) =
          (if s.visible_group = s.current_group then 0xB8000
           else 0xBA000 + s.current_group * 4096) ∧
        (∀ i, i ≠ 0xB9 → s'.page_table_0 i = s.page_table_0 i) ∧
        s'.page_directory = s.page_directory) ∧
    (in_user_page screen_start → PROG_VIRT_ADDR + PROG_PAGE_SIZE < screen_start + 4 →
      system_vidmap s screen_start = none) ∧
    (¬ in_user_page screen_start → system_vidmap s screen_start = some (-1, s)) := by
  have hne : SUCCESS ≠ FAILURE := by decide
  have hcases : s.current_group = 0 ∨ s.current_group = 1 ∨ s.current_group = 2 := by omega
  refine ⟨?_, ?_, ?_⟩
  · intro hin hend
    have hv := validate_user_ptr_in _ hin
    have hlt : screen_start + 4 ≤ 4294967296 := by
      unfold in_user_page PROG_VIRT_ADDR PROG_PAGE_SIZE at hin; omega
    unfold system_vidmap
    rw [hv, if_neg hne]
    simp only [hp, get_current_group, set_pcb, map_page_video]
    by_cases hvis : s.visible_group = s.current_group
    · simp only [hvis, if_true]
      rw [vstore_bytes_user (bytes32 VIDEO_USER) _ screen_start ?_ hin.1 hend]
      swap
      · exact prog_page_mapped_congr s _ rfl hm
      refine ⟨_, rfl, load32_store_video _ _ hlt, by simp [upd], ?_, ?_, ?_, ?_, ?_, rfl⟩
      · simp only [upd_same]; decide
      · simp only [upd_same]; decide
      · simp only [upd_same]; decide
      · simp only [upd_same]; decide
      · intro i hi; simp [upd, hi]
    · simp only [hvis, if_false]
      rw [vstore_bytes_user (bytes32 VIDEO_USER) _ screen_start ?_ hin.1 hend]
      swap
      · exact prog_page_mapped_congr s _ rfl hm
      refine ⟨_, rfl, load32_store_video _ _ hlt, by simp [upd], ?_, ?_, ?_, ?_, ?_, rfl⟩
      · rcases hcases with h | h | h <;> simp only [h, upd_same] <;> decide
      · rcases hcases with h | h | h <;> simp only [h, upd_same] <;> decide
      · rcases hcases with h | h | h <;> simp only [h, upd_same] <;> decide
      · rcases hcases with h | h | h <;> simp only [h, upd_same] <;> decide
      · intro i hi; simp [upd, hi]
  · intro hin hend
    have hv := validate_user_ptr_in _ hin
    have hle : screen_start ≤ PROG_VIRT_ADDR + PROG_PAGE_SIZE := Nat.le_of_lt hin.2
    unfold system_vidmap
    rw [hv, if_neg hne]
    simp only [hp, get_current_group, set_pcb, map_page_video]
    by_cases hvis : s.visible_group = s.current_group
    · simp only [hvis, if_true]
      rw [vstore_bytes_past (bytes32 VIDEO_USER) _ screen_start ?_ ?_ hin.1 hle hend]
      · exact prog_page_mapped_congr s _ rfl hm
      · exact past_prog_unmapped_congr s _ rfl hu
    · simp only [hvis, if_false]
      rw [vstore_bytes_past (bytes32 VIDEO_USER) _ screen_start ?_ ?_ hin.1 hle hend]
      · exact prog_page_mapped_congr s _ rfl hm
      · exact past_prog_unmapped_congr s _ rfl hu
  · intro hout
    simp [system_vidmap, validate_user_ptr_out _ hout, FAILURE]

/-- Witness for C7: the booted shell of the visible group maps the framebuffer. -/
theorem C7_vidmap_witness :
    (get_current_pcb demo_boot = some 1 ∧ demo_boot.current_group < 3 ∧
      prog_page_mapped demo_boot ∧ past_prog_unmapped demo_boot) ∧
    ((in_user_page 0x08000100 → 0x08000100 + 4 ≤ PROG_VIRT_ADDR + PROG_PAGE_SIZE →
      ∃ s', system_vidmap demo_boot 0x08000100 = some (0, s') ∧
        load32 s'.mem 0x08000100 = 0xB9000 ∧
        (s'.pcbs 1).vid_map_called = 1 ∧
        entry_present (s'.page_table_0 0xB9) = true ∧
        entry_writable (s'.page_table_0 0xB9) = true ∧
        entry_user (s'.page_table_0 0xB9) = true ∧
        entry_frame (s'.page_table_0 0xB9) =
          (if demo_boot.visible_group = demo_boot.current_group then 0xB8000
           else 0xBA000 + demo_boot.current_group * 4096) ∧
        (∀ i, i ≠ 0xB9 → s'.page_table_0 i = demo_boot.page_table_0 i) ∧
        s'.page_directory = demo_boot.page_directory) ∧
    (in_user_page 0x08000100 → PROG_VIRT_ADDR + PROG_PAGE_SIZE < 0x08000100 + 4 →
      system_vidmap demo_boot 0x08000100 = none) ∧
    (¬ in_user_page 0x08000100 → system_vidmap demo_boot 0x08000100 = some (-1, demo_boot))) :=
  ⟨⟨by decide, by decide, by decide, by decide⟩,
   C7_vidmap demo_boot 0x08000100 1 (by decide) (by decide) (by decide) (by decide)⟩

set_option maxRecDepth 100000 in
/-- C7 (failing input): the booted shell calls vidmap with the out pointer
0x083FFFFD. The pointer lies in [0x08000000, 0x08400000) and passes
`__validate_user_ptr`, the four bytes of the store are 0x083FFFFD .. 0x08400000,
and nothing is mapped at 0x08400000: the store faults and the call does not
return 0. With the pointer one byte lower it does. -/
theorem C7_vidmap_page_end :
    in_user_page 0x083FFFFD ∧ __validate_user_ptr 0x083FFFFD = SUCCESS ∧
    page_walk demo_boot 0x08400000 = none ∧
    (system_vidmap demo_boot 0x083FFFFD).isNone = true ∧
    (system_vidmap demo_boot 0x083FFFFC).map Prod.fst = some 0 := by
  refine ⟨by decide, by decide, by decide, by decide, by decide⟩

theorem system_getargs_eq (s : Kernel) (p buf : Nat) (n : Int) (hp : get_current_pcb s = some p) :
    system_getargs s buf n =
      if ((s.pcbs p).args_len : Int) > n ∨ __validate_user_ptr buf = FAILURE ∨
          (s.pcbs p).args_len = 0 then some (FAILURE, s)
      else
        match vstore_bytes s buf ((List.range (s.pcbs p).args_len).map (s.pcbs p).args) with
        | none => none
        | some s1 => some (SUCCESS, s1) := by
  simp only [system_getargs, hp]

/-- The guard on an empty argument string: the booted shell has saved argument
length 0, the buffer lies in the program page and n = 0 is not smaller than the
length, yet system_getargs returns -1 and not 0. -/
theorem getargs_no_arguments :
    get_current_pcb demo_boot = some 1 ∧ (demo_boot.pcbs 1).args_len = 0 ∧
    in_user_page 0x08000100 ∧ (0 : Int) ≥ ((demo_boot.pcbs 1).args_len : Int) ∧
    (system_getargs demo_boot 0x08000100 0).map Prod.fst = some (-1) ∧
    (system_getargs demo_boot 0x08000100 0).map Prod.fst ≠ some 0 := by
  refine ⟨by decide, by decide, by decide, by decide, by decide, by decide⟩

/-- C8 (refuted at the end of the page): `system_getargs` tests `buf` and not
`buf + L`. In a state whose program page is mapped, with nothing mapped behind
it, for a PCB whose saved argument length L is at least 1 and every n >= L: for
every buf with buf[0..L) inside the program page system_getargs returns 0 and
afterwards buf[0..L) equals args[0..L); for a buf inside the page with buf + L
behind its end the copy loop runs over the end of the page, faults, and the
call does not return. It returns -1 exactly when buf lies outside the page,
L > n, or L = 0, and then nothing is changed. -/
theorem C8_getargs (s : Kernel) (p buf : Nat) (n : Int)
    (hp : get_current_pcb s = some p) (hL : (s.pcbs p).args_len < 256)
    (hm : prog_page_mapped s) (hu : past_prog_unmapped s) :
    (1 ≤ (s.pcbs p).args_len → ((s.pcbs p).args_len : Int) ≤ n → in_user_page buf →
      buf + (s.pcbs p).args_len ≤ PROG_VIRT_ADDR + PROG_PAGE_SIZE →
      ∃ s', system_getargs s buf n = some (0, s') ∧
        ∀ i, i < (s.pcbs p).args_len → s'.mem (buf + i) = (s.pcbs p).args i) ∧
    (1 ≤ (s.pcbs p).args_len → ((s.pcbs p).args_len : Int) ≤ n → in_user_page buf →
      PROG_VIRT_ADDR + PROG_PAGE_SIZE < buf + (s.pcbs p).args_len →
      system_getargs s buf n = none) ∧
    ((∃ s', system_getargs s buf n = some (-1, s')) ↔
      (¬ in_user_page buf ∨ ((s.pcbs p).args_len : Int) > n ∨ (s.pcbs p).args_len = 0)) ∧
    (∀ s', system_getargs s buf n = some (-1, s') → s' = s) := by
  rw [system_getargs_eq s p buf n hp]
  have hlen : ((List.range (s.pcbs p).args_len).map (s.pcbs p).args).length =
      (s.pcbs p).args_len := by simp
  by_cases hin : in_user_page buf
  · have hv := validate_user_ptr_in _ hin
    have hne : SUCCESS ≠ FAILURE := by decide
    by_cases hc : ((s.pcbs p).args_len : Int) > n ∨ (s.pcbs p).args_len = 0
    · have hc' : ((s.pcbs p).args_len : Int) > n ∨ __validate_user_ptr buf = FAILURE ∨
          (s.pcbs p).args_len = 0 := by
        rcases hc with h | h
        · exact Or.inl h
        · exact Or.inr (Or.inr h)
      rw [if_pos hc']
      refine ⟨?_, ?_, ?_, ?_⟩
      · intro h1 h2 _ _
        rcases hc with h | h <;> omega
      · intro h1 h2 _ _
        rcases hc with h | h <;> omega
      · constructor
        · intro _
          rcases hc with h | h
          · exact Or.inr (Or.inl h)
          · exact Or.inr (Or.inr h)
        · intro _
          exact ⟨s, rfl⟩
      · intro s' h
        simp only [FAILURE, Option.some.injEq, Prod.mk.injEq, true_and] at h
        exact h.symm
    · have hc' : ¬ (((s.pcbs p).args_len : Int) > n ∨ __validate_user_ptr buf = FAILURE ∨
          (s.pcbs p).args_len = 0) := by
        rw [hv]
        intro h
        rcases h with h | h | h
        · exact hc (Or.inl h)
        · exact hne h
        · exact hc (Or.inr h)
      rw [if_neg hc']
      by_cases hend : buf + (s.pcbs p).args_len ≤ PROG_VIRT_ADDR + PROG_PAGE_SIZE
      · rw [vstore_bytes_user _ s buf hm hin.1 (by rw [hlen]; exact hend)]
        refine ⟨?_, ?_, ?_, ?_⟩
        · intro _ _ _ _
          refine ⟨_, rfl, ?_⟩
          intro i hi
          have hb : buf + ((List.range (s.pcbs p).args_len).map (s.pcbs p).args).length ≤
              4294967296 := by
            unfold PROG_VIRT_ADDR PROG_PAGE_SIZE at hend
            rw [hlen]
            omega
          show store_bytes s.mem buf _ (buf + i) = _
          rw [store_bytes_get _ _ _ _ hb (by simpa using hi)]
          exact getD_map_range _ _ _ hi
        · intro _ _ _ h
          omega
        · constructor
          · intro h
            obtain ⟨s', h⟩ := h
            simp [SUCCESS] at h
          · intro h
            rcases h with h | h | h
            · exact absurd hin h
            · exact absurd (Or.inl h) hc
            · exact absurd (Or.inr h) hc
        · intro s' h
          simp [SUCCESS] at h
      · rw [vstore_bytes_past _ s buf hm hu hin.1 (Nat.le_of_lt hin.2)
          (by rw [hlen]; omega)]
        refine ⟨?_, ?_, ?_, ?_⟩
        · intro _ _ _ h
          exact absurd h hend
        · intro _ _ _ _
          rfl
        · constructor
          · intro h
            obtain ⟨s', h⟩ := h
            simp at h
          · intro h
            rcases h with h | h | h
            · exact absurd hin h
            · exact absurd (Or.inl h) hc
            · exact absurd (Or.inr h) hc
        · intro s' h
          simp at h
  · have hv := validate_user_ptr_out _ hin
    rw [if_pos (Or.inr (Or.inl hv))]
    refine ⟨?_, ?_, ?_, ?_⟩
    · intro _ _ h _
      exact absurd h hin
    · intro _ _ h _
      exact absurd h hin
    · constructor
      · intro _
        exact Or.inl hin
      · intro _
        exact ⟨s, rfl⟩
    · intro s' h
      simp only [FAILURE, Option.some.injEq, Prod.mk.injEq, true_and] at h
      exact h.symm

/-- A state in which the running shell holds the three-byte argument "ab\0". -/
theorem C8_getargs_witness :
    (get_current_pcb demo_args = some 1 ∧ (demo_args.pcbs 1).args_len < 256 ∧
      prog_page_mapped demo_args ∧ past_prog_unmapped demo_args) ∧
    ((1 ≤ (demo_args.pcbs 1).args_len → ((demo_args.pcbs 1).args_len : Int) ≤ 8 →
        in_user_page 0x08000100 →
        0x08000100 + (demo_args.pcbs 1).args_len ≤ PROG_VIRT_ADDR + PROG_PAGE_SIZE →
      ∃ s', system_getargs demo_args 0x08000100 8 = some (0, s') ∧
        ∀ i, i < (demo_args.pcbs 1).args_len →
          s'.mem (0x08000100 + i) = (demo_args.pcbs 1).args i) ∧
    (1 ≤ (demo_args.pcbs 1).args_len → ((demo_args.pcbs 1).args_len : Int) ≤ 8 →
        in_user_page 0x08000100 →
        PROG_VIRT_ADDR + PROG_PAGE_SIZE < 0x08000100 + (demo_args.pcbs 1).args_len →
      system_getargs demo_args 0x08000100 8 = none) ∧
    ((∃ s', system_getargs demo_args 0x08000100 8 = some (-1, s')) ↔
      (¬ in_user_page 0x08000100 ∨ ((demo_args.pcbs 1).args_len : Int) > 8 ∨
        (demo_args.pcbs 1).args_len = 0)) ∧
    (∀ s', system_getargs demo_args 0x08000100 8 = some (-1, s') → s' = demo_args)) :=
  ⟨⟨by decide, by decide, by decide, by decide⟩,
   C8_getargs demo_args 1 0x08000100 8 (by decide) (by decide) (by decide) (by decide)⟩

set_option maxRecDepth 100000 in
/-- C8 (failing input): the running shell holds the three bytes "ab\0" and
calls getargs with buf = 0x083FFFFE and n = 8. The pointer lies in
[0x08000000, 0x08400000) and n is not below the length, the copy stores
'a' and 'b' at 0x083FFFFE and 0x083FFFFF and the NUL at 0x08400000, where nothing
is mapped: the store faults and the call does not return 0. With buf one byte
lower it does. -/
theorem C8_getargs_page_end :
    get_current_pcb demo_args = some 1 ∧ (demo_args.pcbs 1).args_len = 3 ∧
    in_user_page 0x083FFFFE ∧ __validate_user_ptr 0x083FFFFE = SUCCESS ∧
    page_walk demo_args 0x08400000 = none ∧
    (system_getargs demo_args 0x083FFFFE 8).isNone = true ∧
    (system_getargs demo_args 0x083FFFFD 8).map Prod.fst = some 0 := by
  refine ⟨by decide, by decide, by decide, by decide, by decide, by decide, by decide⟩

set_option maxRecDepth 100000 in
/-- C1 (as stated, refuted): system_write on stdout with a buffer pointer in
the kernel page, outside [0x08000000, 0x08400000), does not return -1: it
returns 1 and the byte is printed. -/
theorem C1_user_pointer_counterexample :
    ¬ in_user_page 0x400000 ∧
    (system_write demo_boot 1 0x400000 1).map Prod.fst = some 1 ∧
    (system_write demo_boot 1 0x400000 1).map (fun r => r.2.screen) =
      some (demo_boot.screen ++ [(VIDEO_KERNEL, demo_boot.mem 0x400000)]) := by
  refine ⟨by decide, by decide, rfl⟩

/-- C1 (amended): for every pointer outside [0x08000000, 0x08400000)
system_vidmap and system_getargs return -1 and change no kernel state, and
system_execute does so for the NULL pointer (the only pointer value it
rejects). -/
theorem C1_user_pointer_checked (s : Kernel) (ptr : Nat) (hout : ¬ in_user_page ptr) :
    system_vidmap s ptr = some (FAILURE, s) ∧
    (∀ n p, get_current_pcb s = some p → system_getargs s ptr n = some (FAILURE, s)) ∧
    (∀ command esp ebp,
      system_execute s 0 command esp ebp = some (exec_result.returned FAILURE, s)) := by
  have hv := validate_user_ptr_out _ hout
  refine ⟨?_, ?_, ?_⟩
  · simp [system_vidmap, hv]
  · intro n p hp
    rw [system_getargs_eq s p ptr n hp, if_pos (Or.inr (Or.inl hv))]
  · intro command esp ebp
    simp [system_execute]

/-- Witness for C1: a kernel-page pointer handed to vidmap and getargs. -/
theorem C1_user_pointer_checked_witness :
    ¬ in_user_page 0x400000 ∧
    (system_vidmap demo_boot 0x400000 = some (FAILURE, demo_boot) ∧
    (∀ n p, get_current_pcb demo_boot = some p →
      system_getargs demo_boot 0x400000 n = some (FAILURE, demo_boot)) ∧
    (∀ command esp ebp,
      system_execute demo_boot 0 command esp ebp =
        some (exec_result.returned FAILURE, demo_boot))) :=
  ⟨by decide, C1_user_pointer_checked demo_boot 0x400000 (by decide)⟩

/-! ### Descriptor allocation -/

theorem find_range_first (q : Nat → Bool) (k : Nat) :
    ∀ (n a : Nat), a ≤ k → k < a + n → (∀ i, a ≤ i → i < k → q i = false) → q k = true →
      (List.range' a n).find? q = some k := by
  intro n
  induction n with
  | zero => intro a h1 h2 _ _; omega
  | succ m ih =>
    intro a h1 h2 h3 h4
    rw [List.range'_succ, List.find?_cons]
    by_cases hak : a = k
    · subst hak
      rw [h4]
    · have hlt : a < k := by omega
      rw [h3 a (Nat.le_refl a) hlt]
      exact ih (a + 1) (by omega) (by omega) (fun i hi hik => h3 i (by omega) hik) h4

theorem find_range_none (q : Nat → Bool) :
    ∀ (n a : Nat), (∀ i, a ≤ i → i < a + n → q i = false) →
      (List.range' a n).find? q = none := by
  intro n
  induction n with
  | zero => intro a _; rfl
  | succ m ih =>
    intro a h
    rw [List.range'_succ, List.find?_cons, h a (Nat.le_refl a) (by omega)]
    exact ih (a + 1) (fun i hi hik => h i (by omega) (by omega))

theorem find_free (f : Nat → Nat) (k : Nat) (hk : k < 8) (h1 : ∀ i, i < k → f i ≠ 0)
    (h2 : f k = 0) :
    (List.range FD_ARRAY_SIZE).find? (fun fd => f fd == NOT_IN_USE) = some k := by
  rw [List.range_eq_range']
  refine find_range_first _ k FD_ARRAY_SIZE 0 (Nat.zero_le k) (by simpa [FD_ARRAY_SIZE] using hk)
    ?_ ?_
  · intro i _ hik
    simpa [NOT_IN_USE] using h1 i hik
  · simpa [NOT_IN_USE] using h2

theorem find_full (f : Nat → Nat) (h : ∀ i, i < 8 → f i ≠ 0) :
    (List.range FD_ARRAY_SIZE).find? (fun fd => f fd == NOT_IN_USE) = none := by
  rw [List.range_eq_range']
  refine find_range_none _ FD_ARRAY_SIZE 0 ?_
  intro i _ hi
  simpa [NOT_IN_USE] using h i (by simpa [FD_ARRAY_SIZE] using hi)

theorem get_new_fd_free (s : Kernel) (p k : Nat) (hp : get_current_pcb s = some p) (hk : k < 8)
    (h1 : ∀ i, i < k → ((s.pcbs p).fd_table i).flags ≠ 0)
    (h2 : ((s.pcbs p).fd_table k).flags = 0) :
    get_new_fd s = some (k : Int) := by
  simp only [get_new_fd, hp]
  rw [find_free (fun fd => ((s.pcbs p).fd_table fd).flags) k hk h1 h2]

theorem get_new_fd_full (s : Kernel) (p : Nat) (hp : get_current_pcb s = some p)
    (h : ∀ i, i < 8 → ((s.pcbs p).fd_table i).flags ≠ 0) :
    get_new_fd s = some FAILURE := by
  simp only [get_new_fd, hp]
  rw [find_full (fun fd => ((s.pcbs p).fd_table fd).flags) h]

theorem get_current_pcb_congr (s s' : Kernel) (h1 : s'.active_pid = s.active_pid)
    (h2 : s'.current_group = s.current_group) (h3 : s'.pid_array = s.pid_array) :
    get_current_pcb s' = get_current_pcb s := by
  simp only [get_current_pcb, get_current_group, h1, h2, h3]

/-- One successful `system_open`: the lowest free descriptor `k` is returned
and marked in use, the other flags and the image stay. -/
theorem system_open_step (s : Kernel) (name : List Nat) (d : dentry_t) (p k : Nat)
    (hp : get_current_pcb s = some p) (hd : read_dentry_by_name s.boot_blk name = some d)
    (ht : known_filetype d.filetype) (hk : k < 8)
    (h1 : ∀ i, i < k → ((s.pcbs p).fd_table i).flags ≠ 0)
    (h2 : ((s.pcbs p).fd_table k).flags = 0) :
    ∃ s', system_open s name = some ((k : Int), s') ∧ get_current_pcb s' = some p ∧
      s'.boot_blk = s.boot_blk ∧
      (∀ i, ((s'.pcbs p).fd_table i).flags =
        if i = k then IN_USE else ((s.pcbs p).fd_table i).flags) := by
  have hfd := get_new_fd_free s p k hp hk h1 h2
  have hne : ((k : Nat) : Int) ≠ FAILURE := by simp [FAILURE]
  unfold system_open
  rw [hd]
  simp only [hfd, hp, if_neg hne, Int.toNat_ofNat]
  rcases ht with ht | ht | ht
  · rw [if_pos ht]
    refine ⟨_, rfl, ?_, rfl, ?_⟩
    · rw [← hp]; exact get_current_pcb_congr _ _ rfl rfl rfl
    · intro i
      by_cases hi : i = k <;> simp [set_fd, set_pcb, upd, hi]
  · have hn : d.filetype ≠ RTC_TYPE := by rw [ht]; decide
    rw [if_neg hn, if_pos ht]
    refine ⟨_, rfl, ?_, rfl, ?_⟩
    · rw [← hp]; exact get_current_pcb_congr _ _ rfl rfl rfl
    · intro i
      by_cases hi : i = k <;> simp [set_fd, set_pcb, upd, hi]
  · have hn : d.filetype ≠ RTC_TYPE := by rw [ht]; decide
    have hn2 : d.filetype ≠ DIR_TYPE := by rw [ht]; decide
    rw [if_neg hn, if_neg hn2, if_pos ht]
    refine ⟨_, rfl, ?_, rfl, ?_⟩
    · rw [← hp]; exact get_current_pcb_congr _ _ rfl rfl rfl
    · intro i
      by_cases hi : i = k <;> simp [set_fd, set_pcb, upd, hi]

/-! ### pcb_setup -/

theorem pid_slot_some (pid : Int) (c : Nat) (h : pid_slot pid = some c) :
    0 ≤ pid ∧ pid < 7 ∧ pid = (c : Int) ∧ c < 7 := by
  unfold pid_slot MAX_PID at h
  by_cases hr : 0 ≤ pid ∧ pid < ((7 : Nat) : Int)
  · rw [if_pos hr] at h
    have hc : pid.toNat = c := by simpa using h
    have h2 : (pid.toNat : Int) = pid := Int.toNat_of_nonneg hr.1
    refine ⟨hr.1, by simpa using hr.2, ?_, ?_⟩
    · rw [← hc]; exact h2.symm
    · have := hr.2; omega
  · rw [if_neg hr] at h
    exact absurd h (by simp)

theorem pid_slot_nat (c : Nat) (h : c < 7) : pid_slot (c : Int) = some c := by
  unfold pid_slot MAX_PID
  rw [if_pos ⟨by omega, by simpa using h⟩]
  simp

theorem get_current_pcb_eq (s : Kernel) (c : Nat) (hc : c < 7)
    (ha : s.active_pid s.current_group = (c : Int)) (hl : s.pid_array c = true) :
    get_current_pcb s = some c := by
  simp only [get_current_pcb, get_current_group, ha, pid_slot_nat c hc, hl, if_true]

theorem get_current_pcb_some (s : Kernel) (c : Nat) (h : get_current_pcb s = some c) :
    c < 7 ∧ s.active_pid s.current_group = (c : Int) ∧ s.pid_array c = true := by
  unfold get_current_pcb get_current_group at h
  cases hs : pid_slot (s.active_pid s.current_group) with
  | none => rw [hs] at h; exact absurd h (by simp)
  | some q =>
    rw [hs] at h
    by_cases hq : s.pid_array q = true
    · simp only [hq, if_true, Option.some.injEq] at h
      subst h
      have := pid_slot_some _ _ hs
      exact ⟨this.2.2.2, this.2.2.1, hq⟩
    · simp [hq] at h

theorem term_open_stdin (s : Kernel) (p k : Nat) (hp : get_current_pcb s = some p) (hk : k < 8)
    (h1 : ∀ i, i < k → ((s.pcbs p).fd_table i).flags ≠ 0)
    (h2 : ((s.pcbs p).fd_table k).flags = 0) :
    term_open s stdin_name = some ((k : Int), set_fd s p k stdin_file) := by
  have hfd := get_new_fd_free s p k hp hk h1 h2
  have hne : ((k : Nat) : Int) ≠ FAILURE := by simp [FAILURE]
  have hn : strncmp stdin_name stdin_name (strlen stdin_name) = SUCCESS := by decide
  unfold term_open
  rw [if_pos hn]
  simp only [hfd, hp, if_neg hne, Int.toNat_ofNat, stdin_file]

theorem term_open_stdout (s : Kernel) (p k : Nat) (hp : get_current_pcb s = some p) (hk : k < 8)
    (h1 : ∀ i, i < k → ((s.pcbs p).fd_table i).flags ≠ 0)
    (h2 : ((s.pcbs p).fd_table k).flags = 0) :
    term_open s stdout_name = some ((k : Int), set_fd s p k stdout_file) := by
  have hfd := get_new_fd_free s p k hp hk h1 h2
  have hne : ((k : Nat) : Int) ≠ FAILURE := by simp [FAILURE]
  have hn : ¬ strncmp stdout_name stdin_name (strlen stdout_name) = SUCCESS := by decide
  have hn2 : strncmp stdout_name stdout_name (strlen stdout_name) = SUCCESS := by decide
  unfold term_open
  rw [if_neg hn, if_pos hn2]
  simp only [hfd, hp, if_neg hne, Int.toNat_ofNat, stdout_file]

theorem set_pcb_pcbs_same (s : Kernel) (p : Nat) (a : pcb_t) : (set_pcb s p a).pcbs p = a := by
  simp [set_pcb, upd]

theorem set_pcb_pcbs_other (s : Kernel) (p q : Nat) (a : pcb_t) (h : q ≠ p) :
    (set_pcb s p a).pcbs q = s.pcbs q := by
  simp [set_pcb, upd, h]

theorem set_pcb_set_pcb (s : Kernel) (p : Nat) (a b : pcb_t) :
    set_pcb (set_pcb s p a) p b = set_pcb s p b := by
  apply Kernel.ext <;> try rfl
  funext q
  by_cases h : q = p <;> simp [set_pcb, upd, h]

theorem set_fd_eq (s : Kernel) (p i : Nat) (f : file_t) :
    set_fd s p i f = set_pcb s p { s.pcbs p with fd_table := upd (s.pcbs p).fd_table i f } := rfl

theorem get_current_pcb_set_pcb (s : Kernel) (p : Nat) (a : pcb_t) :
    get_current_pcb (set_pcb s p a) = get_current_pcb s :=
  get_current_pcb_congr _ _ rfl rfl rfl

/-- The state `pcb_setup` builds for a child in slot `c`. -/
theorem pcb_setup_spec (s : Kernel) (child_pid : Int) (c : Nat) (hc : pid_slot child_pid = some c) :
    pcb_setup s child_pid =
      some (some c,
        { s with pid_array := upd s.pid_array c true,
                 active_pid := upd s.active_pid s.current_group child_pid,
                 pcbs := upd s.pcbs c (fresh_pcb child_pid (s.active_pid s.current_group)) }) := by
  obtain ⟨h0, h7, hcc, hc7⟩ := pid_slot_some _ _ hc
  have hne : child_pid ≠ FAILURE := by unfold FAILURE; omega
  unfold pcb_setup
  rw [if_neg hne]
  simp only [get_pcb_addr, hc, get_current_group]
  generalize hX : ({ ({ s with pid_array := upd s.pid_array c true } : Kernel) with
        active_pid := upd s.active_pid s.current_group child_pid } : Kernel) = X
  have hXa : X.active_pid X.current_group = (c : Int) := by
    rw [← hX]; simp [upd, hcc]
  have hXl : X.pid_array c = true := by rw [← hX]; simp [upd]
  have hXp : X.active_pid = upd s.active_pid s.current_group child_pid := by rw [← hX]
  have hcur : ∀ P, get_current_pcb (set_pcb X c P) = some c := by
    intro P
    rw [get_current_pcb_set_pcb]
    exact get_current_pcb_eq X c hc7 hXa hXl
  simp only [set_pcb_set_pcb, set_pcb_pcbs_same]
  rw [term_open_stdin _ c 0 (hcur _) (by omega) (by intro i hi; omega)
    (by rw [set_pcb_pcbs_same]; rfl)]
  simp only [set_fd_eq, set_pcb_set_pcb, set_pcb_pcbs_same]
  rw [term_open_stdout _ c 1 (hcur _) (by omega)
    (by intro i hi; have : i = 0 := by omega
        subst this; rw [set_pcb_pcbs_same]; simp [upd, stdin_file, IN_USE])
    (by rw [set_pcb_pcbs_same]; simp [upd, pcb_zero, file_zero])]
  simp only [set_fd_eq, set_pcb_set_pcb, set_pcb_pcbs_same]
  subst hX
  refine congrArg some (congrArg (Prod.mk (some c)) ?_)
  apply Kernel.ext <;> try rfl
  show upd s.pcbs c _ = upd s.pcbs c _
  refine congrArg (upd s.pcbs c) ?_
  apply pcb_t.ext <;> try rfl
  show (fun i => _) = fresh_fd_table
  funext i
  by_cases h0 : i = 0
  · subst h0; simp [clear_fd_flags, fresh_pcb, fresh_fd_table, upd, FD_ARRAY_SIZE]
  · by_cases h1 : i = 1
    · subst h1; simp [clear_fd_flags, fresh_pcb, fresh_fd_table, upd, FD_ARRAY_SIZE]
    · simp [clear_fd_flags, fresh_pcb, fresh_fd_table, upd, h0, h1, file_zero, pcb_zero,
        NOT_IN_USE]

theorem pcb_setup_inv (s0 s : Kernel) (child_pid : Int) (p : Nat)
    (h : pcb_setup s0 child_pid = some (some p, s)) :
    pid_slot child_pid = some p ∧
    s = { s0 with pid_array := upd s0.pid_array p true,
                  active_pid := upd s0.active_pid s0.current_group child_pid,
                  pcbs := upd s0.pcbs p (fresh_pcb child_pid (s0.active_pid s0.current_group)) } := by
  cases hs : pid_slot child_pid with
  | none =>
    unfold pcb_setup at h
    by_cases hf : child_pid = FAILURE
    · rw [if_pos hf] at h; simp at h
    · rw [if_neg hf] at h
      simp only [get_pcb_addr, hs] at h
      exact absurd h (by simp)
  | some c =>
    rw [pcb_setup_spec s0 child_pid c hs] at h
    simp only [Option.some.injEq, Prod.mk.injEq] at h
    obtain ⟨h1, h2⟩ := h
    subst h1
    exact ⟨rfl, h2.symm⟩

/-- A PCB just built by `pcb_setup` is the current one; descriptors 0 and 1
are in use, descriptors 2 to 7 are free. -/
theorem pcb_setup_fresh (s0 s : Kernel) (child_pid : Int) (p : Nat)
    (h : pcb_setup s0 child_pid = some (some p, s)) :
    get_current_pcb s = some p ∧ s.boot_blk = s0.boot_blk ∧
    (∀ i, i < 2 → ((s.pcbs p).fd_table i).flags ≠ 0) ∧
    (∀ i, 2 ≤ i → ((s.pcbs p).fd_table i).flags = 0) := by
  obtain ⟨hs, rfl⟩ := pcb_setup_inv s0 s child_pid p h
  obtain ⟨_, _, hcc, hc7⟩ := pid_slot_some _ _ hs
  refine ⟨?_, rfl, ?_, ?_⟩
  · apply get_current_pcb_eq _ _ hc7
    · simp [upd, hcc]
    · simp [upd]
  · intro i hi
    have : i = 0 ∨ i = 1 := by omega
    rcases this with h | h <;> subst h <;>
      simp [upd, fresh_pcb, fresh_fd_table, stdin_file, stdout_file, IN_USE]
  · intro i hi
    have h0 : i ≠ 0 := by omega
    have h1 : i ≠ 1 := by omega
    simp [upd, fresh_pcb, fresh_fd_table, h0, h1, file_zero]

theorem system_open_full (s : Kernel) (name : List Nat) (p : Nat)
    (hp : get_current_pcb s = some p)
    (h : ∀ i, i < 8 → ((s.pcbs p).fd_table i).flags ≠ 0) :
    system_open s name = some (FAILURE, s) := by
  unfold system_open
  cases read_dentry_by_name s.boot_blk name with
  | none => rfl
  | some d =>
    simp only [get_new_fd_full s p hp h, hp, if_true]

theorem open_repeat_full (name : List Nat) (p : Nat) :
    ∀ (m : Nat) (s : Kernel), get_current_pcb s = some p →
      (∀ i, i < 8 → ((s.pcbs p).fd_table i).flags ≠ 0) →
      open_repeat name m s = some (List.replicate m (-1), s) := by
  intro m
  induction m with
  | zero => intro s _ _; rfl
  | succ n ih =>
    intro s hp h
    simp only [open_repeat, system_open_full s name p hp h, ih s hp h, List.replicate_succ, FAILURE]

theorem open_repeat_from (name : List Nat) (d : dentry_t) (p m : Nat)
    (ht : known_filetype d.filetype) :
    ∀ (j k : Nat) (s : Kernel), k + j = 8 → get_current_pcb s = some p →
      read_dentry_by_name s.boot_blk name = some d →
      (∀ i, i < k → ((s.pcbs p).fd_table i).flags ≠ 0) →
      (∀ i, k ≤ i → ((s.pcbs p).fd_table i).flags = 0) →
      ∃ s', open_repeat name (j + m) s =
        some ((List.range' k j).map Int.ofNat ++ List.replicate m (-1), s') := by
  intro j
  induction j with
  | zero =>
    intro k s hk hp _ h1 _
    refine ⟨s, ?_⟩
    rw [Nat.zero_add, open_repeat_full name p m s hp (fun i hi => h1 i (by omega))]
    rfl
  | succ n ih =>
    intro k s hk hp hd h1 h2
    obtain ⟨s1, ho, hp1, hb1, hf1⟩ :=
      system_open_step s name d p k hp hd ht (by omega) h1 (h2 k (Nat.le_refl k))
    have hd1 : read_dentry_by_name s1.boot_blk name = some d := by rw [hb1]; exact hd
    obtain ⟨s2, hr⟩ := ih (k + 1) s1 (by omega) hp1 hd1
      (by intro i hi
          rw [hf1 i]
          by_cases hik : i = k
          · simp [hik, IN_USE]
          · rw [if_neg hik]; exact h1 i (by omega))
      (by intro i hi
          rw [hf1 i, if_neg (by omega)]
          exact h2 i (by omega))
    refine ⟨s2, ?_⟩
    have e : n + 1 + m = (n + m) + 1 := by omega
    rw [e]
    simp only [open_repeat, ho, hr, List.range'_succ, List.map_cons, List.cons_append]
    rfl

/-- C9 (as stated, refuted): "odd" exists in the directory of `demo_fs`, but
its file type is none of RTC, directory, regular file; in a PCB freshly built
by pcb_setup every one of eight consecutive system_open calls returns -1. -/
theorem C9_open_counterexample :
    (read_dentry_by_name demo_fresh.boot_blk [111, 100, 100]).isSome = true ∧
    (open_repeat [111, 100, 100] 8 demo_fresh).map Prod.fst =
      some [-1, -1, -1, -1, -1, -1, -1, -1] := by
  refine ⟨by decide, by decide⟩

/-- C9 (amended): in a PCB freshly built by pcb_setup, for every name that
read_dentry_by_name finds with file type RTC, directory or regular file, the
first six consecutive system_open calls return 2, 3, 4, 5, 6, 7 in that order
and every further system_open returns -1; of eight consecutive attempts
exactly the last two fail. -/
theorem C9_open_all_fds (s0 s : Kernel) (child_pid : Int) (p : Nat) (name : List Nat)
    (d : dentry_t) (hsetup : pcb_setup s0 child_pid = some (some p, s))
    (hd : read_dentry_by_name s.boot_blk name = some d) (ht : known_filetype d.filetype) :
    (∀ m, ∃ s', open_repeat name (6 + m) s =
      some ([2, 3, 4, 5, 6, 7] ++ List.replicate m (-1), s')) ∧
    (∃ s', open_repeat name 8 s = some ([2, 3, 4, 5, 6, 7, -1, -1], s')) := by
  obtain ⟨hp, _, h1, h2⟩ := pcb_setup_fresh s0 s child_pid p hsetup
  have key : ∀ m, ∃ s', open_repeat name (6 + m) s =
      some ([2, 3, 4, 5, 6, 7] ++ List.replicate m (-1), s') := by
    intro m
    obtain ⟨s', h⟩ := open_repeat_from name d p m ht 6 2 s (by omega) hp hd h1 h2
    exact ⟨s', h⟩
  refine ⟨key, ?_⟩
  obtain ⟨s', h⟩ := key 2
  exact ⟨s', h⟩

/-- Witness for C9: opening "." eight times in the first PCB built on `demo_fs`. -/
theorem C9_open_all_fds_witness :
    (pcb_setup demo_init 1 = some (some 1, demo_fresh) ∧
      read_dentry_by_name demo_fresh.boot_blk [46] = some (demo_fs.dir_entries 0) ∧
      known_filetype (demo_fs.dir_entries 0).filetype) ∧
    ((∀ m, ∃ s', open_repeat [46] (6 + m) demo_fresh =
      some ([2, 3, 4, 5, 6, 7] ++ List.replicate m (-1), s')) ∧
    (∃ s', open_repeat [46] 8 demo_fresh = some ([2, 3, 4, 5, 6, 7, -1, -1], s'))) :=
  ⟨⟨rfl, rfl, Or.inr (Or.inl rfl)⟩,
   C9_open_all_fds demo_init demo_fresh 1 1 [46] (demo_fs.dir_entries 0) rfl rfl
     (Or.inr (Or.inl rfl))⟩

/-! ### pcb_teardown -/

theorem set_pcb_self (s : Kernel) (c : Nat) : set_pcb s c (s.pcbs c) = s := by
  apply Kernel.ext <;> try rfl
  funext q
  by_cases h : q = c <;> simp [set_pcb, upd, h]

theorem set_fd_self (s : Kernel) (c i : Nat) : set_fd s c i ((s.pcbs c).fd_table i) = s := by
  rw [set_fd_eq]
  have e : upd (s.pcbs c).fd_table i ((s.pcbs c).fd_table i) = (s.pcbs c).fd_table := by
    funext j
    by_cases h : j = i <;> simp [upd, h]
  rw [e]
  exact set_pcb_self s c

/-- A close function changes at most the descriptor it is given. -/
theorem close_via_frame (ops : file_ops_ptr) (s s' : Kernel) (c i : Nat) (r : Int)
    (hp : get_current_pcb s = some c) (h : close_via ops s (i : Int) = some (r, s')) :
    ∃ f, s' = set_fd s c i f := by
  have key : ∀ (g : Kernel → Int → Option (Int × Kernel)),
      (g = term_close ∨ g = file_close ∨ g = rtc_close) → g s (i : Int) = some (r, s') →
      ∃ f, s' = set_fd s c i f := by
    intro g hg hgs
    rcases hg with hg | hg | hg
    · subst hg
      unfold term_close at hgs
      by_cases hr : (i : Int) < 0 ∨ (i : Int) ≥ (FD_ARRAY_SIZE : Int)
      · rw [if_pos hr] at hgs
        simp only [Option.some.injEq, Prod.mk.injEq] at hgs
        exact ⟨_, by rw [← hgs.2, set_fd_self]⟩
      · rw [if_neg hr] at hgs
        simp only [hp, Int.toNat_ofNat] at hgs
        by_cases hf : ((s.pcbs c).fd_table i).flags = NOT_IN_USE
        · rw [if_pos hf] at hgs
          simp only [Option.some.injEq, Prod.mk.injEq] at hgs
          exact ⟨_, by rw [← hgs.2, set_fd_self]⟩
        · rw [if_neg hf] at hgs
          simp only [Option.some.injEq, Prod.mk.injEq] at hgs
          exact ⟨_, hgs.2.symm⟩
    · subst hg
      unfold file_close at hgs
      by_cases hr : (i : Int) < 0 ∨ (i : Int) ≥ (FD_ARRAY_SIZE : Int)
      · rw [if_pos hr] at hgs
        simp only [Option.some.injEq, Prod.mk.injEq] at hgs
        exact ⟨_, by rw [← hgs.2, set_fd_self]⟩
      · rw [if_neg hr] at hgs
        simp only [hp, Int.toNat_ofNat] at hgs
        by_cases hf : ((s.pcbs c).fd_table i).flags = NOT_IN_USE
        · rw [if_pos hf] at hgs
          simp only [Option.some.injEq, Prod.mk.injEq] at hgs
          exact ⟨_, by rw [← hgs.2, set_fd_self]⟩
        · rw [if_neg hf] at hgs
          simp only [Option.some.injEq, Prod.mk.injEq] at hgs
          exact ⟨_, hgs.2.symm⟩
    · subst hg
      unfold rtc_close at hgs
      by_cases hr : (i : Int) < 0 ∨ (i : Int) ≥ (FD_ARRAY_SIZE : Int)
      · rw [if_pos hr] at hgs
        simp only [Option.some.injEq, Prod.mk.injEq] at hgs
        exact ⟨_, by rw [← hgs.2, set_fd_self]⟩
      · rw [if_neg hr] at hgs
        simp only [hp, Int.toNat_ofNat, Option.some.injEq, Prod.mk.injEq] at hgs
        exact ⟨_, hgs.2.symm⟩
  cases ops with
  | NULL => simp [close_via] at h
  | stdin_op_table => exact key term_close (Or.inl rfl) h
  | stdout_op_table => exact key term_close (Or.inl rfl) h
  | rtc_type_op_table => exact key rtc_close (Or.inr (Or.inr rfl)) h
  | dir_type_op_table => exact key file_close (Or.inr (Or.inl rfl)) h
  | file_type_op_table => exact key file_close (Or.inr (Or.inl rfl)) h

/-- A close function returns whenever the operations pointer is not NULL and
the calling PCB exists. -/
theorem close_via_total (ops : file_ops_ptr) (s : Kernel) (c : Nat) (fd : Int)
    (hp : get_current_pcb s = some c) (hops : ops ≠ file_ops_ptr.NULL) :
    ∃ r s', close_via ops s fd = some (r, s') := by
  have ht : ∃ r s', term_close s fd = some (r, s') := by
    unfold term_close
    simp only [hp]
    split_ifs <;> exact ⟨_, _, rfl⟩
  have hf : ∃ r s', file_close s fd = some (r, s') := by
    unfold file_close
    simp only [hp]
    split_ifs <;> exact ⟨_, _, rfl⟩
  have hr : ∃ r s', rtc_close s fd = some (r, s') := by
    unfold rtc_close
    simp only [hp]
    split_ifs <;> exact ⟨_, _, rfl⟩
  cases ops with
  | NULL => exact absurd rfl hops
  | stdin_op_table => exact ht
  | stdout_op_table => exact ht
  | rtc_type_op_table => exact hr
  | dir_type_op_table => exact hf
  | file_type_op_table => exact hf

theorem set_fd_pcbs_other (s : Kernel) (c i q : Nat) (f : file_t) (h : q ≠ c) :
    (set_fd s c i f).pcbs q = s.pcbs q := by
  rw [set_fd_eq, set_pcb_pcbs_other _ _ _ _ h]

theorem set_fd_table_other (s : Kernel) (c i j : Nat) (f : file_t) (h : j ≠ i) :
    ((set_fd s c i f).pcbs c).fd_table j = (s.pcbs c).fd_table j := by
  rw [set_fd_eq, set_pcb_pcbs_same]
  simp [upd, h]

/-- The closing loop of `pcb_teardown` changes nothing but the descriptor table
of the PCB being torn down. -/
theorem teardown_close_loop_frame (c : Nat) :
    ∀ (n i : Nat) (s s' : Kernel), get_current_pcb s = some c →
      teardown_close_loop c n i s = some s' →
      ∃ T, s' = set_pcb s c { s.pcbs c with fd_table := T } := by
  intro n
  induction n with
  | zero =>
    intro i s s' _ h
    simp only [teardown_close_loop, Option.some.injEq] at h
    exact ⟨(s.pcbs c).fd_table, by rw [← h]; exact (set_pcb_self s c).symm⟩
  | succ m ih =>
    intro i s s' hp h
    unfold teardown_close_loop at h
    by_cases hf : ((s.pcbs c).fd_table i).flags = IN_USE
    · simp only [hf, if_true] at h
      cases hc : close_via ((s.pcbs c).fd_table i).file_ops s (i : Int) with
      | none => rw [hc] at h; exact absurd h (by simp)
      | some rs =>
        obtain ⟨r, s1⟩ := rs
        rw [hc] at h
        obtain ⟨f, hs1⟩ := close_via_frame _ s s1 c i r hp hc
        have hp1 : get_current_pcb s1 = some c := by
          rw [hs1, set_fd_eq, get_current_pcb_set_pcb]; exact hp
        obtain ⟨T, hT⟩ := ih (i + 1) s1 s' hp1 h
        refine ⟨T, ?_⟩
        rw [hT, hs1, set_fd_eq, set_pcb_set_pcb, set_pcb_pcbs_same]
    · simp only [hf, if_false] at h
      exact ih (i + 1) s s' hp h

/-- The closing loop of `pcb_teardown` returns when every descriptor in use has
an operations table. -/
theorem teardown_close_loop_total (c : Nat) :
    ∀ (n i : Nat) (s : Kernel), get_current_pcb s = some c →
      (∀ j, i ≤ j → j < i + n → ((s.pcbs c).fd_table j).flags = IN_USE →
        ((s.pcbs c).fd_table j).file_ops ≠ file_ops_ptr.NULL) →
      ∃ s', teardown_close_loop c n i s = some s' := by
  intro n
  induction n with
  | zero => intro i s _ _; exact ⟨s, rfl⟩
  | succ m ih =>
    intro i s hp hops
    unfold teardown_close_loop
    by_cases hf : ((s.pcbs c).fd_table i).flags = IN_USE
    · simp only [hf, if_true]
      obtain ⟨r, s1, hc⟩ :=
        close_via_total _ s c (i : Int) hp (hops i (Nat.le_refl i) (by omega) hf)
      rw [hc]
      obtain ⟨f, hs1⟩ := close_via_frame _ s s1 c i r hp hc
      have hp1 : get_current_pcb s1 = some c := by
        rw [hs1, set_fd_eq, get_current_pcb_set_pcb]; exact hp
      refine ih (i + 1) s1 hp1 ?_
      intro j hj hjn
      rw [hs1, set_fd_table_other _ _ _ _ _ (by omega)]
      exact hops j (by omega) (by omega)
    · simp only [hf, if_false]
      exact ih (i + 1) s hp (fun j hj hjn => hops j (by omega) (by omega))

/-- Whenever `pcb_teardown` returns, it leaves `teardown_state`. -/
theorem pcb_teardown_result (s s' : Kernel) (c : Nat) (hp : get_current_pcb s = some c)
    (h : pcb_teardown s = some s') : s' = teardown_state s c := by
  obtain ⟨hc7, ha, _⟩ := get_current_pcb_some s c hp
  unfold pcb_teardown at h
  simp only [hp] at h
  cases hl : teardown_close_loop c FD_ARRAY_SIZE 0 s with
  | none => rw [hl] at h; exact absurd h (by simp)
  | some s1 =>
    rw [hl] at h
    obtain ⟨T, hT⟩ := teardown_close_loop_frame c _ _ s s1 hp hl
    subst hT
    have hs : pid_slot ((set_pcb s c { s.pcbs c with fd_table := T }).active_pid
        (get_current_group (set_pcb s c { s.pcbs c with fd_table := T }))) = some c := by
      show pid_slot (s.active_pid s.current_group) = some c
      rw [ha]; exact pid_slot_nat c hc7
    simp only [hs, Option.some.injEq] at h
    rw [← h]
    apply Kernel.ext <;> try rfl
    · show upd (upd s.pcbs c _) c pcb_zero = upd s.pcbs c pcb_zero
      funext q
      by_cases hq : q = c <;> simp [upd, hq]
    · show upd s.active_pid s.current_group _ = upd s.active_pid s.current_group _
      simp [set_pcb, upd]
    · show get_kstack_addr _ = get_kstack_addr _
      simp [set_pcb, upd, get_current_group]

/-- `pcb_teardown` returns when the current PCB exists and every descriptor in
use has an operations table. -/
theorem pcb_teardown_total (s : Kernel) (c : Nat) (hp : get_current_pcb s = some c)
    (hops : fds_have_ops s c) : pcb_teardown s = some (teardown_state s c) := by
  obtain ⟨hc7, ha, _⟩ := get_current_pcb_some s c hp
  obtain ⟨s1, hl⟩ := teardown_close_loop_total c FD_ARRAY_SIZE 0 s hp
    (fun j _ hj => hops j (by omega))
  obtain ⟨T, hT⟩ := teardown_close_loop_frame c _ _ s s1 hp hl
  have hs : pid_slot (s1.active_pid (get_current_group s1)) = some c := by
    rw [hT]
    show pid_slot (s.active_pid s.current_group) = some c
    rw [ha]; exact pid_slot_nat c hc7
  have hsome : ∃ s', pcb_teardown s = some s' := by
    unfold pcb_teardown
    simp only [hp, hl, hs]
    exact ⟨_, rfl⟩
  obtain ⟨s', hs'⟩ := hsome
  rw [hs', pcb_teardown_result s s' c hp hs']

/-- The claim of C5 for every PCB whose descriptors in use have an operations
table: pcb_teardown returns; it leaves active_pid[g] = P, frees the slot of
the child, leaves every descriptor of the child not in use, sets TSS.esp0 to
0x800000 - P * 0x2000 - 4 and keeps the other active PIDs and PID slots; and
pcb_setup followed by pcb_teardown restores active_pid and pid_array. -/
theorem pcb_teardown_restores (s : Kernel) (c : Nat) (P : Int)
    (hp : get_current_pcb s = some c) (hpar : (s.pcbs c).parent_pid = P)
    (hP : 0 ≤ P ∧ P < 7) (hops : fds_have_ops s c) :
    (∃ s', pcb_teardown s = some s' ∧ s'.active_pid s.current_group = P ∧
      s'.pid_array c = false ∧
      (∀ i, ((s'.pcbs c).fd_table i).flags = NOT_IN_USE) ∧
      (s'.tss_esp0 : Int) = 0x800000 - P * 0x2000 - 4 ∧
      (∀ g, g ≠ s.current_group → s'.active_pid g = s.active_pid g) ∧
      (∀ q, q ≠ c → s'.pid_array q = s.pid_array q)) ∧
    (∀ s0 child_pid, pcb_setup s0 child_pid = some (some c, s) → s0.pid_array c = false →
      ∃ s', pcb_teardown s = some s' ∧ s'.active_pid = s0.active_pid ∧
        s'.pid_array = s0.pid_array) := by
  have ht := pcb_teardown_total s c hp hops
  constructor
  · refine ⟨_, ht, ?_, ?_, ?_, ?_, ?_, ?_⟩
    · simp [teardown_state, upd, hpar]
    · simp [teardown_state, upd]
    · intro i; simp [teardown_state, upd, pcb_zero, file_zero, NOT_IN_USE]
    · show ((get_kstack_addr (s.pcbs c).parent_pid : Nat) : Int) = _
      rw [hpar]
      have h1 : ¬ (P < 0 ∨ P ≥ ((MAX_PID : Nat) : Int)) := by
        unfold MAX_PID; push_cast; omega
      unfold get_kstack_addr
      rw [if_neg h1]
      unfold u32 KERNEL_LOC_END PCB_BLK_SIZE
      push_cast
      omega
    · intro g hg; simp [teardown_state, upd, hg]
    · intro q hq; simp [teardown_state, upd, hq]
  · intro s0 child_pid hsetup hfree
    obtain ⟨hs, hs'⟩ := pcb_setup_inv s0 s child_pid c hsetup
    refine ⟨_, ht, ?_, ?_⟩
    · subst hs'
      funext g
      by_cases hg : g = s0.current_group <;> simp [teardown_state, upd, hg, fresh_pcb]
    · subst hs'
      funext q
      by_cases hq : q = c
      · subst hq; simp [teardown_state, upd, hfree]
      · simp [teardown_state, upd, hq]

/-- Witness for the teardown theorem: the booted shell (PID 1, parent 0). -/
theorem pcb_teardown_restores_witness :
    get_current_pcb demo_boot = some 1 ∧ (demo_boot.pcbs 1).parent_pid = 0 ∧
    (∃ s', pcb_teardown demo_boot = some s' ∧ s'.active_pid demo_boot.current_group = 0 ∧
      s'.pid_array 1 = false ∧ (s'.tss_esp0 : Int) = 0x800000 - 0 * 0x2000 - 4) := by
  obtain ⟨⟨s', h1, h2, h3, _, h5, _, _⟩, _⟩ :=
    pcb_teardown_restores demo_boot 1 0 (by decide) (by decide) (by decide) (by decide)
  exact ⟨by decide, by decide, s', h1, h2, h3, h5⟩

/-- C5 (failing input): after system_open has failed on "odd", a directory
entry of unknown file type, descriptor 2 of the shell is marked in use with a
NULL operations pointer; pcb_teardown dereferences that pointer and does not
return, so active_pid and the PID slot are not restored. -/
theorem C5_teardown_null_ops :
    (system_open demo_boot [111, 100, 100]).map Prod.fst = some (-1) ∧
    get_current_pcb demo_leak = some 1 ∧
    ((demo_leak.pcbs 1).fd_table 2).flags = IN_USE ∧
    ((demo_leak.pcbs 1).fd_table 2).file_ops = file_ops_ptr.NULL ∧
    (pcb_teardown demo_leak).isNone = true := by
  refine ⟨by decide, by decide, by decide, by decide, by decide⟩

/-! ### What opening, reading and loading leave alone -/

theorem io_frame_refl (c : Nat) (s : Kernel) : io_frame c s s :=
  ⟨rfl, rfl, rfl, rfl, rfl, rfl, rfl, rfl, rfl, rfl, rfl, fun _ _ => rfl, ⟨_, rfl⟩⟩

theorem io_frame_trans (c : Nat) (s s1 s2 : Kernel) (h1 : io_frame c s s1)
    (h2 : io_frame c s1 s2) : io_frame c s s2 := by
  obtain ⟨a1, a2, a3, a4, a5, a6, a7, a8, a9, a10, a11, a12, T1, a13⟩ := h1
  obtain ⟨b1, b2, b3, b4, b5, b6, b7, b8, b9, b10, b11, b12, T2, b13⟩ := h2
  refine ⟨b1.trans a1, b2.trans a2, b3.trans a3, b4.trans a4, b5.trans a5, b6.trans a6,
    b7.trans a7, b8.trans a8, b9.trans a9, b10.trans a10, b11.trans a11,
    fun q hq => (b12 q hq).trans (a12 q hq), ⟨T2, ?_⟩⟩
  rw [b13, a13]

theorem io_frame_set_fd (c i : Nat) (f : file_t) (s : Kernel) : io_frame c s (set_fd s c i f) := by
  refine ⟨rfl, rfl, rfl, rfl, rfl, rfl, rfl, rfl, rfl, rfl, rfl, ?_,
    ⟨upd (s.pcbs c).fd_table i f, ?_⟩⟩
  · intro q hq; exact set_fd_pcbs_other s c i q f hq
  · rw [set_fd_eq, set_pcb_pcbs_same]

theorem io_frame_mem (c : Nat) (s : Kernel) (m : Nat → Nat) :
    io_frame c s { s with mem := m } :=
  ⟨rfl, rfl, rfl, rfl, rfl, rfl, rfl, rfl, rfl, rfl, rfl, fun _ _ => rfl, ⟨_, rfl⟩⟩

theorem io_frame_current (c : Nat) (s s' : Kernel) (h : io_frame c s s') :
    get_current_pcb s' = get_current_pcb s :=
  get_current_pcb_congr s s' h.2.2.2.1 h.2.2.2.2.1 h.2.2.1

theorem get_new_fd_some (s : Kernel) (p : Nat) (hp : get_current_pcb s = some p) :
    ∃ fd, get_new_fd s = some fd := by
  simp only [get_new_fd, hp]
  split <;> exact ⟨_, rfl⟩

theorem open_via_frame (ops : file_ops_ptr) (s s' : Kernel) (c : Nat) (name : List Nat)
    (fd r : Int)
    (hops : ops = file_ops_ptr.rtc_type_op_table ∨ ops = file_ops_ptr.dir_type_op_table ∨
      ops = file_ops_ptr.file_type_op_table)
    (h : open_via ops s name fd = some (r, s')) : io_frame c s s' := by
  rcases hops with hops | hops | hops
  · subst hops
    simp only [open_via, rtc_open] at h
    split_ifs at h <;> simp only [Option.some.injEq, Prod.mk.injEq] at h <;> rw [← h.2] <;>
      exact ⟨rfl, rfl, rfl, rfl, rfl, rfl, rfl, rfl, rfl, rfl, rfl, fun _ _ => rfl, ⟨_, rfl⟩⟩
  · subst hops
    simp only [open_via, dir_open] at h
    split_ifs at h <;> simp only [Option.some.injEq, Prod.mk.injEq] at h <;> rw [← h.2] <;>
      exact io_frame_refl c s
  · subst hops
    simp only [open_via, file_open] at h
    split_ifs at h <;> simp only [Option.some.injEq, Prod.mk.injEq] at h <;> rw [← h.2] <;>
      exact io_frame_refl c s

theorem system_open_frame (s s' : Kernel) (c : Nat) (name : List Nat) (r : Int)
    (hp : get_current_pcb s = some c) (h : system_open s name = some (r, s')) :
    io_frame c s s' := by
  unfold system_open at h
  cases hd : read_dentry_by_name s.boot_blk name with
  | none =>
    rw [hd] at h
    simp only [Option.some.injEq, Prod.mk.injEq] at h
    rw [← h.2]; exact io_frame_refl c s
  | some d =>
    rw [hd] at h
    obtain ⟨fd, hfd⟩ := get_new_fd_some s c hp
    simp only [hfd, hp] at h
    by_cases hf : fd = FAILURE
    · rw [if_pos hf] at h
      simp only [Option.some.injEq, Prod.mk.injEq] at h
      rw [← h.2]; exact io_frame_refl c s
    · rw [if_neg hf] at h
      have f4 : ∀ a b d e, io_frame c s (set_fd (set_fd (set_fd (set_fd s c fd.toNat a) c fd.toNat b)
          c fd.toNat d) c fd.toNat e) := by
        intro a b d e
        exact io_frame_trans c _ _ _
          (io_frame_trans c _ _ _
            (io_frame_trans c _ _ _ (io_frame_set_fd c _ a s) (io_frame_set_fd c _ b _))
            (io_frame_set_fd c _ d _))
          (io_frame_set_fd c _ e _)
      have f3 : ∀ a b d, io_frame c s (set_fd (set_fd (set_fd s c fd.toNat a) c fd.toNat b)
          c fd.toNat d) := by
        intro a b d
        exact io_frame_trans c _ _ _
          (io_frame_trans c _ _ _ (io_frame_set_fd c _ a s) (io_frame_set_fd c _ b _))
          (io_frame_set_fd c _ d _)
      split_ifs at h
      · exact io_frame_trans c _ _ _ (f4 _ _ _ _) (open_via_frame _ _ _ c _ _ _ (Or.inl rfl) h)
      · exact io_frame_trans c _ _ _ (f4 _ _ _ _)
          (open_via_frame _ _ _ c _ _ _ (Or.inr (Or.inl rfl)) h)
      · exact io_frame_trans c _ _ _ (f4 _ _ _ _)
          (open_via_frame _ _ _ c _ _ _ (Or.inr (Or.inr rfl)) h)
      · simp only [Option.some.injEq, Prod.mk.injEq] at h
        rw [← h.2]; exact f3 _ _ _

theorem file_read_bytes_frame (s s' : Kernel) (c : Nat) (fd : Int) (nbytes r : Int)
    (bytes : List Nat) (hp : get_current_pcb s = some c)
    (h : file_read_bytes s fd nbytes = some (r, bytes, s')) : io_frame c s s' := by
  unfold file_read_bytes at h
  simp only [hp] at h
  split_ifs at h <;> simp only [Option.some.injEq, Prod.mk.injEq] at h
  · rw [← h.2.2]; exact io_frame_refl c s
  · rw [← h.2.2]; exact io_frame_refl c s
  · rw [← h.2.2]; exact io_frame_refl c s
  · rw [← h.2.2]; exact io_frame_set_fd c _ _ s

theorem file_read_frame (s s' : Kernel) (c : Nat) (fd : Int) (buf : Nat) (nbytes r : Int)
    (hp : get_current_pcb s = some c)
    (h : file_read s fd buf nbytes = some (r, s')) : io_frame c s s' := by
  unfold file_read at h
  simp only [hp] at h
  split_ifs at h
  · simp only [Option.some.injEq, Prod.mk.injEq] at h
    rw [← h.2]; exact io_frame_refl c s
  · simp only [Option.some.injEq, Prod.mk.injEq] at h
    rw [← h.2]; exact io_frame_refl c s
  · cases hs : vstore_bytes s buf
        (read_data s.boot_blk ((s.pcbs c).fd_table fd.toNat).inode
          ((s.pcbs c).fd_table fd.toNat).file_position (u32 nbytes)).2 with
    | none => rw [hs] at h; exact absurd h (by simp)
    | some s1 =>
      rw [hs] at h
      have e := vstore_bytes_frame _ s s1 buf hs
      have f1 : io_frame c s s1 := by rw [e]; exact io_frame_mem c s _
      simp only [Option.some.injEq, Prod.mk.injEq] at h
      rw [← h.2]; exact f1
  · cases hs : vstore_bytes s buf
        (read_data s.boot_blk ((s.pcbs c).fd_table fd.toNat).inode
          ((s.pcbs c).fd_table fd.toNat).file_position (u32 nbytes)).2 with
    | none => rw [hs] at h; exact absurd h (by simp)
    | some s1 =>
      rw [hs] at h
      have e := vstore_bytes_frame _ s s1 buf hs
      have f1 : io_frame c s s1 := by rw [e]; exact io_frame_mem c s _
      simp only [Option.some.injEq, Prod.mk.injEq] at h
      rw [← h.2]; exact io_frame_trans c _ _ _ f1 (io_frame_set_fd c _ _ s1)

theorem load_loop_frame (c : Nat) (fd : Int) :
    ∀ (n addr : Nat) (s s' : Kernel) (ok : Bool), get_current_pcb s = some c →
      load_loop fd n addr s = some (ok, s') → io_frame c s s' := by
  intro n
  induction n with
  | zero => intro addr s s' ok _ h; simp [load_loop] at h
  | succ m ih =>
    intro addr s s' ok hp h
    unfold load_loop at h
    cases hr : file_read s fd addr 1 with
    | none => rw [hr] at h; exact absurd h (by simp)
    | some x =>
      obtain ⟨ret, s1⟩ := x
      rw [hr] at h
      have f1 := file_read_frame s s1 c fd addr 1 ret hp hr
      have hp1 : get_current_pcb s1 = some c := by rw [io_frame_current c s s1 f1]; exact hp
      simp only at h
      split_ifs at h
      · simp only [Option.some.injEq, Prod.mk.injEq] at h
        rw [← h.2]; exact f1
      · simp only [Option.some.injEq, Prod.mk.injEq] at h
        rw [← h.2]; exact f1
      · exact io_frame_trans c _ _ _ f1 (ih _ s1 s' ok hp1 h)

theorem file_close_frame (s s' : Kernel) (c : Nat) (fd r : Int)
    (hp : get_current_pcb s = some c) (h : file_close s fd = some (r, s')) :
    io_frame c s s' := by
  unfold file_close at h
  simp only [hp] at h
  split_ifs at h <;> simp only [Option.some.injEq, Prod.mk.injEq] at h
  · rw [← h.2]; exact io_frame_refl c s
  · rw [← h.2]; exact io_frame_refl c s
  · rw [← h.2]; exact io_frame_set_fd c _ _ s

/-- `__load_program` changes nothing but the descriptor table of the calling
PCB, the byte store and the RTC variables. -/
theorem load_program_frame (s s' : Kernel) (c : Nat) (filename : List Nat) (r : Int)
    (hp : get_current_pcb s = some c) (h : __load_program s filename = some (r, s')) :
    io_frame c s s' := by
  unfold __load_program at h
  cases ho : system_open s filename with
  | none => rw [ho] at h; exact absurd h (by simp)
  | some x =>
    obtain ⟨fd, s1⟩ := x
    rw [ho] at h
    have f1 := system_open_frame s s1 c filename fd hp ho
    have hp1 : get_current_pcb s1 = some c := by rw [io_frame_current c s s1 f1]; exact hp
    simp only at h
    by_cases hfd : fd = FAILURE
    · rw [if_pos hfd] at h
      simp only [Option.some.injEq, Prod.mk.injEq] at h
      rw [← h.2]; exact f1
    · rw [if_neg hfd] at h
      cases hb : file_read_bytes s1 fd (EXEC_MAGIC_LEN : Int) with
      | none => rw [hb] at h; exact absurd h (by simp)
      | some y =>
        obtain ⟨ret, magic, s2⟩ := y
        rw [hb] at h
        have f2 := io_frame_trans c _ _ _ f1
          (file_read_bytes_frame s1 s2 c fd _ ret magic hp1 hb)
        have hp2 : get_current_pcb s2 = some c := by rw [io_frame_current c s s2 f2]; exact hp
        simp only at h
        split_ifs at h
        · simp only [Option.some.injEq, Prod.mk.injEq] at h
          rw [← h.2]; exact f2
        · simp only [hp2] at h
          have f3 := io_frame_trans c _ _ _ f2 (io_frame_set_fd c fd.toNat
            { (s2.pcbs c).fd_table fd.toNat with file_position := 0 } s2)
          cases hl : load_loop fd 4294967297 (PROG_VIRT_ADDR + PROG_OFFSET)
              (set_fd s2 c fd.toNat { (s2.pcbs c).fd_table fd.toNat with file_position := 0 }) with
          | none => rw [hl] at h; exact absurd h (by simp)
          | some z =>
            obtain ⟨ok, s4⟩ := z
            rw [hl] at h
            have hp3 : get_current_pcb (set_fd s2 c fd.toNat
                { (s2.pcbs c).fd_table fd.toNat with file_position := 0 }) = some c := by
              rw [io_frame_current c s _ f3]; exact hp
            have f4 := io_frame_trans c _ _ _ f3 (load_loop_frame c fd _ _ _ s4 ok hp3 hl)
            have hp4 : get_current_pcb s4 = some c := by
              rw [io_frame_current c s s4 f4]; exact hp
            simp only at h
            split_ifs at h
            · simp only [Option.some.injEq, Prod.mk.injEq] at h
              rw [← h.2]; exact f4
            · cases hc : file_close s4 fd with
              | none => rw [hc] at h; exact absurd h (by simp)
              | some w =>
                obtain ⟨rc, s5⟩ := w
                rw [hc] at h
                simp only [Option.some.injEq, Prod.mk.injEq] at h
                rw [← h.2]
                exact io_frame_trans c _ _ _ f4 (file_close_frame s4 s5 c fd rc hp4 hc)

/-! ### system_execute, failure path -/

theorem get_new_pid_free (s : Kernel) (c : Nat) (h : pid_slot (get_new_pid s) = some c) :
    s.pid_array c = false := by
  unfold get_new_pid at h
  cases hf : (List.range MAX_PID).find? (fun pid => !s.pid_array pid) with
  | none =>
    simp only [hf] at h
    have hn : pid_slot FAILURE = none := by decide
    rw [hn] at h
    exact absurd h (by simp)
  | some q =>
    simp only [hf] at h
    have hq := List.find?_some hf
    obtain ⟨_, _, hcc, _⟩ := pid_slot_some _ _ h
    have : q = c := by exact_mod_cast hcc
    subst this
    simpa using hq

theorem pcb_setup_null (s s1 : Kernel) (child_pid : Int)
    (h : pcb_setup s child_pid = some (none, s1)) : s1 = s ∧ pid_slot child_pid = none := by
  cases hs : pid_slot child_pid with
  | none =>
    unfold pcb_setup at h
    by_cases hf : child_pid = FAILURE
    · rw [if_pos hf] at h
      simp only [Option.some.injEq, Prod.mk.injEq, true_and] at h
      exact ⟨h.symm, rfl⟩
    · rw [if_neg hf] at h
      simp only [get_pcb_addr, hs] at h
      exact absurd h (by simp)
  | some c =>
    rw [pcb_setup_spec s child_pid c hs] at h
    simp at h

theorem prog_entry_frame (P : Nat) (hP : P < 7) :
    entry_present (prog_entry (get_prog_phys_addr P)) = true ∧
    entry_user (prog_entry (get_prog_phys_addr P)) = true ∧
    entry_frame_4mb (prog_entry (get_prog_phys_addr P)) = get_prog_phys_addr P ∧
    get_prog_phys_addr P = 0x800000 + P * 0x400000 - 0x400000 := by
  interval_cases P <;> decide

/-- C4: whenever system_execute returns -1 to a calling process P whose frame
is mapped at 128 MiB, every group's active PID and every PID slot is as before
the call (so get_new_pid returns the same PID), the child PCB that was built,
if any, is zeroed with every descriptor not in use, and the directory entry
for virtual 128 MiB maps the frame of P. -/
theorem C4_execute_failure (s s' : Kernel) (ptr : Nat) (command : List Nat) (esp ebp P : Nat)
    (hp : get_current_pcb s = some P) (hpid : (s.pcbs P).pid = (P : Int))
    (hmap : s.page_directory 32 = prog_entry (get_prog_phys_addr P))
    (h : system_execute s ptr command esp ebp = some (exec_result.returned FAILURE, s')) :
    s'.active_pid = s.active_pid ∧ s'.pid_array = s.pid_array ∧
    get_new_pid s' = get_new_pid s ∧
    (∀ c, ptr ≠ 0 → pid_slot (get_new_pid s) = some c →
      s'.pcbs c = pcb_zero ∧ ∀ i, ((s'.pcbs c).fd_table i).flags = NOT_IN_USE) ∧
    s'.page_directory 32 = prog_entry (get_prog_phys_addr P) ∧
    entry_present (s'.page_directory 32) = true ∧
    entry_frame_4mb (s'.page_directory 32) = get_prog_phys_addr P := by
  obtain ⟨hP7, hPa, hPl⟩ := get_current_pcb_some s P hp
  have hframe := prog_entry_frame P hP7
  have fin : ∀ t : Kernel, t.active_pid = s.active_pid → t.pid_array = s.pid_array →
      (∀ c, ptr ≠ 0 → pid_slot (get_new_pid s) = some c → t.pcbs c = pcb_zero) →
      t.page_directory 32 = prog_entry (get_prog_phys_addr P) →
      t.active_pid = s.active_pid ∧ t.pid_array = s.pid_array ∧
      get_new_pid t = get_new_pid s ∧
      (∀ c, ptr ≠ 0 → pid_slot (get_new_pid s) = some c →
        t.pcbs c = pcb_zero ∧ ∀ i, ((t.pcbs c).fd_table i).flags = NOT_IN_USE) ∧
      t.page_directory 32 = prog_entry (get_prog_phys_addr P) ∧
      entry_present (t.page_directory 32) = true ∧
      entry_frame_4mb (t.page_directory 32) = get_prog_phys_addr P := by
    intro t h1 h2 h3 h4
    refine ⟨h1, h2, by simp only [get_new_pid, h2], ?_, h4, by rw [h4]; exact hframe.1,
      by rw [h4]; exact hframe.2.2.1⟩
    intro c hc1 hc2
    refine ⟨h3 c hc1 hc2, ?_⟩
    intro i
    rw [h3 c hc1 hc2]
    rfl
  unfold system_execute at h
  by_cases hptr : ptr = 0
  · rw [if_pos hptr] at h
    simp only [Option.some.injEq, Prod.mk.injEq, true_and] at h
    subst h
    exact fin s rfl rfl (fun c hc _ => absurd hptr hc) hmap
  · rw [if_neg hptr] at h
    simp only at h
    cases hsetup : pcb_setup s (get_new_pid s) with
    | none => rw [hsetup] at h; exact absurd h (by simp)
    | some x =>
      obtain ⟨oc, s1⟩ := x
      rw [hsetup] at h
      cases oc with
      | none =>
        simp only [Option.some.injEq, Prod.mk.injEq, true_and] at h
        obtain ⟨h1, h2⟩ := pcb_setup_null s s1 _ hsetup
        subst h
        rw [h1]
        exact fin s rfl rfl (fun c _ hc => by rw [h2] at hc; exact absurd hc (by simp)) hmap
      | some c =>
        obtain ⟨hslot, hs1⟩ := pcb_setup_inv s s1 _ c hsetup
        obtain ⟨_, _, hcc, hc7⟩ := pid_slot_some _ _ hslot
        have hfree := get_new_pid_free s c hslot
        have hPc : P ≠ c := by
          intro e; rw [e] at hPl; rw [hPl] at hfree; exact absurd hfree (by simp)
        simp only at h
        generalize hs3 : map_page (execute_save_args s1 c command) PROG_VIRT_ADDR
          (get_prog_phys_addr ((execute_save_args s1 c command).pcbs c).pid) 1 1 1 = s3 at h
        rw [map_page_prog] at hs3
        have a3 : s3.active_pid = upd s.active_pid s.current_group (get_new_pid s) := by
          rw [← hs3, hs1]; rfl
        have g3 : s3.current_group = s.current_group := by rw [← hs3, hs1]; rfl
        have l3 : s3.pid_array = upd s.pid_array c true := by rw [← hs3, hs1]; rfl
        have p3 : ∀ q, q ≠ c → s3.pcbs q = s.pcbs q := by
          intro q hq
          rw [← hs3, hs1]
          simp [execute_save_args, set_pcb, upd, hq]
        have c3 : (s3.pcbs c).parent_pid = s.active_pid s.current_group := by
          rw [← hs3, hs1]
          simp [execute_save_args, set_pcb, upd, fresh_pcb]
        have hp3 : get_current_pcb s3 = some c := by
          apply get_current_pcb_eq _ _ hc7
          · rw [a3, g3, hcc]; simp [upd]
          · rw [l3]; simp [upd]
        cases hl : __load_program s3 (execute_filename command).2 with
        | none => rw [hl] at h; exact absurd h (by simp)
        | some y =>
          obtain ⟨eip, s4⟩ := y
          rw [hl] at h
          have f4 := load_program_frame s3 s4 c _ eip hp3 hl
          obtain ⟨_, _, l4, a4, g4, _, _, _, _, _, _, p4, T, c4⟩ := f4
          simp only [hp] at h
          by_cases hfail : u32 eip = u32 FAILURE
          · rw [if_pos hfail] at h
            generalize hs5 : map_page s4 PROG_VIRT_ADDR (get_prog_phys_addr (s4.pcbs P).pid)
              1 1 1 = s5 at h
            rw [map_page_prog] at hs5
            have hp5 : get_current_pcb s5 = some c := by
              rw [← hp3, ← hs5]
              exact get_current_pcb_congr _ _ a4 g4 l4
            cases ht : pcb_teardown s5 with
            | none => rw [ht] at h; exact absurd h (by simp)
            | some s6 =>
              rw [ht] at h
              simp only [Option.some.injEq, Prod.mk.injEq, true_and] at h
              subst h
              have h6 := pcb_teardown_result s5 s6 c hp5 ht
              subst h6
              have e1 : s5.active_pid = s3.active_pid := by rw [← hs5]; exact a4
              have e2 : s5.current_group = s.current_group := by rw [← hs5]; exact g4.trans g3
              have e3 : (s5.pcbs c).parent_pid = s.active_pid s.current_group := by
                rw [← hs5]
                show (s4.pcbs c).parent_pid = _
                rw [c4]; exact c3
              have e4 : s5.pid_array = upd s.pid_array c true := by rw [← hs5]; exact l4.trans l3
              have e5 : (s4.pcbs P).pid = (P : Int) := by rw [p4 P hPc, p3 P hPc]; exact hpid
              apply fin
              · show upd s5.active_pid s5.current_group (s5.pcbs c).parent_pid = s.active_pid
                rw [e1, a3, e2, e3]
                funext g
                by_cases hg : g = s.current_group <;> simp [upd, hg]
              · show upd s5.pid_array c false = s.pid_array
                rw [e4]
                funext q
                by_cases hq : q = c
                · subst hq; simp [upd, hfree]
                · simp [upd, hq]
              · intro c' _ hc'
                rw [hslot] at hc'
                simp only [Option.some.injEq] at hc'
                subst hc'
                show upd s5.pcbs c pcb_zero c = pcb_zero
                exact upd_same _ _ _
              · show s5.page_directory 32 = _
                rw [← hs5, e5]
                simp [upd]
          · rw [if_neg hfail] at h
            simp at h

/-- Witness for C4: the booted shell executes "no", a name not in the
directory. -/
theorem C4_execute_failure_witness :
    (get_current_pcb demo_boot = some 1 ∧ (demo_boot.pcbs 1).pid = ((1 : Nat) : Int) ∧
      demo_boot.page_directory 32 = prog_entry (get_prog_phys_addr ((1 : Nat) : Int)) ∧
      system_execute demo_boot 1 [110, 111] 0x7FBF00 0x7FBF80 =
        some (exec_result.returned FAILURE, demo_exec_fail)) ∧
    (demo_exec_fail.active_pid = demo_boot.active_pid ∧
      demo_exec_fail.pid_array = demo_boot.pid_array ∧
      get_new_pid demo_exec_fail = get_new_pid demo_boot ∧
      (∀ c, (1 : Nat) ≠ 0 → pid_slot (get_new_pid demo_boot) = some c →
        demo_exec_fail.pcbs c = pcb_zero ∧
        ∀ i, ((demo_exec_fail.pcbs c).fd_table i).flags = NOT_IN_USE) ∧
      demo_exec_fail.page_directory 32 = prog_entry (get_prog_phys_addr ((1 : Nat) : Int)) ∧
      entry_present (demo_exec_fail.page_directory 32) = true ∧
      entry_frame_4mb (demo_exec_fail.page_directory 32) =
        get_prog_phys_addr ((1 : Nat) : Int)) :=
  ⟨⟨by decide, by decide, by decide, rfl⟩,
   C4_execute_failure demo_boot demo_exec_fail 1 [110, 111] 0x7FBF00 0x7FBF80 1
     (by decide) (by decide) (by decide) rfl⟩

/-! ### Parsing the command line -/

theorem chr_append_right (x y : List Nat) (i : Nat) : chr (x ++ y) (x.length + i) = chr y i := by
  simp [chr, List.getD, List.getElem?_append_right]

theorem chr_append_left (x y : List Nat) (i : Nat) (h : i < x.length) :
    chr (x ++ y) i = chr x i := by
  simp [chr, List.getD, List.getElem?_append_left h]

theorem chr_mid (x y z : List Nat) (i : Nat) (h : i < y.length) :
    chr (x ++ (y ++ z)) (x.length + i) = y.getD i 0 := by
  rw [chr_append_right, chr_append_left _ _ _ h]
  rfl

theorem chr_end (x : List Nat) (i : Nat) (h : x.length ≤ i) : chr x i = 0 := by
  simp [chr, List.getD, List.getElem?_eq_none h]

theorem chr_replicate (n i : Nat) (h : i < n) : chr (List.replicate n 32) i = 32 := by
  simp [chr, List.getD, List.getElem?_replicate, h]

theorem token_getD (a : List Nat) (h : is_token a) (i : Nat) (hi : i < a.length) :
    a.getD i 0 ≠ 32 ∧ a.getD i 0 ≠ 0 := by
  have hm : a.getD i 0 ∈ a := by
    rw [List.getD_eq_getElem _ _ hi]
    exact List.getElem_mem hi
  exact h.2 _ hm

theorem token_length (a : List Nat) (h : is_token a) : 0 < a.length :=
  List.length_pos.mpr h.1

theorem skip_spaces_run (cmd : Nat → Nat) :
    ∀ (n fuel p : Nat), n ≤ fuel → (∀ i, i < n → cmd (p + i) = 32) → cmd (p + n) ≠ 32 →
      skip_spaces cmd fuel p = p + n := by
  intro n
  induction n with
  | zero =>
    intro fuel p _ _ h
    cases fuel with
    | zero => rfl
    | succ f => simp only [skip_spaces]; rw [if_neg (by simpa using h)]; rfl
  | succ m ih =>
    intro fuel p hf hs hn
    cases fuel with
    | zero => omega
    | succ f =>
      simp only [skip_spaces]
      rw [if_pos (by simpa using hs 0 (by omega))]
      rw [ih f (p + 1) (by omega) (fun i hi => by
        have := hs (i + 1) (by omega)
        rwa [show p + (i + 1) = p + 1 + i by omega] at this)
        (by rwa [show p + (m + 1) = p + 1 + m by omega] at hn)]
      omega

theorem copy_filename_token (cmd : Nat → Nat) (a : List Nat) (ha : ∀ c, c ∈ a → c ≠ 32 ∧ c ≠ 0) :
    ∀ (fuel p : Nat) (acc : List Nat), a.length ≤ fuel → p + a.length ≤ 126 →
      (∀ i, i < a.length → cmd (p + i) = a.getD i 0) →
      (cmd (p + a.length) = 32 ∨ cmd (p + a.length) = 0) →
      copy_filename cmd fuel p acc = (p + a.length, acc ++ a) := by
  induction a with
  | nil =>
    intro fuel p acc _ _ _ hend
    cases fuel with
    | zero => simp [copy_filename]
    | succ f =>
      simp only [copy_filename, List.length_nil, Nat.add_zero] at hend ⊢
      rw [if_neg (by rcases hend with h | h <;> simp [h])]
      simp
  | cons b rest ih =>
    intro fuel p acc hf hb hs hend
    simp only [List.length_cons] at hf hb hs hend
    cases fuel with
    | zero => omega
    | succ f =>
      have h0 : cmd p = b := by simpa using hs 0 (by omega)
      have hb2 := ha b (List.mem_cons_self _ _)
      simp only [copy_filename, TERM_BUFFER_SIZE]
      rw [if_pos ⟨by omega, by rw [h0]; exact hb2.1, by rw [h0]; exact hb2.2⟩]
      rw [ih (fun c hc => ha c (List.mem_cons_of_mem _ hc)) f (p + 1) _ (by omega) (by omega)
        (fun i hi => by
          have := hs (i + 1) (by omega)
          rw [show p + (i + 1) = p + 1 + i by omega] at this
          simpa using this)
        (by rwa [show p + (rest.length + 1) = p + 1 + rest.length by omega] at hend)]
      rw [h0]
      simp only [List.length_cons, List.append_assoc, List.singleton_append, Prod.mk.injEq,
        and_true]
      omega

theorem copy_arg_token (cmd : Nat → Nat) (a : List Nat) (ha : ∀ c, c ∈ a → c ≠ 32 ∧ c ≠ 0) :
    ∀ (fuel p k : Nat) (args : Nat → Nat), a.length ≤ fuel → p + a.length ≤ 126 →
      (∀ i, i < a.length → cmd (p + i) = a.getD i 0) →
      (cmd (p + a.length) = 32 ∨ cmd (p + a.length) = 0) →
      ∃ args', copy_arg cmd fuel p k args = (p + a.length, k + a.length, args') ∧
        (∀ i, i < a.length → args' (k + i) = a.getD i 0) ∧
        (∀ j, j < k → args' j = args j) := by
  induction a with
  | nil =>
    intro fuel p k args _ _ _ hend
    refine ⟨args, ?_, by intro i hi; simp at hi, fun _ _ => rfl⟩
    cases fuel with
    | zero => simp [copy_arg]
    | succ f =>
      simp only [copy_arg, List.length_nil, Nat.add_zero] at hend ⊢
      rw [if_neg (by rcases hend with h | h <;> simp [h])]
  | cons b rest ih =>
    intro fuel p k args hf hb hs hend
    simp only [List.length_cons] at hf hb hs hend
    cases fuel with
    | zero => omega
    | succ f =>
      have h0 : cmd p = b := by simpa using hs 0 (by omega)
      have hb2 := ha b (List.mem_cons_self _ _)
      obtain ⟨args', h1, h2, h3⟩ :=
        ih (fun c hc => ha c (List.mem_cons_of_mem _ hc)) f (p + 1) (k + 1)
          (upd args k (cmd p)) (by omega) (by omega)
          (fun i hi => by
            have := hs (i + 1) (by omega)
            rw [show p + (i + 1) = p + 1 + i by omega] at this
            simpa using this)
          (by rwa [show p + (rest.length + 1) = p + 1 + rest.length by omega] at hend)
      refine ⟨args', ?_, ?_, ?_⟩
      · simp only [copy_arg, TERM_BUFFER_SIZE]
        rw [if_pos ⟨by omega, by rw [h0]; exact hb2.1, by rw [h0]; exact hb2.2⟩, h1]
        simp only [List.length_cons, Prod.mk.injEq, and_true]
        omega
      · intro i hi
        simp only [List.length_cons] at hi
        cases i with
        | zero =>
          rw [Nat.add_zero, h3 k (by omega), upd_same, h0]
          rfl
        | succ j =>
          have := h2 j (by omega)
          rw [show k + (j + 1) = k + 1 + j by omega, this]
          rfl
      · intro j hj
        rw [h3 j (by omega), upd_other _ _ _ _ (by omega)]

theorem arg_layout_head (cmd : Nat → Nat) (len t : Nat) (rest : List (Nat × List Nat))
    (a : List Nat) (p : Nat) (h : arg_layout cmd len t rest a p) :
    is_token a ∧ (∀ i, i < a.length → cmd (p + i) = a.getD i 0) := by
  cases rest with
  | nil => exact ⟨h.1, h.2.1⟩
  | cons x r => obtain ⟨n, b⟩ := x; exact ⟨h.1, h.2.1⟩

theorem arg_layout_bound (cmd : Nat → Nat) (len t : Nat) :
    ∀ (rest : List (Nat × List Nat)) (a : List Nat) (p : Nat), arg_layout cmd len t rest a p →
      p + (joined_args (a :: rest.map Prod.snd)).length ≤ len := by
  intro rest
  induction rest with
  | nil =>
    intro a p h
    have := h.2.2.2.2
    simp only [List.map_nil, joined_args]
    omega
  | cons x r ih =>
    intro a p h
    obtain ⟨n, b⟩ := x
    have := ih b _ h.2.2.2
    simp only [List.map_cons, joined_args, List.length_append, List.length_cons] at this ⊢
    omega

theorem joined_cons_length (a : List Nat) (l : List (List Nat)) :
    a.length ≤ (joined_args (a :: l)).length := by
  cases l with
  | nil => simp [joined_args]
  | cons b r => simp [joined_args]

/-- The argument loop of `system_execute` on a well-laid-out command: the
arguments joined by single spaces, then one NUL. -/
theorem parse_args_layout (cmd : Nat → Nat) (len t : Nat) (hlen : len ≤ 126) :
    ∀ (rest : List (Nat × List Nat)) (a : List Nat) (p k idx : Nat) (args : Nat → Nat),
      arg_layout cmd len t rest a p → rest.length < k →
      ∃ args', parse_args cmd len k p idx args =
          (idx + (joined_args (a :: rest.map Prod.snd)).length + 1, args') ∧
        (∀ i, i < (joined_args (a :: rest.map Prod.snd)).length →
          args' (idx + i) = (joined_args (a :: rest.map Prod.snd)).getD i 0) ∧
        args' (idx + (joined_args (a :: rest.map Prod.snd)).length) = 0 ∧
        (∀ j, j < idx → args' j = args j) := by
  intro rest
  induction rest with
  | nil =>
    intro a p k idx args h hk
    obtain ⟨htok, hhold, hsp, hend, hb⟩ := h
    have hpos := token_length a htok
    have hp0 : cmd p ≠ 0 := by
      have := hhold 0 hpos
      rw [Nat.add_zero] at this
      rw [this]; exact (token_getD a htok 0 hpos).2
    have hstop : cmd (p + a.length) = 32 ∨ cmd (p + a.length) = 0 := by
      by_cases ht : t = 0
      · right; rw [ht, Nat.add_zero] at hend; exact hend
      · left; have := hsp 0 (by omega); rwa [Nat.add_zero] at this
    obtain ⟨args1, h1, h2, h3⟩ := copy_arg_token cmd a htok.2 (TERM_BUFFER_SIZE - 1) p idx args
      (by unfold TERM_BUFFER_SIZE; omega) (by omega) hhold hstop
    have hskip : skip_spaces cmd len (p + a.length) = p + a.length + t :=
      skip_spaces_run cmd t len (p + a.length) (by omega) hsp (by rw [hend]; decide)
    cases k with
    | zero => omega
    | succ k' =>
      refine ⟨upd args1 (idx + a.length) 0, ?_, ?_, ?_, ?_⟩
      · simp only [parse_args]
        rw [if_neg hp0, h1]
        simp only [hskip, hend, if_true, List.map_nil, joined_args]
      · intro i hi
        simp only [List.map_nil, joined_args] at hi ⊢
        rw [upd_other _ _ _ _ (by omega)]
        exact h2 i hi
      · simp only [List.map_nil, joined_args]
        exact upd_same _ _ _
      · intro j hj
        rw [upd_other _ _ _ _ (by omega)]
        exact h3 j hj
  | cons x r ih =>
    intro a p k idx args h hk
    obtain ⟨n, b⟩ := x
    obtain ⟨htok, hhold, hsp, hrest⟩ := h
    have hpos := token_length a htok
    obtain ⟨btok, bhold⟩ := arg_layout_head cmd len t r b _ hrest
    have bpos := token_length b btok
    have hbound := arg_layout_bound cmd len t r b _ hrest
    have hjb := joined_cons_length b (r.map Prod.snd)
    have hp0 : cmd p ≠ 0 := by
      have := hhold 0 hpos
      rw [Nat.add_zero] at this
      rw [this]; exact (token_getD a htok 0 hpos).2
    have hstop : cmd (p + a.length) = 32 ∨ cmd (p + a.length) = 0 := by
      left; have := hsp 0 (by omega); rwa [Nat.add_zero] at this
    have hb0 : cmd (p + a.length + (n + 1)) = b.getD 0 0 := by
      have := bhold 0 bpos
      rwa [Nat.add_zero] at this
    obtain ⟨args1, h1, h2, h3⟩ := copy_arg_token cmd a htok.2 (TERM_BUFFER_SIZE - 1) p idx args
      (by unfold TERM_BUFFER_SIZE; omega) (by omega) hhold hstop
    have hskip : skip_spaces cmd len (p + a.length) = p + a.length + (n + 1) :=
      skip_spaces_run cmd (n + 1) len (p + a.length) (by omega) hsp
        (by rw [hb0]; exact (token_getD b btok 0 bpos).1)
    have hn0 : cmd (p + a.length + (n + 1)) ≠ 0 := by
      rw [hb0]; exact (token_getD b btok 0 bpos).2
    cases k with
    | zero => omega
    | succ k' =>
      simp only [List.length_cons] at hk
      obtain ⟨args2, g1, g2, g3, g4⟩ := ih b (p + a.length + (n + 1)) k' (idx + a.length + 1)
        (upd args1 (idx + a.length) 32) hrest (by omega)
      refine ⟨args2, ?_, ?_, ?_, ?_⟩
      · simp only [parse_args]
        rw [if_neg hp0, h1]
        simp only [hskip, if_neg hn0, g1, List.map_cons, joined_args, List.length_append,
          List.length_cons, Prod.mk.injEq, and_true]
        omega
      · intro i hi
        simp only [List.map_cons, joined_args, List.length_append, List.length_cons] at hi ⊢
        by_cases hia : i < a.length
        · rw [g4 _ (by omega), upd_other _ _ _ _ (by omega), h2 i hia]
          exact (chr_append_left a _ i hia).symm
        · by_cases hie : i = a.length
          · subst hie
            rw [g4 _ (by omega), upd_same]
            have := chr_append_right a (32 :: joined_args (b :: r.map Prod.snd)) 0
            rw [Nat.add_zero] at this
            exact this.symm
          · have hi2 : i - (a.length + 1) < (joined_args (b :: r.map Prod.snd)).length := by omega
            have := g2 _ hi2
            rw [show idx + a.length + 1 + (i - (a.length + 1)) = idx + i by omega] at this
            rw [this]
            have e := chr_append_right a (32 :: joined_args (b :: r.map Prod.snd))
              ((i - (a.length + 1)) + 1)
            rw [show a.length + ((i - (a.length + 1)) + 1) = i by omega] at e
            exact e.symm
      · simp only [List.map_cons, joined_args, List.length_append, List.length_cons]
        rw [show idx + (a.length + ((joined_args (b :: r.map Prod.snd)).length + 1)) =
          idx + a.length + 1 + (joined_args (b :: r.map Prod.snd)).length by omega]
        exact g3
      · intro j hj
        rw [g4 j (by omega), upd_other _ _ _ _ (by omega)]
        exact h3 j hj

theorem layout_of_command (t : Nat) :
    ∀ (rest : List (Nat × List Nat)) (pre a command : List Nat),
      command = pre ++ (a ++ spaced_args t rest) → is_token a →
      (∀ x, x ∈ rest → is_token x.2) →
      arg_layout (chr command) command.length t rest a pre.length := by
  intro rest
  induction rest with
  | nil =>
    intro pre a command hc ha _
    subst hc
    refine ⟨ha, fun i hi => chr_mid pre a _ i hi, ?_, ?_, ?_⟩
    · intro i hi
      rw [Nat.add_assoc, chr_append_right, chr_append_right]
      exact chr_replicate t i hi
    · apply chr_end
      simp [spaced_args]
      omega
    · simp [spaced_args]
      omega
  | cons x r ih =>
    intro pre a command hc ha hr
    obtain ⟨n, b⟩ := x
    subst hc
    refine ⟨ha, fun i hi => chr_mid pre a _ i hi, ?_, ?_⟩
    · intro i hi
      rw [Nat.add_assoc, chr_append_right, chr_append_right]
      show chr (List.replicate (n + 1) 32 ++ (b ++ spaced_args t r)) i = 32
      rw [chr_append_left _ _ _ (by simpa using hi)]
      exact chr_replicate (n + 1) i hi
    · have e : (pre ++ (a ++ List.replicate (n + 1) 32)).length = pre.length + a.length + (n + 1) := by
        simp only [List.length_append, List.length_replicate]
        omega
      rw [← e]
      refine ih (pre ++ (a ++ List.replicate (n + 1) 32)) b _ ?_
        (hr (n, b) (List.mem_cons_self _ _)) (fun x hx => hr x (List.mem_cons_of_mem _ hx))
      simp [spaced_args, List.append_assoc]

theorem joined_length (a : List Nat) :
    ∀ (l : List (List Nat)),
      (joined_args (a :: l)).length = ((a :: l).map List.length).sum + ((a :: l).length - 1) := by
  intro l
  induction l generalizing a with
  | nil => simp [joined_args]
  | cons b r ih =>
    have := ih b
    simp only [joined_args, List.length_append, List.length_cons, List.map_cons, List.sum_cons]
      at this ⊢
    omega

/-- What lines 120-188 of `system_execute` make of a command built from a file
name and arguments: the file name copied out, and the arguments saved in the
child PCB. -/
theorem execute_save_args_spec (s : Kernel) (c : Nat) (name : List Nat)
    (argv : List (Nat × List Nat)) (t : Nat) (hname : is_token name)
    (hargs : ∀ x, x ∈ argv → is_token x.2) (hk : argv.length ≤ 3)
    (hlen : (build_command name argv t).length < 127) :
    (execute_filename (build_command name argv t)).2 = name ∧
    (argv = [] →
      ((execute_save_args s c (build_command name argv t)).pcbs c).args 0 = 0 ∧
      ((execute_save_args s c (build_command name argv t)).pcbs c).args_len = 0) ∧
    (argv ≠ [] →
      ((execute_save_args s c (build_command name argv t)).pcbs c).args_len =
        (joined_args (argv.map Prod.snd)).length + 1 ∧
      (∀ i, i < (joined_args (argv.map Prod.snd)).length →
        ((execute_save_args s c (build_command name argv t)).pcbs c).args i =
          (joined_args (argv.map Prod.snd)).getD i 0) ∧
      ((execute_save_args s c (build_command name argv t)).pcbs c).args
        (joined_args (argv.map Prod.snd)).length = 0) := by
  have npos := token_length name hname
  have hn0 : chr (build_command name argv t) 0 = name.getD 0 0 := by
    unfold build_command
    rw [chr_append_left _ _ _ npos]; rfl
  have hskip0 : skip_spaces (chr (build_command name argv t)) (build_command name argv t).length 0
      = 0 := by
    have := skip_spaces_run (chr (build_command name argv t)) 0
      (build_command name argv t).length 0 (Nat.zero_le _) (fun i hi => absurd hi (by omega))
      (by rw [Nat.add_zero, hn0]; exact (token_getD name hname 0 npos).1)
    simpa using this
  have hview : command_view (build_command name argv t) = chr (build_command name argv t) := by
    funext i
    simp only [command_view, hskip0, Nat.zero_add]
  have hhold : ∀ i, i < name.length → chr (build_command name argv t) (0 + i) = name.getD i 0 := by
    intro i hi
    unfold build_command
    rw [Nat.zero_add, chr_append_left _ _ _ hi]; rfl
  have hstop : chr (build_command name argv t) (0 + name.length) = 32 ∨
      chr (build_command name argv t) (0 + name.length) = 0 := by
    unfold build_command
    rw [Nat.zero_add]
    have := chr_append_right name (spaced_args t argv) 0
    rw [Nat.add_zero] at this
    rw [this]
    cases argv with
    | nil =>
      by_cases ht : t = 0
      · right; subst ht; rfl
      · left; exact chr_replicate t 0 (by omega)
    | cons x r =>
      obtain ⟨n, a⟩ := x
      left
      show chr (List.replicate (n + 1) 32 ++ (a ++ spaced_args t r)) 0 = 32
      rw [chr_append_left _ _ _ (by simp)]
      exact chr_replicate (n + 1) 0 (by omega)
  have hlen2 : name.length ≤ (build_command name argv t).length := by
    unfold build_command; simp
  have hfile : execute_filename (build_command name argv t) = (name.length, name) := by
    unfold execute_filename
    rw [hview, copy_filename_token _ name hname.2 (TERM_BUFFER_SIZE - 1) 0 []
      (by unfold TERM_BUFFER_SIZE; omega) (by omega) hhold hstop]
    simp
  refine ⟨by rw [hfile], ?_, ?_⟩
  · intro hnil
    subst hnil
    have hsp : ∀ i, i < t → chr (build_command name [] t) (name.length + i) = 32 := by
      intro i hi
      unfold build_command
      rw [chr_append_right]
      exact chr_replicate t i hi
    have hend : chr (build_command name [] t) (name.length + t) = 0 := by
      apply chr_end
      simp [build_command, spaced_args]
    have hlt : t ≤ (build_command name [] t).length := by
      simp [build_command, spaced_args]
    have hskip := skip_spaces_run (chr (build_command name [] t)) t
      (build_command name [] t).length name.length hlt hsp (by rw [hend]; decide)
    simp only [execute_save_args, hview, hfile, hskip, MAX_NUM_ARGS, parse_args, hend, if_true,
      set_pcb_pcbs_same]
    exact ⟨upd_same _ _ _, trivial⟩
  · intro hne
    cases argv with
    | nil => exact absurd rfl hne
    | cons x r =>
      obtain ⟨n, a⟩ := x
      have hsp : ∀ i, i < n + 1 →
          chr (build_command name ((n, a) :: r) t) (name.length + i) = 32 := by
        intro i hi
        unfold build_command
        rw [chr_append_right]
        show chr (List.replicate (n + 1) 32 ++ (a ++ spaced_args t r)) i = 32
        rw [chr_append_left _ _ _ (by simpa using hi)]
        exact chr_replicate (n + 1) i hi
      have hlay := layout_of_command t r (name ++ List.replicate (n + 1) 32) a
        (build_command name ((n, a) :: r) t)
        (by simp [build_command, spaced_args, List.append_assoc])
        (hargs (n, a) (List.mem_cons_self _ _)) (fun x hx => hargs x (List.mem_cons_of_mem _ hx))
      have e : (name ++ List.replicate (n + 1) 32).length = name.length + (n + 1) := by simp
      rw [e] at hlay
      obtain ⟨atok, ahold⟩ := arg_layout_head _ _ _ _ _ _ hlay
      have apos := token_length a atok
      have ha0 : chr (build_command name ((n, a) :: r) t) (name.length + (n + 1)) = a.getD 0 0 := by
        have := ahold 0 apos
        rwa [Nat.add_zero] at this
      have hbound := arg_layout_bound _ _ _ _ _ _ hlay
      have hskip := skip_spaces_run (chr (build_command name ((n, a) :: r) t)) (n + 1)
        (build_command name ((n, a) :: r) t).length name.length (by omega) hsp
        (by rw [ha0]; exact (token_getD a atok 0 apos).1)
      simp only [List.length_cons] at hk
      obtain ⟨args', g1, g2, g3, _⟩ := parse_args_layout
        (chr (build_command name ((n, a) :: r) t)) (build_command name ((n, a) :: r) t).length t
        (by omega) r a (name.length + (n + 1)) MAX_NUM_ARGS 0 (s.pcbs c).args hlay
        (by unfold MAX_NUM_ARGS; omega)
      simp only [Nat.zero_add] at g1 g2 g3
      have hL : (joined_args (a :: r.map Prod.snd)).length + 1 < 256 := by omega
      simp only [execute_save_args, hview, hfile, hskip, g1, set_pcb_pcbs_same, List.map_cons]
      exact ⟨Nat.mod_eq_of_lt hL, g2, g3⟩

/-- When `system_execute` enters the child, the child is the current process
and its PCB holds the arguments saved by lines 142-188. -/
theorem system_execute_started (s s' : Kernel) (ptr : Nat) (command : List Nat) (esp ebp : Nat)
    (h : system_execute s ptr command esp ebp = some (exec_result.child_running, s')) :
    ∃ c s1, pcb_setup s (get_new_pid s) = some (some c, s1) ∧ get_current_pcb s' = some c ∧
      (s'.pcbs c).args = ((execute_save_args s1 c command).pcbs c).args ∧
      (s'.pcbs c).args_len = ((execute_save_args s1 c command).pcbs c).args_len := by
  unfold system_execute at h
  by_cases hptr : ptr = 0
  · rw [if_pos hptr] at h
    simp at h
  · rw [if_neg hptr] at h
    simp only at h
    cases hsetup : pcb_setup s (get_new_pid s) with
    | none => rw [hsetup] at h; exact absurd h (by simp)
    | some x =>
      obtain ⟨oc, s1⟩ := x
      rw [hsetup] at h
      cases oc with
      | none => simp at h
      | some c =>
        refine ⟨c, s1, rfl, ?_⟩
        obtain ⟨hslot, hs1⟩ := pcb_setup_inv s s1 _ c hsetup
        obtain ⟨_, _, hcc, hc7⟩ := pid_slot_some _ _ hslot
        have hfree := get_new_pid_free s c hslot
        simp only at h
        generalize hs3 : map_page (execute_save_args s1 c command) PROG_VIRT_ADDR
          (get_prog_phys_addr ((execute_save_args s1 c command).pcbs c).pid) 1 1 1 = s3 at h
        rw [map_page_prog] at hs3
        have a3 : s3.active_pid = upd s.active_pid s.current_group (get_new_pid s) := by
          rw [← hs3, hs1]; rfl
        have g3 : s3.current_group = s.current_group := by rw [← hs3, hs1]; rfl
        have l3 : s3.pid_array = upd s.pid_array c true := by rw [← hs3, hs1]; rfl
        have c3 : s3.pcbs c = (execute_save_args s1 c command).pcbs c := by rw [← hs3]
        have hp3 : get_current_pcb s3 = some c := by
          apply get_current_pcb_eq _ _ hc7
          · rw [a3, g3, hcc]; simp [upd]
          · rw [l3]; simp [upd]
        cases hl : __load_program s3 (execute_filename command).2 with
        | none => rw [hl] at h; exact absurd h (by simp)
        | some y =>
          obtain ⟨eip, s4⟩ := y
          rw [hl] at h
          have f4 := load_program_frame s3 s4 c _ eip hp3 hl
          have hp4 : get_current_pcb s4 = some c := by rw [io_frame_current c s3 s4 f4]; exact hp3
          obtain ⟨_, _, l4, a4, g4, _, _, _, _, _, _, p4, T, c4⟩ := f4
          simp only at h
          by_cases hfail : u32 eip = u32 FAILURE
          · rw [if_pos hfail] at h
            cases hpp : get_current_pcb s with
            | none => rw [hpp] at h; exact absurd h (by simp)
            | some P =>
              rw [hpp] at h
              simp only at h
              cases ht : pcb_teardown (map_page s4 PROG_VIRT_ADDR
                  (get_prog_phys_addr (s4.pcbs P).pid) 1 1 1) with
              | none => rw [ht] at h; exact absurd h (by simp)
              | some s6 => rw [ht] at h; simp at h
          · rw [if_neg hfail] at h
            cases hpp : get_current_pcb s with
            | none => rw [hpp] at h; exact absurd h (by simp)
            | some P =>
              rw [hpp] at h
              obtain ⟨_, _, hPl⟩ := get_current_pcb_some s P hpp
              have hPc : P ≠ c := by
                intro e; rw [e] at hPl; rw [hPl] at hfree; exact absurd hfree (by simp)
              have hcP : c ≠ P := fun e => hPc e.symm
              simp only [Option.some.injEq, Prod.mk.injEq, true_and] at h
              subst h
              refine ⟨?_, ?_, ?_⟩
              · rw [← hp4]
                exact get_current_pcb_congr _ _ rfl rfl rfl
              · simp only [set_pcb_set_pcb, set_pcb_pcbs_other _ _ _ _ hcP, set_pcb_pcbs_same]
                show (s4.pcbs c).args = _
                rw [c4, ← c3]
              · simp only [set_pcb_set_pcb, set_pcb_pcbs_other _ _ _ _ hcP, set_pcb_pcbs_same]
                show (s4.pcbs c).args_len = _
                rw [c4, ← c3]

/-- C2: for every command made of a file name followed by k <= 3 arguments,
separated and possibly followed by runs of spaces, of total length below 127,
the argument parser of system_execute leaves in the child PCB, for k = 0,
args[0] = NUL and args_len = 0, and for k >= 1 the arguments joined by single
spaces and followed by one NUL, with args_len the sum of the argument lengths
plus k - 1 separators plus 1; the same holds of the PCB of the child that
system_execute enters. -/
theorem C2_execute_args (name : List Nat) (argv : List (Nat × List Nat)) (t : Nat)
    (hname : is_token name) (hargs : ∀ x, x ∈ argv → is_token x.2) (hk : argv.length ≤ 3)
    (hlen : (build_command name argv t).length < 127) :
    (∀ (s : Kernel) (c : Nat),
      (argv = [] →
        ((execute_save_args s c (build_command name argv t)).pcbs c).args 0 = 0 ∧
        ((execute_save_args s c (build_command name argv t)).pcbs c).args_len = 0) ∧
      (argv ≠ [] →
        ((execute_save_args s c (build_command name argv t)).pcbs c).args_len =
          (argv.map (fun x => x.2.length)).sum + (argv.length - 1) + 1 ∧
        ∀ i, i < ((execute_save_args s c (build_command name argv t)).pcbs c).args_len →
          ((execute_save_args s c (build_command name argv t)).pcbs c).args i =
            (joined_args (argv.map Prod.snd) ++ [0]).getD i 0)) ∧
    (∀ (s s' : Kernel) (ptr esp ebp : Nat),
      system_execute s ptr (build_command name argv t) esp ebp =
        some (exec_result.child_running, s') →
      ∃ c, get_current_pcb s' = some c ∧
        (argv = [] → (s'.pcbs c).args 0 = 0 ∧ (s'.pcbs c).args_len = 0) ∧
        (argv ≠ [] →
          (s'.pcbs c).args_len = (argv.map (fun x => x.2.length)).sum + (argv.length - 1) + 1 ∧
          ∀ i, i < (s'.pcbs c).args_len →
            (s'.pcbs c).args i = (joined_args (argv.map Prod.snd) ++ [0]).getD i 0)) := by
  have core : ∀ (s : Kernel) (c : Nat),
      (argv = [] →
        ((execute_save_args s c (build_command name argv t)).pcbs c).args 0 = 0 ∧
        ((execute_save_args s c (build_command name argv t)).pcbs c).args_len = 0) ∧
      (argv ≠ [] →
        ((execute_save_args s c (build_command name argv t)).pcbs c).args_len =
          (argv.map (fun x => x.2.length)).sum + (argv.length - 1) + 1 ∧
        ∀ i, i < ((execute_save_args s c (build_command name argv t)).pcbs c).args_len →
          ((execute_save_args s c (build_command name argv t)).pcbs c).args i =
            (joined_args (argv.map Prod.snd) ++ [0]).getD i 0) := by
    intro s c
    obtain ⟨_, h0, h1⟩ := execute_save_args_spec s c name argv t hname hargs hk hlen
    refine ⟨h0, ?_⟩
    intro hne
    obtain ⟨e1, e2, e3⟩ := h1 hne
    have hjl : (joined_args (argv.map Prod.snd)).length =
        (argv.map (fun x => x.2.length)).sum + (argv.length - 1) := by
      cases argv with
      | nil => exact absurd rfl hne
      | cons x r =>
        have := joined_length x.2 (r.map Prod.snd)
        simp only [List.map_cons, List.length_cons, List.sum_cons, List.map_map,
          List.length_map] at this ⊢
        rw [this]
        rfl
    refine ⟨by rw [e1, hjl], ?_⟩
    intro i hi
    rw [e1] at hi
    by_cases hlt : i < (joined_args (argv.map Prod.snd)).length
    · rw [e2 i hlt]
      exact (chr_append_left _ [0] i hlt).symm
    · have hie : i = (joined_args (argv.map Prod.snd)).length := by omega
      rw [hie, e3]
      have := chr_append_right (joined_args (argv.map Prod.snd)) [0] 0
      rw [Nat.add_zero] at this
      exact this.symm
  refine ⟨core, ?_⟩
  intro s s' ptr esp ebp h
  obtain ⟨c, s1, _, hcur, ha, hl⟩ := system_execute_started s s' ptr _ esp ebp h
  refine ⟨c, hcur, ?_⟩
  rw [ha, hl]
  exact core s1 c

/-- Witness for C2: the command "shell ab" run by the booted shell. -/
theorem C2_execute_args_witness :
    (is_token [115, 104, 101, 108, 108] ∧
      (∀ x, x ∈ [((0 : Nat), [97, 98])] → is_token x.2) ∧
      [((0 : Nat), [97, 98])].length ≤ 3 ∧
      (build_command [115, 104, 101, 108, 108] [(0, [97, 98])] 0).length < 127) ∧
    (system_execute demo_boot 1 (build_command [115, 104, 101, 108, 108] [(0, [97, 98])] 0)
        0x7FBF00 0x7FBF80 = some (exec_result.child_running, demo_child) ∧
      ∃ c, get_current_pcb demo_child = some c ∧
        ([((0 : Nat), [97, 98])] ≠ [] →
          (demo_child.pcbs c).args_len =
            ([((0 : Nat), [97, 98])].map (fun x => x.2.length)).sum +
              ([((0 : Nat), [97, 98])].length - 1) + 1 ∧
          ∀ i, i < (demo_child.pcbs c).args_len →
            (demo_child.pcbs c).args i =
              (joined_args ([((0 : Nat), [97, 98])].map Prod.snd) ++ [0]).getD i 0)) := by
  have hw := (C2_execute_args [115, 104, 101, 108, 108] [(0, [97, 98])] 0 (by decide)
    (by decide) (by decide) (by decide)).2 demo_boot demo_child 1 0x7FBF00 0x7FBF80 rfl
  obtain ⟨c, h1, _, h3⟩ := hw
  exact ⟨⟨by decide, by decide, by decide, by decide⟩, rfl, c, h1, h3⟩

/-! ### Loading a program -/

set_option maxRecDepth 100000 in
/-- C3 (a file shorter than its header): "tiny" is found, has 4 bytes and starts
with 7F 45 4C 46, so the claim promises the word formed by file bytes 24..27 (the
file has none; its data block holds zeros there). `__load_program` returns
whatever the program page held at 0x08048018 before the call: 0x08048100, the
entry point of the shell loaded earlier, in the booted state, and 0 when the
page was clear. -/
theorem C3_load_program_counterexample :
    read_dentry_by_name demo_fs [116, 105, 110, 121] = some (demo_fs.dir_entries 3) ∧
    u32 (demo_fs.inodes 2).length = 4 ∧
    file_word demo_fs (demo_fs.inodes 2) 0 = EXEC_MAGIC_STR ∧
    file_word demo_fs (demo_fs.inodes 2) 24 = 0 ∧
    (__load_program demo_boot [116, 105, 110, 121]).map Prod.fst = some 0x08048100 ∧
    (__load_program demo_boot_blank [116, 105, 110, 121]).map Prod.fst = some 0 := by
  refine ⟨rfl, by decide, by decide, by decide, by decide, by decide⟩

theorem u32_lt (x : Int) : u32 x < 4294967296 := by
  unfold u32
  omega

theorem u32_nat (n : Nat) (h : n < 4294967296) : u32 (n : Int) = n := by
  unfold u32
  omega

theorem read_data_one (bb : boot_block_t) (I j : Nat) (hI : I < u32 bb.inode_count)
    (hj : j < u32 (bb.inodes I).length) :
    read_data bb I j 1 = (1, [file_byte bb (bb.inodes I) j]) := by
  have hl := u32_lt (bb.inodes I).length
  have hm : j % 4294967296 = j := Nat.mod_eq_of_lt (by omega)
  have hb : ¬ (j % 4096 ≥ 4096) := by omega
  unfold read_data
  simp only [Nat.one_ne_zero, if_false, ge_iff_le, Nat.not_le.mpr hI, Nat.not_le.mpr hj]
  simp only [read_data_loop, Nat.add_zero, hm, hj, if_true, BLOCK_SIZE, hb, if_false,
    file_byte, List.length_singleton]
  rfl

theorem read_data_end (bb : boot_block_t) (I j n : Nat) (hI : I < u32 bb.inode_count)
    (hj : u32 (bb.inodes I).length ≤ j) :
    read_data bb I j n = (0, []) := by
  unfold read_data
  by_cases hn : n = 0
  · simp [hn]
  · simp only [hn, if_false, ge_iff_le, Nat.not_le.mpr hI, hj, if_true]

theorem read_data_magic (bb : boot_block_t) (I : Nat) (hI : I < u32 bb.inode_count)
    (h4 : 4 ≤ u32 (bb.inodes I).length) :
    read_data bb I 0 4 =
      (4, [file_byte bb (bb.inodes I) 0, file_byte bb (bb.inodes I) 1,
        file_byte bb (bb.inodes I) 2, file_byte bb (bb.inodes I) 3]) := by
  have h0 : 0 < u32 (bb.inodes I).length := by omega
  have h1 : 1 < u32 (bb.inodes I).length := by omega
  have h2 : 2 < u32 (bb.inodes I).length := by omega
  have h3 : 3 < u32 (bb.inodes I).length := by omega
  unfold read_data
  simp only [ge_iff_le, Nat.not_le.mpr hI, Nat.not_le.mpr h0, if_false]
  simp [read_data_loop, h0, h1, h2, h3, BLOCK_SIZE, file_byte, s32]

theorem read_data_loop_length (bb : boot_block_t) (ino : inode_t) :
    ∀ (n b dn pos : Nat) (di : Int), b + n ≤ 4294967296 →
      (read_data_loop bb ino 0 n b dn pos di).length ≤ u32 ino.length - b := by
  intro n
  induction n with
  | zero => intro b dn pos di _; simp [read_data_loop]
  | succ m ih =>
    intro b dn pos di hb
    unfold read_data_loop
    have hm : (0 + b) % 4294967296 = b := by
      rw [Nat.zero_add]; exact Nat.mod_eq_of_lt (by omega)
    rw [hm]
    by_cases hc : b < u32 ino.length
    · rw [if_pos hc]
      simp only [List.length_cons]
      have := ih (b + 1) (if pos ≥ BLOCK_SIZE then dn + 1 else dn)
        ((if pos ≥ BLOCK_SIZE then 0 else pos) + 1)
        (if pos ≥ BLOCK_SIZE then ino.data_block_num (dn + 1) else di) (by omega)
      omega
    · rw [if_neg hc]; simp

theorem read_data_short (bb : boot_block_t) (I : Nat)
    (h4 : u32 (bb.inodes I).length < 4) : (read_data bb I 0 4).1 < 4 := by
  have hl := read_data_loop_length bb (bb.inodes I) 4 0 (0 / BLOCK_SIZE) (0 % BLOCK_SIZE)
    ((bb.inodes I).data_block_num (0 / BLOCK_SIZE)) (by omega)
  unfold read_data
  rw [if_neg (by decide)]
  by_cases hI : I ≥ u32 bb.inode_count
  · rw [if_pos hI]; decide
  · rw [if_neg hI]
    by_cases h0 : 0 ≥ u32 (bb.inodes I).length
    · simp only [h0, if_true]; decide
    · simp only [h0, if_false]
      generalize (read_data_loop bb (bb.inodes I) 0 4 0 (0 / BLOCK_SIZE) (0 % BLOCK_SIZE)
        ((bb.inodes I).data_block_num (0 / BLOCK_SIZE))).length = n at hl
      unfold s32
      have hn : n % 4294967296 = n := Nat.mod_eq_of_lt (by omega)
      rw [hn, if_pos (by omega)]
      omega

theorem fd_at_set_fd (s : Kernel) (p fd I j : Nat) (f : file_t)
    (hp : get_current_pcb s = some p) (h1 : f.flags = IN_USE) (h2 : f.inode = I)
    (h3 : f.file_position = j) : fd_at (set_fd s p fd f) p fd I j := by
  refine ⟨?_, ?_, ?_, ?_⟩
  · rw [← hp]; exact get_current_pcb_congr _ _ rfl rfl rfl
  · simpa [set_fd, set_pcb, upd] using h1
  · simpa [set_fd, set_pcb, upd] using h2
  · simpa [set_fd, set_pcb, upd] using h3

theorem fd_at_mem (s : Kernel) (p fd I j : Nat) (m : Nat → Nat) (h : fd_at s p fd I j) :
    fd_at { s with mem := m } p fd I j := by
  obtain ⟨hp, h1, h2, h3⟩ := h
  refine ⟨?_, h1, h2, h3⟩
  rw [← hp]; exact get_current_pcb_congr _ _ rfl rfl rfl

theorem fd_in_range (fd : Nat) (hfd : fd < 8) :
    ¬ (((fd : Nat) : Int) < 0 ∨ ((fd : Nat) : Int) ≥ (FD_ARRAY_SIZE : Int)) := by
  simp only [FD_ARRAY_SIZE]
  omega

theorem file_read_one (s : Kernel) (p fd I j addr : Nat) (h : fd_at s p fd I j) (hfd : fd < 8)
    (hm : prog_page_mapped s) (ha : in_user_page addr) (hI : I < u32 s.boot_blk.inode_count)
    (hj : j < u32 (s.boot_blk.inodes I).length) :
    ∃ s1, file_read s (fd : Int) addr 1 = some (1, s1) ∧ fd_at s1 p fd I (j + 1) ∧
      s1.boot_blk = s.boot_blk ∧
      s1.mem = upd s.mem (addr % 4294967296) (file_byte s.boot_blk (s.boot_blk.inodes I) j) ∧
      s1.page_directory = s.page_directory := by
  have h0 := h
  obtain ⟨hp, hf, hi, hpos⟩ := h
  have hr := read_data_one s.boot_blk I j hI hj
  have hl := u32_lt (s.boot_blk.inodes I).length
  have hu : u32 1 = 1 := by decide
  have ha0 : addr ≠ 0 := by
    unfold in_user_page PROG_VIRT_ADDR at ha; omega
  have hc : ¬ (IN_USE = NOT_IN_USE ∨ addr = 0 ∨ (1 : Int) < 0) := by
    simp [IN_USE, NOT_IN_USE, ha0]
  have h1 : ¬ ((1 : Int) = FAILURE) := by decide
  have hmd : (j + 1) % 4294967296 = j + 1 := Nat.mod_eq_of_lt (by omega)
  have hst := vstore_bytes_user [file_byte s.boot_blk (s.boot_blk.inodes I) j] s addr hm ha.1
    (by simp only [List.length_singleton]; exact ha.2)
  unfold file_read
  simp only [if_neg (fd_in_range fd hfd), hp, Int.toNat_ofNat, hf, hi, hpos, hr, if_neg hc,
    hst, if_neg h1, hu, hmd]
  refine ⟨_, rfl, ?_, rfl, rfl, rfl⟩
  exact fd_at_set_fd _ p fd I (j + 1) _
    (by rw [← hp]; exact get_current_pcb_congr _ _ rfl rfl rfl) rfl rfl rfl

theorem file_read_end (s : Kernel) (p fd I j addr : Nat) (h : fd_at s p fd I j) (hfd : fd < 8)
    (ha : addr ≠ 0) (hI : I < u32 s.boot_blk.inode_count)
    (hj : u32 (s.boot_blk.inodes I).length ≤ j) (hj2 : j < 4294967296) :
    ∃ s1, file_read s (fd : Int) addr 1 = some (0, s1) ∧ fd_at s1 p fd I j ∧
      s1.boot_blk = s.boot_blk ∧ s1.mem = s.mem := by
  obtain ⟨hp, hf, hi, hpos⟩ := h
  have hr := read_data_end s.boot_blk I j 1 hI hj
  have hu : u32 1 = 1 := by decide
  have hu0 : u32 0 = 0 := by decide
  have hc : ¬ (IN_USE = NOT_IN_USE ∨ addr = 0 ∨ (1 : Int) < 0) := by
    simp [IN_USE, NOT_IN_USE, ha]
  have h1 : ¬ ((0 : Int) = FAILURE) := by decide
  have hmd : (j + 0) % 4294967296 = j := Nat.mod_eq_of_lt (by omega)
  unfold file_read
  simp only [if_neg (fd_in_range fd hfd), hp, Int.toNat_ofNat, hf, hi, hpos, hr, if_neg hc,
    vstore_bytes, if_neg h1, hu, hu0, hmd]
  refine ⟨_, rfl, ?_, rfl, rfl⟩
  exact fd_at_set_fd s p fd I j _ hp rfl rfl rfl

/-- A one-byte read whose buffer is the first address behind the program page:
the file has a byte to deliver, the store faults. -/
theorem file_read_past (s : Kernel) (p fd I j : Nat) (h : fd_at s p fd I j) (hfd : fd < 8)
    (hu : past_prog_unmapped s) (hI : I < u32 s.boot_blk.inode_count)
    (hj : j < u32 (s.boot_blk.inodes I).length) :
    file_read s (fd : Int) 0x08400000 1 = none := by
  obtain ⟨hp, hf, hi, hpos⟩ := h
  have hr := read_data_one s.boot_blk I j hI hj
  have hu1 : u32 1 = 1 := by decide
  have hc : ¬ (IN_USE = NOT_IN_USE ∨ (0x08400000 : Nat) = 0 ∨ (1 : Int) < 0) := by decide
  have hmd : (0x08400000 : Nat) % 4294967296 = 0x08400000 := by decide
  unfold file_read
  simp only [if_neg (fd_in_range fd hfd), hp, Int.toNat_ofNat, hf, hi, hpos, hr, if_neg hc,
    hu1, vstore_bytes, hmd, store_byte_past s _ hu]

theorem load_loop_spec (p fd I : Nat) (hfd : fd < 8) (bb : boot_block_t)
    (hI : I < u32 bb.inode_count) (base : Nat) (hb : PROG_VIRT_ADDR ≤ base)
    (hlen : base + u32 (bb.inodes I).length ≤ PROG_VIRT_ADDR + PROG_PAGE_SIZE) :
    ∀ (n j fuel : Nat) (s : Kernel), j + n = u32 (bb.inodes I).length → n < fuel →
      s.boot_blk = bb → fd_at s p fd I j → prog_page_mapped s →
      ∃ s', load_loop (fd : Int) fuel (base + j) s = some (true, s') ∧
        fd_at s' p fd I (u32 (bb.inodes I).length) ∧ s'.boot_blk = bb ∧
        (∀ k, j ≤ k → k < u32 (bb.inodes I).length →
          s'.mem (base + k) = file_byte bb (bb.inodes I) k) ∧
        (∀ a, (a < base + j ∨ base + u32 (bb.inodes I).length ≤ a) → s'.mem a = s.mem a) := by
  have hb0 : 0 < base := by unfold PROG_VIRT_ADDR at hb; omega
  have hlen2 : base + u32 (bb.inodes I).length < 4294967296 := by
    unfold PROG_VIRT_ADDR PROG_PAGE_SIZE at hlen; omega
  intro n
  induction n with
  | zero =>
    intro j fuel s hj hf hbb h _
    obtain ⟨f, rfl⟩ : ∃ f, fuel = f + 1 := ⟨fuel - 1, by omega⟩
    subst hbb
    obtain ⟨s1, hr, h1, hb1, hm1⟩ :=
      file_read_end s p fd I j (base + j) h hfd (by omega) hI (by omega) (by omega)
    refine ⟨s1, ?_, ?_, hb1, ?_, ?_⟩
    · unfold load_loop
      rw [hr]
      simp
    · have e : u32 (s.boot_blk.inodes I).length = j := by omega
      rw [e]; exact h1
    · intro k hk1 hk2; omega
    · intro a _; rw [hm1]
  | succ m ih =>
    intro j fuel s hj hf hbb h hm
    obtain ⟨f, rfl⟩ : ∃ f, fuel = f + 1 := ⟨fuel - 1, by omega⟩
    subst hbb
    obtain ⟨s1, hr, h1, hb1, hm1, hd1⟩ :=
      file_read_one s p fd I j (base + j) h hfd hm ⟨by omega, by omega⟩ hI (by omega)
    have hmod : (base + j) % 4294967296 = base + j := Nat.mod_eq_of_lt (by omega)
    have hmod1 : (base + j + 1) % 4294967296 = base + (j + 1) := by
      rw [Nat.mod_eq_of_lt (by omega)]; omega
    obtain ⟨s', hl, h2, hb2, hm2, hfr⟩ := ih (j + 1) f s1 (by omega) (by omega) hb1 h1
      (prog_page_mapped_congr s s1 hd1 hm)
    refine ⟨s', ?_, h2, ?_, ?_, ?_⟩
    · unfold load_loop
      rw [hr]
      have e1 : ¬ ((1 : Int) = 0) := by decide
      have e2 : ¬ ((1 : Int) = FAILURE) := by decide
      simp only [if_neg e1, if_neg e2, hmod1]
      exact hl
    · exact hb2
    · intro k hk1 hk2
      by_cases hk : k = j
      · subst hk
        rw [hfr (base + k) (Or.inl (by omega)), hm1, hmod, upd_same]
      · exact hm2 k (by omega) hk2
    · intro a ha
      rw [hfr a (by omega), hm1, hmod]
      exact upd_other _ _ _ _ (by omega)

/-- The copy loop on a file that does not fit between `base` and the end of
the program page: the store of the first byte behind the page faults. -/
theorem load_loop_past (p fd I : Nat) (hfd : fd < 8) (bb : boot_block_t)
    (hI : I < u32 bb.inode_count) (base : Nat) (hb : PROG_VIRT_ADDR ≤ base)
    (hlen : PROG_VIRT_ADDR + PROG_PAGE_SIZE < base + u32 (bb.inodes I).length) :
    ∀ (n j fuel : Nat) (s : Kernel), base + j + n = PROG_VIRT_ADDR + PROG_PAGE_SIZE → n < fuel →
      s.boot_blk = bb → fd_at s p fd I j → prog_page_mapped s → past_prog_unmapped s →
      load_loop (fd : Int) fuel (base + j) s = none := by
  intro n
  induction n with
  | zero =>
    intro j fuel s hj hf hbb h _ hu
    obtain ⟨f, rfl⟩ : ∃ f, fuel = f + 1 := ⟨fuel - 1, by omega⟩
    subst hbb
    have e : base + j = 0x08400000 := by
      rw [Nat.add_zero] at hj; rw [hj]; decide
    unfold load_loop
    rw [e, file_read_past s p fd I j h hfd hu hI (by omega)]
  | succ m ih =>
    intro j fuel s hj hf hbb h hm hu
    obtain ⟨f, rfl⟩ : ∃ f, fuel = f + 1 := ⟨fuel - 1, by omega⟩
    subst hbb
    obtain ⟨s1, hr, h1, hb1, _, hd1⟩ :=
      file_read_one s p fd I j (base + j) h hfd hm ⟨by omega, by omega⟩ hI (by omega)
    have hmod1 : (base + j + 1) % 4294967296 = base + (j + 1) := by
      unfold PROG_VIRT_ADDR PROG_PAGE_SIZE at hj
      rw [Nat.mod_eq_of_lt (by omega)]; omega
    unfold load_loop
    rw [hr]
    have e1 : ¬ ((1 : Int) = 0) := by decide
    have e2 : ¬ ((1 : Int) = FAILURE) := by decide
    simp only [if_neg e1, if_neg e2, hmod1]
    exact ih (j + 1) f s1 (by omega) (by omega) hb1 h1 (prog_page_mapped_congr s s1 hd1 hm)
      (past_prog_unmapped_congr s s1 hd1 hu)

theorem system_open_slot (s : Kernel) (name : List Nat) (d : dentry_t) (p k : Nat)
    (hp : get_current_pcb s = some p) (hd : read_dentry_by_name s.boot_blk name = some d)
    (ht : known_filetype d.filetype) (hk : k < 8)
    (h1 : ∀ i, i < k → ((s.pcbs p).fd_table i).flags ≠ 0)
    (h2 : ((s.pcbs p).fd_table k).flags = 0) :
    ∃ s', system_open s name = some ((k : Int), s') ∧ fd_at s' p k (u32 d.inode_num) 0 ∧
      s'.boot_blk = s.boot_blk ∧ s'.mem = s.mem ∧ s'.page_directory = s.page_directory := by
  have hfd := get_new_fd_free s p k hp hk h1 h2
  have hne : ((k : Nat) : Int) ≠ FAILURE := by simp [FAILURE]
  unfold system_open
  rw [hd]
  simp only [hfd, hp, if_neg hne, Int.toNat_ofNat]
  rcases ht with ht | ht | ht
  · rw [if_pos ht]
    refine ⟨_, rfl, ⟨?_, ?_, ?_, ?_⟩, rfl, rfl, rfl⟩
    · rw [← hp]; exact get_current_pcb_congr _ _ rfl rfl rfl
    all_goals simp [set_fd, set_pcb, upd, INIT_FILE_POS]
  · have hn : d.filetype ≠ RTC_TYPE := by rw [ht]; decide
    rw [if_neg hn, if_pos ht]
    refine ⟨_, rfl, ⟨?_, ?_, ?_, ?_⟩, rfl, rfl, rfl⟩
    · rw [← hp]; exact get_current_pcb_congr _ _ rfl rfl rfl
    all_goals simp [set_fd, set_pcb, upd, INIT_FILE_POS]
  · have hn : d.filetype ≠ RTC_TYPE := by rw [ht]; decide
    have hn2 : d.filetype ≠ DIR_TYPE := by rw [ht]; decide
    rw [if_neg hn, if_neg hn2, if_pos ht]
    refine ⟨_, rfl, ⟨?_, ?_, ?_, ?_⟩, rfl, rfl, rfl⟩
    · rw [← hp]; exact get_current_pcb_congr _ _ rfl rfl rfl
    all_goals simp [set_fd, set_pcb, upd, INIT_FILE_POS]

theorem system_open_unknown (s : Kernel) (name : List Nat) (d : dentry_t) (p k : Nat)
    (hp : get_current_pcb s = some p) (hd : read_dentry_by_name s.boot_blk name = some d)
    (ht : ¬ known_filetype d.filetype) (hk : k < 8)
    (h1 : ∀ i, i < k → ((s.pcbs p).fd_table i).flags ≠ 0)
    (h2 : ((s.pcbs p).fd_table k).flags = 0) :
    ∃ s', system_open s name = some (FAILURE, s') := by
  have hfd := get_new_fd_free s p k hp hk h1 h2
  have hne : ((k : Nat) : Int) ≠ FAILURE := by simp [FAILURE]
  unfold known_filetype at ht
  have n1 : ¬ d.filetype = RTC_TYPE := fun h => ht (Or.inl h)
  have n2 : ¬ d.filetype = DIR_TYPE := fun h => ht (Or.inr (Or.inl h))
  have n3 : ¬ d.filetype = FILE_TYPE := fun h => ht (Or.inr (Or.inr h))
  unfold system_open
  rw [hd]
  simp only [hfd, hp, if_neg hne, if_neg n1, if_neg n2, if_neg n3]
  exact ⟨_, rfl⟩

theorem file_read_bytes_magic (s : Kernel) (p fd I : Nat) (h : fd_at s p fd I 0) (hfd : fd < 8)
    (hI : I < u32 s.boot_blk.inode_count) (h4 : 4 ≤ u32 (s.boot_blk.inodes I).length) :
    ∃ s1, file_read_bytes s (fd : Int) (EXEC_MAGIC_LEN : Int) =
        some (4, [file_byte s.boot_blk (s.boot_blk.inodes I) 0,
          file_byte s.boot_blk (s.boot_blk.inodes I) 1,
          file_byte s.boot_blk (s.boot_blk.inodes I) 2,
          file_byte s.boot_blk (s.boot_blk.inodes I) 3], s1) ∧
      get_current_pcb s1 = some p ∧ ((s1.pcbs p).fd_table fd).flags = IN_USE ∧
      ((s1.pcbs p).fd_table fd).inode = I ∧ s1.boot_blk = s.boot_blk ∧ s1.mem = s.mem ∧
      s1.page_directory = s.page_directory := by
  obtain ⟨hp, hf, hi, hpos⟩ := h
  have hr := read_data_magic s.boot_blk I hI h4
  have hu : u32 ((EXEC_MAGIC_LEN : Nat) : Int) = 4 := by decide
  have hc : ¬ (IN_USE = NOT_IN_USE ∨ ((EXEC_MAGIC_LEN : Nat) : Int) < 0) := by
    decide
  have h1 : ¬ ((4 : Int) = FAILURE) := by decide
  unfold file_read_bytes
  simp only [if_neg (fd_in_range fd hfd), hp, Int.toNat_ofNat, hf, hi, hpos, hu, hr, if_neg hc,
    if_neg h1]
  refine ⟨_, rfl, ?_, ?_, ?_, rfl, rfl, rfl⟩
  · rw [← hp]; exact get_current_pcb_congr _ _ rfl rfl rfl
  all_goals simp [set_fd, set_pcb, upd]

theorem file_read_bytes_short (s : Kernel) (p fd I : Nat) (h : fd_at s p fd I 0) (hfd : fd < 8)
    (h4 : u32 (s.boot_blk.inodes I).length < 4) :
    ∃ r bytes s1, file_read_bytes s (fd : Int) (EXEC_MAGIC_LEN : Int) = some (r, bytes, s1) ∧
      r < 4 := by
  obtain ⟨hp, hf, hi, hpos⟩ := h
  have hr := read_data_short s.boot_blk I h4
  have hu : u32 ((EXEC_MAGIC_LEN : Nat) : Int) = 4 := by decide
  have hc : ¬ (IN_USE = NOT_IN_USE ∨ ((EXEC_MAGIC_LEN : Nat) : Int) < 0) := by
    decide
  unfold file_read_bytes
  simp only [if_neg (fd_in_range fd hfd), hp, Int.toNat_ofNat, hf, hi, hpos, hu, if_neg hc]
  by_cases hx : (read_data s.boot_blk I 0 4).1 = FAILURE
  · rw [if_pos hx]; exact ⟨_, _, _, rfl, by decide⟩
  · rw [if_neg hx]; exact ⟨_, _, _, rfl, hr⟩

theorem load32_magic (b0 b1 b2 b3 : Nat) (h0 : b0 < 256) (h1 : b1 < 256) (h2 : b2 < 256) :
    load32 (chr [b0, b1, b2, b3]) 0 = EXEC_MAGIC_STR ↔
      (b0 = 0x7F ∧ b1 = 0x45 ∧ b2 = 0x4C ∧ b3 = 0x46) := by
  simp only [load32, chr, EXEC_MAGIC_STR, List.getD_cons_zero, List.getD_cons_succ, Nat.zero_add]
  omega

theorem file_close_open (s : Kernel) (p fd I j : Nat) (h : fd_at s p fd I j) (hfd : fd < 8) :
    ∃ s1, file_close s (fd : Int) = some (SUCCESS, s1) ∧ s1.mem = s.mem := by
  obtain ⟨hp, hf, _, _⟩ := h
  have hc : ¬ (IN_USE = NOT_IN_USE) := by decide
  unfold file_close
  simp only [if_neg (fd_in_range fd hfd), hp, Int.toNat_ofNat, hf, if_neg hc]
  exact ⟨_, rfl, rfl⟩

/-- C3 (refuted for files that do not fit into the program page): the copy
loop of `__load_program` has no bound. For a calling process with a free
descriptor, in a state whose program page is mapped with nothing mapped behind
it, `__load_program` returns -1 when the name is not found, when the entry has
an unknown file type, when the file has fewer than 4 bytes and when its first
four bytes are not 7F 45 4C 46. Otherwise, for a file of at most 0x3B8000
bytes, it returns, all `length` bytes of the file are at 0x08048000 + i in
order, and the result is the little-endian word at 0x08048018 of the memory
after the copy, which is the word formed by file bytes 24..27 when the file has
at least 28 bytes. For a longer file the byte with index 0x3B8000 is stored at
0x08400000, behind the page: the store faults and `__load_program` does not
return. -/
theorem C3_load_program (s : Kernel) (p k : Nat) (filename : List Nat)
    (hp : get_current_pcb s = some p) (hk : k < 8)
    (h1 : ∀ i, i < k → ((s.pcbs p).fd_table i).flags ≠ 0)
    (h2 : ((s.pcbs p).fd_table k).flags = 0)
    (hm : prog_page_mapped s) (hu : past_prog_unmapped s) :
    (read_dentry_by_name s.boot_blk filename = none →
      __load_program s filename = some (FAILURE, s)) ∧
    (∀ d, read_dentry_by_name s.boot_blk filename = some d →
      (¬ known_filetype d.filetype → ∃ s', __load_program s filename = some (FAILURE, s')) ∧
      (known_filetype d.filetype → u32 d.inode_num < u32 s.boot_blk.inode_count →
        (∀ i, i < 3 → file_byte s.boot_blk (s.boot_blk.inodes (u32 d.inode_num)) i < 256) →
        ((u32 (s.boot_blk.inodes (u32 d.inode_num)).length < 4 ∨
            ¬ has_magic s.boot_blk (s.boot_blk.inodes (u32 d.inode_num))) →
          ∃ s', __load_program s filename = some (FAILURE, s')) ∧
        (4 ≤ u32 (s.boot_blk.inodes (u32 d.inode_num)).length →
          has_magic s.boot_blk (s.boot_blk.inodes (u32 d.inode_num)) →
          PROG_VIRT_ADDR + PROG_OFFSET + u32 (s.boot_blk.inodes (u32 d.inode_num)).length ≤
            PROG_VIRT_ADDR + PROG_PAGE_SIZE →
          ∃ s', __load_program s filename =
              some (s32 (load32 s'.mem (PROG_VIRT_ADDR + PROG_OFFSET + PROG_EIP_OFF)), s') ∧
            (∀ i, i < u32 (s.boot_blk.inodes (u32 d.inode_num)).length →
              s'.mem (PROG_VIRT_ADDR + PROG_OFFSET + i) =
                file_byte s.boot_blk (s.boot_blk.inodes (u32 d.inode_num)) i) ∧
            (28 ≤ u32 (s.boot_blk.inodes (u32 d.inode_num)).length →
              load32 s'.mem (PROG_VIRT_ADDR + PROG_OFFSET + PROG_EIP_OFF) =
                file_word s.boot_blk (s.boot_blk.inodes (u32 d.inode_num)) 24)) ∧
        (has_magic s.boot_blk (s.boot_blk.inodes (u32 d.inode_num)) →
          PROG_VIRT_ADDR + PROG_PAGE_SIZE <
            PROG_VIRT_ADDR + PROG_OFFSET + u32 (s.boot_blk.inodes (u32 d.inode_num)).length →
          __load_program s filename = none))) := by
  have hne : ¬ (((k : Nat) : Int) = FAILURE) := by simp [FAILURE]
  refine ⟨?_, ?_⟩
  · intro hd
    unfold __load_program system_open
    rw [hd]
    simp
  intro d hd
  refine ⟨?_, ?_⟩
  · intro ht
    obtain ⟨s1, ho⟩ := system_open_unknown s filename d p k hp hd ht hk h1 h2
    refine ⟨s1, ?_⟩
    unfold __load_program
    rw [ho]
    simp
  intro ht hI hbyte
  obtain ⟨s1, ho, hat, hbb, hmem, hpd1⟩ := system_open_slot s filename d p k hp hd ht hk h1 h2
  rw [← hbb] at hI hbyte ⊢
  generalize u32 d.inode_num = I at hat hI hbyte ⊢
  have hmagic : has_magic s1.boot_blk (s1.boot_blk.inodes I) →
      ¬ ((4 : Int) = FAILURE ∨ (4 : Int) < ((EXEC_MAGIC_LEN : Nat) : Int) ∨
          load32 (chr [file_byte s1.boot_blk (s1.boot_blk.inodes I) 0,
            file_byte s1.boot_blk (s1.boot_blk.inodes I) 1,
            file_byte s1.boot_blk (s1.boot_blk.inodes I) 2,
            file_byte s1.boot_blk (s1.boot_blk.inodes I) 3]) 0 ≠ EXEC_MAGIC_STR) := by
    intro hm'
    have e := (load32_magic _ _ _ _ (hbyte 0 (by decide)) (hbyte 1 (by decide))
      (hbyte 2 (by decide))).mpr hm'
    rw [e]
    decide
  refine ⟨?_, ?_, ?_⟩
  · intro hbad
    by_cases h4 : u32 (s1.boot_blk.inodes I).length < 4
    · obtain ⟨r, bytes, s2, hr, hlt⟩ := file_read_bytes_short s1 p k I hat hk h4
      refine ⟨s2, ?_⟩
      unfold __load_program
      rw [ho]
      simp only [if_neg hne, hr]
      have hc : r = FAILURE ∨ r < ((EXEC_MAGIC_LEN : Nat) : Int) ∨
          load32 (chr bytes) 0 ≠ EXEC_MAGIC_STR := Or.inr (Or.inl hlt)
      rw [if_pos hc]
    · have hm' : ¬ has_magic s1.boot_blk (s1.boot_blk.inodes I) := by
        rcases hbad with h | h
        · exact absurd h h4
        · exact h
      obtain ⟨s2, hr, _⟩ := file_read_bytes_magic s1 p k I hat hk hI (by omega)
      refine ⟨s2, ?_⟩
      unfold __load_program
      rw [ho]
      simp only [if_neg hne, hr]
      have hc : (4 : Int) = FAILURE ∨ (4 : Int) < ((EXEC_MAGIC_LEN : Nat) : Int) ∨
          load32 (chr [file_byte s1.boot_blk (s1.boot_blk.inodes I) 0,
            file_byte s1.boot_blk (s1.boot_blk.inodes I) 1,
            file_byte s1.boot_blk (s1.boot_blk.inodes I) 2,
            file_byte s1.boot_blk (s1.boot_blk.inodes I) 3]) 0 ≠ EXEC_MAGIC_STR := by
        refine Or.inr (Or.inr ?_)
        intro he
        exact hm' ((load32_magic _ _ _ _ (hbyte 0 (by decide)) (hbyte 1 (by decide))
          (hbyte 2 (by decide))).mp he)
      rw [if_pos hc]
  · intro h4 hmg hlen
    obtain ⟨s2, hr, hp2, hf2, hi2, hbb2, hmem2, hpd2⟩ :=
      file_read_bytes_magic s1 p k I hat hk hI h4
    have hat3 : fd_at (set_fd s2 p k { (s2.pcbs p).fd_table k with file_position := 0 }) p k I 0 :=
      fd_at_set_fd s2 p k I 0 _ hp2 hf2 hi2 rfl
    have hI2 : I < u32 s2.boot_blk.inode_count := by rw [hbb2]; exact hI
    have hm3 : prog_page_mapped
        (set_fd s2 p k { (s2.pcbs p).fd_table k with file_position := 0 }) :=
      prog_page_mapped_congr s _ (by show s2.page_directory = _; rw [hpd2, hpd1]) hm
    obtain ⟨s4, hl, hat4, hbb4, hcopy, _⟩ := load_loop_spec p k I hk s2.boot_blk hI2
      (PROG_VIRT_ADDR + PROG_OFFSET) (by decide) (by rw [hbb2]; exact hlen)
      (u32 (s2.boot_blk.inodes I).length) 0 4294967297
      (set_fd s2 p k { (s2.pcbs p).fd_table k with file_position := 0 })
      (by omega) (by have := u32_lt (s2.boot_blk.inodes I).length; omega) rfl hat3 hm3
    obtain ⟨s5, hcl, hmem5⟩ := file_close_open s4 p k I _ hat4 hk
    have hcopy5 : ∀ i, i < u32 (s1.boot_blk.inodes I).length →
        s5.mem (PROG_VIRT_ADDR + PROG_OFFSET + i) =
          file_byte s1.boot_blk (s1.boot_blk.inodes I) i := by
      intro i hi
      rw [hmem5, ← hbb2]
      exact hcopy i (Nat.zero_le i) (by rw [hbb2]; exact hi)
    refine ⟨s5, ?_, hcopy5, ?_⟩
    · unfold __load_program
      rw [ho]
      simp only [if_neg hne, hr]
      rw [if_neg (hmagic hmg)]
      simp only [hp2, Int.toNat_ofNat]
      rw [Nat.add_zero] at hl
      rw [hl]
      simp only [Bool.true_eq_false, if_false, hcl]
    · intro h28
      unfold file_word load32
      have e0 := hcopy5 24 (by omega)
      have e1 := hcopy5 25 (by omega)
      have e2 := hcopy5 26 (by omega)
      have e3 := hcopy5 27 (by omega)
      simp only [PROG_VIRT_ADDR, PROG_OFFSET, PROG_EIP_OFF] at e0 e1 e2 e3 ⊢
      norm_num at e0 e1 e2 e3 ⊢
      rw [e0, e1, e2, e3]
  · intro hmg hlen
    have h4 : 4 ≤ u32 (s1.boot_blk.inodes I).length := by
      unfold PROG_VIRT_ADDR PROG_PAGE_SIZE PROG_OFFSET at hlen; omega
    obtain ⟨s2, hr, hp2, hf2, hi2, hbb2, hmem2, hpd2⟩ :=
      file_read_bytes_magic s1 p k I hat hk hI h4
    have hat3 : fd_at (set_fd s2 p k { (s2.pcbs p).fd_table k with file_position := 0 }) p k I 0 :=
      fd_at_set_fd s2 p k I 0 _ hp2 hf2 hi2 rfl
    have hI2 : I < u32 s2.boot_blk.inode_count := by rw [hbb2]; exact hI
    have hpd3 : (set_fd s2 p k { (s2.pcbs p).fd_table k with file_position := 0 }).page_directory =
        s.page_directory := by
      show s2.page_directory = _
      rw [hpd2, hpd1]
    have hl := load_loop_past p k I hk s2.boot_blk hI2
      (PROG_VIRT_ADDR + PROG_OFFSET) (by decide) (by rw [hbb2]; exact hlen)
      (PROG_PAGE_SIZE - PROG_OFFSET) 0 4294967297
      (set_fd s2 p k { (s2.pcbs p).fd_table k with file_position := 0 })
      (by decide) (by decide) rfl hat3 (prog_page_mapped_congr s _ hpd3 hm)
      (past_prog_unmapped_congr s _ hpd3 hu)
    unfold __load_program
    rw [ho]
    simp only [if_neg hne, hr]
    rw [if_neg (hmagic hmg)]
    simp only [hp2, Int.toNat_ofNat]
    rw [Nat.add_zero] at hl
    rw [hl]

set_option maxRecDepth 100000 in
/-- C3 witness: the booted shell loads "big", a file of 0x3B8001 bytes that
starts with the magic: the copy reaches 0x08400000, where nothing is mapped, and
`__load_program` does not return; and it loads "shell" (28 bytes, entry point
0x08048100), which fits. -/
theorem C3_load_program_witness :
    (get_current_pcb demo_big = some 1 ∧ prog_page_mapped demo_big ∧
      past_prog_unmapped demo_big) ∧
    (read_dentry_by_name demo_big.boot_blk [98, 105, 103] = some (demo_big_fs.dir_entries 6) ∧
      has_magic demo_big_fs (demo_big_fs.inodes 4) ∧
      u32 (demo_big_fs.inodes 4).length = 0x3B8001 ∧
      page_walk demo_big 0x08400000 = none ∧
      __load_program demo_big [98, 105, 103] = none) ∧
    (read_dentry_by_name demo_big.boot_blk [115, 104, 101, 108, 108] =
        some (demo_big_fs.dir_entries 2) ∧
      has_magic demo_big_fs (demo_big_fs.inodes 1) ∧
      ∃ s', __load_program demo_big [115, 104, 101, 108, 108] = some (0x08048100, s') ∧
        (∀ i, i < 28 → s'.mem (0x08048000 + i) = demo_shell_bytes.getD i 0)) := by
  have h := C3_load_program demo_big 1 2 [98, 105, 103] (by decide) (by decide)
    (by decide) (by decide) (by decide) (by decide)
  have hbig := ((h.2 (demo_big_fs.dir_entries 6) rfl).2 (Or.inr (Or.inr rfl))
    (by decide) (by decide)).2.2 (by decide) (by decide)
  have h' := C3_load_program demo_big 1 2 [115, 104, 101, 108, 108] (by decide) (by decide)
    (by decide) (by decide) (by decide) (by decide)
  obtain ⟨s', e, hc, hw⟩ := ((h'.2 (demo_big_fs.dir_entries 2) rfl).2
    (Or.inr (Or.inr rfl)) (by decide) (by decide)).2.1 (by decide) (by decide) (by decide)
  have hv : s32 (file_word demo_big.boot_blk
      (demo_big.boot_blk.inodes (u32 (demo_big_fs.dir_entries 2).inode_num)) 24) = 0x08048100 := by
    decide
  refine ⟨⟨by decide, by decide, by decide⟩,
    ⟨rfl, by decide, by decide, by decide, hbig⟩, rfl, by decide, s', ?_, ?_⟩
  · rw [e, hw (by decide), hv]
  · intro i hi
    have hb : ∀ j, j < 28 → file_byte demo_big.boot_blk
        (demo_big.boot_blk.inodes (u32 (demo_big_fs.dir_entries 2).inode_num)) j =
          demo_shell_bytes.getD j 0 := by decide
    rw [← hb i hi]
    exact hc i hi

/-! ### Open followed by close -/

theorem system_open_table (s : Kernel) (name : List Nat) (d : dentry_t) (p k : Nat)
    (hp : get_current_pcb s = some p) (hd : read_dentry_by_name s.boot_blk name = some d)
    (ht : known_filetype d.filetype) (hk : k < 8)
    (h1 : ∀ i, i < k → ((s.pcbs p).fd_table i).flags ≠ 0)
    (h2 : ((s.pcbs p).fd_table k).flags = 0) :
    ∃ s', system_open s name = some ((k : Int), s') ∧ get_current_pcb s' = some p ∧
      (s'.pcbs p).fd_table = upd (s.pcbs p).fd_table k
        { file_ops := ops_of_filetype d.filetype, inode := u32 d.inode_num, file_position := 0,
          flags := IN_USE } := by
  have hfd := get_new_fd_free s p k hp hk h1 h2
  have hne : ((k : Nat) : Int) ≠ FAILURE := by simp [FAILURE]
  have e1 : ¬ (DIR_TYPE = RTC_TYPE) := by decide
  have e2 : ¬ (FILE_TYPE = RTC_TYPE) := by decide
  have e3 : ¬ (FILE_TYPE = DIR_TYPE) := by decide
  unfold system_open
  rw [hd]
  simp only [hfd, hp, if_neg hne, Int.toNat_ofNat]
  rcases ht with ht | ht | ht
  · rw [if_pos ht]
    refine ⟨_, rfl, ?_, ?_⟩
    · rw [← hp]; exact get_current_pcb_congr _ _ rfl rfl rfl
    · funext i
      by_cases hi : i = k <;>
        simp [open_via, rtc_open, SUCCESS, set_fd, set_pcb, upd, hi, ops_of_filetype, ht,
          INIT_FILE_POS]
  · have hn : d.filetype ≠ RTC_TYPE := by rw [ht]; decide
    rw [if_neg hn, if_pos ht]
    refine ⟨_, rfl, ?_, ?_⟩
    · rw [← hp]; exact get_current_pcb_congr _ _ rfl rfl rfl
    · funext i
      by_cases hi : i = k <;>
        simp [open_via, dir_open, SUCCESS, set_fd, set_pcb, upd, hi, ops_of_filetype, ht, hn,
          INIT_FILE_POS, e1]
  · have hn : d.filetype ≠ RTC_TYPE := by rw [ht]; decide
    have hn2 : d.filetype ≠ DIR_TYPE := by rw [ht]; decide
    rw [if_neg hn, if_neg hn2, if_pos ht]
    refine ⟨_, rfl, ?_, ?_⟩
    · rw [← hp]; exact get_current_pcb_congr _ _ rfl rfl rfl
    · funext i
      by_cases hi : i = k <;>
        simp [open_via, file_open, SUCCESS, set_fd, set_pcb, upd, hi, ops_of_filetype, ht, hn,
          hn2, INIT_FILE_POS, e2, e3]

theorem system_open_inv (s s1 : Kernel) (name : List Nat) (p : Nat) (fd : Int)
    (hp : get_current_pcb s = some p) (ho : system_open s name = some (fd, s1))
    (hfd : fd ≠ FAILURE) :
    ∃ (d : dentry_t) (k : Nat), read_dentry_by_name s.boot_blk name = some d ∧
      known_filetype d.filetype ∧ k < 8 ∧
      fd = (k : Int) ∧ (∀ i, i < k → ((s.pcbs p).fd_table i).flags ≠ 0) ∧
      ((s.pcbs p).fd_table k).flags = 0 := by
  cases hd : read_dentry_by_name s.boot_blk name with
  | none =>
    unfold system_open at ho
    rw [hd] at ho
    simp only [Option.some.injEq, Prod.mk.injEq] at ho
    exact absurd ho.1.symm hfd
  | some d =>
    by_cases hfull : ∀ i, i < 8 → ((s.pcbs p).fd_table i).flags ≠ 0
    · rw [system_open_full s name p hp hfull] at ho
      simp only [Option.some.injEq, Prod.mk.injEq] at ho
      exact absurd ho.1.symm hfd
    · have hex : ∃ k, k < 8 ∧ ((s.pcbs p).fd_table k).flags = 0 := by
        by_contra hne
        apply hfull
        intro i hi h0
        exact hne ⟨i, hi, h0⟩
      have hk := Nat.find_spec hex
      have hmin : ∀ i, i < Nat.find hex → ((s.pcbs p).fd_table i).flags ≠ 0 := by
        intro i hi h0
        exact Nat.find_min hex hi ⟨by omega, h0⟩
      by_cases ht : known_filetype d.filetype
      · obtain ⟨s', hs, _⟩ := system_open_step s name d p (Nat.find hex) hp hd ht hk.1 hmin hk.2
        rw [hs] at ho
        simp only [Option.some.injEq, Prod.mk.injEq] at ho
        exact ⟨d, Nat.find hex, rfl, ht, hk.1, ho.1.symm, hmin, hk.2⟩
      · obtain ⟨s', hs⟩ := system_open_unknown s name d p (Nat.find hex) hp hd ht hk.1 hmin hk.2
        rw [hs] at ho
        simp only [Option.some.injEq, Prod.mk.injEq] at ho
        exact absurd ho.1.symm hfd

theorem close_via_open (s : Kernel) (p k : Nat) (t : Int) (hp : get_current_pcb s = some p)
    (hk : k < 8) (hf : ((s.pcbs p).fd_table k).flags = IN_USE) :
    close_via (ops_of_filetype t) s (k : Int) = some (SUCCESS, set_fd s p k
      { (s.pcbs p).fd_table k with file_ops := file_ops_ptr.NULL, flags := NOT_IN_USE }) := by
  have hc : ¬ (IN_USE = NOT_IN_USE) := by decide
  unfold ops_of_filetype
  split_ifs <;>
    simp only [close_via, rtc_close, dir_close, file_close, if_neg (fd_in_range k hk), hp,
      Int.toNat_ofNat, hf, if_neg hc]

/-- C11 (amended): in a PCB whose descriptors 0 and 1 are in use, a successful
`system_open` followed by `system_close` of the descriptor it returned returns
0; every other slot of the table, and the in-use flag of every slot, is as
before the open, and the slot that was used ends free with no operations
table, cursor 0 and the inode number of the file that was opened. -/
theorem C11_open_close (s s1 : Kernel) (name : List Nat) (p : Nat) (fd : Int)
    (hp : get_current_pcb s = some p)
    (h0 : ((s.pcbs p).fd_table 0).flags ≠ 0) (h1 : ((s.pcbs p).fd_table 1).flags ≠ 0)
    (ho : system_open s name = some (fd, s1)) (hfd : fd ≠ FAILURE) :
    ∃ s2 d, read_dentry_by_name s.boot_blk name = some d ∧
      system_close s1 fd = some (0, s2) ∧ 2 ≤ fd ∧ fd < 8 ∧
      (∀ i, i ≠ fd.toNat → (s2.pcbs p).fd_table i = (s.pcbs p).fd_table i) ∧
      (∀ i, ((s2.pcbs p).fd_table i).flags = ((s.pcbs p).fd_table i).flags) ∧
      (s2.pcbs p).fd_table fd.toNat =
        { file_ops := file_ops_ptr.NULL, inode := u32 d.inode_num, file_position := 0,
          flags := NOT_IN_USE } ∧
      (∀ q, q ≠ p → s2.pcbs q = s.pcbs q) := by
  obtain ⟨d, k, hd, ht, hk, rfl, hlow, hfree⟩ := system_open_inv s s1 name p fd hp ho hfd
  obtain ⟨s', hs, hp1, htab⟩ := system_open_table s name d p k hp hd ht hk hlow hfree
  have hfr := system_open_frame s s1 p name _ hp ho
  rw [hs] at ho
  simp only [Option.some.injEq, Prod.mk.injEq, true_and] at ho
  subst ho
  have hk2 : 2 ≤ k := by
    by_contra hlt
    have : k = 0 ∨ k = 1 := by omega
    rcases this with h | h
    · subst h; exact h0 hfree
    · subst h; exact h1 hfree
  have hslot : (s'.pcbs p).fd_table k = { file_ops := ops_of_filetype d.filetype, inode := u32 d.inode_num, file_position := 0, flags := IN_USE } := by
    rw [htab]; exact upd_same _ _ _
  have hr : ¬ (((k : Nat) : Int) < 2 ∨ ((k : Nat) : Int) ≥ (FD_ARRAY_SIZE : Int)) := by
    simp only [FD_ARRAY_SIZE]; omega
  have hc : ¬ (IN_USE = NOT_IN_USE) := by decide
  refine ⟨set_fd s' p k { (s'.pcbs p).fd_table k with file_ops := file_ops_ptr.NULL, flags := NOT_IN_USE },
    d, hd, ?_, by omega, by omega, ?_, ?_, ?_, ?_⟩
  · unfold system_close
    simp only [if_neg hr, hp1, Int.toNat_ofNat]
    have hfl : ((s'.pcbs p).fd_table k).flags = IN_USE := by rw [hslot]
    have hops : ((s'.pcbs p).fd_table k).file_ops = ops_of_filetype d.filetype := by rw [hslot]
    rw [if_neg (by rw [hfl]; exact hc), hops, close_via_open s' p k d.filetype hp1 hk hfl]
    rfl
  · intro i hi
    simp only [Int.toNat_ofNat] at hi
    rw [set_fd_table_other _ _ _ _ _ hi, htab, upd_other _ _ _ _ hi]
  · intro i
    by_cases hi : i = k
    · subst hi
      simp [set_fd, set_pcb, upd, hfree, NOT_IN_USE]
    · rw [set_fd_table_other _ _ _ _ _ hi, htab, upd_other _ _ _ _ hi]
  · simp only [Int.toNat_ofNat]
    simp [set_fd, set_pcb, upd, hslot]
  · intro q hq
    rw [set_fd_pcbs_other _ _ _ _ _ hq]
    exact hfr.2.2.2.2.2.2.2.2.2.2.2.1 q hq

/-- C11 witness: a fresh process opens "shell" as descriptor 2 and closes it. -/
theorem C11_open_close_witness :
    get_current_pcb demo_fresh = some 1 ∧
    system_open demo_fresh [115, 104, 101, 108, 108] = some (2, demo_opened) ∧
    ∃ s2 d, read_dentry_by_name demo_fresh.boot_blk [115, 104, 101, 108, 108] = some d ∧
      system_close demo_opened 2 = some (0, s2) ∧ (2 : Int) ≤ 2 ∧ (2 : Int) < 8 ∧
      (∀ i, i ≠ (2 : Int).toNat → (s2.pcbs 1).fd_table i = (demo_fresh.pcbs 1).fd_table i) ∧
      (∀ i, ((s2.pcbs 1).fd_table i).flags = ((demo_fresh.pcbs 1).fd_table i).flags) ∧
      (s2.pcbs 1).fd_table (2 : Int).toNat =
        { file_ops := file_ops_ptr.NULL, inode := u32 d.inode_num, file_position := 0,
          flags := NOT_IN_USE } ∧
      (∀ q, q ≠ 1 → s2.pcbs q = demo_fresh.pcbs q) :=
  ⟨by decide, rfl,
   C11_open_close demo_fresh demo_opened [115, 104, 101, 108, 108] 1 2 (by decide) (by decide)
     (by decide) rfl (by decide)⟩

/-- C11 (as stated, refuted): a fresh process opens "shell" and gets descriptor
2, whose slot held inode 0; `system_close(2)` returns 0 and the slot holds
inode 1, the inode of "shell": the table is not equal to the table before the
open. -/
theorem C11_open_close_counterexample :
    get_current_pcb demo_fresh = some 1 ∧
    (system_open demo_fresh [115, 104, 101, 108, 108]).map Prod.fst = some 2 ∧
    ((system_open demo_fresh [115, 104, 101, 108, 108]).bind
      (fun r => system_close r.2 r.1)).map Prod.fst = some 0 ∧
    ((demo_fresh.pcbs 1).fd_table 2).inode = 0 ∧
    ((system_open demo_fresh [115, 104, 101, 108, 108]).bind
      (fun r => system_close r.2 r.1)).map (fun r => ((r.2.pcbs 1).fd_table 2).inode) =
        some 1 := by
  refine ⟨by decide, by decide, by decide, by decide, by decide⟩

/-! ### read_data -/

theorem read_data_loop_spec (bb : boot_block_t) (ino : inode_t) (offset : Nat) :
    ∀ (n b dn pos : Nat) (di : Int), offset + b ≤ u32 ino.length →
      ((pos < 4096 ∧ dn = (offset + b) / 4096 ∧ pos = (offset + b) % 4096 ∧
          di = ino.data_block_num dn) ∨
        (pos = 4096 ∧ (offset + b) % 4096 = 0 ∧ dn + 1 = (offset + b) / 4096)) →
      read_data_loop bb ino offset n b dn pos di =
        (List.range (min n (u32 ino.length - (offset + b)))).map
          (fun k => file_byte bb ino (offset + b + k)) := by
  have hL := u32_lt ino.length
  intro n
  induction n with
  | zero => intro b dn pos di _ _; simp [read_data_loop]
  | succ m ih =>
    intro b dn pos di hb hinv
    unfold read_data_loop
    have hm : (offset + b) % 4294967296 = offset + b := Nat.mod_eq_of_lt (by omega)
    rw [hm]
    by_cases hc : offset + b < u32 ino.length
    · rw [if_pos hc]
      have hmin : min (m + 1) (u32 ino.length - (offset + b)) =
          min m (u32 ino.length - (offset + (b + 1))) + 1 := by omega
      rw [hmin, List.range_succ_eq_map, List.map_cons, List.map_map]
      simp only [BLOCK_SIZE]
      rcases hinv with ⟨h1, h2, h3, h4⟩ | ⟨h1, h2, h3⟩
      · have hp : ¬ (pos ≥ 4096) := by omega
        simp only [if_neg hp]
        congr 1
        · rw [h4, h2, h3]; rfl
        · rw [ih (b + 1) dn (pos + 1) di (by omega) (by
            by_cases h5 : pos + 1 < 4096
            · exact Or.inl ⟨h5, by omega, by omega, h4⟩
            · exact Or.inr ⟨by omega, by omega, by omega⟩)]
          apply List.map_congr_left
          intro k _
          simp only [Function.comp, Nat.succ_eq_add_one]
          congr 1
          omega
      · have hp : pos ≥ 4096 := by omega
        simp only [if_pos hp]
        congr 1
        · show bb.dnodes (ino.data_block_num (dn + 1)) 0 = file_byte bb ino (offset + b + 0)
          unfold file_byte
          simp only [BLOCK_SIZE, Nat.add_zero]
          rw [h3, h2]
        · rw [ih (b + 1) (dn + 1) (0 + 1) (ino.data_block_num (dn + 1)) (by omega)
            (Or.inl ⟨by omega, by omega, by omega, rfl⟩)]
          apply List.map_congr_left
          intro k _
          simp only [Function.comp, Nat.succ_eq_add_one]
          congr 1
          omega
    · rw [if_neg hc]
      have hmin : min (m + 1) (u32 ino.length - (offset + b)) = 0 := by omega
      rw [hmin]
      rfl

/-- C12: `read_data` on a valid index node returns 0 at or past the end of the
file and otherwise min(n, length - offset), placing exactly that many bytes in
`buf`, byte `k` being byte `(offset + k) mod 4096` of the data block listed at
position `(offset + k) div 4096`; on an index at or above `inode_count` it
returns -1 and places nothing. -/
theorem C12_read_data (bb : boot_block_t) (I offset n : Nat) (hn : 0 < n) :
    (u32 bb.inode_count ≤ I → read_data bb I offset n = (FAILURE, [])) ∧
    (I < u32 bb.inode_count →
      (u32 (bb.inodes I).length ≤ offset → read_data bb I offset n = (0, [])) ∧
      (offset < u32 (bb.inodes I).length →
        min n (u32 (bb.inodes I).length - offset) < 2147483648 →
        (read_data bb I offset n).1 = ((min n (u32 (bb.inodes I).length - offset) : Nat) : Int) ∧
        (read_data bb I offset n).2.length = min n (u32 (bb.inodes I).length - offset) ∧
        ∀ k, k < min n (u32 (bb.inodes I).length - offset) →
          (read_data bb I offset n).2.getD k 0 =
            bb.dnodes ((bb.inodes I).data_block_num ((offset + k) / 4096))
              ((offset + k) % 4096))) := by
  have hn0 : ¬ (n = 0) := by omega
  refine ⟨?_, ?_⟩
  · intro hI
    unfold read_data
    simp only [if_neg hn0, ge_iff_le, hI, if_true]
  intro hI
  refine ⟨read_data_end bb I offset n hI, ?_⟩
  intro ho hfit
  have hloop := read_data_loop_spec bb (bb.inodes I) offset n 0 (offset / BLOCK_SIZE)
    (offset % BLOCK_SIZE) ((bb.inodes I).data_block_num (offset / BLOCK_SIZE)) (by omega)
    (Or.inl ⟨by simp only [BLOCK_SIZE]; omega, by simp [BLOCK_SIZE], by simp [BLOCK_SIZE], rfl⟩)
  have hrd : read_data bb I offset n =
      (s32 (min n (u32 (bb.inodes I).length - offset)),
        (List.range (min n (u32 (bb.inodes I).length - offset))).map
          (fun k => file_byte bb (bb.inodes I) (offset + k))) := by
    unfold read_data
    simp only [if_neg hn0, ge_iff_le, Nat.not_le.mpr hI, Nat.not_le.mpr ho, if_false]
    rw [hloop]
    simp only [Nat.add_zero, List.length_map, List.length_range]
  rw [hrd]
  refine ⟨?_, ?_, ?_⟩
  · show s32 _ = _
    unfold s32
    rw [Nat.mod_eq_of_lt (by omega), if_pos hfit]
  · simp
  · intro k hk
    show List.getD _ k 0 = _
    rw [List.getD_eq_getElem _ _ (by simpa using hk)]
    simp [file_byte, BLOCK_SIZE]

/-- C12 witness: 10 bytes asked at offset 24 of the 28-byte file "shell". -/
theorem C12_read_data_witness :
    (0 < 10 ∧ 1 < u32 demo_fs.inode_count ∧ 24 < u32 (demo_fs.inodes 1).length ∧
      min 10 (u32 (demo_fs.inodes 1).length - 24) = 4) ∧
    ((read_data demo_fs 1 24 10).1 = ((min 10 (u32 (demo_fs.inodes 1).length - 24) : Nat) : Int) ∧
      (read_data demo_fs 1 24 10).2.length = min 10 (u32 (demo_fs.inodes 1).length - 24) ∧
      ∀ k, k < min 10 (u32 (demo_fs.inodes 1).length - 24) →
        (read_data demo_fs 1 24 10).2.getD k 0 =
          demo_fs.dnodes ((demo_fs.inodes 1).data_block_num ((24 + k) / 4096))
            ((24 + k) % 4096)) :=
  ⟨⟨by decide, by decide, by decide, by decide⟩,
   ((C12_read_data demo_fs 1 24 10 (by decide)).2 (by decide)).2 (by decide) (by decide)⟩

/-! ### read_dentry_by_name -/

theorem strlen_nil : strlen [] = 0 := rfl

theorem strlen_cons (x : Nat) (t : List Nat) :
    strlen (x :: t) = if x = 0 then 0 else strlen t + 1 := by
  unfold strlen
  by_cases h : x = 0
  · simp [h, List.takeWhile_cons]
  · simp [h, List.takeWhile_cons]

theorem chr_lt_strlen (a : List Nat) : ∀ i, i < strlen a → chr a i ≠ 0 := by
  induction a with
  | nil => intro i h; simp [strlen_nil] at h
  | cons x t ih =>
    intro i h
    rw [strlen_cons] at h
    by_cases hx : x = 0
    · simp [hx] at h
    · rw [if_neg hx] at h
      cases i with
      | zero => simpa [chr] using hx
      | succ j =>
        have := ih j (by omega)
        simpa [chr] using this

theorem chr_strlen (a : List Nat) : chr a (strlen a) = 0 := by
  induction a with
  | nil => rfl
  | cons x t ih =>
    rw [strlen_cons]
    by_cases hx : x = 0
    · simp [hx, chr]
    · rw [if_neg hx]
      simpa [chr] using ih

theorem strlen_le_length (a : List Nat) : strlen a ≤ a.length := by
  unfold strlen
  exact (List.takeWhile_sublist _).length_le

theorem le_strlen (a : List Nat) (n : Nat) (h : ∀ i, i < n → chr a i ≠ 0) : n ≤ strlen a := by
  by_contra hlt
  exact h (strlen a) (by omega) (chr_strlen a)

theorem c_string_length (a : List Nat) : (c_string a).length = strlen a := rfl

theorem c_string_getD (a : List Nat) : ∀ i, i < strlen a → (c_string a).getD i 0 = chr a i := by
  induction a with
  | nil => intro i h; simp [strlen_nil] at h
  | cons x t ih =>
    intro i h
    rw [strlen_cons] at h
    by_cases hx : x = 0
    · simp [hx] at h
    · rw [if_neg hx] at h
      have e : c_string (x :: t) = x :: c_string t := by
        simp [c_string, List.takeWhile_cons, hx]
      rw [e]
      cases i with
      | zero => simp [chr]
      | succ j =>
        have := ih j (by omega)
        simpa [chr] using this

theorem c_string_eq_iff (a e : List Nat) :
    c_string e = c_string a ↔ strlen e = strlen a ∧ ∀ i, i < strlen a → chr a i = chr e i := by
  constructor
  · intro h
    have hl : strlen e = strlen a := by rw [← c_string_length, ← c_string_length, h]
    refine ⟨hl, ?_⟩
    intro i hi
    rw [← c_string_getD a i hi, ← c_string_getD e i (by omega), h]
  · rintro ⟨hl, hc⟩
    apply List.ext_getElem
    · rw [c_string_length, c_string_length, hl]
    · intro n h1 h2
      rw [c_string_length] at h1 h2
      have e1 := c_string_getD e n h1
      have e2 := c_string_getD a n h2
      rw [List.getD_eq_getElem _ _ (by rw [c_string_length]; exact h1)] at e1
      rw [List.getD_eq_getElem _ _ (by rw [c_string_length]; exact h2)] at e2
      rw [e1, e2, hc n h2]

theorem strncmp_from_zero (a e : List Nat) :
    ∀ n i, strncmp_from a e i n = 0 ↔
      ∀ k, k < n → (∀ j, j < k → chr a (i + j) ≠ 0) → chr a (i + k) = chr e (i + k) := by
  intro n
  induction n with
  | zero => intro i; simp [strncmp_from]
  | succ m ih =>
    intro i
    unfold strncmp_from
    by_cases hc : chr a i ≠ chr e i ∨ chr a i = 0
    · rw [if_pos hc]
      constructor
      · intro h k hk hnz
        have he : chr a i = chr e i := by omega
        cases k with
        | zero => simpa using he
        | succ k' =>
          rcases hc with h1 | h1
          · exact absurd he h1
          · exact absurd h1 (by simpa using hnz 0 (by omega))
      · intro h
        have := h 0 (by omega) (by intro j hj; omega)
        simp only [Nat.add_zero] at this
        omega
    · rw [if_neg hc]
      have hc1 : chr a i = chr e i := by
        by_contra h; exact hc (Or.inl h)
      have hc2 : chr a i ≠ 0 := fun h => hc (Or.inr h)
      rw [ih (i + 1)]
      constructor
      · intro h k hk hnz
        cases k with
        | zero => simpa using hc1
        | succ k' =>
          have := h k' (by omega) (by
            intro j hj
            have := hnz (j + 1) (by omega)
            rwa [show i + (j + 1) = i + 1 + j by omega] at this)
          rwa [show i + 1 + k' = i + (k' + 1) by omega] at this
      · intro h k hk hnz
        have := h (k + 1) (by omega) (by
          intro j hj
          cases j with
          | zero => simpa using hc2
          | succ j' =>
            have := hnz j' (by omega)
            rwa [show i + 1 + j' = i + (j' + 1) by omega] at this)
        rwa [show i + (k + 1) = i + 1 + k by omega] at this

theorem name_match_iff (a e : List Nat) :
    (strncmp a e (strlen a) = 0 ∧ strncmp a e (strlen e) = 0) ↔ c_string e = c_string a := by
  rw [c_string_eq_iff]
  unfold strncmp
  rw [strncmp_from_zero, strncmp_from_zero]
  simp only [Nat.zero_add]
  constructor
  · rintro ⟨h1, h2⟩
    have hall : ∀ i, i < strlen a → chr a i = chr e i := by
      intro i hi
      exact h1 i hi (fun j hj => chr_lt_strlen a j (by omega))
    have hle : strlen a ≤ strlen e := by
      apply le_strlen
      intro i hi
      rw [← hall i hi]
      exact chr_lt_strlen a i hi
    have hge : strlen e ≤ strlen a := by
      by_contra hlt
      have := h2 (strlen a) (by omega) (fun j hj => chr_lt_strlen a j hj)
      rw [chr_strlen] at this
      exact chr_lt_strlen e (strlen a) (by omega) this.symm
    exact ⟨by omega, hall⟩
  · rintro ⟨hl, hall⟩
    refine ⟨fun k hk _ => hall k hk, fun k hk _ => hall k (by omega)⟩

theorem entry_cond_iff (bb : boot_block_t) (fname : List Nat) (i : Nat) :
    ((bb.dir_entries i).inode_num < bb.inode_count ∧
      strncmp fname (name32 (bb.dir_entries i)) (strlen fname) = 0 ∧
      strncmp fname (name32 (bb.dir_entries i))
        (if strlen (name32 (bb.dir_entries i)) > FILENAME_LEN then FILENAME_LEN
         else strlen (name32 (bb.dir_entries i))) = 0) ↔ entry_matches bb fname i := by
  have hle : strlen (name32 (bb.dir_entries i)) ≤ FILENAME_LEN := by
    refine le_trans (strlen_le_length _) ?_
    simp [name32]
  rw [if_neg (by omega)]
  unfold entry_matches stored_name
  rw [name_match_iff]

theorem read_dentry_loop_some (bb : boot_block_t) (fname : List Nat) :
    ∀ (n i : Nat) (d : dentry_t), read_dentry_loop bb fname (strlen fname) n i = some d ↔
      ∃ j, i ≤ j ∧ j < i + n ∧ entry_matches bb fname j ∧
        (∀ j', i ≤ j' → j' < j → ¬ entry_matches bb fname j') ∧ d = bb.dir_entries j := by
  intro n
  induction n with
  | zero =>
    intro i d
    simp only [read_dentry_loop]
    constructor
    · intro h; exact absurd h (by simp)
    · rintro ⟨j, h1, h2, _⟩; omega
  | succ m ih =>
    intro i d
    unfold read_dentry_loop
    simp only
    by_cases hm : entry_matches bb fname i
    · rw [if_pos ((entry_cond_iff bb fname i).mpr hm)]
      constructor
      · intro h
        simp only [Option.some.injEq] at h
        exact ⟨i, le_refl i, by omega, hm, fun j' h1 h2 => by omega, h.symm⟩
      · rintro ⟨j, h1, h2, h3, h4, h5⟩
        have : j = i := by
          by_contra hne
          exact h4 i (le_refl i) (by omega) hm
        subst this
        rw [h5]
    · rw [if_neg (fun h => hm ((entry_cond_iff bb fname i).mp h)), ih (i + 1) d]
      constructor
      · rintro ⟨j, h1, h2, h3, h4, h5⟩
        refine ⟨j, by omega, by omega, h3, ?_, h5⟩
        intro j' h6 h7
        by_cases hj : j' = i
        · rw [hj]; exact hm
        · exact h4 j' (by omega) h7
      · rintro ⟨j, h1, h2, h3, h4, h5⟩
        have hne : j ≠ i := by
          intro h; rw [h] at h3; exact hm h3
        exact ⟨j, by omega, by omega, h3, fun j' h6 h7 => h4 j' (by omega) h7, h5⟩

/-- C13 (amended): `read_dentry_by_name` succeeds if and only if the name has at
most 32 bytes and some directory entry below `dir_count` whose inode number is
below `inode_count` stores exactly that name; the entry copied out is the first
such entry. On a directory holding "shell", "hello" and a 32-byte name, the
strict prefix "shel", the extension "helloo", the empty name and a 33-byte name
are rejected and the 32-byte name is accepted. -/
theorem C13_read_dentry_by_name :
    (∀ (bb : boot_block_t) (fname : List Nat),
      (∀ d, read_dentry_by_name bb fname = some d ↔
        strlen fname ≤ 32 ∧ ∃ i : Nat, (i : Int) < bb.dir_count ∧ entry_matches bb fname i ∧
          (∀ j, j < i → ¬ entry_matches bb fname j) ∧ d = bb.dir_entries i) ∧
      (read_dentry_by_name bb fname = none ↔
        (32 < strlen fname ∨ ∀ i : Nat, (i : Int) < bb.dir_count → ¬ entry_matches bb fname i))) ∧
    (read_dentry_by_name demo_names [115, 104, 101, 108] = none ∧
      read_dentry_by_name demo_names [104, 101, 108, 108, 111, 111] = none ∧
      read_dentry_by_name demo_names [] = none ∧
      read_dentry_by_name demo_names (List.replicate 33 97) = none ∧
      read_dentry_by_name demo_names (List.replicate 32 97) = some (demo_names.dir_entries 2) ∧
      read_dentry_by_name demo_names [115, 104, 101, 108, 108] =
        some (demo_names.dir_entries 0)) := by
  have hsome : ∀ (bb : boot_block_t) (fname : List Nat) (d : dentry_t),
      read_dentry_by_name bb fname = some d ↔
        strlen fname ≤ 32 ∧ ∃ i : Nat, (i : Int) < bb.dir_count ∧ entry_matches bb fname i ∧
          (∀ j, j < i → ¬ entry_matches bb fname j) ∧ d = bb.dir_entries i := by
    intro bb fname d
    unfold read_dentry_by_name
    simp only [FILENAME_LEN]
    by_cases hl : strlen fname > 32
    · rw [if_pos hl]
      constructor
      · intro h; exact absurd h (by simp)
      · rintro ⟨h, _⟩; omega
    · rw [if_neg hl, read_dentry_loop_some]
      constructor
      · rintro ⟨j, _, h2, h3, h4, h5⟩
        refine ⟨by omega, j, ?_, h3, fun j' hj => h4 j' (Nat.zero_le _) hj, h5⟩
        rw [Nat.zero_add] at h2
        exact Int.lt_toNat.mp h2
      · rintro ⟨_, j, h2, h3, h4, h5⟩
        refine ⟨j, Nat.zero_le _, ?_, h3, fun j' _ hj => h4 j' hj, h5⟩
        rw [Nat.zero_add]
        exact Int.lt_toNat.mpr h2
  refine ⟨?_, rfl, rfl, rfl, rfl, rfl, rfl⟩
  intro bb fname
  refine ⟨hsome bb fname, ?_⟩
  constructor
  · intro hn
    by_cases hl : 32 < strlen fname
    · exact Or.inl hl
    · refine Or.inr ?_
      intro i hi hm
      have hex : ∃ k : Nat, (k : Int) < bb.dir_count ∧ entry_matches bb fname k := ⟨i, hi, hm⟩
      have hspec := Nat.find_spec hex
      have : read_dentry_by_name bb fname = some (bb.dir_entries (Nat.find hex)) :=
        (hsome bb fname _).mpr ⟨by omega, Nat.find hex, hspec.1, hspec.2,
          fun j hj hmj => Nat.find_min hex hj ⟨lt_trans (by exact_mod_cast hj) hspec.1, hmj⟩, rfl⟩
      rw [hn] at this
      exact absurd this (by simp)
  · intro h
    cases hr : read_dentry_by_name bb fname with
    | none => rfl
    | some d =>
      obtain ⟨hl, i, hi, hm, _, _⟩ := (hsome bb fname d).mp hr
      rcases h with h | h
      · omega
      · exact absurd hm (h i hi)

/-- C13 (as stated, refuted): the directory of `demo_names` holds, below
`dir_count`, an entry that stores exactly the 4-byte name "lost", and
`read_dentry_by_name` rejects "lost": the entry's inode number 3 is not below
`inode_count`, so the search skips it. -/
theorem C13_read_dentry_by_name_counterexample :
    strlen [108, 111, 115, 116] = 4 ∧ (3 : Int) < demo_names.dir_count ∧
    stored_name (demo_names.dir_entries 3) = c_string [108, 111, 115, 116] ∧
    read_dentry_by_name demo_names [108, 111, 115, 116] = none := by
  refine ⟨by decide, by decide, by decide, rfl⟩

/-! ### file_read in chunks -/

theorem read_data_eq (bb : boot_block_t) (I c n : Nat) (hI : I < u32 bb.inode_count)
    (hn : n < 2147483648) :
    read_data bb I c n =
      (((min n (u32 (bb.inodes I).length - c) : Nat) : Int),
        (List.range (min n (u32 (bb.inodes I).length - c))).map
          (fun k => file_byte bb (bb.inodes I) (c + k))) := by
  by_cases hn0 : n = 0
  · subst hn0
    simp [read_data]
  by_cases hc : u32 (bb.inodes I).length ≤ c
  · rw [read_data_end bb I c n hI hc]
    have : min n (u32 (bb.inodes I).length - c) = 0 := by omega
    rw [this]
    rfl
  · have hloop := read_data_loop_spec bb (bb.inodes I) c n 0 (c / BLOCK_SIZE)
      (c % BLOCK_SIZE) ((bb.inodes I).data_block_num (c / BLOCK_SIZE)) (by omega)
      (Or.inl ⟨by simp only [BLOCK_SIZE]; omega, by simp [BLOCK_SIZE], by simp [BLOCK_SIZE], rfl⟩)
    unfold read_data
    simp only [if_neg hn0, ge_iff_le, Nat.not_le.mpr hI, hc, if_false]
    rw [hloop]
    simp only [Nat.add_zero, List.length_map, List.length_range]
    congr 1
    unfold s32
    rw [Nat.mod_eq_of_lt (by omega), if_pos (by omega)]

theorem set_fd_set_fd (s : Kernel) (p i : Nat) (f g : file_t) :
    set_fd (set_fd s p i f) p i g = set_fd s p i g := by
  rw [set_fd_eq, set_fd_eq, set_fd_eq, set_pcb_set_pcb, set_pcb_pcbs_same]
  congr 1
  have : upd (upd (s.pcbs p).fd_table i f) i g = upd (s.pcbs p).fd_table i g := by
    funext j
    by_cases h : j = i <;> simp [upd, h]
  simp only [this]

theorem set_fd_table_same (s : Kernel) (p i : Nat) (f : file_t) :
    ((set_fd s p i f).pcbs p).fd_table i = f := by
  rw [set_fd_eq, set_pcb_pcbs_same]
  simp [upd]

theorem file_read_bytes_eq (s : Kernel) (p fd : Nat) (n : Int) (hp : get_current_pcb s = some p)
    (hfd : fd < 8) (hf : ((s.pcbs p).fd_table fd).flags ≠ NOT_IN_USE)
    (hn0 : 0 ≤ n) (hn : n < 2147483648)
    (hI : ((s.pcbs p).fd_table fd).inode < u32 s.boot_blk.inode_count)
    (hc : ((s.pcbs p).fd_table fd).file_position < 4294967296) :
    file_read_bytes s (fd : Int) n =
      some (((min n.toNat (u32 (s.boot_blk.inodes ((s.pcbs p).fd_table fd).inode).length -
            ((s.pcbs p).fd_table fd).file_position) : Nat) : Int),
        (List.range (min n.toNat (u32 (s.boot_blk.inodes ((s.pcbs p).fd_table fd).inode).length -
            ((s.pcbs p).fd_table fd).file_position))).map
          (fun k => file_byte s.boot_blk (s.boot_blk.inodes ((s.pcbs p).fd_table fd).inode)
            (((s.pcbs p).fd_table fd).file_position + k)),
        set_fd s p fd { (s.pcbs p).fd_table fd with file_position := ((s.pcbs p).fd_table fd).file_position + min n.toNat (u32 (s.boot_blk.inodes ((s.pcbs p).fd_table fd).inode).length - ((s.pcbs p).fd_table fd).file_position) }) := by
  have hL := u32_lt (s.boot_blk.inodes ((s.pcbs p).fd_table fd).inode).length
  have hu : u32 n = n.toNat := by unfold u32; omega
  have hcond : ¬ (((s.pcbs p).fd_table fd).flags = NOT_IN_USE ∨ n < 0) := by
    intro h
    rcases h with h | h
    · exact hf h
    · omega
  unfold file_read_bytes
  simp only [if_neg (fd_in_range fd hfd), hp, Int.toNat_ofNat, if_neg hcond, hu]
  rw [read_data_eq s.boot_blk _ _ n.toNat hI (by omega)]
  generalize hm : min n.toNat (u32 (s.boot_blk.inodes ((s.pcbs p).fd_table fd).inode).length -
    ((s.pcbs p).fd_table fd).file_position) = m
  have hne : ¬ (((m : Nat) : Int) = FAILURE) := by simp [FAILURE]
  simp only [if_neg hne]
  have hum : u32 ((m : Nat) : Int) = m := u32_nat m (by omega)
  rw [hum, Nat.mod_eq_of_lt (by omega)]

/-- `file_read` into a buffer that lies in the mapped program page: the number
of bytes `m`, the bytes stored `L` and the cursor. -/
theorem file_read_user_eq (s : Kernel) (p fd buf : Nat) (n : Int)
    (hp : get_current_pcb s = some p)
    (hfd : fd < 8) (hf : ((s.pcbs p).fd_table fd).flags ≠ NOT_IN_USE)
    (hn0 : 0 ≤ n) (hn : n < 2147483648)
    (hI : ((s.pcbs p).fd_table fd).inode < u32 s.boot_blk.inode_count)
    (hc : ((s.pcbs p).fd_table fd).file_position < 4294967296)
    (hm : prog_page_mapped s) (hb : PROG_VIRT_ADDR ≤ buf)
    (hbe : buf + n.toNat ≤ PROG_VIRT_ADDR + PROG_PAGE_SIZE)
    (m : Nat)
    (hmm : min n.toNat (u32 (s.boot_blk.inodes ((s.pcbs p).fd_table fd).inode).length -
      ((s.pcbs p).fd_table fd).file_position) = m)
    (L : List Nat)
    (hLL : (List.range m).map
      (fun k => file_byte s.boot_blk (s.boot_blk.inodes ((s.pcbs p).fd_table fd).inode)
        (((s.pcbs p).fd_table fd).file_position + k)) = L) :
    file_read s (fd : Int) buf n =
      some ((m : Int), set_fd { s with mem := store_bytes s.mem buf L } p fd
        { (s.pcbs p).fd_table fd with file_position := ((s.pcbs p).fd_table fd).file_position + m }) := by
  have hL := u32_lt (s.boot_blk.inodes ((s.pcbs p).fd_table fd).inode).length
  have hu : u32 n = n.toNat := by unfold u32; omega
  have hb0 : buf ≠ 0 := by unfold PROG_VIRT_ADDR at hb; omega
  have hcond : ¬ (((s.pcbs p).fd_table fd).flags = NOT_IN_USE ∨ buf = 0 ∨ n < 0) := by
    intro h
    rcases h with h | h | h
    · exact hf h
    · exact hb0 h
    · omega
  unfold file_read
  simp only [if_neg (fd_in_range fd hfd), hp, Int.toNat_ofNat, if_neg hcond, hu]
  rw [read_data_eq s.boot_blk _ _ n.toNat hI (by omega), hmm]
  have hne : ¬ (((m : Nat) : Int) = FAILURE) := by simp [FAILURE]
  have hum : u32 ((m : Nat) : Int) = m := u32_nat m (by omega)
  have hlen : L.length = m := by rw [← hLL]; simp
  have hst := vstore_bytes_user L s buf hm hb (by rw [hlen]; omega)
  simp only [hLL, hst, if_neg hne, hum]
  rw [Nat.mod_eq_of_lt (by omega)]

theorem read_chunks_spec (p fd : Nat) (n : Int) (bb : boot_block_t) (I : Nat)
    (hfd : fd < 8) (hn1 : 1 ≤ n) (hn : n < 2147483648)
    (hI : I < u32 bb.inode_count) :
    ∀ (fuel c : Nat) (s : Kernel), c ≤ u32 (bb.inodes I).length →
      u32 (bb.inodes I).length - c < fuel → s.boot_blk = bb → fd_at s p fd I c →
      read_chunks (fd : Int) n fuel s =
        some ((List.range (u32 (bb.inodes I).length - c)).map
            (fun k => file_byte bb (bb.inodes I) (c + k)),
          set_fd s p fd { (s.pcbs p).fd_table fd with file_position := u32 (bb.inodes I).length }) := by
  have hL := u32_lt (bb.inodes I).length
  intro fuel
  induction fuel with
  | zero => intro c s _ h; omega
  | succ f ih =>
    intro c s hc hfuel hbb hat
    obtain ⟨hp, hfl, hino, hpos⟩ := hat
    subst hbb
    have hrd := file_read_bytes_eq s p fd n hp hfd (by rw [hfl]; decide) (by omega) hn
      (by rw [hino]; exact hI) (by rw [hpos]; omega)
    rw [hino, hpos] at hrd
    unfold read_chunks
    rw [hrd]
    generalize hmm : min n.toNat (u32 (s.boot_blk.inodes I).length - c) = m
    by_cases hm0 : m = 0
    · subst hm0
      have e0 : u32 (s.boot_blk.inodes I).length - c = 0 := by omega
      have e1 : c = u32 (s.boot_blk.inodes I).length := by omega
      simp only [Nat.cast_zero, if_true, e0, List.range_zero, List.map_nil, Nat.add_zero]
      rw [← e1]
    · have h1 : ¬ (((m : Nat) : Int) = 0) := by omega
      have h2 : ¬ (((m : Nat) : Int) = FAILURE) := by simp [FAILURE]
      simp only [if_neg h1, if_neg h2]
      have hat1 : fd_at (set_fd s p fd { (s.pcbs p).fd_table fd with file_position := c + m }) p fd I (c + m) := by
        refine fd_at_set_fd s p fd I (c + m) _ hp ?_ ?_ rfl
        · exact hfl
        · exact hino
      have e : (set_fd s p fd { (s.pcbs p).fd_table fd with file_position := c + m }).boot_blk = s.boot_blk := rfl
      have hih := ih (c + m) _ (by omega) (by omega) e hat1
      simp only at hih
      rw [hih]
      simp only [set_fd_set_fd, set_fd_table_same]
      have hsplit : u32 (s.boot_blk.inodes I).length - c =
          m + (u32 (s.boot_blk.inodes I).length - (c + m)) := by omega
      rw [hsplit, List.range_add, List.map_append, List.map_map]
      congr 2
      congr 1
      apply List.map_congr_left
      intro k _
      simp only [Function.comp, Nat.add_assoc]

theorem set_fd_boot_blk (s : Kernel) (p i : Nat) (f : file_t) :
    (set_fd s p i f).boot_blk = s.boot_blk := rfl

/-- C14: for a descriptor in use on a valid index node with cursor `c`,
`file_read` of `a` bytes followed by `file_read` of `b` bytes delivers,
concatenated, the bytes one `file_read` of `a + b` bytes delivers, and ends with
the same descriptor tables, hence the same cursor. This holds for kernel code
that reads into its own local arrays (first part, the bytes being the lists
`file_read_bytes` returns) and for reads through pointers into the mapped
program page, the buffers lying inside the page (third part, the bytes being
those found in the buffers after each call). Reading from cursor 0 in chunks of
`n` bytes until `file_read` returns 0 delivers the `length` bytes of the file in
order, leaves the cursor at `length`, and a further read returns 0 and changes
nothing (second part). -/
theorem C14_file_read_chunks (s : Kernel) (p fd I c : Nat) (hat : fd_at s p fd I c)
    (hfd : fd < 8) (hI : I < u32 s.boot_blk.inode_count) (hc : c < 4294967296) :
    (∀ (a b : Int), 0 ≤ a → 0 ≤ b → a + b < 2147483648 →
      ∃ r1 l1 s1 r2 l2 s2, file_read_bytes s (fd : Int) a = some (r1, l1, s1) ∧
        file_read_bytes s1 (fd : Int) b = some (r2, l2, s2) ∧
        file_read_bytes s (fd : Int) (a + b) = some (r1 + r2, l1 ++ l2, s2)) ∧
    (c = 0 → ∀ (n : Int), 1 ≤ n → n < 2147483648 →
      ∃ s', read_chunks (fd : Int) n (u32 (s.boot_blk.inodes I).length + 1) s =
          some ((List.range (u32 (s.boot_blk.inodes I).length)).map
            (file_byte s.boot_blk (s.boot_blk.inodes I)), s') ∧
        ((s'.pcbs p).fd_table fd).file_position = u32 (s.boot_blk.inodes I).length ∧
        file_read_bytes s' (fd : Int) n = some (0, [], s')) ∧
    (prog_page_mapped s → ∀ (a b : Int) (buf1 buf2 buf : Nat), 0 ≤ a → 0 ≤ b →
      a + b < 2147483648 →
      PROG_VIRT_ADDR ≤ buf1 → buf1 + a.toNat ≤ PROG_VIRT_ADDR + PROG_PAGE_SIZE →
      PROG_VIRT_ADDR ≤ buf2 → buf2 + b.toNat ≤ PROG_VIRT_ADDR + PROG_PAGE_SIZE →
      PROG_VIRT_ADDR ≤ buf → buf + (a + b).toNat ≤ PROG_VIRT_ADDR + PROG_PAGE_SIZE →
      ∃ r1 s1 r2 s2 s12, file_read s (fd : Int) buf1 a = some (r1, s1) ∧
        file_read s1 (fd : Int) buf2 b = some (r2, s2) ∧
        file_read s (fd : Int) buf (a + b) = some (r1 + r2, s12) ∧
        0 ≤ r1 ∧ 0 ≤ r2 ∧
        (∀ i, i < r1.toNat → s12.mem (buf + i) = s1.mem (buf1 + i)) ∧
        (∀ i, i < r2.toNat → s12.mem (buf + r1.toNat + i) = s2.mem (buf2 + i)) ∧
        s12.pcbs = s2.pcbs) := by
  have hL := u32_lt (s.boot_blk.inodes I).length
  have hat0 := hat
  obtain ⟨hp, hfl, hino, hpos⟩ := hat
  subst hino
  subst hpos
  have hnz : ((s.pcbs p).fd_table fd).flags ≠ NOT_IN_USE := by rw [hfl]; decide
  refine ⟨?_, ?_, ?_⟩
  · intro a b ha hb hab
    have e1 := file_read_bytes_eq s p fd a hp hfd hnz ha (by omega)
      hI hc
    have e12 := file_read_bytes_eq s p fd (a + b) hp hfd hnz (by omega) hab
      hI hc
    generalize hm1 : min a.toNat (u32 (s.boot_blk.inodes ((s.pcbs p).fd_table fd).inode).length - ((s.pcbs p).fd_table fd).file_position) = m1 at e1
    generalize hm12 : min (a + b).toNat (u32 (s.boot_blk.inodes ((s.pcbs p).fd_table fd).inode).length - ((s.pcbs p).fd_table fd).file_position) = m12 at e12
    have hat1 : fd_at (set_fd s p fd { (s.pcbs p).fd_table fd with file_position := ((s.pcbs p).fd_table fd).file_position + m1 }) p fd ((s.pcbs p).fd_table fd).inode (((s.pcbs p).fd_table fd).file_position + m1) := by
      refine fd_at_set_fd s p fd _ _ _ hp ?_ rfl rfl
      exact hfl
    have e2 := file_read_bytes_eq _ p fd b hat1.1 hfd
      (by rw [hat1.2.1]; decide) hb (by omega)
      (by rw [hat1.2.2.1]; exact hI) (by rw [hat1.2.2.2]; omega)
    simp only [set_fd_table_same, set_fd_set_fd, set_fd_boot_blk] at e2
    generalize hm2 : min b.toNat (u32 (s.boot_blk.inodes ((s.pcbs p).fd_table fd).inode).length - (((s.pcbs p).fd_table fd).file_position + m1)) = m2 at e2
    have hsum : m12 = m1 + m2 := by omega
    refine ⟨_, _, _, _, _, _, e1, e2, ?_⟩
    rw [e12, hsum, List.range_add, List.map_append, List.map_map]
    have hr : (((m1 + m2 : Nat) : Int)) = (m1 : Int) + (m2 : Int) := by push_cast; rfl
    rw [hr]
    congr 3
    · congr 1
      apply List.map_congr_left
      intro k _
      simp only [Function.comp, Nat.add_assoc]
    · simp only [Nat.add_assoc]
  · intro hc0 n hn1 hn
    have hch := read_chunks_spec p fd n s.boot_blk _ hfd hn1 hn hI
      (u32 (s.boot_blk.inodes ((s.pcbs p).fd_table fd).inode).length + 1) 0 s (Nat.zero_le _) (by omega) rfl (by rw [← hc0]; exact hat0)
    simp only [Nat.sub_zero, Nat.zero_add] at hch
    refine ⟨_, hch, set_fd_table_same _ _ _ _ |>.symm ▸ rfl, ?_⟩
    have hat2 : fd_at (set_fd s p fd { (s.pcbs p).fd_table fd with file_position := u32 (s.boot_blk.inodes ((s.pcbs p).fd_table fd).inode).length }) p fd ((s.pcbs p).fd_table fd).inode (u32 (s.boot_blk.inodes ((s.pcbs p).fd_table fd).inode).length) := by
      refine fd_at_set_fd s p fd _ _ _ hp ?_ rfl rfl
      exact hfl
    have e := file_read_bytes_eq _ p fd n hat2.1 hfd (by rw [hat2.2.1]; decide)
      (by omega) hn (by rw [hat2.2.2.1]; exact hI) (by rw [hat2.2.2.2]; omega)
    simp only [set_fd_table_same, set_fd_set_fd, set_fd_boot_blk] at e
    simp only [Nat.sub_self, Nat.min_zero, List.range_zero, List.map_nil, Nat.add_zero,
      Nat.cast_zero] at e
    exact e
  · intro hm a b buf1 buf2 buf ha hb hab hb1 hb1e hb2 hb2e hb12 hb12e
    obtain ⟨m1, hm1⟩ : ∃ m1, min a.toNat (u32 (s.boot_blk.inodes
      ((s.pcbs p).fd_table fd).inode).length - ((s.pcbs p).fd_table fd).file_position) = m1 :=
      ⟨_, rfl⟩
    obtain ⟨m12, hm12⟩ : ∃ m12, min (a + b).toNat (u32 (s.boot_blk.inodes
      ((s.pcbs p).fd_table fd).inode).length - ((s.pcbs p).fd_table fd).file_position) = m12 :=
      ⟨_, rfl⟩
    obtain ⟨m2, hm2⟩ : ∃ m2, min b.toNat (u32 (s.boot_blk.inodes
      ((s.pcbs p).fd_table fd).inode).length -
        (((s.pcbs p).fd_table fd).file_position + m1)) = m2 := ⟨_, rfl⟩
    have hsum : m12 = m1 + m2 := by omega
    obtain ⟨L1, hL1⟩ : ∃ L1, (List.range m1).map
      (fun k => file_byte s.boot_blk (s.boot_blk.inodes ((s.pcbs p).fd_table fd).inode)
        (((s.pcbs p).fd_table fd).file_position + k)) = L1 := ⟨_, rfl⟩
    obtain ⟨L12, hL12⟩ : ∃ L12, (List.range m12).map
      (fun k => file_byte s.boot_blk (s.boot_blk.inodes ((s.pcbs p).fd_table fd).inode)
        (((s.pcbs p).fd_table fd).file_position + k)) = L12 := ⟨_, rfl⟩
    obtain ⟨L2, hL2⟩ : ∃ L2, (List.range m2).map
      (fun k => file_byte s.boot_blk (s.boot_blk.inodes ((s.pcbs p).fd_table fd).inode)
        (((s.pcbs p).fd_table fd).file_position + m1 + k)) = L2 := ⟨_, rfl⟩
    have e1 := file_read_user_eq s p fd buf1 a hp hfd hnz ha (by omega) hI hc hm hb1 hb1e
      m1 hm1 L1 hL1
    have e12 := file_read_user_eq s p fd buf (a + b) hp hfd hnz (by omega) hab hI hc hm
      hb12 hb12e m12 hm12 L12 hL12
    have hp1 : get_current_pcb { s with mem := store_bytes s.mem buf1 L1 } = some p := by
      rw [← hp]; exact get_current_pcb_congr _ _ rfl rfl rfl
    have hat1 : fd_at (set_fd { s with mem := store_bytes s.mem buf1 L1 } p fd
        { (s.pcbs p).fd_table fd with file_position := ((s.pcbs p).fd_table fd).file_position + m1 })
        p fd ((s.pcbs p).fd_table fd).inode (((s.pcbs p).fd_table fd).file_position + m1) := by
      refine fd_at_set_fd _ p fd _ _ _ hp1 ?_ rfl rfl
      exact hfl
    have e2 := file_read_user_eq _ p fd buf2 b hat1.1 hfd
      (by rw [hat1.2.1]; decide) hb (by omega)
      (by rw [hat1.2.2.1]; exact hI) (by rw [hat1.2.2.2]; omega)
      (prog_page_mapped_congr s _ rfl hm) hb2 hb2e m2
      (by rw [hat1.2.2.1, hat1.2.2.2]; exact hm2) L2
      (by rw [hat1.2.2.1, hat1.2.2.2]; exact hL2)
    have hr : (((m1 + m2 : Nat) : Int)) = (m1 : Int) + (m2 : Int) := by push_cast; rfl
    have hl1 : L1.length = m1 := by rw [← hL1]; simp
    have hl2 : L2.length = m2 := by rw [← hL2]; simp
    have hl12 : L12.length = m12 := by rw [← hL12]; simp
    have hbound : buf + L12.length ≤ 4294967296 := by
      unfold PROG_VIRT_ADDR PROG_PAGE_SIZE at hb12e; omega
    have hbound1 : buf1 + L1.length ≤ 4294967296 := by
      unfold PROG_VIRT_ADDR PROG_PAGE_SIZE at hb1e; omega
    have hbound2 : buf2 + L2.length ≤ 4294967296 := by
      unfold PROG_VIRT_ADDR PROG_PAGE_SIZE at hb2e; omega
    rw [hsum, hr] at e12
    refine ⟨_, _, _, _, _, e1, e2, e12, by omega, by omega, ?_, ?_, ?_⟩
    · intro i hi
      simp only [Int.toNat_ofNat] at hi
      show store_bytes s.mem buf L12 (buf + i) = store_bytes s.mem buf1 L1 (buf1 + i)
      rw [store_bytes_get _ _ _ _ hbound (by omega),
        store_bytes_get _ _ _ _ hbound1 (by omega), ← hL12, ← hL1,
        getD_map_range _ _ _ (by omega), getD_map_range _ _ _ hi]
    · intro i hi
      simp only [Int.toNat_ofNat] at hi ⊢
      show store_bytes s.mem buf L12 (buf + m1 + i) = store_bytes _ buf2 L2 (buf2 + i)
      rw [Nat.add_assoc, store_bytes_get _ _ _ _ hbound (by omega),
        store_bytes_get _ _ _ _ hbound2 (by omega), ← hL12, ← hL2,
        getD_map_range _ _ _ (by omega), getD_map_range _ _ _ hi, Nat.add_assoc]
    · funext q
      simp only [set_fd, set_pcb]
      by_cases hq : q = p
      · subst hq
        simp only [upd_same]
        refine pcb_t.ext rfl rfl rfl rfl rfl rfl rfl rfl ?_ rfl rfl rfl
        funext j
        by_cases hj : j = fd
        · subst hj
          simp only [upd_same, Nat.add_assoc]
        · simp only [upd_other _ _ _ _ hj]
      · simp only [upd_other _ _ _ _ hq]

set_option maxRecDepth 100000 in
/-- C14 witness: descriptor 2 of the booted shell, just opened on "shell". -/
theorem C14_file_read_chunks_witness :
    (fd_at demo_reader 1 2 1 0 ∧ 1 < u32 demo_reader.boot_blk.inode_count ∧
      prog_page_mapped demo_reader) ∧
    ((∀ (a b : Int), 0 ≤ a → 0 ≤ b → a + b < 2147483648 →
      ∃ r1 l1 s1 r2 l2 s2, file_read_bytes demo_reader ((2 : Nat) : Int) a = some (r1, l1, s1) ∧
        file_read_bytes s1 ((2 : Nat) : Int) b = some (r2, l2, s2) ∧
        file_read_bytes demo_reader ((2 : Nat) : Int) (a + b) = some (r1 + r2, l1 ++ l2, s2)) ∧
    ((0 : Nat) = 0 → ∀ (n : Int), 1 ≤ n → n < 2147483648 →
      ∃ s', read_chunks ((2 : Nat) : Int) n
            (u32 (demo_reader.boot_blk.inodes 1).length + 1) demo_reader =
          some ((List.range (u32 (demo_reader.boot_blk.inodes 1).length)).map
            (file_byte demo_reader.boot_blk (demo_reader.boot_blk.inodes 1)), s') ∧
        ((s'.pcbs 1).fd_table 2).file_position = u32 (demo_reader.boot_blk.inodes 1).length ∧
        file_read_bytes s' ((2 : Nat) : Int) n = some (0, [], s')) ∧
    (prog_page_mapped demo_reader → ∀ (a b : Int) (buf1 buf2 buf : Nat), 0 ≤ a → 0 ≤ b →
      a + b < 2147483648 →
      PROG_VIRT_ADDR ≤ buf1 → buf1 + a.toNat ≤ PROG_VIRT_ADDR + PROG_PAGE_SIZE →
      PROG_VIRT_ADDR ≤ buf2 → buf2 + b.toNat ≤ PROG_VIRT_ADDR + PROG_PAGE_SIZE →
      PROG_VIRT_ADDR ≤ buf → buf + (a + b).toNat ≤ PROG_VIRT_ADDR + PROG_PAGE_SIZE →
      ∃ r1 s1 r2 s2 s12, file_read demo_reader ((2 : Nat) : Int) buf1 a = some (r1, s1) ∧
        file_read s1 ((2 : Nat) : Int) buf2 b = some (r2, s2) ∧
        file_read demo_reader ((2 : Nat) : Int) buf (a + b) = some (r1 + r2, s12) ∧
        0 ≤ r1 ∧ 0 ≤ r2 ∧
        (∀ i, i < r1.toNat → s12.mem (buf + i) = s1.mem (buf1 + i)) ∧
        (∀ i, i < r2.toNat → s12.mem (buf + r1.toNat + i) = s2.mem (buf2 + i)) ∧
        s12.pcbs = s2.pcbs)) :=
  ⟨⟨⟨by decide, by decide, by decide, by decide⟩, by decide, by decide⟩,
   C14_file_read_chunks demo_reader 1 2 1 0 ⟨by decide, by decide, by decide, by decide⟩
     (by decide) (by decide) (by decide)⟩

/-! ### rtc_write -/

theorem land_pred_pow (k : Nat) : 2 ^ k &&& (2 ^ k - 1) = 0 := by
  rw [Nat.and_pow_two_sub_one_eq_mod, Nat.mod_self]

theorem pow_of_land_pred (n : Nat) (hn : 0 < n) (h : n &&& (n - 1) = 0) : ∃ k, n = 2 ^ k := by
  refine ⟨Nat.log 2 n, ?_⟩
  have h1 : 2 ^ Nat.log 2 n ≤ n := Nat.pow_log_le_self 2 (by omega)
  have h2 : n < 2 ^ (Nat.log 2 n + 1) := Nat.lt_pow_succ_log_self (by decide) n
  by_contra hne
  generalize Nat.log 2 n = k at h1 h2 hne
  have hp : 2 ^ (k + 1) = 2 ^ k + 2 ^ k := by rw [Nat.pow_succ]; omega
  have t1 : n.testBit k = true := by
    have e : n = 2 ^ k + (n - 2 ^ k) := by omega
    rw [e, Nat.testBit_two_pow_add_eq, Nat.testBit_lt_two_pow (by omega)]
    rfl
  have t2 : (n - 1).testBit k = true := by
    have e : n - 1 = 2 ^ k + (n - 1 - 2 ^ k) := by omega
    rw [e, Nat.testBit_two_pow_add_eq, Nat.testBit_lt_two_pow (by omega)]
    rfl
  have t3 : (n &&& (n - 1)).testBit k = true := by rw [Nat.testBit_and, t1, t2]; rfl
  rw [h] at t3
  simp at t3

theorem int_land_pred (n : Nat) (hn : 0 < n) :
    Int.land (n : Int) ((n : Int) - 1) = ((n &&& (n - 1) : Nat) : Int) := by
  have e : (n : Int) - 1 = ((n - 1 : Nat) : Int) := by omega
  rw [e]
  rfl

theorem rate_accepted_iff (v : Int) :
    (Int.land v (v - 1) = 0 ∧ v ≥ MIN_RTC_RATE ∧ v ≤ MAX_RTC_RATE) ↔
      ∃ k : Nat, 1 ≤ k ∧ k ≤ 15 ∧ v = 2 ^ k := by
  simp only [MIN_RTC_RATE, MAX_RTC_RATE]
  constructor
  · rintro ⟨h1, h2, h3⟩
    obtain ⟨n, rfl⟩ : ∃ n : Nat, v = (n : Int) := ⟨v.toNat, by omega⟩
    rw [int_land_pred n (by omega)] at h1
    obtain ⟨k, hk⟩ := pow_of_land_pred n (by omega) (by exact_mod_cast h1)
    refine ⟨k, ?_, ?_, by rw [hk]; push_cast; rfl⟩
    · by_contra hk0
      have : k = 0 := by omega
      rw [this] at hk
      omega
    · by_contra hk15
      have : 2 ^ 16 ≤ 2 ^ k := Nat.pow_le_pow_right (by decide) (by omega)
      omega
  · rintro ⟨k, hk1, hk15, rfl⟩
    have hpos : 0 < 2 ^ k := Nat.pow_pos (by decide)
    have hc : ((2 : Int) ^ k) = ((2 ^ k : Nat) : Int) := by push_cast; rfl
    rw [hc, int_land_pred _ hpos, land_pred_pow]
    have h2 : 2 ^ 1 ≤ 2 ^ k := Nat.pow_le_pow_right (by decide) hk1
    have h3 : 2 ^ k ≤ 2 ^ 15 := Nat.pow_le_pow_right (by decide) hk15
    refine ⟨rfl, ?_, ?_⟩
    · have : (2 : Nat) ≤ 2 ^ k := by simpa using h2
      exact_mod_cast this
    · have : 2 ^ k ≤ (32768 : Nat) := by simpa using h3
      exact_mod_cast this

/-- C20 (refuted above 1024): the guard of `rtc_write` compares with
`MAX_RTC_RATE` = 32768, not with the 1024 its header names as the maximum.
`rtc_write` returns 0 if and only if the 4-byte value at `buf` is a power of two
in [2, 32768], so also for 2048, 4096, 8192, 16384 and 32768, and then stores
four times the value as the calling group's rate; for every other value it
returns -1 and changes nothing; in both cases the rates of the other groups are
unchanged. -/
theorem C20_rtc_write (s : Kernel) (fd : Int) (buf : Nat) (nbytes : Int) :
    ((∃ k : Nat, 1 ≤ k ∧ k ≤ 15 ∧ s32 (load32 s.mem buf) = 2 ^ k) →
      rtc_write s fd buf nbytes = some (0, { s with rtc_freq_divider := upd s.rtc_freq_divider s.current_group (s32 (load32 s.mem buf) * 4) })) ∧
    ((¬ ∃ k : Nat, 1 ≤ k ∧ k ≤ 15 ∧ s32 (load32 s.mem buf) = 2 ^ k) →
      rtc_write s fd buf nbytes = some (-1, s)) ∧
    (∀ r s', rtc_write s fd buf nbytes = some (r, s') →
      (r = 0 ∨ r = -1) ∧
      ∀ g, g ≠ s.current_group → s'.rtc_freq_divider g = s.rtc_freq_divider g) := by
  have hiff := rate_accepted_iff (s32 (load32 s.mem buf))
  refine ⟨?_, ?_, ?_⟩
  · intro h
    unfold rtc_write
    simp only
    rw [if_pos (hiff.mpr h)]
    rfl
  · intro h
    unfold rtc_write
    simp only
    rw [if_neg (fun hc => h (hiff.mp hc))]
    rfl
  · intro r s' hw
    unfold rtc_write at hw
    simp only at hw
    split_ifs at hw
    · simp only [Option.some.injEq, Prod.mk.injEq] at hw
      obtain ⟨hr, hs⟩ := hw
      refine ⟨Or.inl hr.symm, ?_⟩
      intro g hg
      rw [← hs]
      exact upd_other _ _ _ _ hg
    · simp only [Option.some.injEq, Prod.mk.injEq] at hw
      obtain ⟨hr, hs⟩ := hw
      refine ⟨Or.inr hr.symm, ?_⟩
      intro g _
      rw [← hs]

set_option maxRecDepth 100000 in
/-- C20 (failing input): the value 2048 is a power of two above 1024, and
`rtc_write` returns 0 and changes the rate of the calling group (to 8192). -/
theorem C20_rtc_write_counterexample :
    s32 (load32 demo_rate_2048.mem 0x08000100) = 2048 ∧ (1024 : Int) < 2048 ∧
    (2048 : Int) ≤ MAX_RTC_RATE ∧
    (rtc_write demo_rate_2048 2 0x08000100 4).map Prod.fst = some 0 ∧
    demo_rate_2048.rtc_freq_divider demo_rate_2048.current_group ≠ 8192 ∧
    (rtc_write demo_rate_2048 2 0x08000100 4).map
      (fun r => r.2.rtc_freq_divider demo_rate_2048.current_group) = some 8192 := by
  refine ⟨by decide, by decide, by decide, by decide, by decide, by decide⟩

/-! ### The virtual RTC -/

theorem rtc_wrapper_group_on (s : Kernel) (h g : Nat)
    (hok : s.rtc_read_waiting h = 1 → s.rtc_freq_divider h ≠ 0) :
    ∃ s', rtc_wrapper_group s h = some s' ∧ s'.rtc_freq_divider = s.rtc_freq_divider ∧
      s'.current_group = s.current_group ∧
      (∀ g', s'.rtc_read_waiting g' = 1 → s.rtc_read_waiting g' = 1) ∧
      (h ≠ g → s'.rtc_read_waiting g = s.rtc_read_waiting g ∧
        s'.rtc_intr_count g = s.rtc_intr_count g) ∧
      (h = g → s.rtc_read_waiting g = 1 →
        s'.rtc_intr_count g = s.rtc_intr_count g + 1 ∧
        s'.rtc_read_waiting g =
          if s.rtc_intr_count g + 1 ≥ Int.tdiv RTC_FREQ (s.rtc_freq_divider g) then 0 else 1) := by
  unfold rtc_wrapper_group
  by_cases hw : s.rtc_read_waiting h = 1
  · have hd := hok hw
    rw [if_pos hw]
    simp only [if_neg hd]
    by_cases hc : s.rtc_intr_count h + 1 ≥ Int.tdiv RTC_FREQ (s.rtc_freq_divider h)
    · rw [if_pos hc]
      refine ⟨_, rfl, rfl, rfl, ?_, ?_, ?_⟩
      · intro g' hg'
        by_cases e : g' = h
        · rw [e]; exact hw
        · simpa [upd, e] using hg'
      · intro hne
        have hne' : g ≠ h := fun e => hne e.symm
        simp [upd, hne']
      · intro he _
        subst he
        simp [upd, hc, RTC_NOT_WAITING]
    · rw [if_neg hc]
      refine ⟨_, rfl, rfl, rfl, ?_, ?_, ?_⟩
      · intro g' hg'; exact hg'
      · intro hne
        have hne' : g ≠ h := fun e => hne e.symm
        simp [upd, hne']
      · intro he hwg
        subst he
        simp [upd, hc, hwg]
  · rw [if_neg hw]
    refine ⟨s, rfl, rfl, rfl, fun _ h => h, fun _ => ⟨rfl, rfl⟩, ?_⟩
    intro he hwg
    subst he
    exact absurd hwg hw

theorem rtc_wrapper_on (s : Kernel) (g : Nat) (hg : g < 3) (hok : rtc_rates_set s)
    (hw : s.rtc_read_waiting g = 1) :
    ∃ s', rtc_wrapper s = some s' ∧ s'.rtc_freq_divider = s.rtc_freq_divider ∧
      s'.current_group = s.current_group ∧ rtc_rates_set s' ∧
      s'.rtc_intr_count g = s.rtc_intr_count g + 1 ∧
      s'.rtc_read_waiting g =
        if s.rtc_intr_count g + 1 ≥ Int.tdiv RTC_FREQ (s.rtc_freq_divider g) then 0 else 1 := by
  obtain ⟨s1, e1, d1, c1, w1, n1, y1⟩ := rtc_wrapper_group_on s 0 g (hok 0 (by decide))
  obtain ⟨s2, e2, d2, c2, w2, n2, y2⟩ := rtc_wrapper_group_on s1 1 g
    (fun h => by rw [d1]; exact hok 1 (by decide) (w1 1 h))
  obtain ⟨s3, e3, d3, c3, w3, n3, y3⟩ := rtc_wrapper_group_on s2 2 g
    (fun h => by rw [d2, d1]; exact hok 2 (by decide) (w1 2 (w2 2 h)))
  refine ⟨s3, ?_, by rw [d3, d2, d1], by rw [c3, c2, c1], ?_, ?_⟩
  · unfold rtc_wrapper
    simp only [e1, Option.some_bind, e2, e3]
  · intro g' hg' h
    rw [d3, d2, d1]
    exact hok g' hg' (w1 g' (w2 g' (w3 g' h)))
  · have hcases : g = 0 ∨ g = 1 ∨ g = 2 := by omega
    rcases hcases with h | h | h
    · subst h
      obtain ⟨a1, b1⟩ := y1 rfl hw
      obtain ⟨a2, b2⟩ := n2 (by decide)
      obtain ⟨a3, b3⟩ := n3 (by decide)
      exact ⟨by rw [b3, b2, a1], by rw [a3, a2, b1]⟩
    · subst h
      obtain ⟨a1, b1⟩ := n1 (by decide)
      obtain ⟨a2, b2⟩ := y2 rfl (by rw [a1]; exact hw)
      obtain ⟨a3, b3⟩ := n3 (by decide)
      exact ⟨by rw [b3, a2, b1], by rw [a3, b2, b1, d1]⟩
    · subst h
      obtain ⟨a1, b1⟩ := n1 (by decide)
      obtain ⟨a2, b2⟩ := n2 (by decide)
      obtain ⟨a3, b3⟩ := y3 rfl (by rw [a2, a1]; exact hw)
      exact ⟨by rw [a3, b2, b1], by rw [b3, b2, b1, d2, d1]⟩

theorem rtc_ticks_add (a b : Nat) : ∀ s, rtc_ticks (a + b) s = (rtc_ticks a s).bind (rtc_ticks b) := by
  induction a with
  | zero => intro s; simp [rtc_ticks]
  | succ n ih =>
    intro s
    rw [Nat.succ_add]
    simp only [rtc_ticks]
    cases rtc_wrapper s with
    | none => rfl
    | some s1 => simp only [Option.some_bind, ih]

theorem rtc_ticks_waiting (g : Nat) (hg : g < 3) (d : Int) :
    ∀ (k : Nat) (s : Kernel), rtc_rates_set s → s.rtc_read_waiting g = 1 →
      s.rtc_freq_divider g = d → (s.rtc_intr_count g + k < Int.tdiv RTC_FREQ d ∨ k = 0) →
      ∃ s', rtc_ticks k s = some s' ∧ rtc_rates_set s' ∧ s'.rtc_read_waiting g = 1 ∧
        s'.rtc_freq_divider g = d ∧ s'.rtc_intr_count g = s.rtc_intr_count g + k ∧
        s'.current_group = s.current_group := by
  intro k
  induction k with
  | zero => intro s hok hw hd _; exact ⟨s, rfl, hok, hw, hd, by simp, rfl⟩
  | succ m ih =>
    intro s hok hw hd hlt
    have hlt' : s.rtc_intr_count g + ((m + 1 : Nat) : Int) < Int.tdiv RTC_FREQ d := by
      rcases hlt with h | h
      · exact h
      · omega
    obtain ⟨s1, e1, d1, c1, ok1, n1, w1⟩ := rtc_wrapper_on s g hg hok hw
    rw [hd] at w1
    rw [if_neg (by push_cast at hlt'; omega)] at w1
    obtain ⟨s', e2, ok2, w2, d2, n2, c2⟩ := ih s1 ok1 w1 (by rw [d1]; exact hd)
      (Or.inl (by rw [n1]; push_cast at hlt' ⊢; omega))
    refine ⟨s', ?_, ok2, w2, d2, ?_, by rw [c2, c1]⟩
    · simp only [rtc_ticks, e1, Option.some_bind, e2]
    · rw [n2, n1]; push_cast; omega

theorem rtc_tick_clears (g : Nat) (hg : g < 3) (s : Kernel) (hok : rtc_rates_set s)
    (hw : s.rtc_read_waiting g = 1)
    (hge : s.rtc_intr_count g + 1 ≥ Int.tdiv RTC_FREQ (s.rtc_freq_divider g)) :
    ∃ s', rtc_ticks 1 s = some s' ∧ s'.rtc_read_waiting g = 0 ∧
      s'.current_group = s.current_group := by
  obtain ⟨s1, e1, _, c1, _, _, w1⟩ := rtc_wrapper_on s g hg hok hw
  rw [if_pos hge] at w1
  exact ⟨s1, by simp only [rtc_ticks, e1, Option.some_bind], w1, c1⟩

theorem rtc_wait_blocked (g : Nat) (hg : g < 3) (d : Int) :
    ∀ (k : Nat) (s : Kernel), rtc_rates_set s → s.rtc_read_waiting g = 1 →
      s.rtc_freq_divider g = d → (s.rtc_intr_count g + k < Int.tdiv RTC_FREQ d ∨ k = 0) →
      wait_until (fun x => x.rtc_read_waiting g == RTC_NOT_WAITING) s
        (List.replicate k Irq.rtc) = none := by
  intro k
  induction k with
  | zero =>
    intro s _ hw _ _
    simp [wait_until, hw, RTC_NOT_WAITING]
  | succ m ih =>
    intro s hok hw hd hlt
    have hlt' : s.rtc_intr_count g + ((m + 1 : Nat) : Int) < Int.tdiv RTC_FREQ d := by
      rcases hlt with h | h
      · exact h
      · omega
    obtain ⟨s1, e1, d1, c1, ok1, n1, w1⟩ := rtc_wrapper_on s g hg hok hw
    rw [hd] at w1
    rw [if_neg (by push_cast at hlt'; omega)] at w1
    have := ih s1 ok1 w1 (by rw [d1]; exact hd)
      (Or.inl (by rw [n1]; push_cast at hlt' ⊢; omega))
    simp only [List.replicate_succ, wait_until, hw, RTC_NOT_WAITING, deliver, e1]
    simpa [RTC_NOT_WAITING] using this

theorem rtc_wait_done (g : Nat) (hg : g < 3) (d : Int) :
    ∀ (n : Nat) (s : Kernel), rtc_rates_set s → s.rtc_read_waiting g = 1 →
      s.rtc_freq_divider g = d →
      n = (Int.tdiv RTC_FREQ d - s.rtc_intr_count g - 1).toNat →
      ∃ s', wait_until (fun x => x.rtc_read_waiting g == RTC_NOT_WAITING) s
          (List.replicate (n + 1) Irq.rtc) = some (s', []) ∧
        s'.rtc_read_waiting g = 0 := by
  intro n
  induction n with
  | zero =>
    intro s hok hw hd hn
    obtain ⟨s1, e1, d1, c1, ok1, n1, w1⟩ := rtc_wrapper_on s g hg hok hw
    rw [hd, if_pos (by omega)] at w1
    refine ⟨s1, ?_, w1⟩
    simp [wait_until, hw, RTC_NOT_WAITING, deliver, e1, w1]
  | succ m ih =>
    intro s hok hw hd hn
    obtain ⟨s1, e1, d1, c1, ok1, n1, w1⟩ := rtc_wrapper_on s g hg hok hw
    rw [hd, if_neg (by omega)] at w1
    obtain ⟨s', e2, w2⟩ := ih s1 ok1 w1 (by rw [d1]; exact hd) (by rw [n1]; omega)
    refine ⟨s', ?_, w2⟩
    have hcond : ¬ ((s.rtc_read_waiting g == RTC_NOT_WAITING) = true) := by rw [hw]; decide
    rw [List.replicate_succ, wait_until]
    simp only [if_neg hcond, deliver, e1]
    exact e2

theorem rtc_read_eq (s : Kernel) (fd : Int) (buf : Nat) (nbytes : Int) (env : List Irq) :
    rtc_read s fd buf nbytes env =
      match wait_until (fun k => k.rtc_read_waiting s.current_group == RTC_NOT_WAITING)
          (rtc_read_start s) env with
      | none => none
      | some (s3, _) => some (SUCCESS, s3) := rfl

/-- A read started with rate variable `d > 0`: the flag is set after fewer than
`rtc_wait_ticks d` handler calls and clear after exactly that many, and the
read returns with that many RTC interrupts and not with fewer. -/
theorem rtc_read_general (s : Kernel) (fd : Int) (buf : Nat) (nbytes : Int)
    (hg : s.current_group < 3) (hd : 0 < s.rtc_freq_divider s.current_group)
    (hok : ∀ g, g < 3 → g ≠ s.current_group → s.rtc_read_waiting g = 1 →
      s.rtc_freq_divider g ≠ 0) :
    (∀ k, k < rtc_wait_ticks (s.rtc_freq_divider s.current_group) →
      ∃ s', rtc_ticks k (rtc_read_start s) = some s' ∧ s'.rtc_read_waiting s.current_group = 1) ∧
    (∃ s', rtc_ticks (rtc_wait_ticks (s.rtc_freq_divider s.current_group)) (rtc_read_start s) =
        some s' ∧ s'.rtc_read_waiting s.current_group = 0) ∧
    (∀ k, k < rtc_wait_ticks (s.rtc_freq_divider s.current_group) →
      rtc_read s fd buf nbytes (List.replicate k Irq.rtc) = none) ∧
    (∃ s', rtc_read s fd buf nbytes
      (List.replicate (rtc_wait_ticks (s.rtc_freq_divider s.current_group)) Irq.rtc) =
        some (0, s')) := by
  have hset : rtc_rates_set (rtc_read_start s) := by
    intro g hg3 hw
    by_cases e : g = s.current_group
    · rw [e]
      show s.rtc_freq_divider s.current_group ≠ 0
      omega
    · have hw' : s.rtc_read_waiting g = 1 := by
        simpa [rtc_read_start, upd, e] using hw
      exact hok g hg3 e hw'
  have hw : (rtc_read_start s).rtc_read_waiting s.current_group = 1 := by
    simp [rtc_read_start, upd, RTC_WAITING]
  have hc : (rtc_read_start s).rtc_intr_count s.current_group = 0 := by
    simp [rtc_read_start, upd]
  have hdv : (rtc_read_start s).rtc_freq_divider s.current_group =
      s.rtc_freq_divider s.current_group := rfl
  generalize hT : Int.tdiv RTC_FREQ (s.rtc_freq_divider s.current_group) = T
  have hN : rtc_wait_ticks (s.rtc_freq_divider s.current_group) = max 1 T.toNat := by
    unfold rtc_wait_ticks; rw [hT]
  rw [hN]
  have hlt : ∀ k, k < max 1 T.toNat → ((rtc_read_start s).rtc_intr_count s.current_group + (k : Int) < Int.tdiv RTC_FREQ (s.rtc_freq_divider s.current_group) ∨ k = 0) := by
    intro k hk
    rw [hc, hT]
    omega
  refine ⟨?_, ?_, ?_, ?_⟩
  · intro k hk
    obtain ⟨s', e, _, w, _⟩ := rtc_ticks_waiting s.current_group hg _ k (rtc_read_start s) hset hw
      hdv (hlt k hk)
    exact ⟨s', e, w⟩
  · obtain ⟨n0, hn0⟩ : ∃ n0, max 1 T.toNat = n0 + 1 := ⟨max 1 T.toNat - 1, by omega⟩
    obtain ⟨s1, e1, ok1, w1, d1, c1, g1⟩ := rtc_ticks_waiting s.current_group hg _ n0
      (rtc_read_start s) hset hw hdv (hlt n0 (by omega))
    obtain ⟨s2, e2, w2, _⟩ := rtc_tick_clears s.current_group hg s1 ok1 w1
      (by rw [d1, hT, c1, hc]; omega)
    refine ⟨s2, ?_, w2⟩
    rw [hn0, rtc_ticks_add, e1, Option.some_bind, e2]
  · intro k hk
    rw [rtc_read_eq, rtc_wait_blocked s.current_group hg _ k (rtc_read_start s) hset hw hdv
      (hlt k hk)]
  · obtain ⟨s', e, _⟩ := rtc_wait_done s.current_group hg _ (T - 1).toNat (rtc_read_start s)
      hset hw hdv (by rw [hc, hT]; omega)
    have hn : max 1 T.toNat = (T - 1).toNat + 1 := by omega
    refine ⟨s', ?_⟩
    rw [rtc_read_eq, hn, e]
    rfl

theorem rtc_read_waits_of (s : Kernel) (hg : s.current_group < 3)
    (hd : 0 < s.rtc_freq_divider s.current_group)
    (hok : ∀ g, g < 3 → g ≠ s.current_group → s.rtc_read_waiting g = 1 →
      s.rtc_freq_divider g ≠ 0) :
    rtc_read_waits s (rtc_wait_ticks (s.rtc_freq_divider s.current_group)) := by
  have h := rtc_read_general s 0 0 0 hg hd hok
  refine ⟨h.1, h.2.1, ?_, ?_⟩
  · intro fd buf nbytes k hk
    exact (rtc_read_general s fd buf nbytes hg hd hok).2.2.1 k hk
  · intro fd buf nbytes
    exact (rtc_read_general s fd buf nbytes hg hd hok).2.2.2

theorem rtc_wait_ticks_rate (r : Int) (h : ∃ k : Nat, 1 ≤ k ∧ k ≤ 15 ∧ r = 2 ^ k) :
    rtc_wait_ticks (r * RTC_OFFSET) = max 1 (256 / r.toNat) := by
  obtain ⟨k, h1, h2, rfl⟩ := h
  interval_cases k <;> decide

/-- C19 (refuted for every written rate): `rtc_write` stores the rate times
`RTC_OFFSET` = 4, `rtc_open` stores its 2 Hz as 2, and `rtc_wrapper` divides 1024
by the stored value. In a state whose other groups have a rate whenever they
wait, after `rtc_write` has accepted the rate `r` an `rtc_read` of the same
group waits for exactly max(1, 1024 / (4 r)) = max(1, 256 / r) calls of
`rtc_wrapper`, a quarter of the 1024 / r of the claim, and after `rtc_open`
(with no later write) for exactly 512 = 1024 / 2 calls: the flag is cleared by
that call and by no earlier one, and the read returns with that many RTC
interrupts and not with fewer. -/
theorem C19_rtc_read_wait (s : Kernel) (hg : s.current_group < 3)
    (hok : ∀ g, g < 3 → g ≠ s.current_group → s.rtc_read_waiting g = 1 →
      s.rtc_freq_divider g ≠ 0) :
    (∀ (fd : Int) (buf : Nat) (nbytes : Int) (s1 : Kernel),
      rtc_write s fd buf nbytes = some (0, s1) →
      rtc_read_waits s1 (rtc_wait_ticks (s32 (load32 s.mem buf) * 4)) ∧
      rtc_wait_ticks (s32 (load32 s.mem buf) * 4) =
        max 1 (256 / (s32 (load32 s.mem buf)).toNat)) ∧
    (∀ (name : List Nat) (s1 : Kernel), rtc_open s name = some (0, s1) →
      rtc_read_waits s1 512) := by
  refine ⟨?_, ?_⟩
  · intro fd buf nbytes s1 hw
    have hacc : ∃ k : Nat, 1 ≤ k ∧ k ≤ 15 ∧ s32 (load32 s.mem buf) = 2 ^ k := by
      by_contra hne
      have := (rate_accepted_iff (s32 (load32 s.mem buf))).not.mpr hne
      unfold rtc_write at hw
      simp only at hw
      rw [if_neg this] at hw
      simp [FAILURE] at hw
    have hs1 : s1 = { s with rtc_freq_divider := upd s.rtc_freq_divider s.current_group (s32 (load32 s.mem buf) * RTC_OFFSET) } := by
      unfold rtc_write at hw
      simp only at hw
      rw [if_pos ((rate_accepted_iff _).mpr hacc)] at hw
      simp only [Option.some.injEq, Prod.mk.injEq] at hw
      exact hw.2.symm
    have hrate := rtc_wait_ticks_rate _ hacc
    have hpos : 0 < s32 (load32 s.mem buf) := by
      obtain ⟨k, _, _, hk⟩ := hacc
      rw [hk]
      positivity
    have hdv : s1.rtc_freq_divider s1.current_group = s32 (load32 s.mem buf) * 4 := by
      rw [hs1]
      simp [upd, RTC_OFFSET]
    have hcur : s1.current_group = s.current_group := by rw [hs1]
    have hwait := rtc_read_waits_of s1 (by rw [hcur]; exact hg) (by rw [hdv]; omega) (by
      intro g hg3 hne hwg
      rw [hcur] at hne
      have e1 : s1.rtc_freq_divider g = s.rtc_freq_divider g := by
        rw [hs1]; simp [upd, hne]
      have e2 : s1.rtc_read_waiting g = s.rtc_read_waiting g := by rw [hs1]
      rw [e1]
      exact hok g hg3 hne (by rw [← e2]; exact hwg))
    rw [hdv] at hwait
    exact ⟨hwait, hrate⟩
  · intro name s1 ho
    have hs1 : s1 = { s with rtc_freq_divider := upd s.rtc_freq_divider s.current_group 2, rtc_read_waiting := upd s.rtc_read_waiting s.current_group 0, rtc_intr_count := upd s.rtc_intr_count s.current_group 0 } := by
      unfold rtc_open at ho
      simp only [Option.some.injEq, Prod.mk.injEq, get_current_group] at ho
      exact ho.2.symm
    have hcur : s1.current_group = s.current_group := by rw [hs1]
    have hdv : s1.rtc_freq_divider s1.current_group = 2 := by
      rw [hs1]
      simp [upd]
    have hwait := rtc_read_waits_of s1 (by rw [hcur]; exact hg) (by rw [hdv]; decide) (by
      intro g hg3 hne hwg
      rw [hcur] at hne
      have e1 : s1.rtc_freq_divider g = s.rtc_freq_divider g := by
        rw [hs1]; simp [upd, hne]
      have e2 : s1.rtc_read_waiting g = s.rtc_read_waiting g := by
        rw [hs1]; simp [upd, hne]
      rw [e1]
      exact hok g hg3 hne (by rw [← e2]; exact hwg))
    rw [hdv] at hwait
    exact hwait

set_option maxRecDepth 100000 in
/-- C19 witness: the rate 2 written in the booted state; a read then waits for
128 handler calls. -/
theorem C19_rtc_read_wait_witness :
    (demo_rate_2.current_group < 3 ∧
      rtc_write demo_rate_2 2 0x08000100 4 = some (0, demo_rate_2_set) ∧
      s32 (load32 demo_rate_2.mem 0x08000100) = 2) ∧
    rtc_read_waits demo_rate_2_set 128 := by
  have h := ((C19_rtc_read_wait demo_rate_2 (by decide) (by decide)).1 2 0x08000100 4
    demo_rate_2_set rfl).1
  have e : s32 (load32 demo_rate_2.mem 0x08000100) = 2 := by decide
  rw [e] at h
  exact ⟨⟨by decide, rfl, e⟩, h⟩

set_option maxRecDepth 100000 in
/-- C19 (failing input): `rtc_write` accepts the rate 2; an `rtc_read`
started afterwards still waits after 127 calls of `rtc_wrapper`, has its waiting
flag cleared by the 128th, and returns 0 with 128 RTC interrupts, well before
the 1024 / 2 = 512 calls the claim requires. The same rate set by `rtc_open`
makes the read wait for 512 calls: the flag is still set after 511. -/
theorem C19_rtc_read_wait_counterexample :
    s32 (load32 demo_rate_2.mem 0x08000100) = 2 ∧
    rtc_write demo_rate_2 2 0x08000100 4 = some (0, demo_rate_2_set) ∧
    demo_rate_2_set.rtc_freq_divider demo_rate_2_set.current_group = 8 ∧
    (rtc_ticks 127 (rtc_read_start demo_rate_2_set)).map
      (fun x => x.rtc_read_waiting demo_rate_2_set.current_group) = some 1 ∧
    (rtc_ticks 128 (rtc_read_start demo_rate_2_set)).map
      (fun x => x.rtc_read_waiting demo_rate_2_set.current_group) = some 0 ∧
    (rtc_read demo_rate_2_set 2 0 0 (List.replicate 128 Irq.rtc)).map Prod.fst = some 0 ∧
    128 < 1024 / 2 ∧
    demo_rate_open.rtc_freq_divider demo_rate_open.current_group = 2 ∧
    (rtc_ticks 511 (rtc_read_start demo_rate_open)).map
      (fun x => x.rtc_read_waiting demo_rate_open.current_group) = some 1 ∧
    (rtc_ticks 512 (rtc_read_start demo_rate_open)).map
      (fun x => x.rtc_read_waiting demo_rate_open.current_group) = some 0 := by
  refine ⟨by decide, rfl, by decide, by decide, by decide, by decide, by decide, by decide,
    by decide, by decide⟩

/-! ### Switching the visible terminal -/

theorem save_page_ranges (g : Nat) (hg : g < 3) :
    get_video_save_page g = 0xBA000 + g * 4096 := by
  unfold get_video_save_page
  rw [if_neg (by simp only [MAX_PROCESS_GROUPS]; omega)]
  rfl

theorem memcpy_in (mem : Nat → Nat) (dst src n a : Nat) (h : dst ≤ a ∧ a < dst + n) :
    memcpy_mem mem dst src n a = mem (src + (a - dst)) := if_pos h

theorem memcpy_out (mem : Nat → Nat) (dst src n a : Nat) (h : ¬ (dst ≤ a ∧ a < dst + n)) :
    memcpy_mem mem dst src n a = mem a := if_neg h

theorem switch_term_ok (s : Kernel) (cursor : Int × Int) (g : Nat) (hg : g < 3) :
    switch_term s cursor (g : Int) =
      ((g : Int),
       { s with terms := upd s.terms s.visible_group { s.terms s.visible_group with cursor_x := cursor.1, cursor_y := cursor.2 },
                visible_group := g,
                mem := memcpy_mem (memcpy_mem s.mem (get_video_save_page s.visible_group) VIDEO_KERNEL PAGE_SIZE) VIDEO_KERNEL (get_video_save_page g) PAGE_SIZE },
       ((upd s.terms s.visible_group { s.terms s.visible_group with cursor_x := cursor.1, cursor_y := cursor.2 } g).cursor_x,
        (upd s.terms s.visible_group { s.terms s.visible_group with cursor_x := cursor.1, cursor_y := cursor.2 } g).cursor_y)) := by
  have hg1 : ¬ (((g : Nat) : Int) < 0 ∨ ((g : Nat) : Int) ≥ (MAX_PROCESS_GROUPS : Int)) := by
    simp only [MAX_PROCESS_GROUPS]; omega
  unfold switch_term
  rw [if_neg hg1]
  simp only [set_term, Int.toNat_ofNat]

theorem switch_mem (m : Nat → Nat) (a b : Nat) (ha : a < 3) (hb : b < 3) :
    (∀ i, i < 4096 →
      memcpy_mem (memcpy_mem (memcpy_mem (memcpy_mem m (0xBA000 + a * 4096) 0xB8000 4096)
        0xB8000 (0xBA000 + b * 4096) 4096) (0xBA000 + b * 4096) 0xB8000 4096)
        0xB8000 (0xBA000 + a * 4096) 4096 (0xB8000 + i) = m (0xB8000 + i)) ∧
    (b ≠ a → ∀ i, i < 4096 →
      memcpy_mem (memcpy_mem (memcpy_mem (memcpy_mem m (0xBA000 + a * 4096) 0xB8000 4096)
        0xB8000 (0xBA000 + b * 4096) 4096) (0xBA000 + b * 4096) 0xB8000 4096)
        0xB8000 (0xBA000 + a * 4096) 4096 (0xBA000 + b * 4096 + i) =
          m (0xBA000 + b * 4096 + i)) ∧
    (b = a → ∀ i, i < 4096 →
      memcpy_mem (memcpy_mem (memcpy_mem (memcpy_mem m (0xBA000 + a * 4096) 0xB8000 4096)
        0xB8000 (0xBA000 + b * 4096) 4096) (0xBA000 + b * 4096) 0xB8000 4096)
        0xB8000 (0xBA000 + a * 4096) 4096 (0xBA000 + b * 4096 + i) = m (0xB8000 + i)) := by
  refine ⟨?_, ?_, ?_⟩
  · intro i hi
    by_cases hab : a = b
    · subst hab
      rw [memcpy_in]
      · rw [memcpy_in]
        · rw [memcpy_in]
          · rw [memcpy_in]
            · refine congrArg m ?_
              omega
            · omega
          · omega
        · omega
      · omega
    · have hne : a ≠ b := hab
      rw [memcpy_in]
      · rw [memcpy_out]
        · rw [memcpy_out]
          · rw [memcpy_in]
            · refine congrArg m ?_
              omega
            · omega
          · omega
        · omega
      · omega
  · intro hab i hi
    rw [memcpy_out]
    · rw [memcpy_in]
      · rw [memcpy_in]
        · rw [memcpy_out]
          · refine congrArg m ?_
            omega
          · omega
        · omega
      · omega
    · omega
  · intro hab i hi
    subst hab
    rw [memcpy_out]
    · rw [memcpy_in]
      · rw [memcpy_in]
        · rw [memcpy_in]
          · refine congrArg m ?_
            omega
          · omega
        · omega
      · omega
    · omega

/-- C18 (amended): with group `a` visible, `switch_term(b)` followed by
`switch_term(a)` leaves `visible_group = a` and leaves the 4 KiB framebuffer at
0xB8000 and the hardware cursor as they were before the first switch; for
`b ≠ a` the shadow page of `b` is as before too, and for `b = a` the shadow page
of `a` ends as a copy of the framebuffer. -/
theorem C18_switch_term (s : Kernel) (cursor : Int × Int) (b : Nat)
    (ha : s.visible_group < 3) (hb : b < 3) :
    (switch_term (switch_term s cursor b).2.1 (switch_term s cursor b).2.2
        s.visible_group).2.1.visible_group = s.visible_group ∧
    (switch_term (switch_term s cursor b).2.1 (switch_term s cursor b).2.2
        s.visible_group).2.2 = cursor ∧
    (∀ i, i < 4096 →
      (switch_term (switch_term s cursor b).2.1 (switch_term s cursor b).2.2
        s.visible_group).2.1.mem (0xB8000 + i) = s.mem (0xB8000 + i)) ∧
    (b ≠ s.visible_group → ∀ i, i < 4096 →
      (switch_term (switch_term s cursor b).2.1 (switch_term s cursor b).2.2
        s.visible_group).2.1.mem (get_video_save_page b + i) =
          s.mem (get_video_save_page b + i)) ∧
    (b = s.visible_group → ∀ i, i < 4096 →
      (switch_term (switch_term s cursor b).2.1 (switch_term s cursor b).2.2
        s.visible_group).2.1.mem (get_video_save_page b + i) = s.mem (0xB8000 + i)) := by
  have pa := save_page_ranges s.visible_group ha
  have pb := save_page_ranges b hb
  have hm := switch_mem s.mem s.visible_group b ha hb
  rw [switch_term_ok s cursor b hb]
  simp only
  rw [switch_term_ok _ _ s.visible_group ha]
  simp only [pa, pb, VIDEO_KERNEL, PAGE_SIZE]
  refine ⟨trivial, ?_, hm.1, hm.2.1, hm.2.2⟩
  by_cases hab : s.visible_group = b
  · simp [upd, hab]
  · have hba : ¬ (b = s.visible_group) := fun h => hab h.symm
    simp [upd, hab, hba]

/-- C18 witness: the booted state (group 0 visible), switching to group 1 and
back. -/
theorem C18_switch_term_witness :
    (demo_boot.visible_group < 3 ∧ 1 < 3) ∧
    ((switch_term (switch_term demo_boot (5, 7) (1 : Nat)).2.1
        (switch_term demo_boot (5, 7) (1 : Nat)).2.2
        demo_boot.visible_group).2.1.visible_group = demo_boot.visible_group ∧
    (switch_term (switch_term demo_boot (5, 7) (1 : Nat)).2.1
        (switch_term demo_boot (5, 7) (1 : Nat)).2.2
        demo_boot.visible_group).2.2 = (5, 7) ∧
    (∀ i, i < 4096 →
      (switch_term (switch_term demo_boot (5, 7) (1 : Nat)).2.1
        (switch_term demo_boot (5, 7) (1 : Nat)).2.2
        demo_boot.visible_group).2.1.mem (0xB8000 + i) = demo_boot.mem (0xB8000 + i)) ∧
    (1 ≠ demo_boot.visible_group → ∀ i, i < 4096 →
      (switch_term (switch_term demo_boot (5, 7) (1 : Nat)).2.1
        (switch_term demo_boot (5, 7) (1 : Nat)).2.2
        demo_boot.visible_group).2.1.mem (get_video_save_page 1 + i) =
          demo_boot.mem (get_video_save_page 1 + i)) ∧
    (1 = demo_boot.visible_group → ∀ i, i < 4096 →
      (switch_term (switch_term demo_boot (5, 7) (1 : Nat)).2.1
        (switch_term demo_boot (5, 7) (1 : Nat)).2.2
        demo_boot.visible_group).2.1.mem (get_video_save_page 1 + i) =
          demo_boot.mem (0xB8000 + i))) :=
  ⟨⟨by decide, by decide⟩, C18_switch_term demo_boot (5, 7) 1 (by decide) (by decide)⟩

set_option maxRecDepth 100000 in
/-- C18 (as stated, refuted): in the booted state group 0 is visible, the first
byte of its shadow page is 0x20 and the first byte of the framebuffer is 0;
after `switch_term(0)` followed by `switch_term(0)` the first byte of the shadow
page of group 0 is 0: the shadow page of `b = a = 0` is not what it was. -/
theorem C18_switch_term_counterexample :
    demo_boot.visible_group = 0 ∧ get_video_save_page 0 = 0xBA000 ∧
    demo_boot.mem 0xBA000 = 0x20 ∧ demo_boot.mem 0xB8000 = 0 ∧
    (switch_term (switch_term demo_boot (0, 0) 0).2.1 (switch_term demo_boot (0, 0) 0).2.2
      0).2.1.mem 0xBA000 = 0 := by
  refine ⟨by decide, by decide, by decide, by decide, by decide⟩

/-! ### The line buffer -/

theorem term_inv_set_term (s0 s : Kernel) (g : Nat) (t : term_struct_t) (h : term_inv s0 s)
    (h1 : t.term_buff_size ≤ 128)
    (h2 : ∀ i, 128 ≤ i → t.term_buff i = (s.terms g).term_buff i) :
    term_inv s0 (set_term s g t) := by
  obtain ⟨hv, hs, hb⟩ := h
  refine ⟨hv, ?_, ?_⟩
  · intro g' hg'
    by_cases e : g' = g
    · subst e; simpa [set_term, upd] using h1
    · simpa [set_term, upd, e] using hs g' hg'
  · intro g' i hi
    by_cases e : g' = g
    · subst e
      have := h2 i hi
      simpa [set_term, upd, hb g' i hi] using this
    · simpa [set_term, upd, e] using hb g' i hi

theorem term_inv_print (s0 s : Kernel) (page c : Nat) (h : term_inv s0 s) :
    term_inv s0 (__print_char s page c) := by
  unfold __print_char
  split_ifs <;> exact h

theorem print_terms (s : Kernel) (page c : Nat) :
    (__print_char s page c).terms = s.terms ∧
    (__print_char s page c).visible_group = s.visible_group := by
  unfold __print_char
  split_ifs <;> exact ⟨rfl, rfl⟩

theorem add_tab_loop_inv (s0 : Kernel) :
    ∀ (n : Nat) (s : Kernel), term_inv s0 s → (s.terms s.visible_group).term_buff_size ≤ 126 →
      term_inv s0 (add_tab_loop n s) := by
  intro n
  induction n with
  | zero => intro s h _; exact h
  | succ m ih =>
    intro s h hsz
    unfold add_tab_loop
    simp only
    have h1 : term_inv s0 (__print_char (set_term s s.visible_group { s.terms s.visible_group with term_buff := upd (s.terms s.visible_group).term_buff (s.terms s.visible_group).term_buff_size 32, term_buff_size := (s.terms s.visible_group).term_buff_size + 1 }) VIDEO_KERNEL 32) := by
      apply term_inv_print
      apply term_inv_set_term s0 s _ _ h
      · show (s.terms s.visible_group).term_buff_size + 1 ≤ 128
        omega
      · intro i hi
        show upd _ _ _ i = _
        exact upd_other _ _ _ _ (by omega)
    split_ifs with hc
    · exact h1
    · apply ih _ h1
      have e1 := (print_terms (set_term s s.visible_group { s.terms s.visible_group with term_buff := upd (s.terms s.visible_group).term_buff (s.terms s.visible_group).term_buff_size 32, term_buff_size := (s.terms s.visible_group).term_buff_size + 1 }) VIDEO_KERNEL 32)
      rw [e1.1, e1.2]
      simp only [set_term, upd, if_true]
      simp only [TERM_BUFFER_SIZE] at hc
      omega

theorem term_inv_add_char (s0 s : Kernel) (c : Nat) (h : term_inv s0 s) :
    term_inv s0 (add_char_term s c).2 := by
  have hv := h.1
  have hsz := h.2.1 s.visible_group hv
  unfold add_char_term
  by_cases hc8 : c = 8
  · rw [if_pos hc8]
    show term_inv s0 (__backspace_term s)
    unfold __backspace_term
    simp only
    split_ifs
    · apply term_inv_print
      apply term_inv_set_term s0 s _ _ h
      · show (s.terms s.visible_group).term_buff_size - 1 ≤ 128
        omega
      · intro i _; rfl
    · exact h
  · rw [if_neg hc8]
    unfold __add_char_to_term
    simp only [TERM_BUFFER_SIZE]
    by_cases h1 : (s.terms s.visible_group).term_buff_size < 128
    · rw [if_pos h1]
      by_cases h2 : (s.terms s.visible_group).term_buff_size = 128 - 1 ∧ c ≠ 10
      · rw [if_pos h2]; exact h
      · rw [if_neg h2]
        have hs1 : term_inv s0 (if c = 9 then add_tab_loop TAB_SIZE s else __print_char (set_term s s.visible_group { s.terms s.visible_group with term_buff := upd (s.terms s.visible_group).term_buff (s.terms s.visible_group).term_buff_size c, term_buff_size := (s.terms s.visible_group).term_buff_size + 1 }) VIDEO_KERNEL c) := by
          by_cases hc9 : c = 9
          · rw [if_pos hc9]
            apply add_tab_loop_inv s0 _ s h
            have : ¬ ((s.terms s.visible_group).term_buff_size = 127) := by
              intro e
              exact h2 ⟨by omega, by omega⟩
            omega
          · rw [if_neg hc9]
            apply term_inv_print
            apply term_inv_set_term s0 s _ _ h
            · show (s.terms s.visible_group).term_buff_size + 1 ≤ 128
              omega
            · intro i hi
              show upd _ _ _ i = _
              exact upd_other _ _ _ _ (by omega)
        generalize (if c = 9 then add_tab_loop TAB_SIZE s else __print_char (set_term s s.visible_group { s.terms s.visible_group with term_buff := upd (s.terms s.visible_group).term_buff (s.terms s.visible_group).term_buff_size c, term_buff_size := (s.terms s.visible_group).term_buff_size + 1 }) VIDEO_KERNEL c) = s1 at hs1
        show term_inv s0 (if c = 10 then _ else s1)
        by_cases hc10 : c = 10
        · rw [if_pos hc10]
          apply term_inv_set_term s0 s1 _ _ hs1
          · show (if (s1.terms s1.visible_group).read_in_progress = 0 then 0 else (s1.terms s1.visible_group).term_buff_size) ≤ 128
            have := hs1.2.1 s1.visible_group hs1.1
            split_ifs <;> omega
          · intro i _; rfl
        · rw [if_neg hc10]; exact hs1
    · rw [if_neg h1]; exact h

theorem term_inv_switch (s0 s : Kernel) (cursor : Int × Int) (g : Int) (h : term_inv s0 s) :
    term_inv s0 (switch_term s cursor g).2.1 := by
  unfold switch_term
  split_ifs with hg
  · exact h
  · obtain ⟨hv, hs, hb⟩ := h
    refine ⟨?_, ?_, ?_⟩
    · show g.toNat < 3
      simp only [MAX_PROCESS_GROUPS] at hg
      omega
    · intro g' hg'
      show ((set_term s s.visible_group _).terms g').term_buff_size ≤ 128
      by_cases e : g' = s.visible_group
      · rw [e]; simpa [set_term, upd] using hs s.visible_group hv
      · simpa [set_term, upd, e] using hs g' hg'
    · intro g' i hi
      show ((set_term s s.visible_group _).terms g').term_buff i = _
      by_cases e : g' = s.visible_group
      · rw [e]; simpa [set_term, upd] using hb s.visible_group i hi
      · simpa [set_term, upd, e] using hb g' i hi

theorem rtc_wrapper_group_terms (s s' : Kernel) (g : Nat) (h : rtc_wrapper_group s g = some s') :
    s'.terms = s.terms ∧ s'.visible_group = s.visible_group ∧
    s'.current_group = s.current_group ∧ s'.mem = s.mem := by
  unfold rtc_wrapper_group at h
  by_cases hw : s.rtc_read_waiting g = 1
  · rw [if_pos hw] at h
    simp only at h
    by_cases hd : s.rtc_freq_divider g = 0
    · rw [if_pos hd] at h; exact absurd h (by simp)
    · rw [if_neg hd] at h
      by_cases hc : s.rtc_intr_count g + 1 ≥ Int.tdiv RTC_FREQ (s.rtc_freq_divider g)
      · rw [if_pos hc] at h
        simp only [Option.some.injEq] at h
        subst h
        exact ⟨rfl, rfl, rfl, rfl⟩
      · rw [if_neg hc] at h
        simp only [Option.some.injEq] at h
        subst h
        exact ⟨rfl, rfl, rfl, rfl⟩
  · rw [if_neg hw] at h
    simp only [Option.some.injEq] at h
    subst h
    exact ⟨rfl, rfl, rfl, rfl⟩

theorem rtc_wrapper_terms (s s' : Kernel) (h : rtc_wrapper s = some s') :
    s'.terms = s.terms ∧ s'.visible_group = s.visible_group ∧
    s'.current_group = s.current_group ∧ s'.mem = s.mem := by
  unfold rtc_wrapper at h
  cases h0 : rtc_wrapper_group s 0 with
  | none => rw [h0] at h; exact absurd h (by simp)
  | some s1 =>
    rw [h0, Option.some_bind] at h
    cases h1 : rtc_wrapper_group s1 1 with
    | none => rw [h1] at h; exact absurd h (by simp)
    | some s2 =>
      rw [h1, Option.some_bind] at h
      obtain ⟨a0, b0, c0, d0⟩ := rtc_wrapper_group_terms s s1 0 h0
      obtain ⟨a1, b1, c1, d1⟩ := rtc_wrapper_group_terms s1 s2 1 h1
      obtain ⟨a2, b2, c2, d2⟩ := rtc_wrapper_group_terms s2 s' 2 h
      exact ⟨by rw [a2, a1, a0], by rw [b2, b1, b0], by rw [c2, c1, c0], by rw [d2, d1, d0]⟩

theorem term_inv_of_terms (s0 s s' : Kernel) (h : term_inv s0 s) (ht : s'.terms = s.terms)
    (hv : s'.visible_group = s.visible_group) : term_inv s0 s' := by
  unfold term_inv at h ⊢
  rw [ht, hv]
  exact h

theorem term_inv_deliver (s0 s s' : Kernel) (e : Irq) (h : term_inv s0 s)
    (hd : deliver s e = some s') : term_inv s0 s' := by
  cases e with
  | kbd c =>
    simp only [deliver, Option.some.injEq] at hd
    rw [← hd]
    exact term_inv_add_char s0 s c h
  | rtc =>
    simp only [deliver] at hd
    obtain ⟨a, b, _, _⟩ := rtc_wrapper_terms s s' hd
    exact term_inv_of_terms s0 s s' h a b

theorem term_inv_wait (s0 : Kernel) (cond : Kernel → Bool) :
    ∀ (env : List Irq) (s s' : Kernel) (rest : List Irq), term_inv s0 s →
      wait_until cond s env = some (s', rest) → term_inv s0 s' := by
  intro env
  induction env with
  | nil =>
    intro s s' rest h hw
    unfold wait_until at hw
    split_ifs at hw
    simp only [Option.some.injEq, Prod.mk.injEq] at hw
    rw [← hw.1]; exact h
  | cons e tl ih =>
    intro s s' rest h hw
    unfold wait_until at hw
    split_ifs at hw
    · simp only [Option.some.injEq, Prod.mk.injEq] at hw
      rw [← hw.1]; exact h
    · cases hd : deliver s e with
      | none => rw [hd] at hw; exact absurd hw (by simp)
      | some s1 =>
        rw [hd] at hw
        exact ih s1 s' rest (term_inv_deliver s0 s s1 e h hd) hw

theorem term_inv_set_le (s0 s : Kernel) (g : Nat) (t : term_struct_t) (h : term_inv s0 s)
    (h1 : t.term_buff_size ≤ (s.terms g).term_buff_size)
    (h2 : t.term_buff = (s.terms g).term_buff) : term_inv s0 (set_term s g t) := by
  obtain ⟨hv, hs, hb⟩ := h
  refine ⟨hv, ?_, ?_⟩
  · intro g' hg'
    by_cases e : g' = g
    · subst e
      have := hs g' hg'
      have e2 : ((set_term s g' t).terms g').term_buff_size = t.term_buff_size := by
        simp [set_term, upd]
      omega
    · simpa [set_term, upd, e] using hs g' hg'
  · intro g' i hi
    by_cases e : g' = g
    · subst e
      have e2 : ((set_term s g' t).terms g').term_buff = t.term_buff := by
        simp [set_term, upd]
      rw [e2, h2]
      exact hb g' i hi
    · simpa [set_term, upd, e] using hb g' i hi

theorem term_read_inv (s0 s s' : Kernel) (fd : Int) (buf : Nat) (nbytes r : Int)
    (env : List Irq) (h : term_inv s0 s) (hr : term_read s fd buf nbytes env = some (r, s')) :
    term_inv s0 s' ∧ (buf ≠ 0 → (s'.terms s.current_group).term_buff_size = 0) := by
  unfold term_read at hr
  by_cases hb : buf = 0
  · rw [if_pos hb] at hr
    simp only [Option.some.injEq, Prod.mk.injEq] at hr
    rw [← hr.2]
    exact ⟨h, fun hne => absurd hb hne⟩
  · rw [if_neg hb] at hr
    simp only [get_current_group] at hr
    cases hw1 : wait_until (fun k => (k.terms s.current_group).read_in_progress == 0) s env with
    | none => rw [hw1] at hr; exact absurd hr (by simp)
    | some x =>
      obtain ⟨s1, env1⟩ := x
      rw [hw1] at hr
      simp only at hr
      have i1 := term_inv_wait s0 _ env s s1 env1 h hw1
      have i2 := term_inv_set_le s0 s1 s.current_group { s1.terms s.current_group with read_in_progress := 1 } i1 (le_refl _) rfl
      have i3 := term_inv_set_le s0 _ s.current_group { (set_term s1 s.current_group { s1.terms s.current_group with read_in_progress := 1 }).terms s.current_group with newline_seen := 0 } i2 (le_refl _) rfl
      cases hw2 : wait_until (fun k => (k.terms s.current_group).newline_seen != 0) (set_term (set_term s1 s.current_group { s1.terms s.current_group with read_in_progress := 1 }) s.current_group { (set_term s1 s.current_group { s1.terms s.current_group with read_in_progress := 1 }).terms s.current_group with newline_seen := 0 }) env1 with
      | none => rw [hw2] at hr; exact absurd hr (by simp)
      | some y =>
        obtain ⟨s4, env2⟩ := y
        rw [hw2] at hr
        simp only [Option.some.injEq, Prod.mk.injEq] at hr
        have i4 := term_inv_wait s0 _ env1 _ s4 env2 i3 hw2
        rw [← hr.2]
        refine ⟨?_, fun _ => by simp [set_term, upd]⟩
        refine term_inv_set_le s0 _ _ _ ?_ ?_ ?_
        · refine term_inv_set_le s0 _ _ _ ?_ ?_ ?_
          · exact term_inv_of_terms s0 s4 _ i4 rfl rfl
          · exact Nat.zero_le _
          · rfl
        · exact le_refl _
        · rfl

theorem term_init_inv (s0 : Kernel) : term_inv s0 (term_init s0) := by
  refine ⟨?_, ?_, ?_⟩
  · show (0 : Nat) < 3
    decide
  · intro g hg
    simp [term_init, MAX_PROCESS_GROUPS, hg]
  · intro g i _
    simp only [term_init]
    split_ifs <;> rfl

theorem term_reach_inv (s0 s : Kernel) (h : TermReach s0 s) : term_inv s0 s := by
  induction h with
  | init => exact term_init_inv s0
  | key s c _ ih => exact term_inv_add_char s0 s c ih
  | switch s cursor g _ ih => exact term_inv_switch s0 s cursor g ih
  | read s s' fd buf nbytes r env _ hr ih => exact (term_read_inv s0 s s' fd buf nbytes r env ih hr).1

/-- C15 (amended): in every state reachable from `term_init` by key events,
terminal switches and `term_read` calls, each group's `term_buff_size` is at
most 128 and no byte of `term_buff` at index 128 or above has been written;
immediately after a `term_read` with a non-NULL buffer returns, the calling
group's `term_buff_size` is 0. -/
theorem C15_line_buffer (s0 s : Kernel) (h : TermReach s0 s) :
    (∀ g, g < 3 → (s.terms g).term_buff_size ≤ 128) ∧
    (∀ g i, 128 ≤ i → (s.terms g).term_buff i = (s0.terms g).term_buff i) ∧
    (∀ (fd : Int) (buf : Nat) (nbytes r : Int) (env : List Irq) (s' : Kernel), buf ≠ 0 →
      term_read s fd buf nbytes env = some (r, s') →
      (s'.terms s.current_group).term_buff_size = 0) := by
  have hi := term_reach_inv s0 s h
  refine ⟨hi.2.1, hi.2.2, ?_⟩
  intro fd buf nbytes r env s' hb hr
  exact (term_read_inv s0 s s' fd buf nbytes r env hi hr).2 hb

/-- C15 witness: the state right after `term_init`. -/
theorem C15_line_buffer_witness :
    TermReach (reset_state demo_fs (fun _ => 0) (fun _ => pcb_zero)) demo_term ∧
    ((∀ g, g < 3 → (demo_term.terms g).term_buff_size ≤ 128) ∧
    (∀ g i, 128 ≤ i → (demo_term.terms g).term_buff i =
      ((reset_state demo_fs (fun _ => 0) (fun _ => pcb_zero)).terms g).term_buff i) ∧
    (∀ (fd : Int) (buf : Nat) (nbytes r : Int) (env : List Irq) (s' : Kernel), buf ≠ 0 →
      term_read demo_term fd buf nbytes env = some (r, s') →
      (s'.terms demo_term.current_group).term_buff_size = 0)) :=
  ⟨TermReach.init, C15_line_buffer _ demo_term TermReach.init⟩

/-- C15 (as stated, refuted): after `term_init` the key 'a' is typed; the state
is reachable and the line buffer of group 0 holds one byte. `term_read` with a
NULL buffer returns (-1) and the calling group's `term_buff_size` is still 1,
not 0. -/
theorem C15_line_buffer_counterexample :
    TermReach (reset_state demo_fs (fun _ => 0) (fun _ => pcb_zero))
      (add_char_term demo_term 97).2 ∧
    (add_char_term demo_term 97).2.current_group = 0 ∧
    (term_read (add_char_term demo_term 97).2 0 0 128 []).map Prod.fst = some (-1) ∧
    (term_read (add_char_term demo_term 97).2 0 0 128 []).map
      (fun r => (r.2.terms 0).term_buff_size) = some 1 := by
  refine ⟨TermReach.key _ 97 TermReach.init, by decide, by decide, by decide⟩

/-! ### Typing a line -/

theorem add_char_printable (s : Kernel) (c : Nat) (hp : printable c)
    (hk : (s.terms s.visible_group).term_buff_size < 127) :
    (add_char_term s c).2.visible_group = s.visible_group ∧
    (add_char_term s c).2.current_group = s.current_group ∧
    (add_char_term s c).2.mem = s.mem ∧
    ((add_char_term s c).2.terms s.visible_group).newline_seen =
      (s.terms s.visible_group).newline_seen ∧
    ((add_char_term s c).2.terms s.visible_group).read_in_progress =
      (s.terms s.visible_group).read_in_progress ∧
    ((add_char_term s c).2.terms s.visible_group).term_buff_size =
      (s.terms s.visible_group).term_buff_size + 1 ∧
    ((add_char_term s c).2.terms s.visible_group).term_buff =
      upd (s.terms s.visible_group).term_buff (s.terms s.visible_group).term_buff_size c := by
  obtain ⟨h8, h9, h10⟩ := hp
  have h1 : (s.terms s.visible_group).term_buff_size < 128 := by omega
  have h2 : ¬ ((s.terms s.visible_group).term_buff_size = 128 - 1 ∧ c ≠ 10) := by omega
  simp only [add_char_term, if_neg h8, __add_char_to_term, TERM_BUFFER_SIZE, if_pos h1, if_neg h2,
    if_neg h9, if_neg h10]
  have hc8 : ¬ (c = 8) := h8
  simp [__print_char, hc8, set_term, upd]

theorem add_char_dropped (s : Kernel) (c : Nat) (hp : printable c)
    (hk : (s.terms s.visible_group).term_buff_size = 127) :
    (add_char_term s c).2 = s := by
  obtain ⟨h8, h9, h10⟩ := hp
  have h1 : (s.terms s.visible_group).term_buff_size < 128 := by omega
  have h2 : (s.terms s.visible_group).term_buff_size = 128 - 1 ∧ c ≠ 10 := ⟨by omega, h10⟩
  simp only [add_char_term, if_neg h8, __add_char_to_term, TERM_BUFFER_SIZE, if_pos h1, if_pos h2]

theorem add_char_enter (s : Kernel) (hk : (s.terms s.visible_group).term_buff_size ≤ 127)
    (hr : (s.terms s.visible_group).read_in_progress ≠ 0) :
    (add_char_term s 10).2.visible_group = s.visible_group ∧
    (add_char_term s 10).2.current_group = s.current_group ∧
    (add_char_term s 10).2.mem = s.mem ∧
    ((add_char_term s 10).2.terms s.visible_group).newline_seen = 1 ∧
    ((add_char_term s 10).2.terms s.visible_group).read_in_progress =
      (s.terms s.visible_group).read_in_progress ∧
    ((add_char_term s 10).2.terms s.visible_group).term_buff_size =
      (s.terms s.visible_group).term_buff_size + 1 ∧
    ((add_char_term s 10).2.terms s.visible_group).term_buff =
      upd (s.terms s.visible_group).term_buff (s.terms s.visible_group).term_buff_size 10 := by
  have h1 : (s.terms s.visible_group).term_buff_size < 128 := by omega
  have h2 : ¬ ((s.terms s.visible_group).term_buff_size = 128 - 1 ∧ (10 : Nat) ≠ 10) := by
    intro h; exact h.2 rfl
  have h8 : ¬ ((10 : Nat) = 8) := by decide
  have h9 : ¬ ((10 : Nat) = 9) := by decide
  simp only [add_char_term, if_neg h8, __add_char_to_term, TERM_BUFFER_SIZE, if_pos h1, if_neg h2,
    if_neg h9, if_true]
  simp [__print_char, set_term, upd, hr]

theorem wait_until_now (cond : Kernel → Bool) (s : Kernel) (env : List Irq)
    (h : cond s = true) : wait_until cond s env = some (s, env) := by
  cases env with
  | nil => simp [wait_until, h]
  | cons e tl => simp [wait_until, h]

theorem wait_typed (g : Nat) :
    ∀ (typed : List Nat) (s : Kernel) (k : Nat), (∀ c, c ∈ typed → printable c) →
      s.visible_group = g → (s.terms g).newline_seen = 0 → (s.terms g).read_in_progress ≠ 0 →
      (s.terms g).term_buff_size = k → k ≤ 127 →
      ∃ s', wait_until (fun x => (x.terms g).newline_seen != 0) s
          (typed.map Irq.kbd ++ [Irq.kbd 10]) = some (s', []) ∧
        (s'.terms g).term_buff_size = min 127 (k + typed.length) + 1 ∧
        (∀ i, i < k → (s'.terms g).term_buff i = (s.terms g).term_buff i) ∧
        (∀ i, i < min 127 (k + typed.length) - k →
          (s'.terms g).term_buff (k + i) = typed.getD i 0) ∧
        (s'.terms g).term_buff (min 127 (k + typed.length)) = 10 ∧
        s'.mem = s.mem ∧ s'.current_group = s.current_group := by
  intro typed
  induction typed with
  | nil =>
    intro s k _ hv hn hr hk hk127
    subst hv
    have hc : ¬ (((s.terms s.visible_group).newline_seen != 0) = true) := by rw [hn]; decide
    obtain ⟨e1, e2, e3, e4, e5, e6, e7⟩ := add_char_enter s (by omega) hr
    refine ⟨(add_char_term s 10).2, ?_, ?_, ?_, ?_, ?_, e3, e2⟩
    · simp only [List.map_nil, List.nil_append]
      rw [wait_until]
      simp only [if_neg hc, deliver]
      rw [wait_until]
      rw [if_pos (by rw [e4]; decide)]
    · rw [e6, hk]; simp; omega
    · intro i hi
      rw [e7, upd_other _ _ _ _ (by omega)]
    · intro i hi
      simp at hi
    · rw [e7]
      simp only [List.length_nil, Nat.add_zero]
      rw [show min 127 k = k by omega, ← hk]
      exact upd_same _ _ _
  | cons c rest ih =>
    intro s k hp hv hn hr hk hk127
    subst hv
    have hc : ¬ (((s.terms s.visible_group).newline_seen != 0) = true) := by rw [hn]; decide
    have hpc : printable c := hp c (List.mem_cons_self _ _)
    have hprest : ∀ c', c' ∈ rest → printable c' := fun c' h => hp c' (List.mem_cons_of_mem _ h)
    simp only [List.map_cons, List.cons_append, List.length_cons]
    rw [wait_until]
    simp only [if_neg hc, deliver]
    by_cases hfull : k = 127
    · have hd := add_char_dropped s c hpc (by rw [hk, hfull])
      rw [hd]
      obtain ⟨s', w, a1, a2, a3, a4, a5, a6⟩ := ih s k hprest rfl hn hr hk hk127
      refine ⟨s', w, ?_, a2, ?_, ?_, a5, a6⟩
      · rw [a1]; omega
      · intro i hi; omega
      · rw [show min 127 (k + (rest.length + 1)) = min 127 (k + rest.length) by omega]
        exact a4
    · obtain ⟨e1, e2, e3, e4, e5, e6, e7⟩ := add_char_printable s c hpc (by omega)
      obtain ⟨s', w, a1, a2, a3, a4, a5, a6⟩ := ih (add_char_term s c).2 (k + 1) hprest e1
        (by rw [e4]; exact hn) (by rw [e5]; exact hr) (by rw [e6, hk]) (by omega)
      refine ⟨s', w, ?_, ?_, ?_, ?_, by rw [a5, e3], by rw [a6, e2]⟩
      · rw [a1]; omega
      · intro i hi
        rw [a2 i (by omega), e7, upd_other _ _ _ _ (by omega)]
      · intro i hi
        cases i with
        | zero =>
          rw [Nat.add_zero, a2 k (by omega), e7, ← hk]
          simp [upd]
        | succ j =>
          have := a3 j (by omega)
          rw [show k + 1 + j = k + (j + 1) by omega] at this
          rw [this]
          simp
      · rw [show min 127 (k + (rest.length + 1)) = min 127 (k + 1 + rest.length) by omega]
        exact a4

theorem term_read_line (s : Kernel) (fd : Int) (buf : Nat) (nbytes : Int) (typed : List Nat)
    (hb : buf ≠ 0) (hbuf : buf + 128 ≤ 4294967296) (hcur : s.current_group = s.visible_group)
    (hrip : (s.terms s.current_group).read_in_progress = 0)
    (hsz : (s.terms s.current_group).term_buff_size = 0)
    (hn : 128 ≤ nbytes) (hn2 : nbytes < 2147483648) (hp : ∀ c, c ∈ typed → printable c) :
    ∃ s', term_read s fd buf nbytes (typed.map Irq.kbd ++ [Irq.kbd 10]) =
        some (((min 127 typed.length + 1 : Nat) : Int), s') ∧
      (∀ i, i < min 127 typed.length → s'.mem (buf + i) = typed.getD i 0) ∧
      s'.mem (buf + min 127 typed.length) = 10 ∧
      (∀ a, (a < buf ∨ buf + (min 127 typed.length + 1) ≤ a) → s'.mem a = s.mem a) := by
  have hc1 : ((s.terms s.current_group).read_in_progress == 0) = true := by rw [hrip]; rfl
  obtain ⟨s4, w, a1, a2, a3, a4, a5, a6⟩ := wait_typed s.current_group typed
    (set_term (set_term s s.current_group { s.terms s.current_group with read_in_progress := 1 }) s.current_group { (set_term s s.current_group { s.terms s.current_group with read_in_progress := 1 }).terms s.current_group with newline_seen := 0 })
    0 hp hcur.symm (by simp [set_term, upd]) (by simp [set_term, upd])
    (by simpa [set_term, upd] using hsz) (by omega)
  simp only [Nat.zero_add, Nat.sub_zero] at a1 a3 a4
  generalize hM : min 127 typed.length = M at a1 a3 a4 ⊢
  have hM127 : M ≤ 127 := by omega
  have hu : u32 nbytes = nbytes.toNat := by unfold u32; omega
  have hlt : ¬ (u32 nbytes < M + 1) := by rw [hu]; omega
  have hs32 : s32 (M + 1) = ((M + 1 : Nat) : Int) := by
    unfold s32
    rw [Nat.mod_eq_of_lt (by omega), if_pos (by omega)]
  have hu2 : u32 ((M + 1 : Nat) : Int) = M + 1 := u32_nat _ (by omega)
  have hmem4 : s4.mem = s.mem := by rw [a5]; rfl
  have hlen : ((List.range (M + 1)).map (s4.terms s.current_group).term_buff).length = M + 1 := by
    simp
  have hres : ∃ s', term_read s fd buf nbytes (typed.map Irq.kbd ++ [Irq.kbd 10]) =
      some (((M + 1 : Nat) : Int), s') ∧
      s'.mem = store_bytes s4.mem buf
        ((List.range (M + 1)).map (s4.terms s.current_group).term_buff) := by
    unfold term_read
    rw [if_neg hb]
    simp only [get_current_group]
    rw [wait_until_now _ s _ hc1]
    simp only
    rw [w]
    simp only [a1, if_neg hlt, hs32, hu2]
    exact ⟨_, rfl, rfl⟩
  obtain ⟨s', e, hmem⟩ := hres
  refine ⟨s', e, ?_, ?_, ?_⟩
  · intro i hi
    rw [hmem, store_bytes_get _ _ _ _ (by rw [hlen]; omega) (by rw [hlen]; omega),
      getD_map_range _ _ _ (by omega)]
    exact a3 i hi
  · rw [hmem, store_bytes_get _ _ _ _ (by rw [hlen]; omega) (by rw [hlen]; omega),
      getD_map_range _ _ _ (by omega)]
    exact a4
  · intro a ha
    rw [hmem, store_bytes_outside _ _ _ _ (by rw [hlen]; omega) (by rw [hlen]; exact ha), hmem4]

/-- C16: with the calling group visible, no read in progress and its line
buffer empty, `term_read` with `nbytes >= 128` during which `m >= 127`
printable characters and then Enter are typed returns 128 and the buffer holds
the first 127 typed characters followed by a newline (nothing typed after the
127th character reaches it); with Enter alone it returns 1 and the buffer holds
the newline. -/
theorem C16_line_overflow (s : Kernel) (fd : Int) (buf : Nat) (nbytes : Int)
    (hb : buf ≠ 0) (hbuf : buf + 128 ≤ 4294967296) (hcur : s.current_group = s.visible_group)
    (hrip : (s.terms s.current_group).read_in_progress = 0)
    (hsz : (s.terms s.current_group).term_buff_size = 0)
    (hn : 128 ≤ nbytes) (hn2 : nbytes < 2147483648) :
    (∀ typed : List Nat, (∀ c, c ∈ typed → printable c) → 127 ≤ typed.length →
      ∃ s', term_read s fd buf nbytes (typed.map Irq.kbd ++ [Irq.kbd 10]) = some (128, s') ∧
        (∀ i, i < 127 → s'.mem (buf + i) = typed.getD i 0) ∧ s'.mem (buf + 127) = 10 ∧
        (∀ a, (a < buf ∨ buf + 128 ≤ a) → s'.mem a = s.mem a)) ∧
    (∃ s', term_read s fd buf nbytes [Irq.kbd 10] = some (1, s') ∧ s'.mem buf = 10 ∧
      (∀ a, (a < buf ∨ buf + 1 ≤ a) → s'.mem a = s.mem a)) := by
  refine ⟨?_, ?_⟩
  · intro typed hp hlen
    obtain ⟨s', e, m1, m2, m3⟩ := term_read_line s fd buf nbytes typed hb hbuf hcur hrip hsz hn
      hn2 hp
    have hM : min 127 typed.length = 127 := by omega
    rw [hM] at e m1 m2 m3
    exact ⟨s', e, m1, m2, m3⟩
  · obtain ⟨s', e, _, m2, m3⟩ := term_read_line s fd buf nbytes [] hb hbuf hcur hrip hsz hn hn2
      (by intro c hc; simp at hc)
    exact ⟨s', e, m2, m3⟩

set_option maxRecDepth 100000 in
/-- C16 witness: 129 characters and Enter typed into the state `term_init`
leaves; the read returns 128 and the buffer ends with 'P' and the newline. -/
theorem C16_line_overflow_witness :
    (demo_term.current_group = demo_term.visible_group ∧
      (demo_term.terms demo_term.current_group).read_in_progress = 0 ∧
      (demo_term.terms demo_term.current_group).term_buff_size = 0 ∧
      (∀ c, c ∈ demo_line → printable c) ∧ 127 ≤ demo_line.length) ∧
    (∃ s', term_read demo_term 0 0x08000100 128 (demo_line.map Irq.kbd ++ [Irq.kbd 10]) =
        some (128, s') ∧
      (∀ i, i < 127 → s'.mem (0x08000100 + i) = demo_line.getD i 0) ∧
      s'.mem (0x08000100 + 127) = 10 ∧
      (∀ a, (a < 0x08000100 ∨ 0x08000100 + 128 ≤ a) → s'.mem a = demo_term.mem a)) :=
  ⟨⟨by decide, by decide, by decide, by decide, by decide⟩,
   (C16_line_overflow demo_term 0 0x08000100 128 (by decide) (by decide) (by decide) (by decide)
     (by decide) (by decide) (by decide)).1 demo_line (by decide) (by decide)⟩

/-! ### Terminal write followed by read -/

theorem term_write_loop_terms (page buf : Nat) :
    ∀ (n i : Nat) (s : Kernel), (term_write_loop page buf n i s).terms = s.terms ∧
      (term_write_loop page buf n i s).current_group = s.current_group ∧
      (term_write_loop page buf n i s).visible_group = s.visible_group ∧
      (term_write_loop page buf n i s).mem = s.mem := by
  intro n
  induction n with
  | zero => intro i s; exact ⟨rfl, rfl, rfl, rfl⟩
  | succ m ih =>
    intro i s
    unfold term_write_loop
    obtain ⟨a, b, c, d⟩ := ih (i + 1) (__print_char s page (s.mem (buf + i)))
    have hp : (__print_char s page (s.mem (buf + i))).terms = s.terms ∧
        (__print_char s page (s.mem (buf + i))).current_group = s.current_group ∧
        (__print_char s page (s.mem (buf + i))).visible_group = s.visible_group ∧
        (__print_char s page (s.mem (buf + i))).mem = s.mem := by
      unfold __print_char
      split_ifs <;> exact ⟨rfl, rfl, rfl, rfl⟩
    exact ⟨by rw [a, hp.1], by rw [b, hp.2.1], by rw [c, hp.2.2.1], by rw [d, hp.2.2.2]⟩

theorem wait_until_rest (cond : Kernel → Bool) :
    ∀ (env : List Irq) (s s' : Kernel) (rest : List Irq),
      wait_until cond s env = some (s', rest) → ∀ e, e ∈ rest → e ∈ env := by
  intro env
  induction env with
  | nil =>
    intro s s' rest hw e he
    unfold wait_until at hw
    split_ifs at hw
    simp only [Option.some.injEq, Prod.mk.injEq] at hw
    rw [← hw.2] at he
    exact he
  | cons x tl ih =>
    intro s s' rest hw e he
    unfold wait_until at hw
    split_ifs at hw
    · simp only [Option.some.injEq, Prod.mk.injEq] at hw
      rw [← hw.2] at he
      exact he
    · cases hd : deliver s x with
      | none => rw [hd] at hw; exact absurd hw (by simp)
      | some s1 =>
        rw [hd] at hw
        exact List.mem_cons_of_mem _ (ih s1 s' rest hw e he)

theorem wait_newline_blocked (g : Nat) :
    ∀ (env : List Irq) (s : Kernel), (∀ e, e ∈ env → e = Irq.rtc) →
      (s.terms g).newline_seen = 0 →
      wait_until (fun k => (k.terms g).newline_seen != 0) s env = none := by
  intro env
  induction env with
  | nil =>
    intro s _ hn
    simp [wait_until, hn]
  | cons x tl ih =>
    intro s henv hn
    have hx : x = Irq.rtc := henv x (List.mem_cons_self _ _)
    subst hx
    have hc : ¬ (((s.terms g).newline_seen != 0) = true) := by rw [hn]; decide
    rw [wait_until]
    simp only [if_neg hc, deliver]
    cases hw : rtc_wrapper s with
    | none => rfl
    | some s1 =>
      simp only
      obtain ⟨a, _, _, _⟩ := rtc_wrapper_terms s s1 hw
      exact ih s1 (fun e he => henv e (List.mem_cons_of_mem _ he)) (by rw [a]; exact hn)

theorem term_read_blocked (s : Kernel) (fd : Int) (buf : Nat) (nbytes : Int) (env : List Irq)
    (hb : buf ≠ 0) (henv : ∀ e, e ∈ env → e = Irq.rtc) :
    term_read s fd buf nbytes env = none := by
  unfold term_read
  rw [if_neg hb]
  simp only [get_current_group]
  cases hw1 : wait_until (fun k => (k.terms s.current_group).read_in_progress == 0) s env with
  | none => rfl
  | some x =>
    obtain ⟨s1, env1⟩ := x
    simp only
    have hsub := wait_until_rest _ env s s1 env1 hw1
    rw [wait_newline_blocked s.current_group env1 _ (fun e he => henv e (hsub e he))
      (by simp [set_term, upd])]

/-- C17 (amended): `term_write(buf, n)` with a non-NULL buffer returns `n` (0
for a negative `n`) and changes no line buffer (contents, length, newline flag
and read flag of every group); a `term_read` that follows it, with a non-NULL
buffer and no keyboard input arriving (RTC interrupts only), does not return,
whatever was written. -/
theorem C17_write_then_read (s : Kernel) (fd : Int) (buf : Nat) (n : Int) (fd' : Int)
    (buf' : Nat) (n' : Int) (env : List Irq) (hb : buf ≠ 0) (hb' : buf' ≠ 0)
    (henv : ∀ e, e ∈ env → e = Irq.rtc) :
    ∃ s1, term_write s fd buf n = some (((n.toNat : Nat) : Int), s1) ∧
      (∀ g, (s1.terms g).term_buff = (s.terms g).term_buff ∧
        (s1.terms g).term_buff_size = (s.terms g).term_buff_size ∧
        (s1.terms g).newline_seen = (s.terms g).newline_seen ∧
        (s1.terms g).read_in_progress = (s.terms g).read_in_progress) ∧
      s1.current_group = s.current_group ∧ term_read s1 fd' buf' n' env = none := by
  have hw : ∃ s1, term_write s fd buf n = some (((n.toNat : Nat) : Int), s1) ∧
      s1.terms = s.terms ∧ s1.current_group = s.current_group := by
    unfold term_write
    rw [if_neg hb]
    exact ⟨_, rfl, (term_write_loop_terms _ _ _ _ _).1, (term_write_loop_terms _ _ _ _ _).2.1⟩
  obtain ⟨s1, h1, h2, h3⟩ := hw
  exact ⟨s1, h1, fun g => by rw [h2]; exact ⟨rfl, rfl, rfl, rfl⟩, h3,
    term_read_blocked s1 fd' buf' n' env hb' henv⟩

/-- C17 witness: one byte written in the booted state, then a read during which
two RTC interrupts and no key arrive. -/
theorem C17_write_then_read_witness :
    ((0x400000 : Nat) ≠ 0 ∧ (0x08000100 : Nat) ≠ 0 ∧
      ∀ e, e ∈ [Irq.rtc, Irq.rtc] → e = Irq.rtc) ∧
    ∃ s1, term_write demo_boot 1 0x400000 1 = some ((((1 : Int).toNat : Nat) : Int), s1) ∧
      (∀ g, (s1.terms g).term_buff = (demo_boot.terms g).term_buff ∧
        (s1.terms g).term_buff_size = (demo_boot.terms g).term_buff_size ∧
        (s1.terms g).newline_seen = (demo_boot.terms g).newline_seen ∧
        (s1.terms g).read_in_progress = (demo_boot.terms g).read_in_progress) ∧
      s1.current_group = demo_boot.current_group ∧
      term_read s1 0 0x08000100 1 [Irq.rtc, Irq.rtc] = none :=
  ⟨⟨by decide, by decide, by decide⟩,
   C17_write_then_read demo_boot 1 0x400000 1 0 0x08000100 1 [Irq.rtc, Irq.rtc] (by decide)
     (by decide) (by decide)⟩

set_option maxRecDepth 100000 in
/-- C17 (as stated, refuted): in the booted state `term_write` of one byte
returns 1, and the `term_read` of one byte that follows, with no keyboard input
arriving, does not return: the claim's "returns n" fails. -/
theorem C17_write_then_read_counterexample :
    (term_write demo_boot 1 0x400000 1).map Prod.fst = some 1 ∧
    ((term_write demo_boot 1 0x400000 1).bind
      (fun r => term_read r.2 0 0x08000100 1 [])).map Prod.fst = none := by
  refine ⟨by decide, by decide⟩

/-! ### The page tables across execute, halt, vidmap and the scheduler -/

theorem execute_save_args_tree (s : Kernel) (c : Nat) (command : List Nat) :
    (execute_save_args s c command).page_directory = s.page_directory ∧
    (execute_save_args s c command).page_table_0 = s.page_table_0 ∧
    (execute_save_args s c command).pid_array = s.pid_array ∧
    (execute_save_args s c command).active_pid = s.active_pid ∧
    (execute_save_args s c command).current_group = s.current_group ∧
    (∀ q, ((execute_save_args s c command).pcbs q).pid = (s.pcbs q).pid ∧
      ((execute_save_args s c command).pcbs q).parent_pid = (s.pcbs q).parent_pid ∧
      ((execute_save_args s c command).pcbs q).vid_map_called = (s.pcbs q).vid_map_called) := by
  refine ⟨rfl, rfl, rfl, rfl, rfl, ?_⟩
  intro q
  unfold execute_save_args
  by_cases hq : q = c <;> simp [set_pcb, upd, hq]

theorem system_execute_effect (s s' : Kernel) (ptr : Nat) (command : List Nat) (esp ebp : Nat)
    (h : system_execute s ptr command esp ebp = some (exec_result.child_running, s')) :
    ∃ c a, c < 7 ∧ s.pid_array c = false ∧ get_current_pcb s = some a ∧
      s'.current_group = s.current_group ∧
      s'.active_pid = upd s.active_pid s.current_group (c : Int) ∧
      s'.pid_array = upd s.pid_array c true ∧
      (s'.pcbs c).pid = (c : Int) ∧ (s'.pcbs c).parent_pid = s.active_pid s.current_group ∧
      (s'.pcbs c).vid_map_called = 0 ∧
      (∀ q, q ≠ c → (s'.pcbs q).pid = (s.pcbs q).pid ∧
        (s'.pcbs q).parent_pid = (s.pcbs q).parent_pid ∧
        (s'.pcbs q).vid_map_called = (s.pcbs q).vid_map_called) ∧
      s'.page_directory 32 = prog_entry (get_prog_phys_addr (c : Int)) ∧
      s'.page_table_0 = s.page_table_0 := by
  unfold system_execute at h
  by_cases hptr : ptr = 0
  · rw [if_pos hptr] at h
    simp at h
  · rw [if_neg hptr] at h
    simp only at h
    cases hsetup : pcb_setup s (get_new_pid s) with
    | none => rw [hsetup] at h; exact absurd h (by simp)
    | some x =>
      obtain ⟨oc, s1⟩ := x
      rw [hsetup] at h
      cases oc with
      | none => simp at h
      | some c =>
        obtain ⟨hslot, hs1⟩ := pcb_setup_inv s s1 _ c hsetup
        obtain ⟨_, _, hcc, hc7⟩ := pid_slot_some _ _ hslot
        have hfree := get_new_pid_free s c hslot
        simp only at h
        obtain ⟨e1, e2, e3, e4, e5, e6⟩ := execute_save_args_tree s1 c command
        generalize hsa : execute_save_args s1 c command = sa at h e1 e2 e3 e4 e5 e6
        have a1 : s1.active_pid = upd s.active_pid s.current_group (get_new_pid s) := by
          rw [hs1]
        have g1 : s1.current_group = s.current_group := by rw [hs1]
        have l1 : s1.pid_array = upd s.pid_array c true := by rw [hs1]
        have t1 : s1.page_table_0 = s.page_table_0 := by rw [hs1]
        generalize hs3 : map_page sa PROG_VIRT_ADDR (get_prog_phys_addr (sa.pcbs c).pid) 1 1 1 = s3 at h
        rw [map_page_prog] at hs3
        have a3 : s3.active_pid = upd s.active_pid s.current_group (get_new_pid s) := by
          rw [← hs3]; show sa.active_pid = _; rw [e4, a1]
        have g3 : s3.current_group = s.current_group := by
          rw [← hs3]; show sa.current_group = _; rw [e5, g1]
        have l3 : s3.pid_array = upd s.pid_array c true := by
          rw [← hs3]; show sa.pid_array = _; rw [e3, l1]
        have t3 : s3.page_table_0 = s.page_table_0 := by
          rw [← hs3]; show sa.page_table_0 = _; rw [e2, t1]
        have k3 : ∀ q, (s3.pcbs q).pid = (s1.pcbs q).pid ∧
            (s3.pcbs q).parent_pid = (s1.pcbs q).parent_pid ∧
            (s3.pcbs q).vid_map_called = (s1.pcbs q).vid_map_called := by
          intro q; rw [← hs3]; exact e6 q
        have hpidc : (s1.pcbs c).pid = (c : Int) := by
          rw [hs1]; simp [upd, fresh_pcb, hcc]
        have d3 : s3.page_directory 32 = prog_entry (get_prog_phys_addr (c : Int)) := by
          have hh : (sa.pcbs c).pid = (c : Int) := by rw [(e6 c).1, hpidc]
          rw [← hs3, hh]
          exact upd_same sa.page_directory 32 _
        have hp3 : get_current_pcb s3 = some c := by
          apply get_current_pcb_eq _ _ hc7
          · rw [a3, g3, hcc]; simp [upd]
          · rw [l3]; simp [upd]
        cases hl : __load_program s3 (execute_filename command).2 with
        | none => rw [hl] at h; exact absurd h (by simp)
        | some y =>
          obtain ⟨eip, s4⟩ := y
          rw [hl] at h
          have f4 := load_program_frame s3 s4 c _ eip hp3 hl
          obtain ⟨d4, t4, l4, a4, g4, _, _, _, _, _, _, p4, T, c4⟩ := f4
          simp only at h
          by_cases hfail : u32 eip = u32 FAILURE
          · rw [if_pos hfail] at h
            cases hpp : get_current_pcb s with
            | none => rw [hpp] at h; exact absurd h (by simp)
            | some P =>
              rw [hpp] at h
              simp only at h
              cases ht : pcb_teardown (map_page s4 PROG_VIRT_ADDR
                  (get_prog_phys_addr (s4.pcbs P).pid) 1 1 1) with
              | none => rw [ht] at h; exact absurd h (by simp)
              | some s6 => rw [ht] at h; simp at h
          · rw [if_neg hfail] at h
            cases hpp : get_current_pcb s with
            | none => rw [hpp] at h; exact absurd h (by simp)
            | some P =>
              rw [hpp] at h
              obtain ⟨_, _, hPl⟩ := get_current_pcb_some s P hpp
              have hPc : P ≠ c := by
                intro e; rw [e] at hPl; rw [hPl] at hfree; exact absurd hfree (by simp)
              have hcP : c ≠ P := fun e => hPc e.symm
              simp only [Option.some.injEq, Prod.mk.injEq, true_and] at h
              subst h
              have hk1 : (s1.pcbs c).parent_pid = s.active_pid s.current_group := by
                rw [hs1]; simp [upd, fresh_pcb]
              have hk2 : (s1.pcbs c).vid_map_called = 0 := by
                rw [hs1]; simp [upd, fresh_pcb, pcb_zero]
              have hk3 : ∀ q, q ≠ c → s1.pcbs q = s.pcbs q := by
                intro q hq; rw [hs1]; simp [upd, hq]
              refine ⟨c, P, hc7, hfree, rfl, ?_, ?_, ?_, ?_, ?_, ?_, ?_, ?_, ?_⟩
              · show s4.current_group = _
                rw [g4, g3]
              · show s4.active_pid = _
                rw [a4, a3, hcc]
              · show s4.pid_array = _
                rw [l4, l3]
              · simp only [set_pcb_set_pcb, set_pcb_pcbs_other _ _ _ _ hcP, set_pcb_pcbs_same]
                show (s4.pcbs c).pid = _
                rw [c4]
                show (s3.pcbs c).pid = _
                rw [(k3 c).1, hpidc]
              · simp only [set_pcb_set_pcb, set_pcb_pcbs_other _ _ _ _ hcP, set_pcb_pcbs_same]
                show (s4.pcbs c).parent_pid = _
                rw [c4]
                show (s3.pcbs c).parent_pid = _
                rw [(k3 c).2.1, hk1]
              · simp only [set_pcb_set_pcb, set_pcb_pcbs_other _ _ _ _ hcP, set_pcb_pcbs_same]
                show (s4.pcbs c).vid_map_called = _
                rw [c4]
                show (s3.pcbs c).vid_map_called = _
                rw [(k3 c).2.2, hk2]
              · intro q hq
                have hq4 : (s4.pcbs q).pid = (s.pcbs q).pid ∧
                    (s4.pcbs q).parent_pid = (s.pcbs q).parent_pid ∧
                    (s4.pcbs q).vid_map_called = (s.pcbs q).vid_map_called := by
                  rw [p4 q hq, (k3 q).1, (k3 q).2.1, (k3 q).2.2, hk3 q hq]
                  exact ⟨rfl, rfl, rfl⟩
                by_cases hqP : q = P
                · subst hqP
                  simp only [set_pcb_set_pcb, set_pcb_pcbs_same]
                  simp only [set_pcb_pcbs_other _ _ _ _ hPc]
                  exact hq4
                · simp only [set_pcb_set_pcb, set_pcb_pcbs_other _ _ _ _ hqP]
                  simp only [set_pcb_pcbs_other _ _ _ _ hq]
                  exact hq4
              · show s4.page_directory 32 = _
                rw [d4, d3]
              · show s4.page_table_0 = _
                rw [t4, t3]

theorem video_entry_present (phys : Nat) : entry_present (video_entry phys) = true := by
  unfold entry_present video_entry PDE_PRESENT
  have h : ((((phys &&& FLAG_MASK) ||| 0) ||| PDE_READ_WRITE) ||| PDE_USER_SUPERVISOR ||| 1) &&& 1
      = 1 := by
    rw [Nat.and_one_is_mod]
    have := Nat.testBit_or ((((phys &&& FLAG_MASK) ||| 0) ||| PDE_READ_WRITE) |||
      PDE_USER_SUPERVISOR) 1 0
    rw [Nat.testBit_zero, Nat.testBit_zero, Nat.testBit_zero] at this
    simp
  rw [h]
  decide

theorem system_halt_effect (s s' : Kernel) (status : Nat) (r : Int)
    (h : system_halt s status = some (r, s')) :
    ∃ p q, get_current_pcb s = some p ∧ pid_slot (s.pcbs p).parent_pid = some q ∧
      s'.current_group = s.current_group ∧
      s'.active_pid = upd s.active_pid s.current_group (s.pcbs p).parent_pid ∧
      s'.pid_array = upd s.pid_array p false ∧
      (∀ x, x ≠ p → s'.pcbs x = s.pcbs x) ∧
      s'.page_directory 32 = prog_entry (get_prog_phys_addr (s.pcbs q).pid) ∧
      s'.page_table_0 0xB9 =
        (if (s.pcbs q).vid_map_called = 0 then 0 else s.page_table_0 0xB9) := by
  unfold system_halt at h
  cases hp : get_current_pcb s with
  | none => rw [hp] at h; exact absurd h (by simp)
  | some p =>
    rw [hp] at h
    simp only [get_pcb_addr] at h
    cases hq : pid_slot (s.pcbs p).parent_pid with
    | none => rw [hq] at h; exact absurd h (by simp)
    | some q =>
      rw [hq] at h
      simp only at h
      unfold execute_return at h
      simp only at h
      generalize hs1 : map_page s PROG_VIRT_ADDR (get_prog_phys_addr (s.pcbs q).pid) 1 1 1 = s1 at h
      rw [map_page_prog] at hs1
      have b1 : s1.pcbs = s.pcbs := by rw [← hs1]
      have b2 : s1.page_directory 32 = prog_entry (get_prog_phys_addr (s.pcbs q).pid) := by
        rw [← hs1]; exact upd_same s.page_directory 32 _
      have b3 : s1.page_table_0 = s.page_table_0 := by rw [← hs1]
      have b4 : s1.active_pid = s.active_pid := by rw [← hs1]
      have b5 : s1.pid_array = s.pid_array := by rw [← hs1]
      have b6 : s1.current_group = s.current_group := by rw [← hs1]
      generalize hs2 : (if (s1.pcbs q).vid_map_called = 0 then unmap_page s1 VIDEO_USER 0
        else s1) = s2 at h
      have c1 : s2.pcbs = s.pcbs ∧ s2.page_directory 32 =
          prog_entry (get_prog_phys_addr (s.pcbs q).pid) ∧ s2.active_pid = s.active_pid ∧
          s2.pid_array = s.pid_array ∧ s2.current_group = s.current_group ∧
          s2.page_table_0 0xB9 =
            (if (s.pcbs q).vid_map_called = 0 then 0 else s.page_table_0 0xB9) := by
        rw [← hs2, b1]
        by_cases hv : (s.pcbs q).vid_map_called = 0
        · rw [if_pos hv, if_pos hv, unmap_page_video]
          exact ⟨b1, b2, b4, b5, b6, upd_same s1.page_table_0 185 0⟩
        · rw [if_neg hv, if_neg hv]
          exact ⟨b1, b2, b4, b5, b6, by rw [b3]⟩
      obtain ⟨d1, d2, d3, d4, d5, d6⟩ := c1
      have hp2 : get_current_pcb s2 = some p := by
        rw [← hp]; exact get_current_pcb_congr _ _ d3 d5 d4
      cases ht : pcb_teardown s2 with
      | none => rw [ht] at h; exact absurd h (by simp)
      | some s3 =>
        rw [ht] at h
        simp only [Option.some.injEq, Prod.mk.injEq] at h
        have e := pcb_teardown_result s2 s3 p hp2 ht
        rw [← h.2, e]
        refine ⟨p, q, rfl, hq, ?_, ?_, ?_, ?_, ?_, ?_⟩
        · exact d5
        · show upd s2.active_pid s2.current_group (s2.pcbs p).parent_pid = _
          rw [d3, d5, d1]
        · show upd s2.pid_array p false = _
          rw [d4]
        · intro x hx
          show upd s2.pcbs p pcb_zero x = _
          rw [upd_other _ _ _ _ hx, d1]
        · exact d2
        · exact d6

theorem system_vidmap_effect (s s' : Kernel) (ptr : Nat) (r : Int)
    (h : system_vidmap s ptr = some (r, s')) :
    s' = s ∨ ∃ p, get_current_pcb s = some p ∧ s'.current_group = s.current_group ∧
      s'.active_pid = s.active_pid ∧ s'.pid_array = s.pid_array ∧
      s'.pcbs = upd s.pcbs p { s.pcbs p with vid_map_called := 1 } ∧
      s'.page_directory = s.page_directory ∧
      entry_present (s'.page_table_0 0xB9) = true := by
  unfold system_vidmap at h
  by_cases hv : __validate_user_ptr ptr = FAILURE
  · rw [if_pos hv] at h
    simp only [Option.some.injEq, Prod.mk.injEq] at h
    exact Or.inl h.2.symm
  · rw [if_neg hv] at h
    cases hp : get_current_pcb s with
    | none => rw [hp] at h; exact absurd h (by simp)
    | some p =>
      rw [hp] at h
      simp only at h
      split at h
      · exact absurd h (by simp)
      · rename_i s3 hs
        simp only [Option.some.injEq, Prod.mk.injEq] at h
        have e := vstore_bytes_frame _ _ _ _ hs
        refine Or.inr ⟨p, rfl, ?_⟩
        rw [← h.2, e]
        simp only [map_page_video, set_pcb, get_current_group]
        by_cases hvis : s.visible_group = s.current_group
        · simp only [hvis, if_true]
          simp [upd, video_entry_present]
        · simp only [hvis, if_false]
          simp [upd, video_entry_present]

theorem upd_tree (f : Nat → pcb_t) (o q : Nat) (x : pcb_t) (h1 : x.pid = (f o).pid)
    (h2 : x.parent_pid = (f o).parent_pid) (h3 : x.vid_map_called = (f o).vid_map_called) :
    (upd f o x q).pid = (f q).pid ∧ (upd f o x q).parent_pid = (f q).parent_pid ∧
      (upd f o x q).vid_map_called = (f q).vid_map_called := by
  by_cases e : q = o
  · subst e; rw [upd_same]; exact ⟨h1, h2, h3⟩
  · rw [upd_other _ _ _ _ e]; exact ⟨rfl, rfl, rfl⟩

theorem schedule_step (s s' : Kernel) (next o n saved esp ebp : Nat)
    (h : s' = (let s1 : Kernel := { s with current_group := next }
      let s2 := set_pcb s1 o { s1.pcbs o with tss_esp0 := saved }
      let s3 := set_pcb s2 o { s2.pcbs o with kernel_esp := esp }
      let s4 := set_pcb s3 o { s3.pcbs o with kernel_ebp := ebp }
      let s5 :=
        if (s4.pcbs n).vid_map_called ≠ 0 then
          if s4.visible_group = s4.current_group then map_page s4 VIDEO_USER VIDEO_KERNEL 1 1 0
          else map_page s4 VIDEO_USER (VIDEO_GROUP_1 + s4.current_group * PAGE_SIZE) 1 1 0
        else unmap_page s4 VIDEO_USER 0
      let s6 := map_page s5 PROG_VIRT_ADDR (get_prog_phys_addr (s5.pcbs n).pid) 1 1 1
      let s7 := { s6 with tss_ss0 := KERNEL_DS }
      { s7 with tss_esp0 := (s7.pcbs n).tss_esp0 })) :
    s'.current_group = next ∧
      s'.active_pid = s.active_pid ∧ s'.pid_array = s.pid_array ∧
      (∀ q, (s'.pcbs q).pid = (s.pcbs q).pid ∧
        (s'.pcbs q).parent_pid = (s.pcbs q).parent_pid ∧
        (s'.pcbs q).vid_map_called = (s.pcbs q).vid_map_called) ∧
      s'.page_directory 32 = prog_entry (get_prog_phys_addr (s.pcbs n).pid) ∧
      (entry_present (s'.page_table_0 0xB9) = true ↔ (s.pcbs n).vid_map_called ≠ 0) := by
  subst h
  simp only [set_pcb_set_pcb, map_page_video, map_page_prog, unmap_page_video]
  simp only [set_pcb, upd_same]
  refine ⟨?_, ?_, ?_, ?_, ?_, ?_⟩
  · split_ifs <;> rfl
  · split_ifs <;> rfl
  · split_ifs <;> rfl
  · intro q
    split_ifs <;> exact upd_tree s.pcbs o q _ rfl rfl rfl
  · split_ifs <;> refine congrArg (fun x => prog_entry (get_prog_phys_addr x))
      (upd_tree s.pcbs o n _ ?_ ?_ ?_).1 <;> rfl
  · have hv' := fun x h1 h2 h3 => (upd_tree s.pcbs o n x h1 h2 h3).2.2
    rw [hv']
    · by_cases hv : (s.pcbs n).vid_map_called = 0
      · rw [if_neg (not_not.mpr hv)]
        show entry_present (upd s.page_table_0 185 0 185) = true ↔ _
        rw [upd_same]
        constructor
        · intro h0; exact absurd h0 (by decide)
        · intro h0; exact absurd hv h0
      · rw [if_pos hv]
        simp only [hv, ne_eq, not_false_eq_true, iff_true]
        have key : ∀ e, entry_present ((upd s.page_table_0 185 (video_entry e)) 185) = true :=
          fun e => by rw [upd_same]; exact video_entry_present e
        by_cases hvis : s.visible_group = next
        · rw [if_pos hvis]; exact key _
        · rw [if_neg hvis]; exact key _
    · rfl
    · rfl
    · rfl

theorem schedule_next_effect (s s' : Kernel) (top cs esp ebp : Nat)
    (h : schedule_next s top cs esp ebp = some s') :
    ∃ n, pid_slot (s.active_pid s'.current_group) = some n ∧
      s'.current_group = (if s.current_group + 1 ≥ 3 then 0 else s.current_group + 1) ∧
      s'.active_pid = s.active_pid ∧ s'.pid_array = s.pid_array ∧
      (∀ q, (s'.pcbs q).pid = (s.pcbs q).pid ∧
        (s'.pcbs q).parent_pid = (s.pcbs q).parent_pid ∧
        (s'.pcbs q).vid_map_called = (s.pcbs q).vid_map_called) ∧
      s'.page_directory 32 = prog_entry (get_prog_phys_addr (s.pcbs n).pid) ∧
      (entry_present (s'.page_table_0 0xB9) = true ↔ (s.pcbs n).vid_map_called ≠ 0) := by
  unfold schedule_next at h
  cases ho : get_pcb_addr (s.active_pid s.current_group) with
  | none =>
    simp only [ho] at h
    exact absurd h (by simp)
  | some o =>
    cases hn : get_pcb_addr (s.active_pid (if s.current_group + 1 ≥ NUM_OF_PROCESS_GROUPS then 0
        else s.current_group + 1)) with
    | none =>
      simp only [ho, hn] at h
      exact absurd h (by simp)
    | some n =>
      simp only [ho, hn, Option.some.injEq] at h
      obtain ⟨e1, e2, e3, e4, e5, e6⟩ := schedule_step s s'
        (if s.current_group + 1 ≥ NUM_OF_PROCESS_GROUPS then 0 else s.current_group + 1) o n
        (if cs &&& CPL_MASK = CPL_3 then (top + 5 * ENTRY_SIZE) % 4294967296
          else (top + 3 * ENTRY_SIZE) % 4294967296) esp ebp h.symm
      refine ⟨n, ?_, e1, e2, e3, e4, e5, e6⟩
      rw [e1]
      exact hn

/-! ### The process tree -/

theorem tree_inv_same (s s' : Kernel) (hI : tree_inv s) (hc : s'.current_group < 3)
    (ha : s'.active_pid = s.active_pid) (hl : s'.pid_array = s.pid_array)
    (hk : ∀ q, (s'.pcbs q).pid = (s.pcbs q).pid ∧
      (s'.pcbs q).parent_pid = (s.pcbs q).parent_pid) : tree_inv s' := by
  obtain ⟨_, i2, i3, i4, i5, i6, i7⟩ := hI
  unfold tree_inv
  rw [ha, hl]
  simp only [fun q => (hk q).1, fun q => (hk q).2]
  exact ⟨hc, i2, i3, i4, i5, i6, i7⟩

theorem upd_true_live (l : Nat → Bool) (c p : Nat) (h : l p = true) : upd l c true p = true := by
  by_cases e : p = c
  · subst e; exact upd_same _ _ _
  · rw [upd_other _ _ _ _ e]; exact h

theorem tree_inv_spawn (s s' : Kernel) (g c : Nat) (hI : tree_inv s) (hg : g < 3) (hc7 : c < 7)
    (hfree : s.pid_array c = false) (hcur : s'.current_group = s.current_group)
    (ha : s'.active_pid = upd s.active_pid g (c : Int))
    (hl : s'.pid_array = upd s.pid_array c true)
    (hpid : (s'.pcbs c).pid = (c : Int))
    (hpar : (s'.pcbs c).parent_pid = s.active_pid g)
    (hk : ∀ q, q ≠ c → (s'.pcbs q).pid = (s.pcbs q).pid ∧
      (s'.pcbs q).parent_pid = (s.pcbs q).parent_pid) : tree_inv s' := by
  obtain ⟨i1, i2, i3, i4, i5, i6, i7⟩ := hI
  have hc0 : c ≠ 0 := by
    intro e; rw [e, i3.1] at hfree; exact absurd hfree (by simp)
  have hdead : ∀ x, s.pid_array x = true → x ≠ c := by
    intro x hx e; rw [e, hfree] at hx; exact absurd hx (by simp)
  obtain ⟨pa, hpa7, hpa, hpal⟩ := i2 g hg
  have hlive : ∀ x, x ≠ c → s'.pid_array x = s.pid_array x := by
    intro x hx; rw [hl, upd_other _ _ _ _ hx]
  have hlc : s'.pid_array c = true := by rw [hl]; exact upd_same _ _ _
  have hag : s'.active_pid g = (c : Int) := by rw [ha]; exact upd_same _ _ _
  have hao : ∀ x, x ≠ g → s'.active_pid x = s.active_pid x := by
    intro x hx; rw [ha, upd_other _ _ _ _ hx]
  refine ⟨by rw [hcur]; exact i1, ?_, ?_, ?_, ?_, ?_, ?_⟩
  · intro g' hg'
    by_cases e : g' = g
    · subst e; exact ⟨c, hc7, hag, hlc⟩
    · obtain ⟨p, hp7, hp, hpl⟩ := i2 g' hg'
      exact ⟨p, hp7, by rw [hao g' e]; exact hp, by rw [hl]; exact upd_true_live _ _ _ hpl⟩
  · refine ⟨by rw [hlive 0 (fun e => hc0 e.symm)]; exact i3.1, ?_, ?_⟩
    · rw [(hk 0 (fun e => hc0 e.symm)).1]; exact i3.2.1
    · rw [(hk 0 (fun e => hc0 e.symm)).2]; exact i3.2.2
  · intro p hp0 hp7 hpl
    by_cases e : p = c
    · subst e
      exact ⟨hpid, pa, hpa7, by rw [hpar]; exact hpa, by rw [hl]; exact upd_true_live _ _ _ hpal⟩
    · rw [hlive p e] at hpl
      obtain ⟨h1, q, hq7, hq, hql⟩ := i4 p hp0 hp7 hpl
      exact ⟨by rw [(hk p e).1]; exact h1, q, hq7, by rw [(hk p e).2]; exact hq,
        by rw [hl]; exact upd_true_live _ _ _ hql⟩
  · intro g1 g2 hg1 hg2 hne heq
    by_cases e1 : g1 = g
    · subst e1
      have e2 : g2 ≠ g1 := fun e => hne e.symm
      rw [hag, hao g2 e2] at heq
      obtain ⟨p, _, hp, hpl⟩ := i2 g2 hg2
      rw [hp] at heq
      have : c = p := by exact_mod_cast heq
      exact absurd this.symm (hdead p hpl)
    · by_cases e2 : g2 = g
      · subst e2
        rw [hag, hao g1 e1] at heq
        obtain ⟨p, _, hp, hpl⟩ := i2 g1 hg1
        rw [hp] at heq
        have : p = c := by exact_mod_cast heq
        exact absurd this (hdead p hpl)
      · rw [hao g1 e1, hao g2 e2] at heq
        rw [hao g1 e1]
        exact i5 g1 g2 hg1 hg2 hne heq
  · intro p1 p2 h10 h17 h1l h20 h27 h2l heq hne
    by_cases e1 : p1 = c
    · by_cases e2 : p2 = c
      · rw [e1, e2]
      · exfalso
        subst e1
        rw [hpar, (hk p2 e2).2] at heq
        rw [hpar] at hne
        rw [hlive p2 e2] at h2l
        exact i7 p2 g h20 h27 h2l hg hne heq.symm
    · by_cases e2 : p2 = c
      · exfalso
        subst e2
        rw [hpar, (hk p1 e1).2] at heq
        rw [(hk p1 e1).2] at hne
        rw [hlive p1 e1] at h1l
        rw [heq] at hne
        exact i7 p1 g h10 h17 h1l hg hne heq
      · rw [(hk p1 e1).2, (hk p2 e2).2] at heq
        rw [(hk p1 e1).2] at hne
        rw [hlive p1 e1] at h1l
        rw [hlive p2 e2] at h2l
        exact i6 p1 p2 h10 h17 h1l h20 h27 h2l heq hne
  · intro p g' hp0 hp7 hpl hg' hne
    by_cases eg : g' = g
    · subst eg
      rw [hag]
      by_cases e : p = c
      · subst e
        rw [hpar, hpa]
        intro h
        have : pa = p := by exact_mod_cast h
        exact hdead pa hpal this
      · rw [hlive p e] at hpl
        obtain ⟨_, q, _, hq, hql⟩ := i4 p hp0 hp7 hpl
        rw [(hk p e).2, hq]
        intro h
        have : q = c := by exact_mod_cast h
        exact hdead q hql this
    · rw [hao g' eg] at hne ⊢
      by_cases e : p = c
      · subst e
        rw [hpar]
        intro h
        have h0 := i5 g g' hg hg' (fun x => eg x.symm) h
        rw [h] at h0
        exact hne h0
      · rw [hlive p e] at hpl
        rw [(hk p e).2]
        exact i7 p g' hp0 hp7 hpl hg' hne

theorem tree_inv_halt (s s' : Kernel) (p q : Nat) (hI : tree_inv s)
    (hp : get_current_pcb s = some p) (hq : pid_slot (s.pcbs p).parent_pid = some q)
    (hcur : s'.current_group = s.current_group)
    (ha : s'.active_pid = upd s.active_pid s.current_group (s.pcbs p).parent_pid)
    (hl : s'.pid_array = upd s.pid_array p false)
    (hk : ∀ x, x ≠ p → s'.pcbs x = s.pcbs x) :
    tree_inv s' ∧ q ≠ p ∧ s.pid_array q = true ∧ (s.pcbs q).pid = (q : Int) ∧
      (s.pcbs p).parent_pid = (q : Int) ∧ q < 7 := by
  obtain ⟨i1, i2, i3, i4, i5, i6, i7⟩ := hI
  obtain ⟨hp7, hpa, hpl⟩ := get_current_pcb_some s p hp
  obtain ⟨_, _, hqq, hq7⟩ := pid_slot_some _ _ hq
  have hp0 : p ≠ 0 := by
    intro e
    have hn : pid_slot (-1) = none := by decide
    rw [e, i3.2.2, hn] at hq
    exact absurd hq (by simp)
  have hp0' : 0 < p := Nat.pos_of_ne_zero hp0
  have hpI : (p : Int) ≠ 0 := by exact_mod_cast hp0
  obtain ⟨_, w, hw7, hwq, hwl⟩ := i4 p hp0' hp7 hpl
  have hqe : w = q := by rw [hwq] at hqq; exact_mod_cast hqq
  subst hqe
  have hqp : w ≠ p := by
    intro e
    have := i7 p s.current_group hp0' hp7 hpl i1 (by rw [hpa]; exact hpI)
    rw [hwq, hpa, e] at this
    exact this rfl
  have hqpid : (s.pcbs w).pid = (w : Int) := by
    by_cases e : w = 0
    · rw [e]; exact i3.2.1
    · exact (i4 w (Nat.pos_of_ne_zero e) hq7 hwl).1
  have hlive : ∀ x, x ≠ p → s'.pid_array x = s.pid_array x := by
    intro x hx; rw [hl, upd_other _ _ _ _ hx]
  have hlp : s'.pid_array p = false := by rw [hl]; exact upd_same _ _ _
  have hnp : ∀ x, s'.pid_array x = true → x ≠ p := by
    intro x hx e; rw [e, hlp] at hx; exact absurd hx (by simp)
  have hac : s'.active_pid s.current_group = (w : Int) := by
    rw [ha, upd_same]; exact hwq
  have hao : ∀ x, x ≠ s.current_group → s'.active_pid x = s.active_pid x := by
    intro x hx; rw [ha, upd_other _ _ _ _ hx]
  refine ⟨⟨by rw [hcur]; exact i1, ?_, ?_, ?_, ?_, ?_, ?_⟩, hqp, hwl, hqpid, hwq, hq7⟩
  · intro g hg
    by_cases e : g = s.current_group
    · subst e
      exact ⟨w, hq7, hac, by rw [hlive w hqp]; exact hwl⟩
    · obtain ⟨x, hx7, hx, hxl⟩ := i2 g hg
      refine ⟨x, hx7, by rw [hao g e]; exact hx, ?_⟩
      have hxp : x ≠ p := by
        intro ex
        have h0 := i5 g s.current_group hg i1 e (by rw [hx, hpa, ex])
        rw [hx, ex] at h0
        exact hpI h0
      rw [hlive x hxp]; exact hxl
  · refine ⟨by rw [hlive 0 (fun e => hp0 e.symm)]; exact i3.1, ?_, ?_⟩
    · rw [hk 0 (fun e => hp0 e.symm)]; exact i3.2.1
    · rw [hk 0 (fun e => hp0 e.symm)]; exact i3.2.2
  · intro x hx0 hx7 hxl
    have hxp := hnp x hxl
    rw [hlive x hxp] at hxl
    obtain ⟨h1, y, hy7, hy, hyl⟩ := i4 x hx0 hx7 hxl
    rw [hk x hxp]
    refine ⟨h1, y, hy7, hy, ?_⟩
    have hyp : y ≠ p := by
      intro e
      have := i7 x s.current_group hx0 hx7 hxl i1 (by rw [hpa]; exact hpI)
      rw [hy, hpa, e] at this
      exact this rfl
    rw [hlive y hyp]; exact hyl
  · intro g1 g2 hg1 hg2 hne heq
    by_cases e1 : g1 = s.current_group
    · subst e1
      have e2 : g2 ≠ s.current_group := fun e => hne e.symm
      rw [hac, hao g2 e2] at heq
      rw [hac]
      by_contra hq0
      exact i7 p g2 hp0' hp7 hpl hg2 (by rw [← heq]; exact hq0) (by rw [hwq, heq])
    · by_cases e2 : g2 = s.current_group
      · subst e2
        rw [hac, hao g1 e1] at heq
        rw [hao g1 e1]
        by_contra hq0
        exact i7 p g1 hp0' hp7 hpl hg1 hq0 (by rw [hwq, heq])
      · rw [hao g1 e1, hao g2 e2] at heq
        rw [hao g1 e1]
        exact i5 g1 g2 hg1 hg2 hne heq
  · intro p1 p2 h10 h17 h1l h20 h27 h2l heq hne
    have e1 := hnp p1 h1l
    have e2 := hnp p2 h2l
    rw [hlive p1 e1] at h1l
    rw [hlive p2 e2] at h2l
    rw [hk p1 e1, hk p2 e2] at heq
    rw [hk p1 e1] at hne
    exact i6 p1 p2 h10 h17 h1l h20 h27 h2l heq hne
  · intro x g hx0 hx7 hxl hg hne
    have hxp := hnp x hxl
    rw [hlive x hxp] at hxl
    rw [hk x hxp]
    by_cases e : g = s.current_group
    · subst e
      rw [hac] at hne ⊢
      intro h
      have := i6 x p hx0 hx7 hxl hp0' hp7 hpl (by rw [h, hwq]) (by rw [h]; exact hne)
      exact hxp this
    · rw [hao g e] at hne ⊢
      exact i7 x g hx0 hx7 hxl hg hne

theorem in_group_live (s : Kernel) (g q : Nat) (h : InGroup s g q) :
    q < 7 ∧ s.pid_array q = true := by
  cases h with
  | active _ h7 _ hl => exact ⟨h7, hl⟩
  | parent p _ _ h7 _ hl => exact ⟨h7, hl⟩

theorem inv_execute (s s' : Kernel) (ptr : Nat) (command : List Nat) (esp ebp : Nat)
    (hI : tree_inv s)
    (hA : entry_present (s.page_table_0 0xB9) = true →
      ∃ q, InGroup s s.current_group q ∧ (s.pcbs q).vid_map_called ≠ 0)
    (h : system_execute s ptr command esp ebp = some (exec_result.child_running, s')) :
    tree_inv s' ∧ pages_inv s' := by
  obtain ⟨c, a, hc7, hfree, hp, hcur, ha, hl, hpid, hpar, hvid, hk, hd, ht⟩ :=
    system_execute_effect s s' ptr command esp ebp h
  have hT := tree_inv_spawn s s' s.current_group c hI hI.1 hc7 hfree hcur ha hl hpid hpar
    (fun q hq => ⟨(hk q hq).1, (hk q hq).2.1⟩)
  have hdead : ∀ x, s.pid_array x = true → x ≠ c := by
    intro x hx e; rw [e, hfree] at hx; exact absurd hx (by simp)
  have hlc : s'.pid_array c = true := by rw [hl]; exact upd_same _ _ _
  have hag : s'.active_pid s.current_group = (c : Int) := by rw [ha]; exact upd_same _ _ _
  have hgrp : ∀ q, InGroup s s.current_group q → InGroup s' s.current_group q := by
    intro q hq
    induction hq with
    | active p h7 hact hlive =>
      exact InGroup.parent c p (InGroup.active c hc7 hag hlc) h7 (by rw [hpar]; exact hact)
        (by rw [hl]; exact upd_true_live _ _ _ hlive)
    | parent p q hin h7 hpq hlive ih =>
      have hpc : p ≠ c := hdead p (in_group_live s _ p hin).2
      exact InGroup.parent p q ih h7 (by rw [(hk p hpc).2.1]; exact hpq)
        (by rw [hl]; exact upd_true_live _ _ _ hlive)
  refine ⟨hT, ?_, ?_⟩
  · intro hpres
    rw [ht] at hpres
    obtain ⟨q, hq, hv⟩ := hA hpres
    have hqc : q ≠ c := hdead q (in_group_live s _ q hq).2
    exact ⟨q, by rw [hcur]; exact hgrp q hq, by rw [(hk q hqc).2.2]; exact hv⟩
  · rw [hd, hcur, hag]

theorem inv_halt (s s' : Kernel) (status : Nat) (r : Int) (hI : tree_inv s)
    (h : system_halt s status = some (r, s')) : tree_inv s' ∧ pages_inv s' := by
  obtain ⟨p, q, hp, hq, hcur, ha, hl, hk, hd, ht⟩ := system_halt_effect s s' status r h
  obtain ⟨hT, hqp, hql, hqpid, hpq, hq7⟩ := tree_inv_halt s s' p q hI hp hq hcur ha hl hk
  have hac : s'.active_pid s.current_group = (q : Int) := by
    rw [ha, upd_same]; exact hpq
  refine ⟨hT, ?_, ?_⟩
  · intro hpres
    rw [ht] at hpres
    by_cases hv : (s.pcbs q).vid_map_called = 0
    · rw [if_pos hv] at hpres
      exact absurd hpres (by decide)
    · refine ⟨q, InGroup.active q hq7 (by rw [hcur]; exact hac) ?_, by rw [hk q hqp]; exact hv⟩
      rw [hl, upd_other _ _ _ _ hqp]; exact hql
  · rw [hd, hcur, hac, hqpid]

theorem inv_vidmap (s s' : Kernel) (ptr : Nat) (r : Int) (hI : tree_inv s) (hP : pages_inv s)
    (h : system_vidmap s ptr = some (r, s')) : tree_inv s' ∧ pages_inv s' := by
  rcases system_vidmap_effect s s' ptr r h with e | ⟨p, hp, hcur, ha, hl, hk, hd, ht⟩
  · rw [e]; exact ⟨hI, hP⟩
  · obtain ⟨hp7, hpa, hpl⟩ := get_current_pcb_some s p hp
    have hkey : ∀ q, (s'.pcbs q).pid = (s.pcbs q).pid ∧
        (s'.pcbs q).parent_pid = (s.pcbs q).parent_pid := by
      intro q
      rw [hk]
      by_cases e : q = p
      · subst e; rw [upd_same]; exact ⟨rfl, rfl⟩
      · rw [upd_other _ _ _ _ e]; exact ⟨rfl, rfl⟩
    refine ⟨tree_inv_same s s' hI (by rw [hcur]; exact hI.1) ha hl hkey, ?_, ?_⟩
    · intro _
      refine ⟨p, InGroup.active p hp7 (by rw [ha, hcur]; exact hpa) (by rw [hl]; exact hpl), ?_⟩
      rw [hk, upd_same]
      show (1 : Nat) ≠ 0
      decide
    · rw [hd, ha, hcur]; exact hP.2

theorem inv_schedule (s s' : Kernel) (top cs esp ebp : Nat) (hI : tree_inv s)
    (h : schedule_next s top cs esp ebp = some s') : tree_inv s' ∧ pages_inv s' := by
  obtain ⟨n, hn, hcur, ha, hl, hk, hd, ht⟩ := schedule_next_effect s s' top cs esp ebp h
  have hc3 : s'.current_group < 3 := by
    rw [hcur]; split_ifs <;> omega
  have hT := tree_inv_same s s' hI hc3 ha hl (fun q => ⟨(hk q).1, (hk q).2.1⟩)
  obtain ⟨x, hx7, hx, hxl⟩ := hI.2.1 s'.current_group hc3
  have hnx : n = x := by
    rw [hx, pid_slot_nat x hx7] at hn
    exact (Option.some.inj hn).symm
  subst hnx
  have hnpid : (s.pcbs n).pid = (n : Int) := by
    by_cases e : n = 0
    · rw [e]; exact hI.2.2.1.2.1
    · exact (hI.2.2.2.1 n (Nat.pos_of_ne_zero e) hx7 hxl).1
  refine ⟨hT, ?_, ?_⟩
  · intro hpres
    refine ⟨n, InGroup.active n hx7 (by rw [ha]; exact hx) (by rw [hl]; exact hxl), ?_⟩
    rw [(hk n).2.2]
    exact ht.mp hpres
  · rw [hd, ha, hx, hnpid]

/-! ### Boot -/

theorem term_open_frame (s s' : Kernel) (c : Nat) (name : List Nat) (r : Int)
    (hp : get_current_pcb s = some c) (h : term_open s name = some (r, s')) :
    io_frame c s s' := by
  obtain ⟨fd, hfd⟩ := get_new_fd_some s c hp
  unfold term_open at h
  simp only [hfd, hp] at h
  split_ifs at h <;> simp only [Option.some.injEq, Prod.mk.injEq] at h <;> rw [← h.2] <;>
    first | exact io_frame_refl c s | exact io_frame_set_fd c _ _ s

theorem pcb_init_effect (s s' : Kernel) (hcur : s.current_group < 3) (h : pcb_init s = some s') :
    s'.current_group = s.current_group ∧ (∀ g, g < 3 → s'.active_pid g = 0) ∧
    s'.pid_array 0 = true ∧ (∀ i, 0 < i → i < 7 → s'.pid_array i = false) ∧
    (s'.pcbs 0).pid = 0 ∧ (s'.pcbs 0).parent_pid = -1 ∧ s'.page_table_0 = s.page_table_0 := by
  have hc : s.current_group < NUM_OF_PROCESS_GROUPS := hcur
  have h0 : pid_slot 0 = some 0 := by decide
  unfold pcb_init at h
  simp only [get_pcb_addr, get_current_group, hc, if_true, h0] at h
  split at h
  · exact absurd h (by simp)
  · rename_i r6 s6 h6
    split at h
    · exact absurd h (by simp)
    · rename_i r7 s7 h7
      simp only [Option.some.injEq] at h
      obtain ⟨s5, hs5, h6'⟩ : ∃ s5, s5 = _ ∧ term_open s5 stdin_name = some (r6, s6) :=
        ⟨_, rfl, h6⟩
      have a5 : ∀ g, g < 3 → s5.active_pid g = 0 := by
        intro g hg; rw [hs5]; simp [set_pcb, NUM_OF_PROCESS_GROUPS, hg]
      have c5 : s5.current_group = s.current_group := by rw [hs5]; rfl
      have l50 : s5.pid_array 0 = true := by rw [hs5]; simp [set_pcb, upd]
      have l5 : ∀ i, 0 < i → i < 7 → s5.pid_array i = false := by
        intro i h0 h7
        have hi : i ≠ 0 := by omega
        rw [hs5]; simp [set_pcb, upd, MAX_PID, h7, hi]
      have p5 : (s5.pcbs 0).pid = 0 ∧ (s5.pcbs 0).parent_pid = -1 := by
        rw [hs5]; simp [set_pcb, upd]
      have t5 : s5.page_table_0 = s.page_table_0 := by rw [hs5]; rfl
      have hp5 : get_current_pcb s5 = some 0 :=
        get_current_pcb_eq s5 0 (by decide) (by rw [c5]; exact a5 _ hcur) l50
      have f6 := term_open_frame s5 s6 0 _ _ hp5 h6'
      have hp6 : get_current_pcb s6 = some 0 := by rw [io_frame_current 0 s5 s6 f6]; exact hp5
      have f7 := io_frame_trans 0 s5 s6 s7 f6 (term_open_frame s6 s7 0 _ _ hp6 h7)
      obtain ⟨_, t7, l7, a7, c7, _, _, _, _, _, _, _, T, p7⟩ := f7
      rw [← h]
      refine ⟨?_, ?_, ?_, ?_, ?_, ?_, ?_⟩
      · show s7.current_group = _
        rw [c7, c5]
      · intro g hg
        show s7.active_pid g = 0
        rw [a7]; exact a5 g hg
      · show s7.pid_array 0 = true
        rw [l7]; exact l50
      · intro i h0 hi
        show s7.pid_array i = false
        rw [l7]; exact l5 i h0 hi
      · simp only [set_pcb_set_pcb, set_pcb_pcbs_same]
        show (s7.pcbs 0).pid = 0
        rw [p7]; exact p5.1
      · simp only [set_pcb_set_pcb, set_pcb_pcbs_same]
        show (s7.pcbs 0).parent_pid = -1
        rw [p7]; exact p5.2
      · show s7.page_table_0 = _
        rw [t7, t5]

theorem static_start_shell_effect (s s' : Kernel) (pid : Int)
    (hcur : s.current_group = 0) (ha0 : s.active_pid 0 = 0) (hl0 : s.pid_array 0 = true)
    (h : static_start_shell s pid = some (0, s')) :
    ∃ c : Nat, (c = 2 ∨ c = 3) ∧ pid = (c : Int) ∧ s'.current_group = 0 ∧
      s'.active_pid = upd s.active_pid (c - 1) (c : Int) ∧
      s'.pid_array = upd s.pid_array c true ∧
      (s'.pcbs c).pid = (c : Int) ∧ (s'.pcbs c).parent_pid = 0 ∧
      (∀ q, q ≠ c → (s'.pcbs q).pid = (s.pcbs q).pid ∧
        (s'.pcbs q).parent_pid = (s.pcbs q).parent_pid) ∧
      s'.page_table_0 = s.page_table_0 := by
  have hf0 : FAILURE ≠ 0 := by decide
  unfold static_start_shell at h
  by_cases hr : pid < 2 ∨ pid > 3
  · rw [if_pos hr] at h
    simp only [Option.some.injEq, Prod.mk.injEq] at h
    exact absurd h.1 hf0
  · rw [if_neg hr] at h
    have hpid : ∃ c : Nat, (c = 2 ∨ c = 3) ∧ pid = (c : Int) := by
      have : pid = 2 ∨ pid = 3 := by omega
      rcases this with e | e
      · exact ⟨2, Or.inl rfl, e⟩
      · exact ⟨3, Or.inr rfl, e⟩
    obtain ⟨c, hc, hpc⟩ := hpid
    have hc7 : c < 7 := by omega
    have hc0 : c ≠ 0 := by omega
    have h0c : (0 : Nat) ≠ c := by omega
    have hslot : pid_slot pid = some c := by rw [hpc]; exact pid_slot_nat c hc7
    have htn : (pid - 1).toNat = c - 1 := by omega
    rw [pcb_setup_spec s pid c hslot] at h
    simp only at h
    split at h
    · exact absurd h (by simp)
    · rename_i eip s7 h7
      obtain ⟨s6, hs6, h7'⟩ : ∃ s6, s6 = _ ∧
          __load_program s6 [115, 104, 101, 108, 108] = some (eip, s7) := ⟨_, rfl, h7⟩
      have c6 : s6.current_group = 0 := by rw [hs6, map_page_prog]; exact hcur
      have a6 : s6.active_pid = upd (upd s.active_pid s.current_group pid) 0 0 := by
        rw [hs6, map_page_prog]; rfl
      have l6 : s6.pid_array = upd s.pid_array c true := by rw [hs6, map_page_prog]; rfl
      have t6 : s6.page_table_0 = s.page_table_0 := by rw [hs6, map_page_prog]; rfl
      have p6c : (s6.pcbs c).pid = pid ∧ (s6.pcbs c).parent_pid = 0 := by
        rw [hs6, map_page_prog]
        simp [set_pcb, upd, fresh_pcb]
      have p6o : ∀ q, q ≠ c → s6.pcbs q = s.pcbs q := by
        intro q hq
        rw [hs6, map_page_prog]
        simp only [set_pcb_set_pcb]
        simp [set_pcb, upd, hq]
      have hp6 : get_current_pcb s6 = some 0 := by
        apply get_current_pcb_eq s6 0 (by decide)
        · rw [c6, a6]; simp [upd]
        · rw [l6, upd_other _ _ _ _ h0c]; exact hl0
      obtain ⟨_, t7, l7, a7, c7, _, _, _, _, _, _, po7, T, p07⟩ :=
        load_program_frame s6 s7 0 _ eip hp6 h7'
      by_cases hfail : u32 eip = u32 FAILURE
      · rw [if_pos hfail] at h
        split at h
        · exact absurd h (by simp)
        · simp only [Option.some.injEq, Prod.mk.injEq] at h
          exact absurd h.1 hf0
      · rw [if_neg hfail] at h
        simp only [Option.some.injEq, Prod.mk.injEq] at h
        have hs := h.2
        simp only [set_pcb_set_pcb] at hs
        rw [← hs]
        refine ⟨c, hc, hpc, ?_, ?_, ?_, ?_, ?_, ?_, ?_⟩
        · show s7.current_group = 0
          rw [c7, c6]
        · show upd s7.active_pid (pid - 1).toNat pid = _
          rw [a7, a6, htn, hcur, hpc]
          funext g
          by_cases e : g = c - 1
          · subst e; simp [upd]
          · by_cases e0 : g = 0
            · subst e0; simp [upd, e, ha0]
            · simp [upd, e, e0]
        · show s7.pid_array = _
          rw [l7, l6]
        · simp only [set_pcb, upd_same]
          rw [po7 c hc0, p6c.1, hpc]
        · simp only [set_pcb, upd_same]
          rw [po7 c hc0, p6c.2]
        · intro q hq
          simp only [set_pcb, upd_other _ _ _ _ hq]
          by_cases e0 : q = 0
          · subst e0
            rw [p07, p6o 0 hq]
            exact ⟨rfl, rfl⟩
          · rw [po7 q e0, p6o q hq]
            exact ⟨rfl, rfl⟩
        · show s7.page_table_0 = _
          rw [t7, t6]

theorem paging_init_video (s : Kernel) (pt0 : Nat) :
    (paging_init s pt0).page_table_0 0xB9 = 0 := by
  have h1 : ((VIDEO_GROUP_1 &&& FLAG_MASK) >>> BITS_TO_PT_IDX) &&& PT_MASK = 0xBA := by decide
  have h2 : ((VIDEO_GROUP_2 &&& FLAG_MASK) >>> BITS_TO_PT_IDX) &&& PT_MASK = 0xBB := by decide
  have h3 : ((VIDEO_GROUP_3 &&& FLAG_MASK) >>> BITS_TO_PT_IDX) &&& PT_MASK = 0xBC := by decide
  unfold paging_init
  simp only [map_page, h1, h2, h3]
  simp [upd, PT_VIDEO_ENTRY, NUM_PAGE_ENTRIES]

theorem boot_inv (bb : boot_block_t) (mem : Nat → Nat) (pcbs : Nat → pcb_t) (pt0 esp ebp : Nat)
    (s : Kernel) (h : boot bb mem pcbs pt0 esp ebp = some s) : tree_inv s ∧ pages_inv s := by
  unfold boot at h
  cases hi : init_state bb mem pcbs pt0 with
  | none => rw [hi] at h; exact absurd h (by simp)
  | some s0 =>
    rw [hi] at h
    simp only at h
    unfold init_state at hi
    obtain ⟨c0, a0, l00, l0, p0, q0, t0⟩ := pcb_init_effect _ s0 (show (0 : Nat) < 3 by decide) hi
    have c0' : s0.current_group = 0 := c0
    have t0' : s0.page_table_0 0xB9 = 0 := by
      rw [t0]; exact paging_init_video (reset_state bb mem pcbs) pt0
    have hI0 : tree_inv s0 := by
      refine ⟨by rw [c0']; decide, ?_, ⟨l00, p0, q0⟩, ?_, ?_, ?_, ?_⟩
      · intro g hg; exact ⟨0, by decide, a0 g hg, l00⟩
      · intro p hp0 hp7 hpl; rw [l0 p hp0 hp7] at hpl; exact absurd hpl (by simp)
      · intro g _ hg _ _ _; exact a0 g hg
      · intro p1 _ h10 h17 h1l; rw [l0 p1 h10 h17] at h1l; exact absurd h1l (by simp)
      · intro p _ hp0 hp7 hpl; rw [l0 p hp0 hp7] at hpl; exact absurd hpl (by simp)
    split at h
    · rename_i s1 h1
      obtain ⟨c, hc, hpc, c1, a1, l1, p1, q1, k1, t1⟩ :=
        static_start_shell_effect s0 s1 2 c0' (a0 0 (by decide)) l00 h1
      have hc2 : c = 2 := by omega
      subst hc2
      have hI1 : tree_inv s1 :=
        tree_inv_spawn s0 s1 1 2 hI0 (by decide) (by decide) (l0 2 (by decide) (by decide))
          (by rw [c1, c0']) a1 l1 p1 (by rw [q1, a0 1 (by decide)]) k1
      split at h
      · rename_i s2 h2
        have a10 : s1.active_pid 0 = 0 := by
          rw [a1, upd_other _ _ _ _ (by decide)]; exact a0 0 (by decide)
        have l10 : s1.pid_array 0 = true := by
          rw [l1, upd_other _ _ _ _ (by decide)]; exact l00
        obtain ⟨c, hc, hpc, c2, a2, l2, p2, q2, k2, t2⟩ :=
          static_start_shell_effect s1 s2 3 c1 a10 l10 h2
        have hc3 : c = 3 := by omega
        subst hc3
        have hI2 : tree_inv s2 := by
          refine tree_inv_spawn s1 s2 2 3 hI1 (by decide) (by decide) ?_
            (by rw [c2, c1]) a2 l2 p2 ?_ k2
          · rw [l1, upd_other _ _ _ _ (by decide)]; exact l0 3 (by decide) (by decide)
          · rw [q2, a1, upd_other _ _ _ _ (by decide), a0 2 (by decide)]
        have t2' : s2.page_table_0 0xB9 = 0 := by rw [t2, t1]; exact t0'
        split at h
        · rename_i s3 h3
          simp only [Option.some.injEq] at h
          subst h
          refine inv_execute s2 s3 1 _ esp ebp hI2 ?_ h3
          intro hpres
          rw [t2'] at hpres
          exact absurd hpres (by decide)
        · exact absurd h (by simp)
      · exact absurd h (by simp)
    · exact absurd h (by simp)

/-! ### C6 -/

set_option maxRecDepth 100000 in
/-- C6 (refuted): the code from `return_from_exec` on runs with interrupts
enabled (`system_halt` is entered through a trap gate and `iret`s with the
flags it found; `system_execute` opens with `cli`, the halt path has none), so a
timer tick can fall between its `map_page` and `pcb_teardown`
(`execute_return` is `return_remap` followed by `return_finish`). The child
(PID 4) of the booted shell (PID 1) halts; `return_from_exec` maps the program
page to the parent's frame 0x800000; the tick arrives, and when the scheduler
comes back to group 0 it maps the frame of the group's active process, still
the child: 0x1400000; `return_from_exec` then tears the child down. In the
state reached the active process of the current group is PID 1, a live
process, and the directory entry for virtual 128 MiB is present and maps frame
0x1400000, the frame of the dead PID 4, not the frame 0x800000 of PID 1. With
no tick inside the halt the entry maps 0x800000. -/
theorem C6_halt_race :
    (∀ s parent ret, execute_return s parent ret =
      return_finish (return_remap s parent) parent ret) ∧
    (get_current_pcb demo_child = some 4 ∧
      get_pcb_addr (demo_child.pcbs 4).parent_pid = some 1 ∧
      entry_frame_4mb ((return_remap demo_child 1).page_directory 32) = 0x800000) ∧
    (demo_halt_round.current_group = 0 ∧ demo_halt_round.active_pid 0 = 4 ∧
      entry_frame_4mb (demo_halt_round.page_directory 32) = 0x1400000) ∧
    ((return_finish demo_halt_round 1 0).map Prod.fst = some 0 ∧
      demo_halt_raced.current_group = 0 ∧ demo_halt_raced.active_pid 0 = 1 ∧
      demo_halt_raced.pid_array 1 = true ∧ demo_halt_raced.pid_array 4 = false ∧
      entry_present (demo_halt_raced.page_directory 32) = true ∧
      entry_frame_4mb (demo_halt_raced.page_directory 32) = 0x1400000 ∧
      get_prog_phys_addr 4 = 0x1400000 ∧ get_prog_phys_addr 1 = 0x800000) ∧
    ((system_halt demo_child 0).map Prod.fst = some 0 ∧
      demo_halt_plain.active_pid 0 = 1 ∧
      entry_frame_4mb (demo_halt_plain.page_directory 32) = 0x800000) := by
  refine ⟨fun _ _ _ => rfl, ⟨by decide, by decide, by decide⟩,
    ⟨by decide, by decide, by decide⟩,
    ⟨by decide, by decide, by decide, by decide, by decide, by decide, by decide, by decide,
      by decide⟩,
    ⟨by decide, by decide, by decide⟩⟩

set_option maxRecDepth 100000 in
/-- C6 (the video entry, by the scheduler's own test): the first shell (PID 1)
calls vidmap and starts a child (PID 4); after three timer ticks group 0 runs
again, its active process is PID 4, and the live PCB 1 of the group has
`vid_map_called = 1`, yet `page_table_0[0xB9]` is not present: `schedule_next`
looks at the flag of the incoming active process alone. And when the PCB area
held a stale byte in `vid_map_called` of PCB 0, after the first shell has halted
and three ticks have passed the entry is present although no live PCB has
`vid_map_called = 1`. -/
theorem C6_page_invariant_counterexample :
    (demo_vid_round.current_group = 0 ∧
      InGroup demo_vid_round 0 1 ∧ (demo_vid_round.pcbs 1).vid_map_called = 1 ∧
      entry_present (demo_vid_round.page_table_0 0xB9) = false) ∧
    (entry_present (demo_stale_round.page_table_0 0xB9) = true ∧
      ∀ q, q < 7 → demo_stale_round.pid_array q = true →
        (demo_stale_round.pcbs q).vid_map_called ≠ 1) := by
  refine ⟨⟨by decide, ?_, by decide, by decide⟩, ⟨by decide, by decide⟩⟩
  exact InGroup.parent 4 1 (InGroup.active 4 (by decide) (by decide) (by decide)) (by decide)
    (by decide) (by decide)

/-! ### Program frames -/

/-- C21: for distinct PIDs p and q in 1..6, `get_prog_phys_addr(p)` is
0x800000 + (p - 1) * 0x400000, is 4 MiB aligned (the truncation in `map_page`
leaves it unchanged), its frame ends within the 32-bit address space, the
frames of p and q are disjoint, and the frame of p lies above the kernel page
[0x400000, 0x800000). -/
theorem C21_prog_frames (p q : Nat) (hp1 : 1 ≤ p) (hp6 : p ≤ 6) (hq1 : 1 ≤ q) (hq6 : q ≤ 6)
    (hpq : p ≠ q) :
    get_prog_phys_addr (p : Int) = 0x800000 + (p - 1) * 0x400000 ∧
    get_prog_phys_addr (p : Int) % 0x400000 = 0 ∧
    get_prog_phys_addr (p : Int) &&& ALIGN_MB = get_prog_phys_addr (p : Int) ∧
    entry_frame_4mb (prog_entry (get_prog_phys_addr (p : Int))) = get_prog_phys_addr (p : Int) ∧
    get_prog_phys_addr (p : Int) + 0x400000 ≤ 4294967296 ∧
    (get_prog_phys_addr (p : Int) + 0x400000 ≤ get_prog_phys_addr (q : Int) ∨
      get_prog_phys_addr (q : Int) + 0x400000 ≤ get_prog_phys_addr (p : Int)) ∧
    0x800000 ≤ get_prog_phys_addr (p : Int) := by
  interval_cases p <;> interval_cases q <;> first | exact absurd rfl hpq | decide

/-- C21 witness: PIDs 1 and 6. -/
theorem C21_prog_frames_witness :
    ((1 : Nat) ≤ 1 ∧ (1 : Nat) ≤ 6 ∧ (1 : Nat) ≤ 6 ∧ (6 : Nat) ≤ 6 ∧ (1 : Nat) ≠ 6) ∧
    (get_prog_phys_addr ((1 : Nat) : Int) = 0x800000 + (1 - 1) * 0x400000 ∧
    get_prog_phys_addr ((1 : Nat) : Int) % 0x400000 = 0 ∧
    get_prog_phys_addr ((1 : Nat) : Int) &&& ALIGN_MB = get_prog_phys_addr ((1 : Nat) : Int) ∧
    entry_frame_4mb (prog_entry (get_prog_phys_addr ((1 : Nat) : Int))) =
      get_prog_phys_addr ((1 : Nat) : Int) ∧
    get_prog_phys_addr ((1 : Nat) : Int) + 0x400000 ≤ 4294967296 ∧
    (get_prog_phys_addr ((1 : Nat) : Int) + 0x400000 ≤ get_prog_phys_addr ((6 : Nat) : Int) ∨
      get_prog_phys_addr ((6 : Nat) : Int) + 0x400000 ≤ get_prog_phys_addr ((1 : Nat) : Int)) ∧
    0x800000 ≤ get_prog_phys_addr ((1 : Nat) : Int)) :=
  ⟨by decide, C21_prog_frames 1 6 (by decide) (by decide) (by decide) (by decide) (by decide)⟩

/-! ### The timer -/

/-- C27 (failing input): `MODE_COMMAND` is written as 00010110, which C reads
as octal 10110 = 4168 = 0x1048; the byte `pit_init` writes to port 0x43 is its
low byte 0x48, not 0x16: channel 1, latch command, not channel 0 in low-byte
access and square-wave mode. -/
theorem C27_pit_mode_byte :
    (pit_init 0xFF).1 = [(0x40, 40), (0x43, 0x48), (0x21, 0xFE)] ∧
    MODE_COMMAND = 4168 ∧ MODE_COMMAND % 256 = 0x48 ∧ (0x48 : Nat) ≠ 0x16 ∧
    (0x48 : Nat) / 64 = 1 ∧ ((0x48 : Nat) / 16) % 4 = 0 ∧ ((0x48 : Nat) / 2) % 8 = 4 ∧
    (0x16 : Nat) / 64 = 0 ∧ ((0x16 : Nat) / 16) % 4 = 1 ∧ ((0x16 : Nat) / 2) % 8 = 3 := by
  refine ⟨by decide, by decide, by decide, by decide, by decide, by decide, by decide,
    by decide, by decide, by decide⟩

/-! ### The fourth argument -/

set_option maxRecDepth 100000 in
/-- C22 (failing input): the booted shell executes "shell a b c d" and
"shell a b c". In both cases the child (PID 4) runs and its `args_len` is 6;
for the four-argument command its `args` holds "a b c " (a space at index 5,
no NUL within `args_len`), for the three-argument command "a b c" and a NUL:
the buffers differ at index 5. -/
theorem C22_fourth_arg :
    (system_execute demo_boot 1 demo_four_args 0x7FBF00 0x7FBF80).map
        (fun r => (r.1, get_current_pcb r.2, (r.2.pcbs 4).args_len,
          (List.range 7).map (r.2.pcbs 4).args)) =
      some (exec_result.child_running, some 4, 6, [97, 32, 98, 32, 99, 32, 0]) ∧
    (system_execute demo_boot 1 demo_three_args 0x7FBF00 0x7FBF80).map
        (fun r => (r.1, get_current_pcb r.2, (r.2.pcbs 4).args_len,
          (List.range 7).map (r.2.pcbs 4).args)) =
      some (exec_result.child_running, some 4, 6, [97, 32, 98, 32, 99, 0, 0]) ∧
    (List.range 6).map ((execute_save_args demo_boot 1 demo_four_args).pcbs 1).args =
      [97, 32, 98, 32, 99, 32] ∧
    (List.range 6).map ((execute_save_args demo_boot 1 demo_three_args).pcbs 1).args =
      [97, 32, 98, 32, 99, 0] := by
  refine ⟨by decide, by decide, by decide, by decide⟩

/-! ### A failed open -/

set_option maxRecDepth 100000 in
/-- C29 (failing input): in the booted shell `system_open("odd")`, a directory
entry of file type 3, returns (-1); before the call descriptor 2 is free and
holds inode 1 (left by the loader), after it descriptor 2 is marked in use and
holds inode 3. -/
theorem C29_open_failure_leak :
    (system_open demo_boot [111, 100, 100]).map Prod.fst = some (-1) ∧
    get_current_pcb demo_boot = some 1 ∧
    ((demo_boot.pcbs 1).fd_table 2).flags = NOT_IN_USE ∧
    ((demo_boot.pcbs 1).fd_table 2).inode = 1 ∧
    (system_open demo_boot [111, 100, 100]).map
      (fun r => ((r.2.pcbs 1).fd_table 2).flags) = some IN_USE ∧
    (system_open demo_boot [111, 100, 100]).map
      (fun r => ((r.2.pcbs 1).fd_table 2).inode) = some 3 := by
  refine ⟨by decide, by decide, by decide, by decide, by decide, by decide⟩

/-! ### The frame of process 0 -/

set_option maxRecDepth 100000 in
/-- C30 (failing input): `get_prog_phys_addr(0)` is 0x400000, the kernel's
page. When the shell of group 0 (PID 1, parent PID 0) halts, the return into
the parent's `system_execute` maps virtual 128 MiB to the frame of PID 0: the
directory entry is present with the user bit set and its base is 0x400000. -/
theorem C30_kernel_page_mapped :
    get_prog_phys_addr 0 = 0x400000 ∧
    get_current_pcb demo_boot = some 1 ∧ (demo_boot.pcbs 1).parent_pid = 0 ∧
    (system_halt demo_boot 0).isSome = true ∧
    demo_root_halt.active_pid demo_root_halt.current_group = 0 ∧
    demo_root_halt.page_directory 32 = 0x400087 ∧
    entry_present (demo_root_halt.page_directory 32) = true ∧
    entry_user (demo_root_halt.page_directory 32) = true ∧
    entry_frame_4mb (demo_root_halt.page_directory 32) = 0x400000 := by
  refine ⟨by decide, by decide, by decide, by decide, by decide, by decide, by decide,
    by decide, by decide⟩

/-! ### map_page and unmap_page -/

theorem flag_mask_testBit (k : Nat) :
    (0xFFFFF000 : Nat).testBit k = (decide (12 ≤ k) && decide (k < 32)) := by
  by_cases h : k < 32
  · interval_cases k <;> decide
  · have h1 : (0xFFFFF000 : Nat) < 2 ^ k :=
      lt_of_lt_of_le (by decide : (0xFFFFF000 : Nat) < 2 ^ 32)
        (Nat.pow_le_pow_right (by decide) (by omega))
    rw [Nat.testBit_lt_two_pow h1]
    simp [h]

theorem testBit_high (v k : Nat) (hv : v < 4294967296) (hk : 32 ≤ k) : v.testBit k = false := by
  apply Nat.testBit_lt_two_pow
  exact lt_of_lt_of_le hv (by
    have : (2 : Nat) ^ 32 ≤ 2 ^ k := Nat.pow_le_pow_right (by decide) hk
    simpa using this)

theorem pd_index_eq (v : Nat) (hv : v < 4294967296) :
    (v &&& FLAG_MASK) >>> BITS_TO_PD_IDX = v >>> 22 := by
  apply Nat.eq_of_testBit_eq
  intro j
  simp only [FLAG_MASK, BITS_TO_PD_IDX, Nat.testBit_shiftRight, Nat.testBit_and,
    flag_mask_testBit]
  by_cases hj : 22 + j < 32
  · have h12 : 12 ≤ 22 + j := by omega
    simp [hj, h12]
  · rw [testBit_high v (22 + j) hv (by omega)]
    simp

theorem pt_index_eq (v : Nat) :
    ((v &&& FLAG_MASK) >>> BITS_TO_PT_IDX) &&& PT_MASK = (v >>> 12) &&& 0x3FF := by
  apply Nat.eq_of_testBit_eq
  intro j
  have hm : (0x3FF : Nat) = 2 ^ 10 - 1 := by decide
  simp only [FLAG_MASK, BITS_TO_PT_IDX, PT_MASK, Nat.testBit_shiftRight, Nat.testBit_and,
    flag_mask_testBit, hm, Nat.testBit_two_pow_sub_one]
  by_cases hj : j < 10
  · have h12 : 12 ≤ 12 + j := by omega
    have h32 : 12 + j < 32 := by omega
    simp [hj, h12, h32]
  · simp [hj]

/-- C25: for every 32-bit virtual address v, every p and all flags, `map_page`
with `page_size` set writes `page_directory[v >> 22]` = (p & 0xFFC00000) | 0x80
| (rw ? 2 : 0) | (user ? 4 : 0) | 1, and with `page_size` clear writes
`page_table_0[(v >> 12) & 0x3FF]` = (p & 0xFFFFF000) | (rw ? 2 : 0) |
(user ? 4 : 0) | 1; every other entry of both tables is unchanged; and
`unmap_page` with the same v and `page_size` afterwards sets exactly that entry
to 0. -/
theorem C25_map_unmap (s : Kernel) (v p rw user page_size : Nat) (hv : v < 4294967296) :
    (page_size ≠ 0 →
      (map_page s v p rw user page_size).page_directory (v >>> 22) =
        ((((p &&& 0xFFC00000) ||| 0x80) ||| (if rw ≠ 0 then 2 else 0)) |||
          (if user ≠ 0 then 4 else 0)) ||| 1 ∧
      (∀ i, i ≠ v >>> 22 →
        (map_page s v p rw user page_size).page_directory i = s.page_directory i) ∧
      (map_page s v p rw user page_size).page_table_0 = s.page_table_0 ∧
      (unmap_page (map_page s v p rw user page_size) v page_size).page_directory (v >>> 22) = 0 ∧
      (∀ i, i ≠ v >>> 22 →
        (unmap_page (map_page s v p rw user page_size) v page_size).page_directory i =
          s.page_directory i) ∧
      (unmap_page (map_page s v p rw user page_size) v page_size).page_table_0 =
        s.page_table_0) ∧
    (page_size = 0 →
      (map_page s v p rw user page_size).page_table_0 ((v >>> 12) &&& 0x3FF) =
        (((p &&& 0xFFFFF000) ||| (if rw ≠ 0 then 2 else 0)) |||
          (if user ≠ 0 then 4 else 0)) ||| 1 ∧
      (∀ i, i ≠ (v >>> 12) &&& 0x3FF →
        (map_page s v p rw user page_size).page_table_0 i = s.page_table_0 i) ∧
      (map_page s v p rw user page_size).page_directory = s.page_directory ∧
      (unmap_page (map_page s v p rw user page_size) v page_size).page_table_0
        ((v >>> 12) &&& 0x3FF) = 0 ∧
      (∀ i, i ≠ (v >>> 12) &&& 0x3FF →
        (unmap_page (map_page s v p rw user page_size) v page_size).page_table_0 i =
          s.page_table_0 i) ∧
      (unmap_page (map_page s v p rw user page_size) v page_size).page_directory =
        s.page_directory) := by
  have h1 := pd_index_eq v hv
  have h2 := pt_index_eq v
  constructor
  · intro hps
    simp only [map_page, unmap_page, h1, h2, hps, ne_eq, not_false_eq_true, if_true]
    refine ⟨?_, ?_, trivial, ?_, ?_, trivial⟩
    · rw [upd_same]; rfl
    · intro i hi; rw [upd_other _ _ _ _ hi]
    · rw [upd_same]
    · intro i hi; rw [upd_other _ _ _ _ hi, upd_other _ _ _ _ hi]
  · intro hps
    simp only [map_page, unmap_page, h1, h2, hps, ne_eq, not_true_eq_false, if_false]
    refine ⟨?_, ?_, trivial, ?_, ?_, trivial⟩
    · rw [upd_same, Nat.or_zero]; rfl
    · intro i hi; rw [upd_other _ _ _ _ hi]
    · rw [upd_same]
    · intro i hi; rw [upd_other _ _ _ _ hi, upd_other _ _ _ _ hi]

/-- C25 witness: the two calls of `test_page_map_unmap` have 32-bit addresses;
here the 4 MiB page at 0xF0000000 in the booted state. -/
theorem C25_map_unmap_witness :
    (0xF0000000 : Nat) < 4294967296 ∧
    (map_page demo_boot 0xF0000000 0xF0000000 1 1 1).page_directory 960 = 0xF0000087 ∧
    (unmap_page (map_page demo_boot 0xF0000000 0xF0000000 1 1 1) 0xF0000000 1).page_directory
      960 = 0 := by
  have h := (C25_map_unmap demo_boot 0xF0000000 0xF0000000 1 1 1 (by decide)).1 (by decide)
  exact ⟨by decide, h.1, h.2.2.2.1⟩

/-! ### The page tables after paging_init -/

theorem paging_init_pd (s : Kernel) (pt0 i : Nat) (hi : i < 1024) :
    (paging_init s pt0).page_directory i =
      if i = 1 then 0x400083 else if i = 0 then (pt0 &&& 0xFFFFF000) ||| 7 else 0 := by
  have h1 : ((VIDEO_GROUP_1 &&& FLAG_MASK) >>> BITS_TO_PT_IDX) &&& PT_MASK = 0xBA := by decide
  have h2 : ((VIDEO_GROUP_2 &&& FLAG_MASK) >>> BITS_TO_PT_IDX) &&& PT_MASK = 0xBB := by decide
  have h3 : ((VIDEO_GROUP_3 &&& FLAG_MASK) >>> BITS_TO_PT_IDX) &&& PT_MASK = 0xBC := by decide
  have hk : (KERNEL_LOC &&& FLAG_MASK) ||| (PDE_PAGE_SIZE ||| PDE_READ_WRITE ||| PDE_PRESENT) =
      0x400083 := by decide
  have hf : PDE_READ_WRITE ||| PDE_USER_SUPERVISOR ||| PDE_PRESENT = 7 := by decide
  have hi' : i < NUM_PAGE_ENTRIES := hi
  unfold paging_init
  simp only [map_page, h1, h2, h3]
  show upd (upd (upd (upd (fun i => if i < NUM_PAGE_ENTRIES then 0 else s.page_directory i)
    PD_VIDEO_ENTRY _) PD_VIDEO_ENTRY _) PD_KERNEL _) PD_KERNEL _ i = _
  by_cases e1 : i = 1
  · subst e1
    rw [if_pos rfl]
    exact (upd_same _ _ _).trans ((congrArg (fun x => x ||| (PDE_PAGE_SIZE ||| PDE_READ_WRITE |||
      PDE_PRESENT)) (upd_same _ _ _)).trans hk)
  · have e1' : i ≠ PD_KERNEL := e1
    rw [if_neg e1, upd_other _ _ _ _ e1', upd_other _ _ _ _ e1']
    by_cases e0 : i = 0
    · subst e0
      rw [if_pos rfl]
      exact (upd_same _ _ _).trans ((congrArg (fun x => x ||| (PDE_READ_WRITE |||
        PDE_USER_SUPERVISOR ||| PDE_PRESENT)) (upd_same _ _ _)).trans
          (congrArg (fun x => (pt0 &&& FLAG_MASK) ||| x) hf))
    · have e0' : i ≠ PD_VIDEO_ENTRY := e0
      rw [if_neg e0, upd_other _ _ _ _ e0', upd_other _ _ _ _ e0']
      exact if_pos hi'

theorem paging_init_pt (s : Kernel) (pt0 j : Nat) (hj : j < 1024) :
    (paging_init s pt0).page_table_0 j =
      if j = 188 then 0xBC003 else if j = 187 then 0xBB003 else if j = 186 then 0xBA003
      else if j = 184 then 0xB8003 else 0 := by
  have h1 : ((VIDEO_GROUP_1 &&& FLAG_MASK) >>> BITS_TO_PT_IDX) &&& PT_MASK = 0xBA := by decide
  have h2 : ((VIDEO_GROUP_2 &&& FLAG_MASK) >>> BITS_TO_PT_IDX) &&& PT_MASK = 0xBB := by decide
  have h3 : ((VIDEO_GROUP_3 &&& FLAG_MASK) >>> BITS_TO_PT_IDX) &&& PT_MASK = 0xBC := by decide
  have e0 : (VIDEO_KERNEL &&& FLAG_MASK) ||| (PDE_READ_WRITE ||| PDE_PRESENT) = 0xB8003 := by
    decide
  have e1 : ((((VIDEO_GROUP_1 &&& FLAG_MASK) ||| 0) ||| PDE_READ_WRITE) ||| 0) ||| PDE_PRESENT =
      0xBA003 := by decide
  have e2 : ((((VIDEO_GROUP_2 &&& FLAG_MASK) ||| 0) ||| PDE_READ_WRITE) ||| 0) ||| PDE_PRESENT =
      0xBB003 := by decide
  have e3 : ((((VIDEO_GROUP_3 &&& FLAG_MASK) ||| 0) ||| PDE_READ_WRITE) ||| 0) ||| PDE_PRESENT =
      0xBC003 := by decide
  have hj' : j < NUM_PAGE_ENTRIES := hj
  unfold paging_init
  simp only [map_page, h1, h2, h3]
  simp only [ne_eq, one_ne_zero, not_false_eq_true, not_true_eq_false, if_false, if_true, e1,
    e2, e3]
  show upd (upd (upd (upd (upd (fun i => if i < NUM_PAGE_ENTRIES then 0 else s.page_table_0 i)
    PT_VIDEO_ENTRY _) PT_VIDEO_ENTRY _) 186 _) 187 _) 188 _ j = _
  by_cases c1 : j = 188
  · subst c1; rw [if_pos rfl, upd_same]
  · rw [if_neg c1, upd_other _ _ _ _ c1]
    by_cases c2 : j = 187
    · subst c2; rw [if_pos rfl, upd_same]
    · rw [if_neg c2, upd_other _ _ _ _ c2]
      by_cases c3 : j = 186
      · subst c3; rw [if_pos rfl, upd_same]
      · rw [if_neg c3, upd_other _ _ _ _ c3]
        by_cases c4 : j = 184
        · subst c4
          rw [if_pos rfl]
          exact (upd_same _ _ _).trans ((congrArg (fun x => x ||| (PDE_READ_WRITE ||| PDE_PRESENT))
            (upd_same _ _ _)).trans e0)
        · have c4' : j ≠ PT_VIDEO_ENTRY := c4
          rw [if_neg c4, upd_other _ _ _ _ c4', upd_other _ _ _ _ c4']
          exact if_pos hj'

theorem pde0_flags (a : Nat) :
    ((a &&& 0xFFFFF000) ||| 7) &&& PDE_PRESENT ≠ 0 ∧
    ((a &&& 0xFFFFF000) ||| 7) &&& PDE_PAGE_SIZE = 0 := by
  constructor
  · unfold PDE_PRESENT
    rw [Nat.and_one_is_mod]
    have h1 : ((a &&& 0xFFFFF000) ||| 7).testBit 0 = true := by
      rw [Nat.testBit_or]
      have : (7 : Nat).testBit 0 = true := by decide
      rw [this, Bool.or_true]
    rw [Nat.testBit_zero] at h1
    have h2 := of_decide_eq_true h1
    omega
  · apply Nat.eq_of_testBit_eq
    intro k
    have h7 : (7 : Nat) = 2 ^ 3 - 1 := by decide
    have h80 : PDE_PAGE_SIZE = 2 ^ 7 := by decide
    rw [Nat.testBit_and, Nat.testBit_or, Nat.testBit_and, flag_mask_testBit, h7,
      Nat.testBit_two_pow_sub_one, h80, Nat.testBit_two_pow, Nat.zero_testBit]
    by_cases hk : 7 = k
    · subst hk; simp
    · simp [hk]

theorem page_walk_boot (s : Kernel) (pt0 v : Nat) (hv : v < 4294967296) :
    page_walk (paging_init s pt0) v =
      if 0x400000 ≤ v ∧ v < 0x800000 then some (v, 0x400083)
      else if 0xBC000 ≤ v ∧ v < 0xBD000 then some (v, 0xBC003)
      else if 0xBB000 ≤ v ∧ v < 0xBC000 then some (v, 0xBB003)
      else if 0xBA000 ≤ v ∧ v < 0xBB000 then some (v, 0xBA003)
      else if 0xB8000 ≤ v ∧ v < 0xB9000 then some (v, 0xB8003)
      else none := by
  have hd : v >>> 22 = v / 4194304 := Nat.shiftRight_eq_div_pow v 22
  have ht : (v >>> 12) &&& 0x3FF = (v / 4096) % 1024 := by
    have hm : (0x3FF : Nat) = 2 ^ 10 - 1 := by decide
    rw [hm, Nat.and_pow_two_sub_one_eq_mod, Nat.shiftRight_eq_div_pow]
  have hd1 : v / 4194304 < 1024 := by omega
  have ht1 : (v / 4096) % 1024 < 1024 := by omega
  unfold page_walk
  simp only
  rw [hd, ht, paging_init_pd s pt0 _ hd1, paging_init_pt s pt0 _ ht1]
  by_cases c1 : v / 4194304 = 1
  · have hr : 0x400000 ≤ v ∧ v < 0x800000 := by omega
    rw [if_pos c1, if_pos hr, if_neg (by decide), if_pos (by decide)]
    have hb : (0x400083 : Nat) &&& ALIGN_MB = 0x400000 := by decide
    rw [hb]
    have hp : 0x400000 + v % 0x400000 = v := by omega
    rw [hp]
  · have hr : ¬ (0x400000 ≤ v ∧ v < 0x800000) := by omega
    rw [if_neg c1, if_neg hr]
    by_cases c0 : v / 4194304 = 0
    · have hlow : v < 4194304 := by omega
      rw [if_pos c0, if_neg (pde0_flags pt0).1, if_neg (by rw [(pde0_flags pt0).2]; simp)]
      by_cases p1 : (v / 4096) % 1024 = 188
      · have hr1 : 0xBC000 ≤ v ∧ v < 0xBD000 := by omega
        rw [if_pos p1, if_pos hr1, if_neg (by decide)]
        have hb : (0xBC003 : Nat) &&& FLAG_MASK = 0xBC000 := by decide
        rw [hb]
        have hp : 0xBC000 + v % 0x1000 = v := by omega
        rw [hp]
      · have hr1 : ¬ (0xBC000 ≤ v ∧ v < 0xBD000) := by omega
        rw [if_neg p1, if_neg hr1]
        by_cases p2 : (v / 4096) % 1024 = 187
        · have hr2 : 0xBB000 ≤ v ∧ v < 0xBC000 := by omega
          rw [if_pos p2, if_pos hr2, if_neg (by decide)]
          have hb : (0xBB003 : Nat) &&& FLAG_MASK = 0xBB000 := by decide
          rw [hb]
          have hp : 0xBB000 + v % 0x1000 = v := by omega
          rw [hp]
        · have hr2 : ¬ (0xBB000 ≤ v ∧ v < 0xBC000) := by omega
          rw [if_neg p2, if_neg hr2]
          by_cases p3 : (v / 4096) % 1024 = 186
          · have hr3 : 0xBA000 ≤ v ∧ v < 0xBB000 := by omega
            rw [if_pos p3, if_pos hr3, if_neg (by decide)]
            have hb : (0xBA003 : Nat) &&& FLAG_MASK = 0xBA000 := by decide
            rw [hb]
            have hp : 0xBA000 + v % 0x1000 = v := by omega
            rw [hp]
          · have hr3 : ¬ (0xBA000 ≤ v ∧ v < 0xBB000) := by omega
            rw [if_neg p3, if_neg hr3]
            by_cases p4 : (v / 4096) % 1024 = 184
            · have hr4 : 0xB8000 ≤ v ∧ v < 0xB9000 := by omega
              rw [if_pos p4, if_pos hr4, if_neg (by decide)]
              have hb : (0xB8003 : Nat) &&& FLAG_MASK = 0xB8000 := by decide
              rw [hb]
              have hp : 0xB8000 + v % 0x1000 = v := by omega
              rw [hp]
            · have hr4 : ¬ (0xB8000 ≤ v ∧ v < 0xB9000) := by omega
              rw [if_neg p4, if_neg hr4, if_pos (by decide)]
    · rw [if_neg c0, if_pos (by decide)]
      have hr1 : ¬ (0xBC000 ≤ v ∧ v < 0xBD000) := by omega
      have hr2 : ¬ (0xBB000 ≤ v ∧ v < 0xBC000) := by omega
      have hr3 : ¬ (0xBA000 ≤ v ∧ v < 0xBB000) := by omega
      have hr4 : ¬ (0xB8000 ≤ v ∧ v < 0xB9000) := by omega
      rw [if_neg hr1, if_neg hr2, if_neg hr3, if_neg hr4]

/-- C24: after `paging_init`, a 32-bit virtual address is present in the page
tables if and only if it lies in [0xB8000, 0xB9000), [0xBA000, 0xBD000) or
[0x400000, 0x800000); every present address translates to the identical
physical address through a final-level entry without the user bit; the
addresses 0, 0xB8000 - 4, 0xB9000, 0x400000 - 4 and 0x800000 are not present;
and the directory entry 0 holds the address of `page_table_0` when that address
is page aligned. -/
theorem C24_paging_init (s : Kernel) (pt0 v : Nat) (hv : v < 4294967296) :
    ((page_walk (paging_init s pt0) v).isSome = true ↔ boot_mapped v) ∧
    (∀ phys e, page_walk (paging_init s pt0) v = some (phys, e) →
      phys = v ∧ entry_user e = false ∧ entry_present e = true) ∧
    page_walk (paging_init s pt0) 0 = none ∧
    page_walk (paging_init s pt0) (0xB8000 - 4) = none ∧
    page_walk (paging_init s pt0) 0xB9000 = none ∧
    page_walk (paging_init s pt0) (0x400000 - 4) = none ∧
    page_walk (paging_init s pt0) 0x800000 = none ∧
    (pt0 % 4096 = 0 → pt0 < 4294967296 →
      entry_frame ((paging_init s pt0).page_directory 0) = pt0) := by
  refine ⟨?_, ?_, ?_, ?_, ?_, ?_, ?_, ?_⟩
  · rw [page_walk_boot s pt0 v hv]
    unfold boot_mapped
    split_ifs <;> simp <;> omega
  · intro phys e h
    rw [page_walk_boot s pt0 v hv] at h
    split_ifs at h
    · obtain ⟨rfl, rfl⟩ := Prod.mk.inj (Option.some.inj h); exact ⟨rfl, by decide, by decide⟩
    · obtain ⟨rfl, rfl⟩ := Prod.mk.inj (Option.some.inj h); exact ⟨rfl, by decide, by decide⟩
    · obtain ⟨rfl, rfl⟩ := Prod.mk.inj (Option.some.inj h); exact ⟨rfl, by decide, by decide⟩
    · obtain ⟨rfl, rfl⟩ := Prod.mk.inj (Option.some.inj h); exact ⟨rfl, by decide, by decide⟩
    · obtain ⟨rfl, rfl⟩ := Prod.mk.inj (Option.some.inj h); exact ⟨rfl, by decide, by decide⟩
  · rw [page_walk_boot s pt0 0 (by decide)]; decide
  · rw [page_walk_boot s pt0 _ (by decide)]; decide
  · rw [page_walk_boot s pt0 _ (by decide)]; decide
  · rw [page_walk_boot s pt0 _ (by decide)]; decide
  · rw [page_walk_boot s pt0 _ (by decide)]; decide
  · intro ha hb
    rw [paging_init_pd s pt0 0 (by decide)]
    simp only [if_neg (by decide : ¬ (0 : Nat) = 1), if_true]
    unfold entry_frame FLAG_MASK
    apply Nat.eq_of_testBit_eq
    intro k
    have h7 : (7 : Nat) = 2 ^ 3 - 1 := by decide
    rw [Nat.testBit_and, Nat.testBit_or, Nat.testBit_and, flag_mask_testBit, h7,
      Nat.testBit_two_pow_sub_one]
    by_cases hk : k < 12
    · have hz : pt0.testBit k = false := by
        have := Nat.testBit_mod_two_pow pt0 12 k
        rw [show (2 : Nat) ^ 12 = 4096 by decide, ha, Nat.zero_testBit] at this
        simp [hk] at this
        exact this
      have h12 : ¬ 12 ≤ k := by omega
      simp [hz, h12]
    · by_cases hk2 : k < 32
      · have h3 : ¬ k < 3 := by omega
        have h12 : 12 ≤ k := by omega
        simp [h3, h12, hk2]
      · rw [testBit_high pt0 k hb (by omega)]
        simp [hk2]

/-- C24 witness: the address 0xB8000 of the framebuffer, on zeroed tables with
`page_table_0` at 0x500000. -/
theorem C24_paging_init_witness :
    (0xB8000 : Nat) < 4294967296 ∧
    ((page_walk (paging_init (reset_state demo_fs (fun _ => 0) (fun _ => pcb_zero)) 0x500000)
      0xB8000).isSome = true ↔ boot_mapped 0xB8000) ∧
    page_walk (paging_init (reset_state demo_fs (fun _ => 0) (fun _ => pcb_zero)) 0x500000)
      0xB9000 = none := by
  have h := C24_paging_init (reset_state demo_fs (fun _ => 0) (fun _ => pcb_zero)) 0x500000
    0xB8000 (by decide)
  exact ⟨by decide, h.1, h.2.2.2.2.1⟩

/-! ### One scheduler tick -/

theorem schedule_step_regs (s s' : Kernel) (next o n saved esp ebp : Nat)
    (h : s' = (let s1 : Kernel := { s with current_group := next }
      let s2 := set_pcb s1 o { s1.pcbs o with tss_esp0 := saved }
      let s3 := set_pcb s2 o { s2.pcbs o with kernel_esp := esp }
      let s4 := set_pcb s3 o { s3.pcbs o with kernel_ebp := ebp }
      let s5 :=
        if (s4.pcbs n).vid_map_called ≠ 0 then
          if s4.visible_group = s4.current_group then map_page s4 VIDEO_USER VIDEO_KERNEL 1 1 0
          else map_page s4 VIDEO_USER (VIDEO_GROUP_1 + s4.current_group * PAGE_SIZE) 1 1 0
        else unmap_page s4 VIDEO_USER 0
      let s6 := map_page s5 PROG_VIRT_ADDR (get_prog_phys_addr (s5.pcbs n).pid) 1 1 1
      let s7 := { s6 with tss_ss0 := KERNEL_DS }
      { s7 with tss_esp0 := (s7.pcbs n).tss_esp0 })) :
    (s'.pcbs o).tss_esp0 = saved ∧ (s'.pcbs o).kernel_esp = esp ∧
      (s'.pcbs o).kernel_ebp = ebp ∧
      (∀ q, q ≠ o → s'.pcbs q = s.pcbs q) ∧
      s'.page_table_0 = upd s.page_table_0 0xB9
        (if (s.pcbs n).vid_map_called ≠ 0 then
          (if s.visible_group = next then video_entry VIDEO_KERNEL
           else video_entry (VIDEO_GROUP_1 + next * PAGE_SIZE))
         else 0) ∧
      (∀ i, i ≠ 32 → s'.page_directory i = s.page_directory i) ∧
      s'.tss_esp0 = (s'.pcbs n).tss_esp0 ∧ s'.tss_ss0 = KERNEL_DS ∧
      s'.visible_group = s.visible_group := by
  subst h
  simp only [set_pcb_set_pcb, map_page_video, map_page_prog, unmap_page_video]
  simp only [set_pcb, upd_same]
  have hv' := fun x h1 h2 h3 => (upd_tree s.pcbs o n x h1 h2 h3).2.2
  refine ⟨?_, ?_, ?_, ?_, ?_, ?_, ?_, ?_, ?_⟩
  · split_ifs <;> exact congrArg pcb_t.tss_esp0 (upd_same _ _ _)
  · split_ifs <;> exact congrArg pcb_t.kernel_esp (upd_same _ _ _)
  · split_ifs <;> exact congrArg pcb_t.kernel_ebp (upd_same _ _ _)
  · intro q hq
    split_ifs <;> exact upd_other _ _ _ _ hq
  · rw [hv']
    · by_cases hv : (s.pcbs n).vid_map_called = 0
      · rw [if_neg (not_not.mpr hv), if_neg (not_not.mpr hv)]
      · rw [if_pos hv, if_pos hv]
        by_cases hvis : s.visible_group = next
        · rw [if_pos hvis, if_pos hvis]
        · rw [if_neg hvis, if_neg hvis]
    · rfl
    · rfl
    · rfl
  · intro i hi
    split_ifs <;> exact upd_other _ _ _ _ hi
  · trivial
  · trivial
  · split_ifs <;> rfl

theorem video_entry_bits (phys : Nat) (h : phys = 0xB8000 ∨ phys = 0xBA000 ∨ phys = 0xBB000 ∨
    phys = 0xBC000) :
    entry_present (video_entry phys) = true ∧ entry_writable (video_entry phys) = true ∧
    entry_user (video_entry phys) = true ∧ entry_frame (video_entry phys) = phys := by
  rcases h with h | h | h | h <;> subst h <;> decide

/-- C26: for every state whose current group g is 0, 1 or 2 and whose outgoing
and incoming active PIDs o and n designate PCBs, `schedule_next(top, cs)`
returns with `current_group` = (g + 1) mod 3, again below 3; the outgoing PCB
holds `tss_esp0` = top + 20 when (cs & 3) = 3 and top + 12 otherwise (32-bit),
and the stack registers; `page_table_0[0xB9]` is a present, writable user entry
for 0xB8000 when the incoming PCB has `vid_map_called` and the new group is
visible, for 0xBA000 + g' * 4096 when it has it and the group is not visible,
and 0 otherwise, the other entries being unchanged; the directory entry for
128 MiB maps the frame of the incoming PCB's PID; TSS.esp0 is the `tss_esp0`
held by the incoming PCB and TSS.ss0 is the kernel data segment; and three
ticks in a row return to group g. -/
theorem C26_schedule_next (s : Kernel) (top cs esp ebp o n : Nat)
    (hg : s.current_group < 3) (ho7 : o < 7) (hn7 : n < 7)
    (ho : s.active_pid s.current_group = (o : Int))
    (hn : s.active_pid ((s.current_group + 1) % 3) = (n : Int)) :
    (∃ s', schedule_next s top cs esp ebp = some s' ∧
      s'.current_group = (s.current_group + 1) % 3 ∧ s'.current_group < 3 ∧
      (s'.pcbs o).tss_esp0 = (if cs &&& 3 = 3 then (top + 20) % 4294967296
        else (top + 12) % 4294967296) ∧
      (s'.pcbs o).kernel_esp = esp ∧ (s'.pcbs o).kernel_ebp = ebp ∧
      (((s.pcbs n).vid_map_called ≠ 0 ∧ s.visible_group = (s.current_group + 1) % 3) →
        s'.page_table_0 0xB9 = video_entry 0xB8000 ∧
        entry_present (s'.page_table_0 0xB9) = true ∧
        entry_user (s'.page_table_0 0xB9) = true ∧
        entry_frame (s'.page_table_0 0xB9) = 0xB8000) ∧
      (((s.pcbs n).vid_map_called ≠ 0 ∧ s.visible_group ≠ (s.current_group + 1) % 3) →
        s'.page_table_0 0xB9 = video_entry (0xBA000 + (s.current_group + 1) % 3 * 4096) ∧
        entry_present (s'.page_table_0 0xB9) = true ∧
        entry_user (s'.page_table_0 0xB9) = true ∧
        entry_frame (s'.page_table_0 0xB9) = 0xBA000 + (s.current_group + 1) % 3 * 4096) ∧
      ((s.pcbs n).vid_map_called = 0 → s'.page_table_0 0xB9 = 0) ∧
      (∀ i, i ≠ 0xB9 → s'.page_table_0 i = s.page_table_0 i) ∧
      s'.page_directory 32 = prog_entry (get_prog_phys_addr (s.pcbs n).pid) ∧
      (∀ i, i ≠ 32 → s'.page_directory i = s.page_directory i) ∧
      s'.tss_esp0 = (s'.pcbs n).tss_esp0 ∧ (n ≠ o → s'.tss_esp0 = (s.pcbs n).tss_esp0) ∧
      s'.tss_ss0 = KERNEL_DS ∧ s'.active_pid = s.active_pid) ∧
    (∀ s1 s2 s3, schedule_next s top cs esp ebp = some s1 →
      schedule_next s1 top cs esp ebp = some s2 → schedule_next s2 top cs esp ebp = some s3 →
      s3.current_group = s.current_group) := by
  have hnext : (if s.current_group + 1 ≥ NUM_OF_PROCESS_GROUPS then 0 else s.current_group + 1) =
      (s.current_group + 1) % 3 := by
    unfold NUM_OF_PROCESS_GROUPS
    split_ifs <;> omega
  have hg3 : (s.current_group + 1) % 3 < 3 := by omega
  have ho' : get_pcb_addr (s.active_pid s.current_group) = some o := by
    rw [ho]; exact pid_slot_nat o ho7
  have hn' : get_pcb_addr (s.active_pid (if s.current_group + 1 ≥ NUM_OF_PROCESS_GROUPS then 0
      else s.current_group + 1)) = some n := by
    rw [hnext, hn]; exact pid_slot_nat n hn7
  constructor
  · obtain ⟨s', hs'⟩ : ∃ s', schedule_next s top cs esp ebp = some s' := by
      unfold schedule_next
      simp only [ho', hn']
      exact ⟨_, rfl⟩
    refine ⟨s', hs', ?_⟩
    unfold schedule_next at hs'
    simp only [ho', hn', Option.some.injEq] at hs'
    obtain ⟨e1, e2, _, _, e5, _⟩ := schedule_step s s'
      (if s.current_group + 1 ≥ NUM_OF_PROCESS_GROUPS then 0 else s.current_group + 1) o n
      (if cs &&& CPL_MASK = CPL_3 then (top + 5 * ENTRY_SIZE) % 4294967296
        else (top + 3 * ENTRY_SIZE) % 4294967296) esp ebp hs'.symm
    obtain ⟨r1, r2, r3, r4, r5, r6, r7, r8, r9⟩ := schedule_step_regs s s'
      (if s.current_group + 1 ≥ NUM_OF_PROCESS_GROUPS then 0 else s.current_group + 1) o n
      (if cs &&& CPL_MASK = CPL_3 then (top + 5 * ENTRY_SIZE) % 4294967296
        else (top + 3 * ENTRY_SIZE) % 4294967296) esp ebp hs'.symm
    rw [hnext] at e1 r5
    have hc : s'.current_group = (s.current_group + 1) % 3 := e1
    have hcases : (s.current_group + 1) % 3 = 0 ∨ (s.current_group + 1) % 3 = 1 ∨
        (s.current_group + 1) % 3 = 2 := by omega
    refine ⟨hc, by rw [hc]; exact hg3, r1, r2, r3, ?_, ?_, ?_, ?_, e5, r6, r7, ?_, r8, e2⟩
    · rintro ⟨hv, hvis⟩
      have hp : s'.page_table_0 0xB9 = video_entry 0xB8000 := by
        rw [r5, upd_same, if_pos hv, if_pos hvis]; rfl
      rw [hp]
      exact ⟨rfl, (video_entry_bits _ (Or.inl rfl)).1, (video_entry_bits _ (Or.inl rfl)).2.2.1,
        (video_entry_bits _ (Or.inl rfl)).2.2.2⟩
    · rintro ⟨hv, hvis⟩
      have hp : s'.page_table_0 0xB9 =
          video_entry (0xBA000 + (s.current_group + 1) % 3 * 4096) := by
        rw [r5, upd_same, if_pos hv, if_neg hvis]; rfl
      rw [hp]
      have hb := video_entry_bits (0xBA000 + (s.current_group + 1) % 3 * 4096)
        (by rcases hcases with h | h | h <;> rw [h] <;> simp)
      exact ⟨rfl, hb.1, hb.2.2.1, hb.2.2.2⟩
    · intro hv
      rw [r5, upd_same, if_neg (not_not.mpr hv)]
    · intro i hi
      rw [r5, upd_other _ _ _ _ hi]
    · intro hno
      rw [r7, r4 n hno]
  · intro s1 s2 s3 h1 h2 h3
    obtain ⟨_, _, c1, _⟩ := schedule_next_effect s s1 top cs esp ebp h1
    obtain ⟨_, _, c2, _⟩ := schedule_next_effect s1 s2 top cs esp ebp h2
    obtain ⟨_, _, c3, _⟩ := schedule_next_effect s2 s3 top cs esp ebp h3
    rw [c3, c2, c1]
    split_ifs <;> omega

set_option maxRecDepth 100000 in
/-- C26 witness: a tick in the booted state, where group 0 runs PID 1 and
group 1 runs PID 2. -/
theorem C26_schedule_next_witness :
    (demo_boot.current_group < 3 ∧ demo_boot.active_pid demo_boot.current_group = ((1 : Nat) : Int) ∧
      demo_boot.active_pid ((demo_boot.current_group + 1) % 3) = ((2 : Nat) : Int)) ∧
    (∃ s', schedule_next demo_boot 0x7FBFE0 0x23 0x7FBFC0 0x7FBFD0 = some s' ∧
      s'.current_group = (demo_boot.current_group + 1) % 3 ∧
      (s'.pcbs 1).tss_esp0 = (if 0x23 &&& 3 = 3 then (0x7FBFE0 + 20) % 4294967296
        else (0x7FBFE0 + 12) % 4294967296) ∧
      s'.page_directory 32 = prog_entry (get_prog_phys_addr (demo_boot.pcbs 2).pid)) := by
  obtain ⟨⟨s', h1, h2, _, h4, _, _, _, _, _, _, h11, _⟩, _⟩ :=
    C26_schedule_next demo_boot 0x7FBFE0 0x23 0x7FBFC0 0x7FBFD0 1 2 (by decide) (by decide)
      (by decide) (by decide) (by decide)
  exact ⟨⟨by decide, by decide, by decide⟩, s', h1, h2, h4, h11⟩

/-! ### Spaces around a command -/

theorem skip_spaces_ge (cmd : Nat → Nat) : ∀ (fuel i : Nat), i ≤ skip_spaces cmd fuel i := by
  intro fuel
  induction fuel with
  | zero => intro i; exact Nat.le_refl _
  | succ f ih =>
    intro i
    unfold skip_spaces
    split_ifs
    · exact Nat.le_trans (Nat.le_succ i) (ih (i + 1))
    · exact Nat.le_refl _

theorem skip_spaces_stay (cmd : Nat → Nat) (fuel i : Nat) (h : cmd i ≠ 32) :
    skip_spaces cmd fuel i = i := by
  cases fuel with
  | zero => rfl
  | succ f => unfold skip_spaces; rw [if_neg h]

/-- Two views of a command that agree on the first `n` bytes, where the first
ends (NUL from `n` on) and the second goes on with `k` spaces before it ends. -/
theorem skip_spaces_padded (v0 v1 : Nat → Nat) (n k : Nat)
    (H1 : ∀ i, i < n → v1 i = v0 i) (H2 : ∀ i, n ≤ i → v0 i = 0)
    (H3 : ∀ i, n ≤ i → i < n + k → v1 i = 32) (H4 : ∀ i, n + k ≤ i → v1 i = 0) :
    ∀ (d i f0 f1 : Nat), i + d = n → n - i ≤ f0 → n + k - i ≤ f1 →
      (skip_spaces v0 f0 i = skip_spaces v1 f1 i ∧ skip_spaces v0 f0 i ≤ n ∧
        v1 (skip_spaces v0 f0 i) = v0 (skip_spaces v0 f0 i)) ∨
      (v0 (skip_spaces v0 f0 i) = 0 ∧ v1 (skip_spaces v1 f1 i) = 0) := by
  intro d
  induction d with
  | zero =>
    intro i f0 f1 hi _ hf1
    have hin : i = n := by omega
    subst hin
    right
    have h0 : v0 i ≠ 32 := by rw [H2 i (Nat.le_refl _)]; decide
    rw [skip_spaces_stay v0 f0 i h0]
    have h1 : skip_spaces v1 f1 i = i + k :=
      skip_spaces_run v1 k f1 i (by omega) (fun t ht => H3 (i + t) (by omega) (by omega))
        (by rw [H4 (i + k) (Nat.le_refl _)]; decide)
    rw [h1]
    exact ⟨H2 i (Nat.le_refl _), H4 (i + k) (Nat.le_refl _)⟩
  | succ d ih =>
    intro i f0 f1 hi hf0 hf1
    have hlt : i < n := by omega
    by_cases hs : v0 i = 32
    · have hs1 : v1 i = 32 := by rw [H1 i hlt]; exact hs
      obtain ⟨g0, rfl⟩ : ∃ g0, f0 = g0 + 1 := ⟨f0 - 1, by omega⟩
      obtain ⟨g1, rfl⟩ : ∃ g1, f1 = g1 + 1 := ⟨f1 - 1, by omega⟩
      have e0 : skip_spaces v0 (g0 + 1) i = skip_spaces v0 g0 (i + 1) := by
        rw [skip_spaces]; exact if_pos hs
      have e1 : skip_spaces v1 (g1 + 1) i = skip_spaces v1 g1 (i + 1) := by
        rw [skip_spaces]; exact if_pos hs1
      rw [e0, e1]
      exact ih (i + 1) g0 g1 (by omega) (by omega) (by omega)
    · have hs1 : v1 i ≠ 32 := by rw [H1 i hlt]; exact hs
      left
      rw [skip_spaces_stay v0 f0 i hs, skip_spaces_stay v1 f1 i hs1]
      exact ⟨rfl, Nat.le_of_lt hlt, H1 i hlt⟩

theorem padded_stop (v0 v1 : Nat → Nat) (n k i : Nat)
    (H1 : ∀ i, i < n → v1 i = v0 i) (H2 : ∀ i, n ≤ i → v0 i = 0)
    (H3 : ∀ i, n ≤ i → i < n + k → v1 i = 32) (H4 : ∀ i, n + k ≤ i → v1 i = 0) (hi : i ≤ n) :
    (i < TERM_BUFFER_SIZE - 1 ∧ v1 i ≠ 32 ∧ v1 i ≠ 0) ↔
      (i < TERM_BUFFER_SIZE - 1 ∧ v0 i ≠ 32 ∧ v0 i ≠ 0) ∧ i < n := by
  by_cases hlt : i < n
  · rw [H1 i hlt]
    exact ⟨fun h => ⟨h, hlt⟩, fun h => h.1⟩
  · have hin : i = n := by omega
    subst hin
    constructor
    · intro h
      exfalso
      by_cases hk : k = 0
      · exact h.2.2 (H4 i (by omega))
      · exact h.2.1 (H3 i (Nat.le_refl _) (by omega))
    · intro h; exact absurd h.2 hlt

theorem copy_filename_padded (v0 v1 : Nat → Nat) (n k : Nat)
    (H1 : ∀ i, i < n → v1 i = v0 i) (H2 : ∀ i, n ≤ i → v0 i = 0)
    (H3 : ∀ i, n ≤ i → i < n + k → v1 i = 32) (H4 : ∀ i, n + k ≤ i → v1 i = 0) :
    ∀ (fuel i : Nat) (acc : List Nat), i ≤ n →
      copy_filename v1 fuel i acc = copy_filename v0 fuel i acc ∧
        (copy_filename v0 fuel i acc).1 ≤ n := by
  intro fuel
  induction fuel with
  | zero => intro i acc hi; exact ⟨rfl, hi⟩
  | succ f ih =>
    intro i acc hi
    have hst := padded_stop v0 v1 n k i H1 H2 H3 H4 hi
    unfold copy_filename
    by_cases hc : i < TERM_BUFFER_SIZE - 1 ∧ v0 i ≠ 32 ∧ v0 i ≠ 0
    · have hlt : i < n := by
        by_contra hn
        have hin : i = n := by omega
        exact hc.2.2 (H2 i (by omega))
      have hc1 : i < TERM_BUFFER_SIZE - 1 ∧ v1 i ≠ 32 ∧ v1 i ≠ 0 := hst.mpr ⟨hc, hlt⟩
      rw [if_pos hc, if_pos hc1, H1 i hlt]
      exact ih (i + 1) _ hlt
    · have hc1 : ¬ (i < TERM_BUFFER_SIZE - 1 ∧ v1 i ≠ 32 ∧ v1 i ≠ 0) := fun h => hc (hst.mp h).1
      rw [if_neg hc, if_neg hc1]
      exact ⟨rfl, hi⟩

theorem copy_arg_padded (v0 v1 : Nat → Nat) (n k : Nat)
    (H1 : ∀ i, i < n → v1 i = v0 i) (H2 : ∀ i, n ≤ i → v0 i = 0)
    (H3 : ∀ i, n ≤ i → i < n + k → v1 i = 32) (H4 : ∀ i, n + k ≤ i → v1 i = 0) :
    ∀ (fuel i a : Nat) (A : Nat → Nat), i ≤ n →
      copy_arg v1 fuel i a A = copy_arg v0 fuel i a A ∧ (copy_arg v0 fuel i a A).1 ≤ n := by
  intro fuel
  induction fuel with
  | zero => intro i a A hi; exact ⟨rfl, hi⟩
  | succ f ih =>
    intro i a A hi
    have hst := padded_stop v0 v1 n k i H1 H2 H3 H4 hi
    unfold copy_arg
    by_cases hc : i < TERM_BUFFER_SIZE - 1 ∧ v0 i ≠ 32 ∧ v0 i ≠ 0
    · have hlt : i < n := by
        by_contra hn
        have hin : i = n := by omega
        exact hc.2.2 (H2 i (by omega))
      have hc1 : i < TERM_BUFFER_SIZE - 1 ∧ v1 i ≠ 32 ∧ v1 i ≠ 0 := hst.mpr ⟨hc, hlt⟩
      rw [if_pos hc, if_pos hc1, H1 i hlt]
      exact ih (i + 1) _ _ hlt
    · have hc1 : ¬ (i < TERM_BUFFER_SIZE - 1 ∧ v1 i ≠ 32 ∧ v1 i ≠ 0) := fun h => hc (hst.mp h).1
      rw [if_neg hc, if_neg hc1]
      exact ⟨rfl, hi⟩

theorem parse_args_padded (v0 v1 : Nat → Nat) (n k len0 len1 : Nat)
    (H1 : ∀ i, i < n → v1 i = v0 i) (H2 : ∀ i, n ≤ i → v0 i = 0)
    (H3 : ∀ i, n ≤ i → i < n + k → v1 i = 32) (H4 : ∀ i, n + k ≤ i → v1 i = 0)
    (hl0 : n ≤ len0) (hl1 : n + k ≤ len1) :
    ∀ (m i0 i1 a : Nat) (A : Nat → Nat),
      ((i0 = i1 ∧ i0 ≤ n ∧ v1 i0 = v0 i0) ∨ (v0 i0 = 0 ∧ v1 i1 = 0)) →
      parse_args v1 len1 m i1 a A = parse_args v0 len0 m i0 a A := by
  intro m
  induction m with
  | zero => intro i0 i1 a A _; rfl
  | succ m ih =>
    intro i0 i1 a A hR
    unfold parse_args
    rcases hR with ⟨e, hle, hv⟩ | ⟨z0, z1⟩
    · subst e
      by_cases hz : v0 i0 = 0
      · rw [if_pos hz, if_pos (by rw [hv]; exact hz)]
      · rw [if_neg hz, if_neg (by rw [hv]; exact hz)]
        obtain ⟨hc, hcn⟩ := copy_arg_padded v0 v1 n k H1 H2 H3 H4 (TERM_BUFFER_SIZE - 1) i0 a A hle
        simp only
        rw [hc]
        generalize hr : copy_arg v0 (TERM_BUFFER_SIZE - 1) i0 a A = r at hcn
        have hsk := skip_spaces_padded v0 v1 n k H1 H2 H3 H4 (n - r.1) r.1 len0 len1 (by omega)
          (by omega) (by omega)
        rcases hsk with ⟨e1, e2, e3⟩ | ⟨y0, y1⟩
        · rw [← e1, e3]
          by_cases hz2 : v0 (skip_spaces v0 len0 r.1) = 0
          · rw [if_pos hz2, if_pos hz2]
          · rw [if_neg hz2, if_neg hz2]
            exact ih _ _ _ _ (Or.inl ⟨rfl, e2, e3⟩)
        · rw [if_pos y0, if_pos y1]
    · rw [if_pos z0, if_pos z1]

theorem skip_spaces_spec (cmd : Nat → Nat) :
    ∀ (fuel i : Nat), (∀ t, i ≤ t → t < skip_spaces cmd fuel i → cmd t = 32) ∧
      skip_spaces cmd fuel i ≤ i + fuel ∧
      (skip_spaces cmd fuel i < i + fuel → cmd (skip_spaces cmd fuel i) ≠ 32) := by
  intro fuel
  induction fuel with
  | zero =>
    intro i
    refine ⟨fun t h1 h2 => ?_, Nat.le_refl _, fun h => ?_⟩
    · have : skip_spaces cmd 0 i = i := rfl
      omega
    · have : skip_spaces cmd 0 i = i := rfl
      omega
  | succ f ih =>
    intro i
    by_cases hs : cmd i = 32
    · have e : skip_spaces cmd (f + 1) i = skip_spaces cmd f (i + 1) := by
        rw [skip_spaces]; exact if_pos hs
      rw [e]
      obtain ⟨a1, a2, a3⟩ := ih (i + 1)
      refine ⟨fun t h1 h2 => ?_, by omega, fun h => a3 (by omega)⟩
      by_cases ht : t = i
      · rw [ht]; exact hs
      · exact a1 t (by omega) h2
    · rw [skip_spaces_stay cmd (f + 1) i hs]
      exact ⟨fun t h1 h2 => by omega, by omega, fun _ => hs⟩

theorem chr_padded (c : List Nat) (j k i : Nat) :
    chr (List.replicate j 32 ++ c ++ List.replicate k 32) i =
      if i < j then 32 else if i < j + c.length then chr c (i - j)
      else if i < j + c.length + k then 32 else 0 := by
  have hj : (List.replicate j 32).length = j := List.length_replicate _ _
  have hjc : (List.replicate j 32 ++ c).length = j + c.length := by
    rw [List.length_append, hj]
  by_cases h1 : i < j
  · rw [if_pos h1, chr_append_left _ _ _ (by rw [hjc]; omega),
      chr_append_left _ _ _ (by rw [hj]; exact h1)]
    exact chr_replicate j i h1
  · rw [if_neg h1]
    by_cases h2 : i < j + c.length
    · rw [if_pos h2, chr_append_left _ _ _ (by rw [hjc]; exact h2)]
      have e : i = (List.replicate j 32).length + (i - j) := by rw [hj]; omega
      rw [e, chr_append_right, ← e]
    · rw [if_neg h2]
      have e : i = (List.replicate j 32 ++ c).length + (i - (j + c.length)) := by
        rw [hjc]; omega
      rw [e, chr_append_right, ← e]
      by_cases h3 : i < j + c.length + k
      · rw [if_pos h3]
        exact chr_replicate k _ (by omega)
      · rw [if_neg h3]
        exact chr_end _ _ (by rw [List.length_replicate]; omega)

theorem padded_views (c : List Nat) (j k : Nat) :
    ∃ n k', (∀ i, i < n → command_view (List.replicate j 32 ++ c ++ List.replicate k 32) i =
        command_view c i) ∧
      (∀ i, n ≤ i → command_view c i = 0) ∧
      (∀ i, n ≤ i → i < n + k' →
        command_view (List.replicate j 32 ++ c ++ List.replicate k 32) i = 32) ∧
      (∀ i, n + k' ≤ i →
        command_view (List.replicate j 32 ++ c ++ List.replicate k 32) i = 0) ∧
      n ≤ c.length ∧ n + k' ≤ (List.replicate j 32 ++ c ++ List.replicate k 32).length := by
  obtain ⟨a1, a2, a3⟩ := skip_spaces_spec (chr c) c.length 0
  have hlen : (List.replicate j 32 ++ c ++ List.replicate k 32).length = j + c.length + k := by
    simp only [List.length_append, List.length_replicate]
  have hcl : chr c (skip_spaces (chr c) c.length 0) ≠ 32 := by
    by_cases h : skip_spaces (chr c) c.length 0 < 0 + c.length
    · exact a3 h
    · rw [chr_end c _ (by omega)]; decide
  generalize hl : skip_spaces (chr c) c.length 0 = l at a1 a2 a3 hcl
  have hvc : ∀ i, command_view c i = chr c (l + i) := by
    intro i; unfold command_view; rw [hl]
  by_cases hcase : l < c.length
  · have hlp : skip_spaces (chr (List.replicate j 32 ++ c ++ List.replicate k 32))
        (List.replicate j 32 ++ c ++ List.replicate k 32).length 0 = 0 + (j + l) := by
      apply skip_spaces_run _ (j + l) _ 0 (by rw [hlen]; omega)
      · intro i hi
        rw [chr_padded]
        by_cases h1 : 0 + i < j
        · rw [if_pos h1]
        · rw [if_neg h1, if_pos (by omega)]
          exact a1 _ (by omega) (by omega)
      · rw [chr_padded, if_neg (by omega), if_pos (by omega)]
        have : 0 + (j + l) - j = l := by omega
        rw [this]; exact hcl
    have hvp : ∀ i, command_view (List.replicate j 32 ++ c ++ List.replicate k 32) i =
        chr (List.replicate j 32 ++ c ++ List.replicate k 32) (j + l + i) := by
      intro i; unfold command_view; rw [hlp]
      have : 0 + (j + l) + i = j + l + i := by omega
      rw [this]
    refine ⟨c.length - l, k, ?_, ?_, ?_, ?_, by omega, by rw [hlen]; omega⟩
    · intro i hi
      rw [hvp, hvc, chr_padded, if_neg (by omega), if_pos (by omega)]
      have : j + l + i - j = l + i := by omega
      rw [this]
    · intro i hi
      rw [hvc]; exact chr_end c _ (by omega)
    · intro i h1 h2
      rw [hvp, chr_padded, if_neg (by omega), if_neg (by omega), if_pos (by omega)]
    · intro i hi
      rw [hvp, chr_padded, if_neg (by omega), if_neg (by omega), if_neg (by omega)]
  · have hle : l = c.length := by omega
    have hlp : skip_spaces (chr (List.replicate j 32 ++ c ++ List.replicate k 32))
        (List.replicate j 32 ++ c ++ List.replicate k 32).length 0 = 0 + (j + c.length + k) := by
      apply skip_spaces_run _ (j + c.length + k) _ 0 (by rw [hlen])
      · intro i hi
        rw [chr_padded]
        by_cases h1 : 0 + i < j
        · rw [if_pos h1]
        · rw [if_neg h1]
          by_cases h2 : 0 + i < j + c.length
          · rw [if_pos h2]
            exact a1 _ (by omega) (by omega)
          · rw [if_neg h2, if_pos (by omega)]
      · rw [chr_padded, if_neg (by omega), if_neg (by omega), if_neg (by omega)]
        decide
    have hvp : ∀ i, command_view (List.replicate j 32 ++ c ++ List.replicate k 32) i = 0 := by
      intro i; unfold command_view; rw [hlp, chr_padded, if_neg (by omega), if_neg (by omega),
        if_neg (by omega)]
    refine ⟨0, 0, ?_, ?_, ?_, ?_, by omega, by omega⟩
    · intro i hi; omega
    · intro i _
      rw [hvc]; exact chr_end c _ (by omega)
    · intro i h1 h2; omega
    · intro i _; exact hvp i

/-- C23: for every command c and all j, k, `system_execute` parses the command
made of j spaces, then c, then k spaces to the same file name (and the same
index after it), and saves the same argument buffer and the same `args_len` in
the child PCB, as it does for c alone. -/
theorem C23_spaces_around (c : List Nat) (j k : Nat) :
    execute_filename (List.replicate j 32 ++ c ++ List.replicate k 32) = execute_filename c ∧
    ∀ (s : Kernel) (ch : Nat),
      execute_save_args s ch (List.replicate j 32 ++ c ++ List.replicate k 32) =
        execute_save_args s ch c := by
  obtain ⟨n, k', H1, H2, H3, H4, hl0, hl1⟩ := padded_views c j k
  obtain ⟨hf, hfn⟩ := copy_filename_padded _ _ n k' H1 H2 H3 H4 (TERM_BUFFER_SIZE - 1) 0 []
    (Nat.zero_le _)
  have hfe : execute_filename (List.replicate j 32 ++ c ++ List.replicate k 32) =
      execute_filename c := hf
  refine ⟨hfe, ?_⟩
  intro s ch
  unfold execute_save_args
  simp only
  rw [hfe]
  have hfn' : (execute_filename c).1 ≤ n := hfn
  have hsk := skip_spaces_padded _ _ n k' H1 H2 H3 H4 (n - (execute_filename c).1)
    (execute_filename c).1 c.length (List.replicate j 32 ++ c ++ List.replicate k 32).length
    (by omega) (by omega) (by omega)
  have hp := parse_args_padded _ _ n k' c.length
    (List.replicate j 32 ++ c ++ List.replicate k 32).length H1 H2 H3 H4 hl0 hl1 MAX_NUM_ARGS
    (skip_spaces (command_view c) c.length (execute_filename c).1)
    (skip_spaces (command_view (List.replicate j 32 ++ c ++ List.replicate k 32))
      (List.replicate j 32 ++ c ++ List.replicate k 32).length (execute_filename c).1)
    0 (s.pcbs ch).args
    (by
      rcases hsk with ⟨e1, e2, e3⟩ | ⟨y0, y1⟩
      · exact Or.inl ⟨e1, e2, e3⟩
      · exact Or.inr ⟨y0, y1⟩)
  rw [hp]

/-! ### Index bounds of the command parser -/

theorem copy_filename_len (cmd : Nat → Nat) :
    ∀ (fuel i : Nat) (acc : List Nat), acc.length = i →
      (copy_filename cmd fuel i acc).2.length = (copy_filename cmd fuel i acc).1 ∧
      i ≤ (copy_filename cmd fuel i acc).1 ∧
      (i ≤ 127 → (copy_filename cmd fuel i acc).1 ≤ 127) ∧
      (127 ≤ i + fuel → 127 ≤ (copy_filename cmd fuel i acc).1 ∨
        cmd (copy_filename cmd fuel i acc).1 = 32 ∨ cmd (copy_filename cmd fuel i acc).1 = 0) := by
  intro fuel
  induction fuel with
  | zero =>
    intro i acc h
    exact ⟨h, Nat.le_refl _, fun h => h, fun h => Or.inl h⟩
  | succ f ih =>
    intro i acc h
    unfold copy_filename
    by_cases hc : i < TERM_BUFFER_SIZE - 1 ∧ cmd i ≠ 32 ∧ cmd i ≠ 0
    · rw [if_pos hc]
      have h127 : i < 127 := hc.1
      obtain ⟨b1, b2, b3, b4⟩ := ih (i + 1) (acc ++ [cmd i]) (by rw [List.length_append, h]; rfl)
      exact ⟨b1, by omega, fun _ => b3 (by omega), fun h => b4 (by omega)⟩
    · rw [if_neg hc]
      refine ⟨h, Nat.le_refl _, fun h => h, fun _ => ?_⟩
      show 127 ≤ i ∨ cmd i = 32 ∨ cmd i = 0
      by_cases h1 : 127 ≤ i
      · exact Or.inl h1
      · by_cases h2 : cmd i = 32
        · exact Or.inr (Or.inl h2)
        · by_cases h3 : cmd i = 0
          · exact Or.inr (Or.inr h3)
          · exact absurd ⟨show i < TERM_BUFFER_SIZE - 1 by
              unfold TERM_BUFFER_SIZE; omega, h2, h3⟩ hc

theorem copy_arg_bound (cmd : Nat → Nat) :
    ∀ (fuel ci ai : Nat) (A : Nat → Nat),
      ci ≤ (copy_arg cmd fuel ci ai A).1 ∧
      (copy_arg cmd fuel ci ai A).2.1 + ci = (copy_arg cmd fuel ci ai A).1 + ai ∧
      (copy_arg cmd fuel ci ai A).1 ≤ max ci 127 ∧
      (∀ i, (i < ai ∨ (copy_arg cmd fuel ci ai A).2.1 ≤ i) →
        (copy_arg cmd fuel ci ai A).2.2 i = A i) := by
  intro fuel
  induction fuel with
  | zero =>
    intro ci ai A
    exact ⟨Nat.le_refl _, Nat.add_comm _ _, Nat.le_max_left _ _, fun _ _ => rfl⟩
  | succ f ih =>
    intro ci ai A
    unfold copy_arg
    by_cases hc : ci < TERM_BUFFER_SIZE - 1 ∧ cmd ci ≠ 32 ∧ cmd ci ≠ 0
    · rw [if_pos hc]
      have h127 : ci < 127 := hc.1
      obtain ⟨b1, b2, b3, b4⟩ := ih (ci + 1) (ai + 1) (upd A ai (cmd ci))
      refine ⟨by omega, by omega, ?_, ?_⟩
      · have : max (ci + 1) 127 = max ci 127 := by omega
        rw [← this]; exact b3
      · intro i hi
        have hne : i ≠ ai := by omega
        rw [b4 i (by omega), upd_other _ _ _ _ hne]
    · rw [if_neg hc]
      exact ⟨Nat.le_refl _, Nat.add_comm _ _, Nat.le_max_left _ _, fun _ _ => rfl⟩

theorem parse_args_bound (cmd : Nat → Nat) (len : Nat) :
    ∀ (m ci ai : Nat) (A : Nat → Nat), m ≤ 3 → ai + 2 ≤ min ci 127 + (3 - m) →
      (parse_args cmd len m ci ai A).1 ≤ 128 ∧
      (∀ i, 128 ≤ i → (parse_args cmd len m ci ai A).2 i = A i) := by
  intro m
  induction m with
  | zero =>
    intro ci ai A _ h
    exact ⟨by show ai ≤ 128; omega, fun _ _ => rfl⟩
  | succ m ih =>
    intro ci ai A hm h
    unfold parse_args
    by_cases hz : cmd ci = 0
    · rw [if_pos hz]
      refine ⟨by show ai ≤ 128; omega, fun i hi => ?_⟩
      show upd A 0 0 i = A i
      exact upd_other _ _ _ _ (by omega)
    · rw [if_neg hz]
      simp only
      obtain ⟨b1, b2, b3, b4⟩ := copy_arg_bound cmd (TERM_BUFFER_SIZE - 1) ci ai A
      generalize copy_arg cmd (TERM_BUFFER_SIZE - 1) ci ai A = r at b1 b2 b3 b4
      have hsk := skip_spaces_ge cmd len r.1
      have hr : r.2.1 + 2 ≤ min r.1 127 + (2 - m) := by omega
      by_cases hz2 : cmd (skip_spaces cmd len r.1) = 0
      · rw [if_pos hz2]
        refine ⟨by show r.2.1 + 1 ≤ 128; omega, fun i hi => ?_⟩
        show upd r.2.2 r.2.1 0 i = A i
        rw [upd_other _ _ _ _ (by omega), b4 i (by omega)]
      · rw [if_neg hz2]
        obtain ⟨c1, c2⟩ := ih (skip_spaces cmd len r.1) (r.2.1 + 1) (upd r.2.2 r.2.1 32)
          (by omega) (by omega)
        refine ⟨c1, fun i hi => ?_⟩
        rw [c2 i hi, upd_other _ _ _ _ (by omega), b4 i (by omega)]

theorem command_view_start (command : List Nat) : command_view command 0 ≠ 32 := by
  unfold command_view
  obtain ⟨_, a2, a3⟩ := skip_spaces_spec (chr command) command.length 0
  by_cases h : skip_spaces (chr command) command.length 0 < 0 + command.length
  · exact a3 h
  · rw [chr_end command _ (by omega)]; decide

/-- C28: for every command string, `system_execute` stores the bytes of the
file name at indices below the final `cmd_idx` and the terminating NUL at that
index, which is at most 127; it writes no byte of the child PCB's `args` at an
index of 128 or more; and the `args_idx` it ends with is at most 128, so
`args_len` holds it without truncation. -/
theorem C28_parse_bounds (s : Kernel) (ch : Nat) (command : List Nat) :
    (execute_filename command).2.length = (execute_filename command).1 ∧
    (execute_filename command).1 ≤ 127 ∧
    (∀ i, 128 ≤ i → ((execute_save_args s ch command).pcbs ch).args i = (s.pcbs ch).args i) ∧
    (parse_args (command_view command) command.length MAX_NUM_ARGS
      (skip_spaces (command_view command) command.length (execute_filename command).1) 0
      (s.pcbs ch).args).1 ≤ 128 ∧
    ((execute_save_args s ch command).pcbs ch).args_len =
      (parse_args (command_view command) command.length MAX_NUM_ARGS
        (skip_spaces (command_view command) command.length (execute_filename command).1) 0
        (s.pcbs ch).args).1 ∧
    ((execute_save_args s ch command).pcbs ch).args_len ≤ 128 := by
  obtain ⟨f1, f2, f3, f4⟩ := copy_filename_len (command_view command) (TERM_BUFFER_SIZE - 1) 0 []
    rfl
  have f3' := f3 (by omega)
  have f4' := f4 (by unfold TERM_BUFFER_SIZE; omega)
  have hstart := command_view_start command
  have hef : execute_filename command =
      copy_filename (command_view command) (TERM_BUFFER_SIZE - 1) 0 [] := rfl
  rw [← hef] at f1 f3' f4'
  have hkey : (parse_args (command_view command) command.length MAX_NUM_ARGS
      (skip_spaces (command_view command) command.length (execute_filename command).1) 0
      (s.pcbs ch).args).1 ≤ 128 ∧
      (∀ i, 128 ≤ i → (parse_args (command_view command) command.length MAX_NUM_ARGS
        (skip_spaces (command_view command) command.length (execute_filename command).1) 0
        (s.pcbs ch).args).2 i = (s.pcbs ch).args i) := by
    generalize hci : skip_spaces (command_view command) command.length
      (execute_filename command).1 = ci
    by_cases hz : command_view command ci = 0
    · have e : parse_args (command_view command) command.length MAX_NUM_ARGS ci 0
          (s.pcbs ch).args = (0, upd (s.pcbs ch).args 0 0) := by
        show parse_args (command_view command) command.length (2 + 1) ci 0 _ = _
        rw [parse_args, if_pos hz]
      rw [e]
      exact ⟨Nat.zero_le _, fun i hi => upd_other _ _ _ _ (by omega)⟩
    · apply parse_args_bound _ _ 3 ci 0 _ (Nat.le_refl _)
      have hci2 : 2 ≤ ci := by
        have hge := skip_spaces_ge (command_view command) command.length
          (execute_filename command).1
        rw [hci] at hge
        by_cases h0 : command_view command 0 = 0
        · exfalso
          have hf0 : execute_filename command = (0, []) := by
            rw [hef]
            show copy_filename (command_view command) (126 + 1) 0 [] = _
            rw [copy_filename, if_neg (by intro h; exact h.2.2 h0)]
          rw [hf0] at hci
          rw [skip_spaces_stay _ _ _ hstart] at hci
          rw [← hci] at hz
          exact hz h0
        · have hf1 : 1 ≤ (execute_filename command).1 := by
            rw [hef]
            show 1 ≤ (copy_filename (command_view command) (126 + 1) 0 []).1
            rw [copy_filename, if_pos ⟨by decide, hstart, h0⟩]
            exact (copy_filename_len (command_view command) 126 (0 + 1)
              ([] ++ [command_view command 0]) (by simp)).2.1
          rcases f4' with h | h | h
          · omega
          · have hlen : command.length ≠ 0 := by
              intro hl
              apply h0
              unfold command_view
              exact chr_end command _ (by omega)
            obtain ⟨g, hg⟩ : ∃ g, command.length = g + 1 := ⟨command.length - 1, by omega⟩
            rw [hg, skip_spaces, if_pos h] at hci
            have := skip_spaces_ge (command_view command) g ((execute_filename command).1 + 1)
            omega
          · exfalso
            rw [skip_spaces_stay _ _ _ (by rw [h]; decide)] at hci
            rw [← hci] at hz
            exact hz h
      omega
  refine ⟨f1, f3', ?_, hkey.1, ?_, ?_⟩
  · intro i hi
    unfold execute_save_args
    simp only [set_pcb_set_pcb, set_pcb_pcbs_same]
    exact hkey.2 i hi
  · unfold execute_save_args
    simp only [set_pcb_set_pcb, set_pcb_pcbs_same]
    exact Nat.mod_eq_of_lt (by have := hkey.1; omega)
  · unfold execute_save_args
    simp only [set_pcb_set_pcb, set_pcb_pcbs_same]
    exact Nat.le_trans (Nat.mod_le _ _) hkey.1

end ECE391
